import Mathlib

/-!
# gobb_analyzer: position encoding, moves and symmetries

A shallow embedding of `definitions.{hpp,cpp}`, `transformer.{hpp,cpp}` and
`position.{hpp,cpp}`.  Scoped enumerations are inductive types whose `toNat`
is the underlying byte; C arrays are functions from their index type; member
functions that mutate `*this` take the object and return the new one.
The two generated quad tables (`piece_quad_index_maps.cpp`,
`location_quad_maps.cpp`) are not among the sources: every function that reads
them takes them as a `QuadTables` argument.
-/

namespace gobb_analyzer

/-! ## definitions.hpp / definitions.cpp -/

/-- Colors of the pieces each player controls (`enum class PlayerColor`). -/
inductive PlayerColor
  | Invalid | Orange | Blue
  deriving DecidableEq, Repr, Fintype

/-- Underlying byte of a `PlayerColor`. -/
def PlayerColor.toNat : PlayerColor → Nat
  | .Invalid => 255
  | .Orange => 0
  | .Blue => 1

/-- Players, by role (`enum class PlayerId`). -/
inductive PlayerId
  | Invalid | None | Active | Inactive
  deriving DecidableEq, Repr, Fintype

/-- Underlying byte of a `PlayerId`. -/
def PlayerId.toNat : PlayerId → Nat
  | .Invalid => 255
  | .None => 0
  | .Active => 1
  | .Inactive => 2

/-- Sizes of pieces (`enum class PieceSize`). -/
inductive PieceSize
  | Invalid | None | Small | Medium | Large
  deriving DecidableEq, Repr, Fintype

/-- Underlying byte of a `PieceSize`. -/
def PieceSize.toNat : PieceSize → Nat
  | .Invalid => 255
  | .None => 0
  | .Small => 1
  | .Medium => 2
  | .Large => 3

/-- Kinds of pieces (`enum class PieceId`). -/
inductive PieceId
  | Invalid | None
  | ActivePlayerSmall | InactivePlayerSmall
  | ActivePlayerMedium | InactivePlayerMedium
  | ActivePlayerLarge | InactivePlayerLarge
  deriving DecidableEq, Repr, Fintype

/-- Underlying byte of a `PieceId`. -/
def PieceId.toNat : PieceId → Nat
  | .Invalid => 255
  | .None => 0
  | .ActivePlayerSmall => 1
  | .InactivePlayerSmall => 2
  | .ActivePlayerMedium => 3
  | .InactivePlayerMedium => 4
  | .ActivePlayerLarge => 5
  | .InactivePlayerLarge => 6

/-- Locations of a piece (`enum class LocationId`); `None` is an alias of `Out`. -/
inductive LocationId
  | Invalid | Out | NW | N | NE | W | Center | E | SW | S | SE
  deriving DecidableEq, Repr, Fintype

/-- Underlying byte of a `LocationId`. -/
def LocationId.toNat : LocationId → Nat
  | .Invalid => 255
  | .Out => 0
  | .NW => 1
  | .N => 2
  | .NE => 3
  | .W => 4
  | .Center => 5
  | .E => 6
  | .SW => 7
  | .S => 8
  | .SE => 9

/-- The enumerator `LocationId::None`, an alias of `Out`. -/
abbrev LocationId.None : LocationId := LocationId.Out

def LocationIdNums : Nat := 10

def PieceIdNums : Nat := 6

/-- The array `PieceSizes`. -/
def PieceSizes : List PieceSize := [.Small, .Medium, .Large]

/-- The array `PieceIds`. -/
def PieceIds : List PieceId :=
  [.ActivePlayerSmall, .InactivePlayerSmall, .ActivePlayerMedium,
   .InactivePlayerMedium, .ActivePlayerLarge, .InactivePlayerLarge]

/-- The array `ActivePlayerPieceIds`. -/
def ActivePlayerPieceIds : List PieceId :=
  [.ActivePlayerSmall, .ActivePlayerMedium, .ActivePlayerLarge]

/-- The array `InactivePlayerPieceIds`. -/
def InactivePlayerPieceIds : List PieceId :=
  [.InactivePlayerSmall, .InactivePlayerMedium, .InactivePlayerLarge]

/-- The array `LocationIds`. -/
def LocationIds : List LocationId :=
  [.Out, .NW, .N, .NE, .W, .Center, .E, .SW, .S, .SE]

/-- The array `OnBoardLocationIds`. -/
def OnBoardLocationIds : List LocationId :=
  [.NW, .N, .NE, .W, .Center, .E, .SW, .S, .SE]

def is_valid_playerColor (color : PlayerColor) : Bool :=
  decide (color.toNat ≤ PlayerColor.Blue.toNat)

def is_valid_pieceId (id : PieceId) : Bool :=
  decide (id.toNat ≤ PieceId.InactivePlayerLarge.toNat)

def is_valid_locationId (id : LocationId) : Bool :=
  decide (id.toNat ≤ LocationId.SE.toNat)

def is_on_board_locationId (id : LocationId) : Bool :=
  decide (LocationId.NW.toNat ≤ id.toNat) && decide (id.toNat ≤ LocationId.SE.toNat)

/-- The function `playerId_of_pieceId`: the table `player_ids`, `Invalid` outside it. -/
def playerId_of_pieceId : PieceId → PlayerId
  | .None => .None
  | .ActivePlayerSmall => .Active
  | .InactivePlayerSmall => .Inactive
  | .ActivePlayerMedium => .Active
  | .InactivePlayerMedium => .Inactive
  | .ActivePlayerLarge => .Active
  | .InactivePlayerLarge => .Inactive
  | .Invalid => .Invalid

/-- The function `pieceSize_of_pieceId`: the table `piece_sizes`, `Invalid` outside it. -/
def pieceSize_of_pieceId : PieceId → PieceSize
  | .None => .None
  | .ActivePlayerSmall => .Small
  | .InactivePlayerSmall => .Small
  | .ActivePlayerMedium => .Medium
  | .InactivePlayerMedium => .Medium
  | .ActivePlayerLarge => .Large
  | .InactivePlayerLarge => .Large
  | .Invalid => .Invalid

/-- The function `invert_playerId_of_pieceId`: the table `piece_ids`, `Invalid` outside it. -/
def invert_playerId_of_pieceId : PieceId → PieceId
  | .None => .None
  | .ActivePlayerSmall => .InactivePlayerSmall
  | .InactivePlayerSmall => .ActivePlayerSmall
  | .ActivePlayerMedium => .InactivePlayerMedium
  | .InactivePlayerMedium => .ActivePlayerMedium
  | .ActivePlayerLarge => .InactivePlayerLarge
  | .InactivePlayerLarge => .ActivePlayerLarge
  | .Invalid => .Invalid

def invert_playerColor (color : PlayerColor) : PlayerColor :=
  if color = .Orange then .Blue
  else if color = .Blue then .Orange
  else color

/-! ## transformer.hpp / transformer.cpp -/

/-- Transformation methods (`enum class TransformerId`).  The enumeration has
eight enumerators; `Invalid` stands for a byte outside them, which
`is_valid_TransformerId` rejects. -/
inductive TransformerId
  | Unchange | Rotate90 | Rotate180 | Rotate270
  | Mirror | MirrorRotate90 | MirrorRotate180 | MirrorRotate270
  | Invalid
  deriving DecidableEq, Repr, Fintype

/-- Underlying byte of a `TransformerId`. -/
def TransformerId.toNat : TransformerId → Nat
  | .Unchange => 0
  | .Rotate90 => 1
  | .Rotate180 => 2
  | .Rotate270 => 3
  | .Mirror => 4
  | .MirrorRotate90 => 5
  | .MirrorRotate180 => 6
  | .MirrorRotate270 => 7
  | .Invalid => 255

/-- The array `TransformerIds`. -/
def TransformerIds : List TransformerId :=
  [.Unchange, .Rotate90, .Rotate180, .Rotate270,
   .Mirror, .MirrorRotate90, .MirrorRotate180, .MirrorRotate270]

/-- The array `InverseTransformerIds` of transformer.cpp, which the header
declares under the name `AntitransformerIds`. -/
def InverseTransformerIds : List TransformerId :=
  [.Unchange, .Rotate270, .Rotate180, .Rotate90,
   .Mirror, .MirrorRotate90, .MirrorRotate180, .MirrorRotate270]

/-- The array `EffectiveTransformerIds`. -/
def EffectiveTransformerIds : List TransformerId :=
  [.Rotate90, .Rotate180, .Rotate270,
   .Mirror, .MirrorRotate90, .MirrorRotate180, .MirrorRotate270]

/-- The array `TransformationVectors`, one row per transformer. -/
def TransformationVectors : List (List LocationId) :=
  [ -- Unchange
    [.Out, .NW, .N, .NE, .W, .Center, .E, .SW, .S, .SE],
    -- Rotate90
    [.Out, .NE, .E, .SE, .N, .Center, .S, .NW, .W, .SW],
    -- Rotate180
    [.Out, .SE, .S, .SW, .E, .Center, .W, .NE, .N, .NW],
    -- Rotate270
    [.Out, .SW, .W, .NW, .S, .Center, .N, .SE, .E, .NE],
    -- Mirror
    [.Out, .NE, .N, .NW, .E, .Center, .W, .SE, .S, .SW],
    -- MirrorRotate90
    [.Out, .SE, .E, .NE, .S, .Center, .N, .SW, .W, .NW],
    -- MirrorRotate180
    [.Out, .SW, .S, .SE, .W, .Center, .E, .NW, .N, .NE],
    -- MirrorRotate270
    [.Out, .NW, .W, .SW, .N, .Center, .S, .NE, .E, .SE] ]

def is_valid_TransformerId (id : TransformerId) : Bool :=
  decide (id.toNat ≤ TransformerId.MirrorRotate270.toNat)

def invert_Transformer (id : TransformerId) : TransformerId :=
  if is_valid_TransformerId id then InverseTransformerIds.getD id.toNat id
  else id

def transform_LocationId (id : TransformerId) (loc : LocationId) : LocationId :=
  if is_valid_TransformerId id && is_valid_locationId loc then
    (TransformationVectors.getD id.toNat []).getD loc.toNat LocationId.Invalid
  else LocationId.Invalid

/-! ## position.hpp / position.cpp -/

/-- The special position id representing an invalid position. -/
def InvalidPositionId : Nat := 0xffffffffffffffff

def PieceQuadCombinationNums : Nat := 1423

def PieceSetCombinationNums : Nat :=
  PieceQuadCombinationNums * PieceQuadCombinationNums * PieceQuadCombinationNums

def PositionIdNums : Nat := PieceSetCombinationNums * 2

def is_valid_positionId (id : Nat) : Bool := decide (id < PositionIdNums)

/-- A pair of locations (`struct LocationIdPair`, `locations[0]` and `locations[1]`). -/
structure LocationIdPair where
  locations0 : LocationId
  locations1 : LocationId
  deriving DecidableEq, Repr

def LocationIdPair.is_valid (p : LocationIdPair) : Bool :=
  is_valid_locationId p.locations0 && is_valid_locationId p.locations1

/-- The member `LocationIdPair::update_either`: the returned flag and the pair afterwards. -/
def LocationIdPair.update_either (p : LocationIdPair) (oldLoc newLoc : LocationId) :
    Bool × LocationIdPair :=
  if p.locations0 = oldLoc then
    if p.locations1.toNat ≤ newLoc.toNat then
      (true, { p with locations0 := newLoc })
    else
      (true, { locations0 := p.locations1, locations1 := newLoc })
  else if p.locations1 = oldLoc then
    if p.locations0.toNat ≥ newLoc.toNat then
      (true, { p with locations1 := newLoc })
    else
      (true, { locations0 := newLoc, locations1 := p.locations0 })
  else
    (false, p)

def LocationIdPair.transform (p : LocationIdPair) (trans : TransformerId) : LocationIdPair :=
  let loc0 := transform_LocationId trans p.locations0
  let loc1 := transform_LocationId trans p.locations1
  if loc0.toNat ≥ loc1.toNat then
    { locations0 := loc0, locations1 := loc1 }
  else
    { locations0 := loc1, locations1 := loc0 }

/-- Locations of the four pieces of one size (`Position::LocationIdQuad`). -/
structure LocationIdQuad where
  locations0 : LocationId
  locations1 : LocationId
  locations2 : LocationId
  locations3 : LocationId
  deriving DecidableEq, Repr

def LocationIdQuad.index (q : LocationIdQuad) : Nat :=
  q.locations0.toNat +
  q.locations1.toNat * LocationIdNums +
  q.locations2.toNat * (LocationIdNums * LocationIdNums) +
  q.locations3.toNat * (LocationIdNums * LocationIdNums * LocationIdNums)

/-- The two generated tables read by `Position`: `pieceQuadIndexMaps_`
(1423 entries) and `locationQuadMaps_` (10000 entries), as functions of the
array index. -/
structure QuadTables where
  pieceQuadIndexMaps_ : Nat → LocationIdQuad
  locationQuadMaps_ : Nat → Nat

/-- A result code of moving a piece (`enum class MoveResultStatus`). -/
inductive MoveResultStatus
  | Invalid | Success | Lost
  deriving DecidableEq, Repr, Fintype

/-- The data members of `class Position`. -/
structure Position where
  id_ : Nat
  activePlayerColor_ : PlayerColor
  piecePairs_ : PieceId → LocationIdPair
  largestPieces_ : LocationId → PieceId

/-- The result of `Position::move` and `Position::move_back` (`struct MoveResult`). -/
structure MoveResult where
  status : MoveResultStatus
  position : Position

namespace Position

/-- The default constructor initializes nothing; this value stands for the
indeterminate contents of such an object. -/
def uninitialized : Position :=
  { id_ := InvalidPositionId
    activePlayerColor_ := PlayerColor.Invalid
    piecePairs_ := fun _ => { locations0 := .Invalid, locations1 := .Invalid }
    largestPieces_ := fun _ => PieceId.Invalid }

/-- Assignment `piecePairs_[piece] = pair`. -/
def setPair (self : Position) (piece : PieceId) (pair : LocationIdPair) : Position :=
  { self with piecePairs_ := fun k => if k = piece then pair else self.piecePairs_ k }

/-- Assignment `largestPieces_[loc] = piece`. -/
def setLargest (self : Position) (loc : LocationId) (piece : PieceId) : Position :=
  { self with largestPieces_ := fun l => if l = loc then piece else self.largestPieces_ l }

def id (self : Position) : Nat := self.id_

def active_player_color (self : Position) : PlayerColor := self.activePlayerColor_

def is_valid (self : Position) : Bool := is_valid_positionId self.id_

def locations_of_piece (self : Position) (piece : PieceId) : LocationIdPair :=
  if is_valid_pieceId piece then self.piecePairs_ piece
  else { locations0 := .Invalid, locations1 := .Invalid }

def largetst_piece_at_location (self : Position) (loc : LocationId) : PieceId :=
  if is_on_board_locationId loc then self.largestPieces_ loc
  else PieceId.Invalid

/-- The body of the second loop of `Position::update_largestPieces`. -/
def placeLargest (pos : Position) (piece : PieceId) : Position :=
  let loc0 := (pos.piecePairs_ piece).locations0
  let pos1 := if loc0 ≠ LocationId.None then pos.setLargest loc0 piece else pos
  let loc1 := (pos1.piecePairs_ piece).locations1
  if loc1 ≠ LocationId.None then pos1.setLargest loc1 piece else pos1

/-- The member `Position::update_largestPieces`. -/
def update_largestPieces (self : Position) : Position :=
  let cleared := OnBoardLocationIds.foldl (fun pos loc => pos.setLargest loc PieceId.None) self
  PieceIds.foldl placeLargest cleared

/-- The quad of one size, as built in `Position::update_id`. -/
def quadOf (self : Position) (active inactive : PieceId) : LocationIdQuad :=
  { locations0 := (self.piecePairs_ active).locations0
    locations1 := (self.piecePairs_ active).locations1
    locations2 := (self.piecePairs_ inactive).locations0
    locations3 := (self.piecePairs_ inactive).locations1 }

/-- The member `Position::update_id`, in 64-bit unsigned arithmetic. -/
def update_id (T : QuadTables) (self : Position) : Position :=
  let smallId := T.locationQuadMaps_
    (self.quadOf .ActivePlayerSmall .InactivePlayerSmall).index
  let mediumId := T.locationQuadMaps_
    (self.quadOf .ActivePlayerMedium .InactivePlayerMedium).index
  let largeId := T.locationQuadMaps_
    (self.quadOf .ActivePlayerLarge .InactivePlayerLarge).index
  if self.activePlayerColor_ = PlayerColor.Orange then
    { self with id_ :=
        (smallId + mediumId * PieceQuadCombinationNums +
          largeId * PieceQuadCombinationNums * PieceQuadCombinationNums) % 2 ^ 64 }
  else
    { self with id_ :=
        (smallId + mediumId * PieceQuadCombinationNums +
          largeId * PieceQuadCombinationNums * PieceQuadCombinationNums +
          PieceSetCombinationNums) % 2 ^ 64 }

/-- The body of the first loop of `Position::invert_player`. -/
def swapPairs (pos : Position) (activePiece : PieceId) : Position :=
  let inactivePiece := invert_playerId_of_pieceId activePiece
  let tmpPair := pos.piecePairs_ activePiece
  (pos.setPair activePiece (pos.piecePairs_ inactivePiece)).setPair inactivePiece tmpPair

/-- The member `Position::invert_player`. -/
def invert_player (self : Position) : Position :=
  let pos0 := { self with activePlayerColor_ := invert_playerColor self.activePlayerColor_ }
  let pos1 := ActivePlayerPieceIds.foldl swapPairs pos0
  OnBoardLocationIds.foldl
    (fun pos loc => pos.setLargest loc (invert_playerId_of_pieceId (pos.largestPieces_ loc)))
    pos1

/-- The member `Position::operator=(PositionId)`. -/
def assign (T : QuadTables) (self : Position) (id : Nat) : Position :=
  if ¬ is_valid_positionId id then
    { self with id_ := InvalidPositionId }
  else
    let color := if id < PieceSetCombinationNums then PlayerColor.Orange else PlayerColor.Blue
    let val := if id < PieceSetCombinationNums then id else id - PieceSetCombinationNums
    let smallPositionId := val % PieceQuadCombinationNums
    let val := val / PieceQuadCombinationNums
    let mediumPositionId := val % PieceQuadCombinationNums
    let val := val / PieceQuadCombinationNums
    let largePositionId := val
    let smallQuad := T.pieceQuadIndexMaps_ smallPositionId
    let mediumQuad := T.pieceQuadIndexMaps_ mediumPositionId
    let largeQuad := T.pieceQuadIndexMaps_ largePositionId
    let pos : Position := { self with activePlayerColor_ := color }
    let pos := pos.setPair .ActivePlayerSmall
      { locations0 := smallQuad.locations0, locations1 := smallQuad.locations1 }
    let pos := pos.setPair .InactivePlayerSmall
      { locations0 := smallQuad.locations2, locations1 := smallQuad.locations3 }
    let pos := pos.setPair .ActivePlayerMedium
      { locations0 := mediumQuad.locations0, locations1 := mediumQuad.locations1 }
    let pos := pos.setPair .InactivePlayerMedium
      { locations0 := mediumQuad.locations2, locations1 := mediumQuad.locations3 }
    let pos := pos.setPair .ActivePlayerLarge
      { locations0 := largeQuad.locations0, locations1 := largeQuad.locations1 }
    let pos := pos.setPair .InactivePlayerLarge
      { locations0 := largeQuad.locations2, locations1 := largeQuad.locations3 }
    let pos := pos.setPair .None { locations0 := .Out, locations1 := .Out }
    let pos : Position := { pos with id_ := id }
    pos.update_largestPieces

/-- The constructor `Position(PositionId id)`. -/
def ofId (T : QuadTables) (id : Nat) : Position :=
  assign T uninitialized id

/-- The table `lines` of `Position::is_winner`. -/
def lines : List (LocationId × LocationId × LocationId) :=
  [ (.NW, .N, .NE),
    (.W, .Center, .E),
    (.SW, .S, .SE),
    (.NW, .W, .SW),
    (.N, .Center, .S),
    (.NE, .E, .SE),
    (.NW, .Center, .SE),
    (.NE, .Center, .SW) ]

/-- The member `Position::is_winner`. -/
def is_winner (self : Position) (player : PlayerId) : Bool :=
  if ¬ is_valid_positionId self.id_ then false
  else
    lines.any (fun line =>
      decide (playerId_of_pieceId (self.largestPieces_ line.1) = player) &&
      decide (playerId_of_pieceId (self.largestPieces_ line.2.1) = player) &&
      decide (playerId_of_pieceId (self.largestPieces_ line.2.2) = player))

/-- The statement `piecePairs_[piece].update_either(oldLoc, newLoc)`. -/
def updatePiece (self : Position) (piece : PieceId) (oldLoc newLoc : LocationId) : Position :=
  self.setPair piece ((self.piecePairs_ piece).update_either oldLoc newLoc).2

/-- The common tail of `move` and `move_back`: put `piece` on `dst`, invert
the players and recompute the id. -/
def putAndFinish (T : QuadTables) (pos : Position) (piece : PieceId) (dst : LocationId) :
    MoveResult :=
  let pos := pos.updatePiece piece LocationId.Out dst
  let pos := pos.update_largestPieces
  let pos := pos.invert_player
  let pos := pos.update_id T
  { status := MoveResultStatus.Success, position := pos }

/-- The member `Position::move`. -/
def move (T : QuadTables) (self : Position) (piece : PieceId) (src dst : LocationId) :
    MoveResult :=
  let result : MoveResult := { status := MoveResultStatus.Invalid, position := uninitialized }
  if ¬ is_valid_positionId self.id_ then result
  else if playerId_of_pieceId piece ≠ PlayerId.Active then result
  else if (self.piecePairs_ piece).locations0 ≠ src ∧
      (self.piecePairs_ piece).locations1 ≠ src then result
  else if ¬ is_valid_locationId src then result
  else if ¬ is_on_board_locationId dst then result
  else if src ≠ LocationId.Out ∧ self.largestPieces_ src ≠ piece then result
  else if (pieceSize_of_pieceId (self.largestPieces_ dst)).toNat ≥
      (pieceSize_of_pieceId piece).toNat then result
  else if src = dst then result
  else if src ≠ LocationId.Out then
    let pos := (self.updatePiece piece src LocationId.Out).update_largestPieces
    if pos.is_winner PlayerId.Inactive then
      { status := MoveResultStatus.Lost, position := pos }
    else putAndFinish T pos piece dst
  else putAndFinish T self piece dst

/-- The member `Position::move_back`. -/
def move_back (T : QuadTables) (self : Position) (piece : PieceId) (src dst : LocationId) :
    MoveResult :=
  let result : MoveResult := { status := MoveResultStatus.Invalid, position := uninitialized }
  if ¬ is_valid_positionId self.id_ then result
  else if playerId_of_pieceId piece ≠ PlayerId.Inactive then result
  else if (self.piecePairs_ piece).locations0 ≠ src ∧
      (self.piecePairs_ piece).locations1 ≠ src then result
  else if ¬ is_on_board_locationId src then result
  else if ¬ is_valid_locationId dst then result
  else if self.largestPieces_ src ≠ piece then result
  else if dst ≠ LocationId.Out ∧
      (pieceSize_of_pieceId (self.largestPieces_ dst)).toNat ≥
        (pieceSize_of_pieceId piece).toNat then result
  else if src = dst then result
  else
    let pos := (self.updatePiece piece src LocationId.Out).update_largestPieces
    if pos.is_winner PlayerId.Active then
      { status := MoveResultStatus.Lost, position := pos }
    else putAndFinish T pos piece dst

/-- The member `Position::transform`. -/
def transform (T : QuadTables) (self : Position) (trans : TransformerId) : Position :=
  if ¬ is_valid_positionId self.id_ then self
  else if ¬ is_valid_TransformerId trans then ofId T InvalidPositionId
  else
    let pos := PieceIds.foldl
      (fun pos piece => pos.setPair piece ((self.piecePairs_ piece).transform trans))
      self
    let pos := pos.update_largestPieces
    pos.update_id T

/-- The member `Position::minimize_id`. -/
def minimize_id (T : QuadTables) (self : Position) : Nat :=
  let minId := EffectiveTransformerIds.foldl
    (fun minId trans =>
      let transPos := self.transform T trans
      if transPos.id_ < minId then transPos.id_ else minId)
    self.id_
  if minId ≥ PieceSetCombinationNums then minId - PieceSetCombinationNums else minId

end Position

/-! ## The generated quad tables -/

/-- Modelled from the spec: a legal same-size placement, four valid locations, each pair in
non-ascending order, no board cell used twice (`Out` may repeat). -/
def LocationIdQuad.legal (q : LocationIdQuad) : Bool :=
  is_valid_locationId q.locations0 && is_valid_locationId q.locations1 &&
  is_valid_locationId q.locations2 && is_valid_locationId q.locations3 &&
  decide (q.locations0.toNat ≥ q.locations1.toNat) &&
  decide (q.locations2.toNat ≥ q.locations3.toNat) &&
  (q.locations0 == .Out || (q.locations0 != q.locations1 && q.locations0 != q.locations2 &&
    q.locations0 != q.locations3)) &&
  (q.locations1 == .Out || (q.locations1 != q.locations2 && q.locations1 != q.locations3)) &&
  (q.locations2 == .Out || q.locations2 != q.locations3)

/-- What the generated tables are: `pieceQuadIndexMaps_` enumerates the legal
placements, every legal placement occurs in it, and `locationQuadMaps_` sends
the tuple index of each enumerated placement back to its number. -/
structure QuadTables.Valid (T : QuadTables) : Prop where
  quad_legal : ∀ i, i < PieceQuadCombinationNums → (T.pieceQuadIndexMaps_ i).legal = true
  map_quad : ∀ i, i < PieceQuadCombinationNums →
    T.locationQuadMaps_ (T.pieceQuadIndexMaps_ i).index = i
  quad_complete : ∀ q : LocationIdQuad, q.legal = true →
    ∃ i, i < PieceQuadCombinationNums ∧ T.pieceQuadIndexMaps_ i = q

/-- All 10^4 location tuples, by ascending tuple index. -/
def allQuads : List LocationIdQuad :=
  (LocationIds ×ˢ LocationIds ×ˢ LocationIds ×ˢ LocationIds).map
    (fun t =>
      { locations0 := t.2.2.2, locations1 := t.2.2.1, locations2 := t.2.1, locations3 := t.1 })

/-- Modelled from the spec: the enumeration of the legal placements (the
generated table of them is not among the sources), by ascending tuple index. -/
def legalQuads : List LocationIdQuad := allQuads.filter LocationIdQuad.legal

/-- Modelled from the spec: the two build-time tables (`piece_quad_index_maps.cpp`
and `location_quad_maps.cpp`, written by a generator script that is not among
the sources).  The enumeration lists the legal placements by ascending tuple
index; the inverse table holds `InvalidPositionId` at every other index. -/
def stdTables : QuadTables where
  pieceQuadIndexMaps_ := fun i =>
    legalQuads.getD i
      { locations0 := .Invalid, locations1 := .Invalid,
        locations2 := .Invalid, locations3 := .Invalid }
  locationQuadMaps_ := fun j =>
    let i := (legalQuads.map LocationIdQuad.index).indexOf j
    if i < PieceQuadCombinationNums then i else InvalidPositionId

/-! ## Notions of the specification -/

/-- The pair holding `a` and `b` in non-ascending order. -/
def nonAscending (a b : LocationId) : LocationIdPair :=
  if a.toNat ≥ b.toNat then { locations0 := a, locations1 := b }
  else { locations0 := b, locations1 := a }

/-- The pair with one occurrence of `src` replaced by `dst`, in non-ascending
order (the pair itself when `src` does not occur). -/
def LocationIdPair.replaceOne (p : LocationIdPair) (src dst : LocationId) : LocationIdPair :=
  if p.locations0 = src then nonAscending dst p.locations1
  else if p.locations1 = src then nonAscending p.locations0 dst
  else p

/-- A piece of this kind is located at `loc`. -/
def LocationIdPair.occupies (p : LocationIdPair) (loc : LocationId) : Bool :=
  p.locations0 == loc || p.locations1 == loc

/-- The topmost piece at a cell: the kind of greatest size among the pieces
located there, `PieceId.None` when there is none. -/
def topmostPiece (pairs : PieceId → LocationIdPair) (loc : LocationId) : PieceId :=
  PieceIds.foldl
    (fun best k =>
      if (pairs k).occupies loc &&
          decide ((pieceSize_of_pieceId best).toNat < (pieceSize_of_pieceId k).toNat)
      then k else best)
    PieceId.None

/-- Some board line has, in each of its three cells, a topmost piece owned by `player`. -/
def hasLine (pairs : PieceId → LocationIdPair) (player : PlayerId) : Prop :=
  ∃ line ∈ Position.lines,
    playerId_of_pieceId (topmostPiece pairs line.1) = player ∧
    playerId_of_pieceId (topmostPiece pairs line.2.1) = player ∧
    playerId_of_pieceId (topmostPiece pairs line.2.2) = player

/-- The piece pairs after one piece of kind `piece` went from `src` to `dst`. -/
def pairsAfter (pairs : PieceId → LocationIdPair) (piece : PieceId) (src dst : LocationId) :
    PieceId → LocationIdPair :=
  fun k => if k = piece then (pairs piece).replaceOne src dst else pairs k

/-- The kind written last at `loc` by the second loop of
`Position::update_largestPieces` (which visits the kinds in the order of
`PieceIds`), `PieceId.None` when no kind is located there. -/
def lastPlaced (pairs : PieceId → LocationIdPair) (loc : LocationId) : PieceId :=
  if (pairs .InactivePlayerLarge).occupies loc then .InactivePlayerLarge
  else if (pairs .ActivePlayerLarge).occupies loc then .ActivePlayerLarge
  else if (pairs .InactivePlayerMedium).occupies loc then .InactivePlayerMedium
  else if (pairs .ActivePlayerMedium).occupies loc then .ActivePlayerMedium
  else if (pairs .InactivePlayerSmall).occupies loc then .InactivePlayerSmall
  else if (pairs .ActivePlayerSmall).occupies loc then .ActivePlayerSmall
  else .None

/-- The three quads of a set of piece pairs are legal. -/
def legalPairs (pairs : PieceId → LocationIdPair) : Prop :=
  ∀ s ∈ [(PieceId.ActivePlayerSmall, PieceId.InactivePlayerSmall),
         (PieceId.ActivePlayerMedium, PieceId.InactivePlayerMedium),
         (PieceId.ActivePlayerLarge, PieceId.InactivePlayerLarge)],
    (({ locations0 := (pairs s.1).locations0, locations1 := (pairs s.1).locations1,
        locations2 := (pairs s.2).locations0, locations3 := (pairs s.2).locations1 } :
      LocationIdQuad)).legal = true

/-- The eight preconditions of a forward move. -/
def Position.movePreconditions (p : Position) (piece : PieceId) (src dst : LocationId) : Prop :=
  p.is_valid = true ∧
  playerId_of_pieceId piece = PlayerId.Active ∧
  (p.locations_of_piece piece).occupies src = true ∧
  (src = LocationId.Out ∨ is_on_board_locationId src = true) ∧
  is_on_board_locationId dst = true ∧
  (is_on_board_locationId src = true → p.largetst_piece_at_location src = piece) ∧
  (pieceSize_of_pieceId (p.largetst_piece_at_location dst)).toNat <
    (pieceSize_of_pieceId piece).toNat ∧
  src ≠ dst

/-- The eight preconditions of a retrograde move. -/
def Position.moveBackPreconditions (p : Position) (piece : PieceId) (src dst : LocationId) :
    Prop :=
  p.is_valid = true ∧
  playerId_of_pieceId piece = PlayerId.Inactive ∧
  (p.locations_of_piece piece).occupies src = true ∧
  is_on_board_locationId src = true ∧
  (dst = LocationId.Out ∨ is_on_board_locationId dst = true) ∧
  p.largetst_piece_at_location src = piece ∧
  (is_on_board_locationId dst = true →
    (pieceSize_of_pieceId (p.largetst_piece_at_location dst)).toNat <
      (pieceSize_of_pieceId piece).toNat) ∧
  src ≠ dst

/-- The position id of the specification: the three quad indices as digits
in base 1423, plus `1423^3` when the active color is Blue. -/
def encodeId (T : QuadTables) (color : PlayerColor) (pairs : PieceId → LocationIdPair) : Nat :=
  let q := fun (a i : PieceId) => T.locationQuadMaps_
    ({ locations0 := (pairs a).locations0, locations1 := (pairs a).locations1,
       locations2 := (pairs i).locations0, locations3 := (pairs i).locations1 } :
      LocationIdQuad).index
  q .ActivePlayerSmall .InactivePlayerSmall +
    1423 * q .ActivePlayerMedium .InactivePlayerMedium +
    1423 ^ 2 * q .ActivePlayerLarge .InactivePlayerLarge +
    (if color = PlayerColor.Blue then 1423 ^ 3 else 0)

/-- The id that `Position::update_id` computes from a color and piece pairs. -/
def Position.computedId (T : QuadTables) (color : PlayerColor)
    (pairs : PieceId → LocationIdPair) : Nat :=
  (Position.update_id T
    { id_ := 0, activePlayerColor_ := color, piecePairs_ := pairs,
      largestPieces_ := fun _ => PieceId.None }).id_

/-- The state of a valid `Position` object: a valid id and color, three legal
quads, and derived members (`id_`, `largestPieces_` on the board) that are up
to date, i.e. recomputing them changes nothing.  Both constructors establish
this and `transform`, `move`, `move_back` keep it. -/
structure Position.Wellformed (T : QuadTables) (p : Position) : Prop where
  valid : is_valid_positionId p.id_ = true
  color : is_valid_playerColor p.activePlayerColor_ = true
  small : (p.quadOf .ActivePlayerSmall .InactivePlayerSmall).legal = true
  medium : (p.quadOf .ActivePlayerMedium .InactivePlayerMedium).legal = true
  large : (p.quadOf .ActivePlayerLarge .InactivePlayerLarge).legal = true
  id_eq : (p.update_id T).id_ = p.id_
  largest_eq : ∀ loc, is_on_board_locationId loc = true →
    (p.update_largestPieces).largestPieces_ loc = p.largestPieces_ loc

/-! ## The explicit constructor of `Position` -/

/-- The cast `static_cast<PieceId>(n)` on the bytes that name a kind. -/
def PieceId.ofUint : Nat → PieceId
  | 0 => .None
  | 1 => .ActivePlayerSmall
  | 2 => .InactivePlayerSmall
  | 3 => .ActivePlayerMedium
  | 4 => .InactivePlayerMedium
  | 5 => .ActivePlayerLarge
  | 6 => .InactivePlayerLarge
  | _ => .Invalid

namespace Position

/-- The element `initPairs[i]` of the initializer list. -/
def initPair (init : List LocationIdPair) (i : Nat) : LocationIdPair :=
  init.getD i { locations0 := .Invalid, locations1 := .Invalid }

/-- The quad built from `initPairs[i]` and `initPairs[i + 1]` in the second
loop of the explicit constructor. -/
def initQuad (init : List LocationIdPair) (i : Nat) : LocationIdQuad :=
  { locations0 := (initPair init i).locations0
    locations1 := (initPair init i).locations1
    locations2 := (initPair init (i + 1)).locations0
    locations3 := (initPair init (i + 1)).locations1 }

/-- The constructor `Position(PlayerColor, std::initializer_list<LocationIdPair>)`.
Its first loop runs over `PieceSizes` and reads `initPairs[size]`, its second
over `i = 0, 2, 4`; each `return` inside a loop is the first hit of `any`. -/
def ofInit (T : QuadTables) (activePlayerColor : PlayerColor) (init : List LocationIdPair) :
    Position :=
  if ¬ is_valid_playerColor activePlayerColor then
    { uninitialized with id_ := InvalidPositionId }
  else
    let pos : Position := { uninitialized with activePlayerColor_ := activePlayerColor }
    if init.length ≠ PieceIdNums then
      { pos with id_ := InvalidPositionId }
    else if PieceSizes.any (fun size => ! (initPair init size.toNat).is_valid) then
      { pos with id_ := InvalidPositionId }
    else if ((List.range PieceIdNums).filter (fun i => i % 2 = 0)).any
        (fun i => decide (T.locationQuadMaps_ (initQuad init i).index = InvalidPositionId)) then
      { pos with id_ := InvalidPositionId }
    else
      let pos := pos.setPair .None { locations0 := .Out, locations1 := .Out }
      let pos := (List.range PieceIdNums).foldl
        (fun pos i => pos.setPair (PieceId.ofUint (i + 1)) (initPair init i)) pos
      (pos.update_largestPieces).update_id T

end Position

/-! ## analyzer.cpp -/

/-- Status of a cell of the analysis table (`enum class AnalysisStatus`, in the
order of the names in `analysisStatus_to_string`, then the enumerator
`Invalid` that inspector.cpp names). -/
inductive AnalysisStatus
  | Unfixed | Lost | LostStalemate | Won | WonStalemate | Transformed | Contradictory
  | Invalid
  deriving DecidableEq, Repr

/-- Modelled from the spec: the record `AnalysisData` of analyzer.hpp, which is
not among the sources; a cell holds an update flag, a number of remaining
turns and a status. -/
structure AnalysisData where
  updateFlag : Bool
  turn : Nat
  status : AnalysisStatus
  deriving DecidableEq, Repr

/-- Modelled from the spec: the constructor `to_analysisData(flag, turn, status)`
of analyzer.hpp. -/
def to_analysisData (updateFlag : Bool) (turn : Nat) (status : AnalysisStatus) : AnalysisData :=
  { updateFlag := updateFlag, turn := turn, status := status }

/-- Modelled from the spec: the accessor `status_of_analysisData` of analyzer.hpp. -/
def status_of_analysisData (data : AnalysisData) : AnalysisStatus := data.status

/-- Modelled from the spec: the constant `AnalysisDataTableSize` of analyzer.hpp,
the number of cells of the analysis table, `1423^3`. -/
def AnalysisDataTableSize : Nat := PieceSetCombinationNums

/-- The counters of `struct AnalysisStatistics`. -/
structure AnalysisStatistics where
  lostNums : Nat
  lostStalemateNums : Nat
  wonNums : Nat
  transformedNums : Nat
  contradictoryNums : Nat
  unfixedNums : Nat
  deriving DecidableEq, Repr

/-- The data members of `class Analyzer` that `initialize` reads and writes. -/
structure Analyzer where
  analysisDataTable_ : Nat → AnalysisData
  statistics_ : AnalysisStatistics

/-- A counting loop `for (i = 0; i < n; i++)` over a state. -/
def forUpTo {σ : Type} (body : σ → Nat → σ) : Nat → σ → σ
  | 0, s => s
  | n + 1, s => body (forUpTo body n s) n

namespace Analyzer

/-- Assignment `analysisDataTable_[i] = data`. -/
def setCell (self : Analyzer) (i : Nat) (data : AnalysisData) : Analyzer :=
  { self with analysisDataTable_ := fun j => if j = i then data else self.analysisDataTable_ j }

/-- The member `Analyzer::on_board_piece_nums`. -/
def on_board_piece_nums (pos : Position) (player : PlayerId) : Nat :=
  let count := fun (pieces : List PieceId) =>
    pieces.foldl
      (fun nums piece =>
        let locPair := pos.locations_of_piece piece
        let nums := if locPair.locations0 ≠ LocationId.Out then nums + 1 else nums
        if locPair.locations1 ≠ LocationId.Out then nums + 1 else nums)
      0
  if player = PlayerId.Active then count ActivePlayerPieceIds
  else if player = PlayerId.Inactive then count InactivePlayerPieceIds
  else 0

/-- The member `Analyzer::move_nums`. -/
def move_nums (T : QuadTables) (pos : Position) : Nat :=
  ActivePlayerPieceIds.foldl
    (fun nums piece =>
      let locPair := pos.locations_of_piece piece
      [locPair.locations0, locPair.locations1].foldl
        (fun nums src =>
          OnBoardLocationIds.foldl
            (fun nums dst =>
              if (pos.move T piece src dst).status = MoveResultStatus.Success then nums + 1
              else nums)
            nums)
        nums)
    0

/-- The loop of `Analyzer::initialize` over `EffectiveTransformerIds`, for the
position `pos` of id `i`. -/
def markTransformed (T : QuadTables) (self : Analyzer) (i : Nat) (pos : Position) : Analyzer :=
  EffectiveTransformerIds.foldl
    (fun a trans =>
      let transPos := pos.transform T trans
      let transPosId := transPos.id
      if transPosId > i ∧ transPosId < AnalysisDataTableSize then
        a.setCell transPosId (to_analysisData false 0 AnalysisStatus.Transformed)
      else a)
    self

/-- The body of the second loop of `Analyzer::initialize`; the flag is the
local variable `updated`. -/
def initialize_body (T : QuadTables) (s : Analyzer × Bool) (i : Nat) : Analyzer × Bool :=
  let a := s.1
  if status_of_analysisData (a.analysisDataTable_ i) = AnalysisStatus.Transformed then
    ({ a with statistics_ :=
        { a.statistics_ with transformedNums := a.statistics_.transformedNums + 1 } }, s.2)
  else
    let pos := Position.ofId T i
    let a := markTransformed T a i pos
    if pos.is_winner PlayerId.Active then
      let a := a.setCell i (to_analysisData false 0 AnalysisStatus.Contradictory)
      ({ a with statistics_ :=
          { a.statistics_ with contradictoryNums := a.statistics_.contradictoryNums + 1 } }, s.2)
    else
      let activePieceNums := on_board_piece_nums pos PlayerId.Active
      let inactivePieceNums := on_board_piece_nums pos PlayerId.Inactive
      if activePieceNums = 0 ∧ inactivePieceNums ≥ 2 then
        let a := a.setCell i (to_analysisData false 0 AnalysisStatus.Contradictory)
        ({ a with statistics_ :=
            { a.statistics_ with contradictoryNums := a.statistics_.contradictoryNums + 1 } },
          s.2)
      else if inactivePieceNums = 0 ∧ activePieceNums ≥ 1 then
        let a := a.setCell i (to_analysisData false 0 AnalysisStatus.Contradictory)
        ({ a with statistics_ :=
            { a.statistics_ with contradictoryNums := a.statistics_.contradictoryNums + 1 } },
          s.2)
      else if pos.is_winner PlayerId.Inactive then
        let a := a.setCell i (to_analysisData true 0 AnalysisStatus.Lost)
        ({ a with statistics_ :=
            { a.statistics_ with lostNums := a.statistics_.lostNums + 1 } }, true)
      else if move_nums T pos = 0 then
        let a := a.setCell i (to_analysisData true 1 AnalysisStatus.LostStalemate)
        ({ a with statistics_ :=
            { a.statistics_ with lostStalemateNums := a.statistics_.lostStalemateNums + 1 } },
          true)
      else
        ({ a with statistics_ :=
            { a.statistics_ with unfixedNums := a.statistics_.unfixedNums + 1 } }, s.2)

/-- The member `Analyzer::initialize` (a reserved word in Lean, hence the
underscore): the returned flag and the analyzer
afterwards.  `MaxTurn` is a constant of analyzer.hpp, taken as a parameter. -/
def initialize_ (T : QuadTables) (MaxTurn : Nat) (self : Analyzer) : Bool × Analyzer :=
  let initialData := to_analysisData false MaxTurn AnalysisStatus.Unfixed
  let a := forUpTo (fun a i => a.setCell i initialData) AnalysisDataTableSize self
  let s := forUpTo (initialize_body T) AnalysisDataTableSize (a, false)
  (s.2, s.1)

end Analyzer

/-- The id of the position of id `c` after the transformation `t`. -/
def transformedId (T : QuadTables) (t : TransformerId) (c : Nat) : Nat :=
  ((Position.ofId T c).transform T t).id

/-- Modelled from the spec: the accessor `turn_of_analysisData` of analyzer.hpp. -/
def turn_of_analysisData (data : AnalysisData) : Nat := data.turn

/-- Modelled from the spec: the accessor `updateFlag_of_analysisData` of analyzer.hpp. -/
def updateFlag_of_analysisData (data : AnalysisData) : Bool := data.updateFlag

/-- Modelled from the spec: `set_turn_of_analysisData` of analyzer.hpp, the cell
with its turn replaced. -/
def set_turn_of_analysisData (data : AnalysisData) (turn : Nat) : AnalysisData :=
  { data with turn := turn }

/-- Modelled from the spec: `set_updateFlag_of_analysisData` of analyzer.hpp,
the cell with its update flag replaced. -/
def set_updateFlag_of_analysisData (data : AnalysisData) (updateFlag : Bool) : AnalysisData :=
  { data with updateFlag := updateFlag }

/-- Modelled from the spec: the constant `InvalidGeneration` of analyzer.hpp,
`2^64 - 1`. -/
def InvalidGeneration : Nat := 0xffffffffffffffff

/-- The modes of storing analysis data (`enum class AnalysisDataIOMode`, declared in
analyzer.hpp; the enumerators are those that the sources name). -/
inductive AnalysisDataIOMode
  | StoreNoGeneration | StoreFinalGeneration | StoreEveryGenerations
  deriving DecidableEq, Repr

namespace AnalysisStatistics

/-- The constructor `AnalysisStatistics::AnalysisStatistics()`. -/
def new : AnalysisStatistics :=
  { lostNums := 0, lostStalemateNums := 0, wonNums := 0, transformedNums := 0,
    contradictoryNums := 0, unfixedNums := 0 }

/-- The member `AnalysisStatistics::add`.  The counters are unsigned
integers (the constructor gives them `0u`); their type is declared in
analyzer.hpp, which is not among the sources, and is taken as 64 bits wide.
The sum of the five counters of `other`, the subtraction `-=` and the five
additions `+=` all wrap around modulo `2^64`. -/
def add (self other : AnalysisStatistics) : AnalysisStatistics :=
  { unfixedNums := (self.unfixedNums + 2 ^ 64 -
      (other.lostNums + other.lostStalemateNums + other.wonNums + other.transformedNums +
        other.contradictoryNums) % 2 ^ 64) % 2 ^ 64
    lostNums := (self.lostNums + other.lostNums) % 2 ^ 64
    lostStalemateNums := (self.lostStalemateNums + other.lostStalemateNums) % 2 ^ 64
    wonNums := (self.wonNums + other.wonNums) % 2 ^ 64
    transformedNums := (self.transformedNums + other.transformedNums) % 2 ^ 64
    contradictoryNums := (self.contradictoryNums + other.contradictoryNums) % 2 ^ 64 }

end AnalysisStatistics

/-- The sources `locPair.locations[i]` that a loop `for (i = 0; i < 2; i++)`
visits when its body ends with `if (locations[0] == locations[1]) break`. -/
def sourcesOf (locPair : LocationIdPair) : List LocationId :=
  if locPair.locations0 = locPair.locations1 then [locPair.locations0]
  else [locPair.locations0, locPair.locations1]

/-- The triples `(piece, src, dst)` in the order in which the three nested
loops of `analyze_move_backs_from_active_player_lost` and
`analyze_move_backs_from_active_player_won` visit them. -/
def moveBackCandidates (pos : Position) : List (PieceId × LocationId × LocationId) :=
  InactivePlayerPieceIds.flatMap fun piece =>
    (sourcesOf (pos.locations_of_piece piece)).flatMap fun src =>
      LocationIds.map fun dst => (piece, src, dst)

/-- The triples `(piece, src, dst)` in the order in which the three nested
loops of `analyze_unfixed` visit them. -/
def moveCandidates (pos : Position) : List (PieceId × LocationId × LocationId) :=
  ActivePlayerPieceIds.flatMap fun piece =>
    (sourcesOf (pos.locations_of_piece piece)).flatMap fun src =>
      OnBoardLocationIds.map fun dst => (piece, src, dst)

namespace Analyzer

/-- The innermost loop body of `analyze_move_backs_from_active_player_lost`
after its `continue`, for the cell `index`; the state is the local variable
`updated`, the analyzer and the statistics `stats`. -/
def lostReach (nextTurn : Nat) (s : Bool × Analyzer × AnalysisStatistics) (index : Nat) :
    Bool × Analyzer × AnalysisStatistics :=
  let dstData := s.2.1.analysisDataTable_ index
  if status_of_analysisData dstData = AnalysisStatus.Unfixed then
    (true, s.2.1.setCell index (to_analysisData true nextTurn AnalysisStatus.Won),
      { s.2.2 with wonNums := s.2.2.wonNums + 1 })
  else if status_of_analysisData dstData = AnalysisStatus.Won ∧
      turn_of_analysisData dstData > nextTurn then
    (s.1, s.2.1.setCell index (set_turn_of_analysisData dstData nextTurn), s.2.2)
  else s

/-- The member `Analyzer::analyze_move_backs_from_active_player_lost`: the
returned flag, the analyzer and the statistics `stats` afterwards.  `MaxTurn`
is a constant of analyzer.hpp, taken as a parameter. -/
def analyze_move_backs_from_active_player_lost (T : QuadTables) (MaxTurn : Nat)
    (self : Analyzer) (stats : AnalysisStatistics) (pos : Position) :
    Bool × Analyzer × AnalysisStatistics :=
  let turn := turn_of_analysisData (self.analysisDataTable_ pos.id)
  let nextTurn := if turn = MaxTurn then turn else turn + 1
  (moveBackCandidates pos).foldl
    (fun s cand =>
      let moveResult := pos.move_back T cand.1 cand.2.1 cand.2.2
      if moveResult.status ≠ MoveResultStatus.Success then s
      else lostReach nextTurn s (moveResult.position.minimize_id T))
    (false, self, stats)

/-- The innermost loop body of `analyze_move_backs_from_active_player_won`
after its `continue`, for the cell `index`. -/
def wonReach (s : Bool × Analyzer) (index : Nat) : Bool × Analyzer :=
  let dstData := s.2.analysisDataTable_ index
  if status_of_analysisData dstData = AnalysisStatus.Unfixed then
    (true, s.2.setCell index (set_updateFlag_of_analysisData dstData true))
  else s

/-- The member `Analyzer::analyze_move_backs_from_active_player_won`: the
returned flag and the analyzer afterwards (`stats` is not used). -/
def analyze_move_backs_from_active_player_won (T : QuadTables) (self : Analyzer)
    (pos : Position) : Bool × Analyzer :=
  (moveBackCandidates pos).foldl
    (fun s cand =>
      let moveResult := pos.move_back T cand.1 cand.2.1 cand.2.2
      if moveResult.status ≠ MoveResultStatus.Success then s
      else wonReach s (moveResult.position.minimize_id T))
    (false, self)

/-- The loops of `Analyzer::analyze_unfixed`: `none` when a `return false`
is reached, the final `nextTurn` otherwise. -/
def unfixedNextTurn (T : QuadTables) (MaxTurn : Nat) (self : Analyzer) (pos : Position) :
    Option Nat :=
  (moveCandidates pos).foldl
    (fun acc cand =>
      match acc with
      | none => none
      | some nextTurn =>
        let moveResult := pos.move T cand.1 cand.2.1 cand.2.2
        if moveResult.status ≠ MoveResultStatus.Success then some nextTurn
        else
          let dstData := self.analysisDataTable_ (moveResult.position.minimize_id T)
          if status_of_analysisData dstData ≠ AnalysisStatus.Won then none
          else
            let turn := turn_of_analysisData dstData
            if turn + 1 = MaxTurn then some MaxTurn
            else if turn + 1 > nextTurn then some (turn + 1)
            else some nextTurn)
    (some 0)

/-- The member `Analyzer::analyze_unfixed`: the returned flag, the analyzer
and the statistics `stats` afterwards. -/
def analyze_unfixed (T : QuadTables) (MaxTurn : Nat) (self : Analyzer)
    (stats : AnalysisStatistics) (pos : Position) : Bool × Analyzer × AnalysisStatistics :=
  match unfixedNextTurn T MaxTurn self pos with
  | none => (false, self, stats)
  | some nextTurn =>
    (true, self.setCell pos.id (to_analysisData false nextTurn AnalysisStatus.Lost),
      { stats with lostNums := stats.lostNums + 1 })

/-- The body of the loop of `Analyzer::analyze_generation`; the state is the
local variable `updated`, the analyzer and the statistics `stats`. -/
def analyze_generation_body (T : QuadTables) (MaxTurn : Nat)
    (s : Bool × Analyzer × AnalysisStatistics) (i : Nat) : Bool × Analyzer × AnalysisStatistics :=
  if ¬ updateFlag_of_analysisData (s.2.1.analysisDataTable_ i) then s
  else
    let a := s.2.1.setCell i (set_updateFlag_of_analysisData (s.2.1.analysisDataTable_ i) false)
    let status := status_of_analysisData (a.analysisDataTable_ i)
    if status = AnalysisStatus.Lost ∨ status = AnalysisStatus.LostStalemate then
      let r := analyze_move_backs_from_active_player_lost T MaxTurn a s.2.2 (Position.ofId T i)
      (if r.1 then true else s.1, r.2.1, r.2.2)
    else if status = AnalysisStatus.Won then
      let r := analyze_move_backs_from_active_player_won T a (Position.ofId T i)
      (if r.1 then true else s.1, r.2, s.2.2)
    else if status = AnalysisStatus.Unfixed then
      let r := analyze_unfixed T MaxTurn a s.2.2 (Position.ofId T i)
      if r.1 then
        let r' := analyze_move_backs_from_active_player_lost T MaxTurn r.2.1 r.2.2
          (Position.ofId T i)
        (true, r'.2.1, r'.2.2)
      else (s.1, r.2.1, r.2.2)
    else (s.1, a, s.2.2)

/-- The member `Analyzer::analyze_generation`: the returned flag, the
analyzer and the statistics `stats` afterwards. -/
def analyze_generation (T : QuadTables) (MaxTurn : Nat) (self : Analyzer)
    (stats : AnalysisStatistics) : Bool × Analyzer × AnalysisStatistics :=
  forUpTo (analyze_generation_body T MaxTurn) AnalysisDataTableSize (false, self, stats)

/-- The first three statements of the loop body of `Analyzer::analyze`: a pass
`analyze_generation(generationStats)` on fresh statistics, then
`statistics_.add(generationStats)`; the flag is `updated`. -/
def generation (T : QuadTables) (MaxTurn : Nat) (self : Analyzer) : Bool × Analyzer :=
  let r := self.analyze_generation T MaxTurn AnalysisStatistics.new
  (r.1, { r.2.1 with statistics_ := r.2.1.statistics_.add r.2.2 })

end Analyzer

/-- The data members `generation_` and `storedGeneration_` of `class Analyzer`,
next to the members that the passes over the table work on. -/
structure AnalyzerRun where
  generation_ : Nat
  storedGeneration_ : Nat
  core : Analyzer

namespace AnalyzerRun

/-- The constructor `Analyzer::Analyzer`; `table` stands for the contents of
the freshly allocated table. -/
def new (table : Nat → AnalysisData) : AnalyzerRun :=
  { generation_ := InvalidGeneration, storedGeneration_ := InvalidGeneration,
    core := { analysisDataTable_ := table, statistics_ := AnalysisStatistics.new } }

/-- The loop of `Analyzer::analyze`, at most `fuel` rounds of it: the
returned flag and the analyzer afterwards.  `store` is the result of
`handler.store`; `MaxGeneration` is a constant of analyzer.hpp. -/
def analyze_loop (T : QuadTables) (MaxTurn MaxGeneration : Nat)
    (store : Nat → AnalysisStatistics → (Nat → AnalysisData) → Bool)
    (ioMode : AnalysisDataIOMode) : Nat → AnalyzerRun → Bool × AnalyzerRun
  | 0, self => (true, self)
  | fuel + 1, self =>
    if ¬ self.generation_ ≤ MaxGeneration then (true, self)
    else
      let r := self.core.generation T MaxTurn
      let updated := r.1
      let core := r.2
      let needsStoring :=
        if updated then decide (ioMode = AnalysisDataIOMode.StoreEveryGenerations)
        else if self.storedGeneration_ = InvalidGeneration ∨
            (self.storedGeneration_ + 1) % 2 ^ 64 < self.generation_ then
          decide (ioMode ≠ AnalysisDataIOMode.StoreNoGeneration)
        else false
      if needsStoring ∧ ¬ store self.generation_ core.statistics_ core.analysisDataTable_ then
        (false, { self with core := core })
      else
        let stored := if needsStoring then self.generation_ else self.storedGeneration_
        if ¬ updated then
          (true, { self with core := core, storedGeneration_ := stored })
        else
          analyze_loop T MaxTurn MaxGeneration store ioMode fuel
            { generation_ := self.generation_ + 1, storedGeneration_ := stored, core := core }

/-- The member `Analyzer::analyze`; its loop runs while
`generation_ <= MaxGeneration` and raises `generation_` each round, so
`MaxGeneration + 1 - generation_` rounds are all it can take. -/
def analyze (T : QuadTables) (MaxTurn MaxGeneration : Nat)
    (store : Nat → AnalysisStatistics → (Nat → AnalysisData) → Bool)
    (ioMode : AnalysisDataIOMode) (self : AnalyzerRun) : Bool × AnalyzerRun :=
  analyze_loop T MaxTurn MaxGeneration store ioMode (MaxGeneration + 1 - self.generation_) self

/-- The member `Analyzer::start`. -/
def start (T : QuadTables) (MaxTurn MaxGeneration : Nat)
    (store : Nat → AnalysisStatistics → (Nat → AnalysisData) → Bool)
    (ioMode : AnalysisDataIOMode) (self : AnalyzerRun) : Bool × AnalyzerRun :=
  let r := self.core.initialize_ T MaxTurn
  let self : AnalyzerRun := { self with generation_ := 0, core := r.2 }
  if ¬ r.1 then (false, self)
  else if ioMode = AnalysisDataIOMode.StoreEveryGenerations ∧
      ¬ store 0 self.core.statistics_ self.core.analysisDataTable_ then (false, self)
  else
    let stored :=
      if ioMode = AnalysisDataIOMode.StoreEveryGenerations then 0 else self.storedGeneration_
    analyze T MaxTurn MaxGeneration store ioMode
      { self with generation_ := 1, storedGeneration_ := stored }

/-- The member `Analyzer::resume(handler, ioMode, generation)`; `load` is the
result of `handler.load`, the statistics and the table read when it succeeds;
`generation + 1` is computed in 64 bits. -/
def resume (T : QuadTables) (MaxTurn MaxGeneration : Nat)
    (store : Nat → AnalysisStatistics → (Nat → AnalysisData) → Bool)
    (load : Nat → Option (AnalysisStatistics × (Nat → AnalysisData)))
    (ioMode : AnalysisDataIOMode) (self : AnalyzerRun) (generation : Nat) : Bool × AnalyzerRun :=
  match load generation with
  | none => (false, self)
  | some data =>
    analyze T MaxTurn MaxGeneration store ioMode
      { generation_ := (generation + 1) % 2 ^ 64, storedGeneration_ := generation,
        core := { analysisDataTable_ := data.2, statistics_ := data.1 } }

end AnalyzerRun

/-! ## inspector.cpp -/

/-- Modelled from the spec: the record `MoveInspectionResult` of inspector.hpp,
which is not among the sources, with the members in the order in which
`Inspector::inspect_moves` initializes them. -/
structure MoveInspectionResult where
  piece : PieceId
  src : LocationId
  dst : LocationId
  positionId : Nat
  turn : Nat
  analysisStatus : AnalysisStatus
  isBestMove : Bool
  deriving DecidableEq, Repr

namespace Inspector

/-- The first loop of `Inspector::mark_best_move`, on the pair
`(bestStatus, bestTurn)`. -/
def bestOf (s : AnalysisStatus × Nat) (res : MoveInspectionResult) : AnalysisStatus × Nat :=
  if res.analysisStatus = AnalysisStatus.Lost ∨
      res.analysisStatus = AnalysisStatus.LostStalemate then
    if s.1 = AnalysisStatus.Lost ∨ s.1 = AnalysisStatus.LostStalemate then
      if res.turn > s.2 then (s.1, res.turn) else s
    else if s.1 = AnalysisStatus.Contradictory then (res.analysisStatus, res.turn)
    else s
  else if res.analysisStatus = AnalysisStatus.Unfixed then
    if s.1 ≠ AnalysisStatus.Won ∧ s.1 ≠ AnalysisStatus.WonStalemate then
      (res.analysisStatus, s.2)
    else s
  else if res.analysisStatus = AnalysisStatus.Won ∨
      res.analysisStatus = AnalysisStatus.WonStalemate then
    if s.1 = AnalysisStatus.Won ∨ s.1 = AnalysisStatus.WonStalemate then
      if res.turn < s.2 then (s.1, res.turn) else s
    else (res.analysisStatus, res.turn)
  else s

/-- The member `Inspector::mark_best_move`: the list afterwards.  `MaxTurn` is
a constant of analyzer.hpp, taken as a parameter. -/
def mark_best_move (MaxTurn : Nat) (moveInspectionResults : List MoveInspectionResult) :
    List MoveInspectionResult :=
  let best := moveInspectionResults.foldl bestOf (AnalysisStatus.Contradictory, MaxTurn)
  let bestStatus := best.1
  let bestTurn := best.2
  if bestStatus = AnalysisStatus.Lost ∨ bestStatus = AnalysisStatus.LostStalemate then
    moveInspectionResults.map fun res =>
      if (res.analysisStatus = AnalysisStatus.Lost ∨
          res.analysisStatus = AnalysisStatus.LostStalemate) ∧ res.turn = bestTurn then
        { res with isBestMove := true }
      else res
  else if bestStatus = AnalysisStatus.Unfixed then
    moveInspectionResults.map fun res =>
      if res.analysisStatus = bestStatus then { res with isBestMove := true } else res
  else if bestStatus = AnalysisStatus.Won ∨ bestStatus = AnalysisStatus.WonStalemate then
    moveInspectionResults.map fun res =>
      if (res.analysisStatus = AnalysisStatus.Won ∨
          res.analysisStatus = AnalysisStatus.WonStalemate) ∧ res.turn = bestTurn then
        { res with isBestMove := true }
      else res
  else moveInspectionResults

end Inspector

/-! ## string_to_uint.hpp -/

/-- The value added for a digit in the `switch` of `string_to_uint`, `none` in
the `default` case. -/
def digitOf (c : Char) : Option Nat :=
  if c = '0' then some 0
  else if c = '1' then some 1
  else if c = '2' then some 2
  else if c = '3' then some 3
  else if c = '4' then some 4
  else if c = '5' then some 5
  else if c = '6' then some 6
  else if c = '7' then some 7
  else if c = '8' then some 8
  else if c = '9' then some 9
  else none

/-- The `while` loop of `string_to_uint` on the characters from `s` on, with
`unsigned long long` arithmetic (64 bits); the string ends at its end or at
a character of code 0; `none` when a `return false` is reached. -/
def string_to_uint_loop : List Char → Nat → Option Nat
  | [], ullValue => some ullValue
  | c :: s, ullValue =>
    if c.toNat = 0 then some ullValue
    else
      match digitOf c with
      | none => none
      | some d =>
        let ullValueTmp := (ullValue * 10 + d) % 2 ^ 64
        if ullValueTmp < ullValue then none
        else string_to_uint_loop s ullValueTmp

/-- The function template `string_to_uint` for an unsigned target type of
`bits` bits: `none` when it returns false, the value stored otherwise. -/
def string_to_uint (bits : Nat) (str : List Char) : Option Nat :=
  match str with
  | [] => none
  | c :: rest =>
    if c.toNat = 0 then none
    else if c = '0' then
      match rest with
      | [] => some 0
      | c1 :: _ => if c1.toNat = 0 then some 0 else none
    else
      match string_to_uint_loop str 0 with
      | none => none
      | some ullValue =>
        let tValue := ullValue % 2 ^ bits
        if ullValue ≠ tValue then none else some tValue

/-! ## analysis_data_file_handler.cpp -/

/-- A directory entry as the loop of `find_latest` reads it: the result of
`entry.is_regular_file(errCode)` and the characters of
`entry.path().filename().string()`. -/
structure DirEntry where
  is_regular_file : Bool
  filename : List Char

/-- The constant `AnalysisDataFileHandler::filePrefix_`. -/
def filePrefix_ : List Char :=
  ['g', 'o', 'b', 'b', '_', 'a', 'n', 'a', 'l', 'y', 'z', 'e', 'r', '_']

/-- The constant `AnalysisDataFileHandler::fileSuffix_`. -/
def fileSuffix_ : List Char := ['.', 'd', 'a', 't']

/-- The member `std::string::substr(pos, count)` for `pos` within the string. -/
def substr (s : List Char) (pos count : Nat) : List Char := (s.drop pos).take count

/-- The body of the loop of `AnalysisDataFileHandler::find_latest`; the state
is the local variable `latestGeneration`, each `continue` leaves it as it is.
`MaxGeneration` is a constant of analyzer.hpp, taken as a parameter. -/
def find_latest_body (MaxGeneration : Nat) (latestGeneration : Nat) (entry : DirEntry) : Nat :=
  if ¬ entry.is_regular_file then latestGeneration
  else
    let filename := entry.filename
    if filename.length ≤ filePrefix_.length + fileSuffix_.length then latestGeneration
    else if substr filename 0 filePrefix_.length ≠ filePrefix_ ∨
        substr filename (filename.length - fileSuffix_.length) fileSuffix_.length ≠
          fileSuffix_ then latestGeneration
    else
      match string_to_uint 64
          (substr filename filePrefix_.length
            (filename.length - filePrefix_.length - fileSuffix_.length)) with
      | none => latestGeneration
      | some generation =>
        if generation > MaxGeneration then latestGeneration
        else if latestGeneration = InvalidGeneration ∨ generation > latestGeneration then
          generation
        else latestGeneration

/-- The member `AnalysisDataFileHandler::find_latest`; `entries` are the
entries of the directory in the order in which the iterator yields them (none
when the iterator could not be opened). -/
def find_latest (MaxGeneration : Nat) (entries : List DirEntry) : Nat :=
  let latestGeneration := entries.foldl (find_latest_body MaxGeneration) InvalidGeneration
  if latestGeneration = InvalidGeneration then InvalidGeneration else latestGeneration

/-- The constant `AnalysisDataFileHandler::tmpFile_`. -/
def tmpFile_ : List Char :=
  ['g', 'o', 'b', 'b', '_', 'a', 'n', 'a', 'l', 'y', 'e', 'r', '_', 't', 'm', 'p', '.',
    'd', 'a', 't']

/-- The constant `AnalysisDataFileHandler::maxIoSize`. -/
def maxIoSize : Nat := 0x1000000

/-- The directory `dirPath_` as the handler sees it: whether it is a
directory, and the bytes of each file in it by file name. -/
structure Directory where
  is_directory : Bool
  files : List Char → Option (List Nat)

/-- The file `name` of the directory gets the bytes `content`. -/
def Directory.put (d : Directory) (name : List Char) (content : List Nat) : Directory :=
  { is_directory := d.is_directory
    files := fun n => if n = name then some content else d.files n }

/-- The file `name` of the directory is removed. -/
def Directory.erase (d : Directory) (name : List Char) : Directory :=
  { is_directory := d.is_directory
    files := fun n => if n = name then none else d.files n }

/-- The outcomes of the operations of `store` that the environment decides:
`true` stands for success.  `stream k` is the outcome of operation number `k`
on the output stream (0 is the opening). -/
structure IoOutcomes where
  create_directories : Bool
  stream : Nat → Bool
  rename : Bool
  remove : Bool

/-- The member `file_path`, as a file name in `dirPath_`; `std::to_string` of
an unsigned value is its decimal numeral. -/
def file_path (generation : Nat) : List Char :=
  filePrefix_ ++ Nat.toDigits 10 generation ++ fileSuffix_

/-- The member `tmp_file_path`, as a file name in `dirPath_`. -/
def tmp_file_path : List Char := tmpFile_

/-- The member `clean`: it removes the temporary file and ignores a failure. -/
def clean (io : IoOutcomes) (d : Directory) : Directory :=
  if io.remove then d.erase tmp_file_path else d

/-- A `std::ofstream` on the temporary file: whether the file was opened,
`fail()`, the bytes the file has so far, and the number of operations on the
stream so far. -/
structure OFStream where
  is_open : Bool
  fail : Bool
  content : List Nat
  ops : Nat

/-- The constructor `std::ofstream(path, std::ios::binary)`: the file is
created empty, or the stream fails. -/
def OFStream.open (io : IoOutcomes) : OFStream :=
  { is_open := io.stream 0
    fail := ! io.stream 0
    content := []
    ops := 1 }

/-- The member `write`: nothing is written by a stream that has failed; a write
that fails makes the stream fail. -/
def OFStream.write (io : IoOutcomes) (self : OFStream) (bytes : List Nat) : OFStream :=
  if self.fail then { self with ops := self.ops + 1 }
  else if io.stream self.ops then
    { self with content := self.content ++ bytes, ops := self.ops + 1 }
  else { self with fail := true, ops := self.ops + 1 }

/-- The member `close`: a failure of the closing makes the stream fail; the
state of a failed stream stays. -/
def OFStream.close (io : IoOutcomes) (self : OFStream) : OFStream :=
  if self.is_open ∧ io.stream self.ops then { self with ops := self.ops + 1 }
  else { self with fail := true, ops := self.ops + 1 }

/-- The directory with the temporary file as the stream left it. -/
def OFStream.flushTo (self : OFStream) (d : Directory) : Directory :=
  if self.is_open then d.put tmp_file_path self.content else d

/-- The result of a loop that may reach a `return false`: `returned` holds the
state at the `return`, `finished` the state when the loop condition fails,
`unfinished` stands for a loop cut off by the fuel. -/
inductive LoopResult (σ : Type) where
  | returned (state : σ)
  | finished (writtenSize : Nat) (state : σ)
  | unfinished

/-- The `count` bytes that `write` takes from `p + pos` on. -/
def bytesAt (s : List Nat) (pos count : Nat) : List Nat := (s.drop pos).take count

/-- The first `while` loop of `store`, with `std::size_t` arithmetic (64
bits); `p` is `table + writtenSize` throughout. -/
def store_loop (io : IoOutcomes) (table : List Nat) (tableSize : Nat) :
    Nat → Nat → OFStream → LoopResult OFStream
  | 0, _, _ => LoopResult.unfinished
  | fuel + 1, writtenSize, ofs =>
    if (writtenSize + maxIoSize) % 2 ^ 64 < tableSize then
      let ofs := ofs.write io (bytesAt table writtenSize maxIoSize)
      if ofs.fail then LoopResult.returned ofs
      else store_loop io table tableSize fuel ((writtenSize + maxIoSize) % 2 ^ 64) ofs
    else LoopResult.finished writtenSize ofs

/-- The member `AnalysisDataFileHandler::store`; `stats` and `table` are the
bytes of the two objects, `tableSize` the number of bytes of the table.  The
result is the value returned and the directory afterwards, `none` when the
fuel of the loop did not suffice.  The loop advances `writtenSize` by
`maxIoSize` toward `tableSize`, so `tableSize / maxIoSize + 1` rounds are all
it takes. -/
def store (MaxGeneration : Nat) (io : IoOutcomes) (dir : Directory) (generation : Nat)
    (stats table : List Nat) (tableSize : Nat) : Option (Bool × Directory) :=
  if generation > MaxGeneration then some (false, dir)
  else if ¬ dir.is_directory ∧ ¬ io.create_directories then some (false, dir)
  else
    let dir : Directory := { is_directory := true, files := dir.files }
    let ofs := OFStream.open io
    let ofs := ofs.write io stats
    match store_loop io table tableSize (tableSize / maxIoSize + 1) 0 ofs with
    | LoopResult.unfinished => none
    | LoopResult.returned ofs => some (false, clean io ((ofs.close io).flushTo dir))
    | LoopResult.finished writtenSize ofs =>
      let ofs :=
        if writtenSize < tableSize then
          ofs.write io (bytesAt table writtenSize (tableSize - writtenSize))
        else ofs
      if writtenSize < tableSize ∧ ofs.fail then
        some (false, clean io ((ofs.close io).flushTo dir))
      else
        let ofs := ofs.close io
        if ofs.fail then some (false, clean io (ofs.flushTo dir))
        else if ¬ io.rename then some (false, clean io (ofs.flushTo dir))
        else some (true, ((ofs.flushTo dir).put (file_path generation) ofs.content).erase
          tmp_file_path)

/-- A `std::ifstream`: `fail()` and the bytes of the file not yet read. -/
structure IFStream where
  fail : Bool
  rest : List Nat

/-- The constructor `std::ifstream(path, std::ios::binary)`: the stream fails
when there is no such file. -/
def IFStream.open (d : Directory) (name : List Char) : IFStream :=
  match d.files name with
  | none => { fail := true, rest := [] }
  | some content => { fail := false, rest := content }

/-- The member `read` of `count` bytes into the buffer `buf` at offset `pos`:
a stream that has failed reads nothing; a file that ends before `count` bytes
gives the bytes it has and makes the stream fail. -/
def IFStream.read (self : IFStream) (buf : List Nat) (pos count : Nat) :
    IFStream × List Nat :=
  if self.fail then (self, buf)
  else if self.rest.length < count then
    ({ fail := true, rest := [] },
      buf.take pos ++ self.rest ++ buf.drop (pos + self.rest.length))
  else
    ({ fail := false, rest := self.rest.drop count },
      buf.take pos ++ self.rest.take count ++ buf.drop (pos + count))

/-- The member `close` of a stream for reading: a stream that was not opened
has failed already, and the closing of a file that was read does not fail. -/
def IFStream.close (self : IFStream) : IFStream := self

/-- The first `while` loop of `load`, with `std::size_t` arithmetic (64 bits);
`p` is `table + readSize` throughout.  The state is the stream and the bytes
of the table. -/
def load_loop (tableSize : Nat) :
    Nat → Nat → IFStream × List Nat → LoopResult (IFStream × List Nat)
  | 0, _, _ => LoopResult.unfinished
  | fuel + 1, readSize, (ifs, table) =>
    if (readSize + maxIoSize) % 2 ^ 64 < tableSize then
      let r := ifs.read table readSize maxIoSize
      if r.1.fail then LoopResult.returned r
      else load_loop tableSize fuel ((readSize + maxIoSize) % 2 ^ 64) r
    else LoopResult.finished readSize (ifs, table)

/-- The member `AnalysisDataFileHandler::load`; `stats` and `table` are the
bytes of the two objects to read into, `tableSize` the number of bytes of the
table.  The result is the value returned and the bytes of the two objects
afterwards, `none` when the fuel of the loop did not suffice. -/
def load (MaxGeneration : Nat) (dir : Directory) (generation : Nat)
    (stats table : List Nat) (tableSize : Nat) : Option (Bool × List Nat × List Nat) :=
  if generation > MaxGeneration then some (false, stats, table)
  else
    let ifs := IFStream.open dir (file_path generation)
    let r := ifs.read stats 0 stats.length
    let stats := r.2
    match load_loop tableSize (tableSize / maxIoSize + 1) 0 (r.1, table) with
    | LoopResult.unfinished => none
    | LoopResult.returned r => some (false, stats, r.2)
    | LoopResult.finished readSize (ifs, table) =>
      let r := if readSize < tableSize then ifs.read table readSize (tableSize - readSize)
        else (ifs, table)
      if readSize < tableSize ∧ r.1.fail then some (false, stats, r.2)
      else if r.1.close.fail then some (false, stats, r.2)
      else some (true, stats, r.2)

/-! ## Notions for the passes over the table -/

/-- The canonical ids of the positions that the retrograde moves from `pos`
with status `Success` lead to, in the order of the loops. -/
def moveBackTargets (T : QuadTables) (pos : Position) : List Nat :=
  (moveBackCandidates pos).filterMap fun cand =>
    if (pos.move_back T cand.1 cand.2.1 cand.2.2).status = MoveResultStatus.Success then
      some ((pos.move_back T cand.1 cand.2.1 cand.2.2).position.minimize_id T)
    else none

/-- The canonical ids of the positions that the forward moves from `pos` with
status `Success` lead to, in the order of the loops. -/
def moveTargets (T : QuadTables) (pos : Position) : List Nat :=
  (moveCandidates pos).filterMap fun cand =>
    if (pos.move T cand.1 cand.2.1 cand.2.2).status = MoveResultStatus.Success then
      some ((pos.move T cand.1 cand.2.1 cand.2.2).position.minimize_id T)
    else none

/-- A cell after the propagation from a lost cell reached it: an Unfixed cell
becomes Won with the turn `nextTurn` and the update flag set, a Won cell with
a larger turn gets the turn `nextTurn`, any other cell stays. -/
def lostUpdate (nextTurn : Nat) (data : AnalysisData) : AnalysisData :=
  if status_of_analysisData data = AnalysisStatus.Unfixed then
    to_analysisData true nextTurn AnalysisStatus.Won
  else if status_of_analysisData data = AnalysisStatus.Won ∧
      turn_of_analysisData data > nextTurn then
    set_turn_of_analysisData data nextTurn
  else data

/-- A cell after the propagation from a won cell reached it: an Unfixed cell
gets its update flag set, any other cell stays. -/
def wonUpdate (data : AnalysisData) : AnalysisData :=
  if status_of_analysisData data = AnalysisStatus.Unfixed then
    set_updateFlag_of_analysisData data true
  else data

/-- The sum of the six counters of the statistics. -/
def AnalysisStatistics.total (s : AnalysisStatistics) : Nat :=
  s.unfixedNums + s.lostNums + s.lostStalemateNums + s.wonNums + s.transformedNums +
    s.contradictoryNums

/-- The number of cells `c < n` of a table whose status is `Unfixed`. -/
def countUnfixed (table : Nat → AnalysisData) : Nat → Nat
  | 0 => 0
  | n + 1 =>
    countUnfixed table n +
      (if status_of_analysisData (table n) = AnalysisStatus.Unfixed then 1 else 0)

/-- The analyzer after `initialize()` and `k` further generations, each a pass
followed by `statistics_.add(generationStats)`. -/
def Analyzer.afterGenerations (T : QuadTables) (MaxTurn : Nat) (self : Analyzer) (k : Nat) :
    Analyzer :=
  Nat.iterate (fun a : Analyzer => (a.generation T MaxTurn).2) k (self.initialize_ T MaxTurn).2

/-- What a pass may do to one cell: change its status only from Unfixed to
Won or Lost, and never raise its turn when it is Won or Lost. -/
def cellStep (before after : AnalysisData) : Prop :=
  (status_of_analysisData after ≠ status_of_analysisData before →
    status_of_analysisData before = AnalysisStatus.Unfixed ∧
    (status_of_analysisData after = AnalysisStatus.Won ∨
      status_of_analysisData after = AnalysisStatus.Lost)) ∧
  ((status_of_analysisData before = AnalysisStatus.Won ∨
      status_of_analysisData before = AnalysisStatus.Lost) →
    turn_of_analysisData after ≤ turn_of_analysisData before)

/-- The analyzer after `data = set_updateFlag_of_analysisData(data, false)` for
the cell `i`, as in the loop of `analyze_generation`. -/
def Analyzer.clearFlag (self : Analyzer) (i : Nat) : Analyzer :=
  self.setCell i (set_updateFlag_of_analysisData (self.analysisDataTable_ i) false)

/-- The loop of a generation reports an update at the cell `i`, where
`before` and `after` are the analyzer before and after the loop body for
`i`: the status of some cell changed, or the cell `i` was flagged and Won and
a retrograde move from `Position(i)` with status Success leads to a cell
(canonical id) that was Unfixed and has its update flag set afterwards. -/
def Analyzer.updatesAt (T : QuadTables) (before after : Analyzer) (i : Nat) : Prop :=
  (∃ c, status_of_analysisData (after.analysisDataTable_ c) ≠
      status_of_analysisData (before.analysisDataTable_ c)) ∨
  (updateFlag_of_analysisData (before.analysisDataTable_ i) = true ∧
    status_of_analysisData (before.analysisDataTable_ i) = AnalysisStatus.Won ∧
    ∃ piece src dst,
      ((Position.ofId T i).move_back T piece src dst).status = MoveResultStatus.Success ∧
      status_of_analysisData (before.analysisDataTable_
        (((Position.ofId T i).move_back T piece src dst).position.minimize_id T)) =
        AnalysisStatus.Unfixed ∧
      updateFlag_of_analysisData (after.analysisDataTable_
        (((Position.ofId T i).move_back T piece src dst).position.minimize_id T)) = true)

/-- What holds of the cells of a table throughout the analysis: a cell below
`AnalysisDataTableSize` whose status is not Transformed has the least id of
its orbit, and a cell whose status is Won is the canonical id of a valid
position from which a forward move with status Success leads to a position
whose canonical cell has the status Lost or LostStalemate. -/
def wonSound (T : QuadTables) (table : Nat → AnalysisData) : Prop :=
  (∀ c, c < AnalysisDataTableSize →
    status_of_analysisData (table c) ≠ AnalysisStatus.Transformed →
    ∀ t ∈ EffectiveTransformerIds, ¬ transformedId T t c < c) ∧
  (∀ c, c < AnalysisDataTableSize →
    status_of_analysisData (table c) = AnalysisStatus.Won →
    ∃ r : Position, r.Wellformed T ∧ r.minimize_id T = c ∧
      ∃ piece src dst, (r.move T piece src dst).status = MoveResultStatus.Success ∧
        (status_of_analysisData
            (table ((r.move T piece src dst).position.minimize_id T)) = AnalysisStatus.Lost ∨
          status_of_analysisData
            (table ((r.move T piece src dst).position.minimize_id T)) =
            AnalysisStatus.LostStalemate))

end gobb_analyzer

/-! # Verification -/

namespace gobb_analyzer

/-! ## The modelled tables are valid -/

theorem legalQuads_length : legalQuads.length = 1423 := by decide!

theorem LocationIds_nodup : LocationIds.Nodup := by decide

theorem mem_LocationIds {l : LocationId} (h : is_valid_locationId l = true) :
    l ∈ LocationIds := by
  cases l <;> simp_all [LocationIds, is_valid_locationId, LocationId.toNat]

theorem allQuads_nodup : allQuads.Nodup := by
  unfold allQuads
  refine List.Nodup.map ?_ ?_
  · rintro ⟨a, b, c, d⟩ ⟨a', b', c', d'⟩ h
    simp only [LocationIdQuad.mk.injEq] at h
    obtain ⟨h1, h2, h3, h4⟩ := h
    subst h1 h2 h3 h4
    rfl
  · exact LocationIds_nodup.product
      (LocationIds_nodup.product (LocationIds_nodup.product LocationIds_nodup))

theorem legalQuads_nodup : legalQuads.Nodup := allQuads_nodup.filter _

theorem mem_legalQuads {q : LocationIdQuad} : q ∈ legalQuads ↔ q.legal = true := by
  unfold legalQuads
  rw [List.mem_filter]
  constructor
  · exact fun h => h.2
  · intro h
    refine ⟨?_, h⟩
    have hv := h
    simp only [LocationIdQuad.legal, Bool.and_eq_true] at hv
    obtain ⟨⟨⟨⟨⟨⟨⟨⟨h0, h1⟩, h2⟩, h3⟩, _⟩, _⟩, _⟩, _⟩, _⟩ := hv
    unfold allQuads
    rw [List.mem_map]
    refine ⟨(q.locations3, q.locations2, q.locations1, q.locations0), ?_, rfl⟩
    simp only [List.mem_product]
    exact ⟨mem_LocationIds h3, mem_LocationIds h2, mem_LocationIds h1, mem_LocationIds h0⟩

theorem LocationId.toNat_inj {a b : LocationId} (h : a.toNat = b.toNat) : a = b := by
  cases a <;> cases b <;> simp_all [LocationId.toNat]

theorem LocationId.toNat_lt_of_valid {a : LocationId} (h : is_valid_locationId a = true) :
    a.toNat < 10 := by
  cases a <;> simp_all [is_valid_locationId, LocationId.toNat]

theorem index_inj_of_legal {q r : LocationIdQuad} (hq : q.legal = true) (hr : r.legal = true)
    (h : q.index = r.index) : q = r := by
  simp only [LocationIdQuad.legal, Bool.and_eq_true] at hq hr
  obtain ⟨⟨⟨⟨⟨⟨⟨⟨q0, q1⟩, q2⟩, q3⟩, _⟩, _⟩, _⟩, _⟩, _⟩ := hq
  obtain ⟨⟨⟨⟨⟨⟨⟨⟨r0, r1⟩, r2⟩, r3⟩, _⟩, _⟩, _⟩, _⟩, _⟩ := hr
  have a0 := LocationId.toNat_lt_of_valid q0
  have a1 := LocationId.toNat_lt_of_valid q1
  have a2 := LocationId.toNat_lt_of_valid q2
  have a3 := LocationId.toNat_lt_of_valid q3
  have b0 := LocationId.toNat_lt_of_valid r0
  have b1 := LocationId.toNat_lt_of_valid r1
  have b2 := LocationId.toNat_lt_of_valid r2
  have b3 := LocationId.toNat_lt_of_valid r3
  simp only [LocationIdQuad.index, LocationIdNums] at h
  obtain ⟨x0, x1, x2, x3⟩ := q
  obtain ⟨y0, y1, y2, y3⟩ := r
  simp only at a0 a1 a2 a3 b0 b1 b2 b3 h
  have e0 : x0 = y0 := LocationId.toNat_inj (by omega)
  have e1 : x1 = y1 := LocationId.toNat_inj (by omega)
  have e2 : x2 = y2 := LocationId.toNat_inj (by omega)
  have e3 : x3 = y3 := LocationId.toNat_inj (by omega)
  subst e0 e1 e2 e3
  rfl

theorem legalQuads_index_nodup : (legalQuads.map LocationIdQuad.index).Nodup := by
  refine List.Nodup.map_on ?_ legalQuads_nodup
  intro q hq r hr h
  exact index_inj_of_legal (mem_legalQuads.mp hq) (mem_legalQuads.mp hr) h

theorem stdTables_quad (i : Nat) (h : i < legalQuads.length) :
    stdTables.pieceQuadIndexMaps_ i = legalQuads.get ⟨i, h⟩ := by
  show legalQuads.getD i _ = legalQuads.get ⟨i, h⟩
  rw [List.getD_eq_getElem?_getD, List.getElem?_eq_getElem h]
  rfl

/-- The modelled tables satisfy `QuadTables.Valid`. -/
theorem stdTables_valid : stdTables.Valid where
  quad_legal := by
    intro i hi
    have h : i < legalQuads.length := by rw [legalQuads_length]; exact hi
    rw [stdTables_quad i h]
    exact mem_legalQuads.mp (List.get_mem _ _ _)
  map_quad := by
    intro i hi
    have h : i < legalQuads.length := by rw [legalQuads_length]; exact hi
    have h' : i < (legalQuads.map LocationIdQuad.index).length := by
      rw [List.length_map]; exact h
    rw [stdTables_quad i h]
    have e : (legalQuads.map LocationIdQuad.index).get ⟨i, h'⟩
        = (legalQuads.get ⟨i, h⟩).index := by
      simp only [List.get_eq_getElem, List.getElem_map]
    have key := List.get_indexOf legalQuads_index_nodup ⟨i, h'⟩
    rw [e] at key
    show (if (legalQuads.map LocationIdQuad.index).indexOf (legalQuads.get ⟨i, h⟩).index
        < PieceQuadCombinationNums then _ else _) = i
    rw [key, if_pos hi]
  quad_complete := by
    intro q hq
    obtain ⟨n, hn, e⟩ := List.getElem_of_mem (mem_legalQuads.mpr hq)
    have hn' : n < PieceQuadCombinationNums := by
      rw [legalQuads_length] at hn; exact hn
    refine ⟨n, hn', ?_⟩
    rw [stdTables_quad n hn, List.get_eq_getElem]
    exact e

end gobb_analyzer

namespace gobb_analyzer

/-! ## Derived members: `largestPieces_` -/

namespace Position

@[simp] theorem setLargest_piecePairs (p : Position) (l : LocationId) (k : PieceId) :
    (p.setLargest l k).piecePairs_ = p.piecePairs_ := rfl

@[simp] theorem setLargest_id (p : Position) (l : LocationId) (k : PieceId) :
    (p.setLargest l k).id_ = p.id_ := rfl

@[simp] theorem setLargest_color (p : Position) (l : LocationId) (k : PieceId) :
    (p.setLargest l k).activePlayerColor_ = p.activePlayerColor_ := rfl

@[simp] theorem setPair_largest (p : Position) (k : PieceId) (pr : LocationIdPair) :
    (p.setPair k pr).largestPieces_ = p.largestPieces_ := rfl

@[simp] theorem setPair_id (p : Position) (k : PieceId) (pr : LocationIdPair) :
    (p.setPair k pr).id_ = p.id_ := rfl

@[simp] theorem setPair_color (p : Position) (k : PieceId) (pr : LocationIdPair) :
    (p.setPair k pr).activePlayerColor_ = p.activePlayerColor_ := rfl

theorem setPair_piecePairs (p : Position) (k : PieceId) (pr : LocationIdPair) (j : PieceId) :
    (p.setPair k pr).piecePairs_ j = if j = k then pr else p.piecePairs_ j := rfl

theorem setLargest_largest (p : Position) (l : LocationId) (k : PieceId) (m : LocationId) :
    (p.setLargest l k).largestPieces_ m = if m = l then k else p.largestPieces_ m := rfl

@[simp] theorem placeLargest_piecePairs (p : Position) (k : PieceId) :
    (p.placeLargest k).piecePairs_ = p.piecePairs_ := by
  unfold placeLargest
  simp only
  split_ifs <;> rfl

@[simp] theorem placeLargest_id (p : Position) (k : PieceId) :
    (p.placeLargest k).id_ = p.id_ := by
  unfold placeLargest
  simp only
  split_ifs <;> rfl

@[simp] theorem placeLargest_color (p : Position) (k : PieceId) :
    (p.placeLargest k).activePlayerColor_ = p.activePlayerColor_ := by
  unfold placeLargest
  simp only
  split_ifs <;> rfl

theorem placeLargest_largest (p : Position) (k : PieceId) (loc : LocationId)
    (h : loc ≠ LocationId.Out) :
    (p.placeLargest k).largestPieces_ loc =
      if (p.piecePairs_ k).occupies loc then k else p.largestPieces_ loc := by
  unfold placeLargest LocationIdPair.occupies
  simp only [LocationId.None, ne_eq, Bool.or_eq_true, beq_iff_eq]
  by_cases e0 : (p.piecePairs_ k).locations0 = LocationId.Out <;>
    by_cases e1 : (p.piecePairs_ k).locations1 = LocationId.Out <;>
    simp only [e0, e1, not_true_eq_false, not_false_eq_true, if_true, if_false,
      setLargest_piecePairs, setLargest_largest]
  · have h' : ¬ LocationId.Out = loc := fun e => h e.symm
    simp only [h', or_self, if_false]
  · have h' : ¬ LocationId.Out = loc := fun e => h e.symm
    by_cases h1 : loc = (p.piecePairs_ k).locations1
    · simp only [h1, or_true, if_true]
    · have h1' : ¬ (p.piecePairs_ k).locations1 = loc := fun e => h1 e.symm
      simp only [h1, h', h1', or_self, if_false]
  · have h' : ¬ LocationId.Out = loc := fun e => h e.symm
    by_cases h0 : loc = (p.piecePairs_ k).locations0
    · simp only [h0, true_or, if_true]
    · have h0' : ¬ (p.piecePairs_ k).locations0 = loc := fun e => h0 e.symm
      simp only [h0, h', h0', or_self, if_false]
  · by_cases h1 : loc = (p.piecePairs_ k).locations1
    · simp only [h1, or_true, if_true]
    · have h1' : ¬ (p.piecePairs_ k).locations1 = loc := fun e => h1 e.symm
      by_cases h0 : loc = (p.piecePairs_ k).locations0
      · simp only [h0, true_or, if_true, ite_self]
      · have h0' : ¬ (p.piecePairs_ k).locations0 = loc := fun e => h0 e.symm
        simp only [h0, h1, h0', h1', or_self, if_false]

@[simp] theorem update_largestPieces_piecePairs (p : Position) :
    p.update_largestPieces.piecePairs_ = p.piecePairs_ := by
  simp [update_largestPieces, PieceIds, OnBoardLocationIds, List.foldl]

@[simp] theorem update_largestPieces_id (p : Position) :
    p.update_largestPieces.id_ = p.id_ := by
  simp [update_largestPieces, PieceIds, OnBoardLocationIds, List.foldl]

@[simp] theorem update_largestPieces_color (p : Position) :
    p.update_largestPieces.activePlayerColor_ = p.activePlayerColor_ := by
  simp [update_largestPieces, PieceIds, OnBoardLocationIds, List.foldl]

theorem LocationId.ne_out_of_on_board {loc : LocationId} (h : is_on_board_locationId loc = true) :
    loc ≠ LocationId.Out := by
  cases loc <;> simp_all [is_on_board_locationId, LocationId.toNat]

/-- Closed form of `update_largestPieces` on the board. -/
theorem update_largestPieces_largest (p : Position) (loc : LocationId)
    (h : is_on_board_locationId loc = true) :
    p.update_largestPieces.largestPieces_ loc = lastPlaced p.piecePairs_ loc := by
  have hne := LocationId.ne_out_of_on_board h
  have hc : (OnBoardLocationIds.foldl (fun pos loc => pos.setLargest loc PieceId.None)
      p).largestPieces_ loc = PieceId.None := by
    cases loc <;> simp_all [OnBoardLocationIds, List.foldl, setLargest_largest,
      is_on_board_locationId, LocationId.toNat]
  have hp : (OnBoardLocationIds.foldl (fun pos loc => pos.setLargest loc PieceId.None)
      p).piecePairs_ = p.piecePairs_ := by
    simp [OnBoardLocationIds, List.foldl]
  unfold update_largestPieces lastPlaced
  simp only []
  generalize OnBoardLocationIds.foldl (fun pos loc => pos.setLargest loc PieceId.None) p = cl
    at hc hp ⊢
  simp only [PieceIds, List.foldl, placeLargest_largest _ _ _ hne, placeLargest_piecePairs,
    hc, hp]

/-- Recomputing `largestPieces_` twice is the same as once. -/
theorem update_largestPieces_idem (p : Position) (loc : LocationId)
    (h : is_on_board_locationId loc = true) :
    p.update_largestPieces.update_largestPieces.largestPieces_ loc =
      p.update_largestPieces.largestPieces_ loc := by
  rw [update_largestPieces_largest _ _ h, update_largestPieces_largest _ _ h,
    update_largestPieces_piecePairs]

end Position

/-! ## Topmost pieces -/

theorem legal_no_overlap {q : LocationIdQuad} (h : q.legal = true) {loc : LocationId}
    (hl : loc ≠ LocationId.Out) :
    ¬ ((q.locations0 = loc ∨ q.locations1 = loc) ∧ (q.locations2 = loc ∨ q.locations3 = loc)) := by
  obtain ⟨a, b, c, d⟩ := q
  simp only [LocationIdQuad.legal, Bool.and_eq_true, Bool.or_eq_true, beq_iff_eq, bne_iff_ne,
    ne_eq] at h
  obtain ⟨⟨⟨_, h0⟩, h1⟩, h2⟩ := h
  rintro ⟨h3 | h3, h4 | h4⟩ <;> subst h3 <;> simp_all

theorem legalPairs_no_overlap {pairs : PieceId → LocationIdPair} (h : legalPairs pairs)
    {loc : LocationId} (hl : loc ≠ LocationId.Out) :
    ¬ ((pairs .ActivePlayerSmall).occupies loc = true ∧
        (pairs .InactivePlayerSmall).occupies loc = true) ∧
    ¬ ((pairs .ActivePlayerMedium).occupies loc = true ∧
        (pairs .InactivePlayerMedium).occupies loc = true) ∧
    ¬ ((pairs .ActivePlayerLarge).occupies loc = true ∧
        (pairs .InactivePlayerLarge).occupies loc = true) := by
  have hs := legal_no_overlap (h (.ActivePlayerSmall, .InactivePlayerSmall) (by simp)) hl
  have hm := legal_no_overlap (h (.ActivePlayerMedium, .InactivePlayerMedium) (by simp)) hl
  have hL := legal_no_overlap (h (.ActivePlayerLarge, .InactivePlayerLarge) (by simp)) hl
  simp only [LocationIdPair.occupies, Bool.or_eq_true, beq_iff_eq]
  exact ⟨hs, hm, hL⟩

/-- With no two same-size pieces on one cell, the kind written last by
`update_largestPieces` is the topmost piece. -/
theorem lastPlaced_eq_topmostPiece {pairs : PieceId → LocationIdPair} (h : legalPairs pairs)
    {loc : LocationId} (hl : loc ≠ LocationId.Out) :
    lastPlaced pairs loc = topmostPiece pairs loc := by
  obtain ⟨hs, hm, hL⟩ := legalPairs_no_overlap h hl
  unfold lastPlaced topmostPiece
  simp only [PieceIds, List.foldl]
  by_cases h1 : (pairs .ActivePlayerSmall).occupies loc = true <;>
  by_cases h2 : (pairs .InactivePlayerSmall).occupies loc = true <;>
  by_cases h3 : (pairs .ActivePlayerMedium).occupies loc = true <;>
  by_cases h4 : (pairs .InactivePlayerMedium).occupies loc = true <;>
  by_cases h5 : (pairs .ActivePlayerLarge).occupies loc = true <;>
  by_cases h6 : (pairs .InactivePlayerLarge).occupies loc = true <;>
  simp_all [pieceSize_of_pieceId, PieceSize.toNat]

namespace Position

theorem Wellformed.legal {T : QuadTables} {p : Position} (hp : p.Wellformed T) :
    legalPairs p.piecePairs_ := by
  intro s hs
  simp only [List.mem_cons, List.mem_singleton, List.not_mem_nil, or_false] at hs
  rcases hs with rfl | rfl | rfl
  · exact hp.small
  · exact hp.medium
  · exact hp.large

/-- In a valid position the `largestPieces_` entry of a board cell is the topmost piece. -/
theorem Wellformed.largest {T : QuadTables} {p : Position} (hp : p.Wellformed T)
    {loc : LocationId} (h : is_on_board_locationId loc = true) :
    p.largestPieces_ loc = topmostPiece p.piecePairs_ loc := by
  rw [← hp.largest_eq loc h, update_largestPieces_largest _ _ h,
    lastPlaced_eq_topmostPiece hp.legal (LocationId.ne_out_of_on_board h)]

end Position

end gobb_analyzer

namespace gobb_analyzer

/-! ## Location pairs -/

theorem LocationId.toNat_eq_iff {a b : LocationId} : a.toNat = b.toNat ↔ a = b :=
  ⟨LocationId.toNat_inj, fun h => by rw [h]⟩

theorem LocationId.valid_iff {a : LocationId} : is_valid_locationId a = true ↔ a.toNat ≤ 9 := by
  simp [is_valid_locationId, LocationId.toNat]

theorem LocationId.on_board_iff {a : LocationId} :
    is_on_board_locationId a = true ↔ 1 ≤ a.toNat ∧ a.toNat ≤ 9 := by
  simp [is_on_board_locationId, LocationId.toNat]

theorem LocationId.out_toNat : LocationId.Out.toNat = 0 := rfl

theorem LocationId.eq_out_iff {a : LocationId} : a = LocationId.Out ↔ a.toNat = 0 := by
  rw [← LocationId.out_toNat, LocationId.toNat_eq_iff]

theorem nonAscending_comm (a b : LocationId) : nonAscending a b = nonAscending b a := by
  unfold nonAscending
  by_cases h1 : a.toNat ≥ b.toNat <;> by_cases h2 : b.toNat ≥ a.toNat
  · have : a = b := LocationId.toNat_inj (by omega)
    subst this
    rfl
  · rw [if_pos h1, if_neg h2]
  · rw [if_neg h1, if_pos h2]
  · omega

/-- The member `update_either` reports whether `oldLoc` occurs. -/
theorem update_either_fst (p : LocationIdPair) (oldLoc newLoc : LocationId) :
    (p.update_either oldLoc newLoc).1 = p.occupies oldLoc := by
  unfold LocationIdPair.update_either LocationIdPair.occupies
  by_cases h0 : p.locations0 = oldLoc
  · rw [if_pos h0]
    split_ifs <;> simp [h0]
  · rw [if_neg h0]
    by_cases h1 : p.locations1 = oldLoc
    · rw [if_pos h1]
      split_ifs <;> simp [h1]
    · rw [if_neg h1]
      simp [h0, h1]

/-- The member `update_either` replaces one occurrence and keeps the non-ascending order. -/
theorem update_either_snd (p : LocationIdPair) (oldLoc newLoc : LocationId) :
    (p.update_either oldLoc newLoc).2 = p.replaceOne oldLoc newLoc := by
  unfold LocationIdPair.update_either LocationIdPair.replaceOne nonAscending
  by_cases h0 : p.locations0 = oldLoc
  · simp only [h0, if_true, ge_iff_le]
    split_ifs <;> rfl
  · by_cases h1 : p.locations1 = oldLoc
    · simp only [h0, h1, if_true, if_false, ge_iff_le]
      split_ifs <;> rfl
    · simp only [h0, h1, if_false]

/-- Taking a piece off the board and putting it on `dst` replaces `src` by `dst`. -/
theorem replaceOne_via_out (p : LocationIdPair) (src dst : LocationId)
    (hs : p.locations0.toNat ≥ p.locations1.toNat) (hsrc : src ≠ LocationId.Out)
    (ho : p.occupies src = true) :
    (p.replaceOne src LocationId.Out).replaceOne LocationId.Out dst = p.replaceOne src dst := by
  obtain ⟨a, b⟩ := p
  simp only [LocationIdPair.occupies, Bool.or_eq_true, beq_iff_eq] at ho
  simp only at hs
  have hs0 : src.toNat ≠ 0 := fun h => hsrc (LocationId.eq_out_iff.mpr h)
  by_cases h0 : a = src
  · subst h0
    by_cases hb : b = LocationId.Out
    · subst hb
      simp [LocationIdPair.replaceOne, nonAscending, LocationId.toNat]
    · have hb0 : b.toNat ≠ 0 := fun h => hb (LocationId.eq_out_iff.mpr h)
      have e1 : (LocationIdPair.mk a b).replaceOne a LocationId.Out
          = { locations0 := b, locations1 := .Out } := by
        simp only [LocationIdPair.replaceOne, nonAscending, if_true, LocationId.out_toNat]
        rw [if_neg (by omega)]
      rw [e1]
      simp only [LocationIdPair.replaceOne, hb, if_false, if_true]
      exact nonAscending_comm _ _
  · have h1 : b = src := by
      rcases ho with h | h
      · exact absurd h h0
      · exact h
    subst h1
    have ha0 : a.toNat ≠ 0 := by omega
    have ha : a ≠ LocationId.Out := fun h => ha0 (LocationId.eq_out_iff.mp h)
    have e1 : (LocationIdPair.mk a b).replaceOne b LocationId.Out
        = { locations0 := a, locations1 := .Out } := by
      simp only [LocationIdPair.replaceOne, nonAscending, h0, if_false, if_true,
        LocationId.out_toNat]
      rw [if_pos (by omega)]
    rw [e1]
    simp only [LocationIdPair.replaceOne, ha, h0, if_false, if_true]

/-- Undoing a replacement gives the pair back. -/
theorem replaceOne_undo (p : LocationIdPair) (src dst : LocationId)
    (hs : p.locations0.toNat ≥ p.locations1.toNat) (ho : p.occupies src = true) :
    (p.replaceOne src dst).replaceOne dst src = p := by
  obtain ⟨a, b⟩ := p
  simp only [LocationIdPair.occupies, Bool.or_eq_true, beq_iff_eq] at ho
  simp only at hs
  by_cases h0 : a = src
  · subst h0
    simp only [LocationIdPair.replaceOne, if_true, nonAscending]
    by_cases hc : dst.toNat ≥ b.toNat
    · simp only [hc, if_true, hs]
    · have hne : ¬ b = dst := fun e => hc (by rw [e])
      simp only [hc, if_false, hne, if_true]
      by_cases hba : b.toNat ≥ a.toNat
      · have : b = a := LocationId.toNat_inj (by omega)
        subst this
        simp
      · simp only [hba, if_false]
  · have h1 : b = src := by
      rcases ho with h | h
      · exact absurd h h0
      · exact h
    subst h1
    simp only [LocationIdPair.replaceOne, h0, if_false, if_true, nonAscending]
    by_cases hc : a.toNat ≥ dst.toNat
    · simp only [hc, if_true]
      by_cases had : a = dst
      · subst had
        simp only [if_true]
        by_cases hba : b.toNat ≥ a.toNat
        · have : b = a := LocationId.toNat_inj (by omega)
          subst this
          simp
        · simp only [hba, if_false]
      · simp only [had, if_false, if_true, hs]
    · simp only [hc, if_false, if_true]
      by_cases hba : b.toNat ≥ a.toNat
      · have : b = a := LocationId.toNat_inj (by omega)
        subst this
        simp
      · simp only [hba, if_false]

theorem replaceOne_occupies (p : LocationIdPair) (src dst : LocationId)
    (ho : p.occupies src = true) : (p.replaceOne src dst).occupies dst = true := by
  obtain ⟨a, b⟩ := p
  simp only [LocationIdPair.occupies, Bool.or_eq_true, beq_iff_eq] at ho
  unfold LocationIdPair.replaceOne nonAscending LocationIdPair.occupies
  by_cases h0 : a = src
  · simp only [h0, if_true]
    split_ifs <;> simp
  · have h1 : b = src := by
      rcases ho with h | h
      · exact absurd h h0
      · exact h
    simp only [h0, h1, if_true, if_false]
    split_ifs <;> simp

theorem replaceOne_sorted (p : LocationIdPair) (src dst : LocationId)
    (hs : p.locations0.toNat ≥ p.locations1.toNat) :
    (p.replaceOne src dst).locations0.toNat ≥ (p.replaceOne src dst).locations1.toNat := by
  unfold LocationIdPair.replaceOne nonAscending
  split_ifs <;> first | omega | (dsimp only; omega)

/-! ## Legal quads -/

theorem legal_iff (q : LocationIdQuad) :
    q.legal = true ↔
      q.locations0.toNat ≤ 9 ∧ q.locations1.toNat ≤ 9 ∧
      q.locations2.toNat ≤ 9 ∧ q.locations3.toNat ≤ 9 ∧
      q.locations1.toNat ≤ q.locations0.toNat ∧ q.locations3.toNat ≤ q.locations2.toNat ∧
      (q.locations0.toNat = 0 ∨
        (q.locations0.toNat ≠ q.locations1.toNat ∧ q.locations0.toNat ≠ q.locations2.toNat ∧
          q.locations0.toNat ≠ q.locations3.toNat)) ∧
      (q.locations1.toNat = 0 ∨
        (q.locations1.toNat ≠ q.locations2.toNat ∧ q.locations1.toNat ≠ q.locations3.toNat)) ∧
      (q.locations2.toNat = 0 ∨ q.locations2.toNat ≠ q.locations3.toNat) := by
  simp only [LocationIdQuad.legal, Bool.and_eq_true, Bool.or_eq_true, beq_iff_eq, bne_iff_ne,
    ne_eq, decide_eq_true_eq, LocationId.valid_iff, LocationId.eq_out_iff,
    ← LocationId.toNat_eq_iff, ge_iff_le]
  tauto

theorem legal_swap {a b c d : LocationId} (h : (LocationIdQuad.mk a b c d).legal = true) :
    (LocationIdQuad.mk c d a b).legal = true := by
  rw [legal_iff] at h ⊢
  dsimp only at h ⊢
  omega

/-- Replacing a location of the first pair by a free cell (or `Out`) keeps a quad legal. -/
theorem legal_replace_fst {a b c d : LocationId} (src dst : LocationId)
    (h : (LocationIdQuad.mk a b c d).legal = true) (hd : is_valid_locationId dst = true)
    (hfree : dst = LocationId.Out ∨ (dst ≠ a ∧ dst ≠ b ∧ dst ≠ c ∧ dst ≠ d)) :
    (LocationIdQuad.mk ((LocationIdPair.mk a b).replaceOne src dst).locations0
      ((LocationIdPair.mk a b).replaceOne src dst).locations1 c d).legal = true := by
  rw [legal_iff] at h ⊢
  dsimp only at h
  rw [LocationId.valid_iff] at hd
  simp only [ne_eq, ← LocationId.toNat_eq_iff, LocationId.out_toNat] at hfree
  dsimp only [LocationIdPair.replaceOne, nonAscending]
  split_ifs <;>
    simp only [← LocationId.toNat_eq_iff, LocationId.out_toNat] at * <;>
    omega

theorem legal_replace_snd {a b c d : LocationId} (src dst : LocationId)
    (h : (LocationIdQuad.mk a b c d).legal = true) (hd : is_valid_locationId dst = true)
    (hfree : dst = LocationId.Out ∨ (dst ≠ a ∧ dst ≠ b ∧ dst ≠ c ∧ dst ≠ d)) :
    (LocationIdQuad.mk a b ((LocationIdPair.mk c d).replaceOne src dst).locations0
      ((LocationIdPair.mk c d).replaceOne src dst).locations1).legal = true := by
  apply legal_swap
  apply legal_replace_fst src dst (legal_swap h) hd
  tauto

end gobb_analyzer

namespace gobb_analyzer

/-! ## Closed forms of the member functions -/

theorem PieceId.mem_PieceIds_iff {k : PieceId} :
    k ∈ PieceIds ↔ k ≠ PieceId.Invalid ∧ k ≠ PieceId.None := by
  cases k <;> simp [PieceIds]

theorem invert_invert (k : PieceId) :
    invert_playerId_of_pieceId (invert_playerId_of_pieceId k) = k := by
  cases k <;> rfl

theorem size_invert (k : PieceId) :
    pieceSize_of_pieceId (invert_playerId_of_pieceId k) = pieceSize_of_pieceId k := by
  cases k <;> rfl

namespace Position

theorem updatePiece_piecePairs (p : Position) (k : PieceId) (a b : LocationId) :
    (p.updatePiece k a b).piecePairs_ = pairsAfter p.piecePairs_ k a b := by
  funext j
  simp only [updatePiece, setPair_piecePairs, pairsAfter, update_either_snd]

@[simp] theorem updatePiece_id (p : Position) (k : PieceId) (a b : LocationId) :
    (p.updatePiece k a b).id_ = p.id_ := rfl

@[simp] theorem updatePiece_color (p : Position) (k : PieceId) (a b : LocationId) :
    (p.updatePiece k a b).activePlayerColor_ = p.activePlayerColor_ := rfl

theorem invert_player_piecePairs (p : Position) :
    p.invert_player.piecePairs_ = fun j => p.piecePairs_ (invert_playerId_of_pieceId j) := by
  funext j
  cases j <;>
    simp [invert_player, ActivePlayerPieceIds, OnBoardLocationIds, List.foldl, swapPairs,
      setPair_piecePairs, invert_playerId_of_pieceId]

@[simp] theorem invert_player_id (p : Position) : p.invert_player.id_ = p.id_ := by
  simp [invert_player, ActivePlayerPieceIds, OnBoardLocationIds, List.foldl, swapPairs]

@[simp] theorem invert_player_color (p : Position) :
    p.invert_player.activePlayerColor_ = invert_playerColor p.activePlayerColor_ := by
  simp [invert_player, ActivePlayerPieceIds, OnBoardLocationIds, List.foldl, swapPairs]

theorem invert_player_largest (p : Position) (loc : LocationId)
    (h : is_on_board_locationId loc = true) :
    p.invert_player.largestPieces_ loc = invert_playerId_of_pieceId (p.largestPieces_ loc) := by
  cases loc <;>
    simp_all [invert_player, ActivePlayerPieceIds, OnBoardLocationIds, List.foldl, swapPairs,
      setLargest_largest, is_on_board_locationId, LocationId.toNat]

@[simp] theorem update_id_piecePairs (T : QuadTables) (p : Position) :
    (p.update_id T).piecePairs_ = p.piecePairs_ := by
  unfold update_id
  simp only
  split_ifs <;> rfl

@[simp] theorem update_id_color (T : QuadTables) (p : Position) :
    (p.update_id T).activePlayerColor_ = p.activePlayerColor_ := by
  unfold update_id
  simp only
  split_ifs <;> rfl

@[simp] theorem update_id_largest (T : QuadTables) (p : Position) :
    (p.update_id T).largestPieces_ = p.largestPieces_ := by
  unfold update_id
  simp only
  split_ifs <;> rfl

theorem update_id_id (T : QuadTables) (p : Position) :
    (p.update_id T).id_ = computedId T p.activePlayerColor_ p.piecePairs_ := by
  unfold computedId update_id quadOf
  simp only
  split_ifs <;> rfl

end Position

/-! ## Legal piece pairs -/

theorem legalPairs_iff (pairs : PieceId → LocationIdPair) :
    legalPairs pairs ↔
      (LocationIdQuad.mk (pairs .ActivePlayerSmall).locations0
        (pairs .ActivePlayerSmall).locations1 (pairs .InactivePlayerSmall).locations0
        (pairs .InactivePlayerSmall).locations1).legal = true ∧
      (LocationIdQuad.mk (pairs .ActivePlayerMedium).locations0
        (pairs .ActivePlayerMedium).locations1 (pairs .InactivePlayerMedium).locations0
        (pairs .InactivePlayerMedium).locations1).legal = true ∧
      (LocationIdQuad.mk (pairs .ActivePlayerLarge).locations0
        (pairs .ActivePlayerLarge).locations1 (pairs .InactivePlayerLarge).locations0
        (pairs .InactivePlayerLarge).locations1).legal = true := by
  simp [legalPairs]

theorem legalPairs_invert {pairs : PieceId → LocationIdPair} (h : legalPairs pairs) :
    legalPairs (fun j => pairs (invert_playerId_of_pieceId j)) := by
  rw [legalPairs_iff] at h ⊢
  simp only [invert_playerId_of_pieceId]
  exact ⟨legal_swap h.1, legal_swap h.2.1, legal_swap h.2.2⟩

theorem legalPairs_sorted {pairs : PieceId → LocationIdPair} (h : legalPairs pairs)
    {k : PieceId} (hk : k ∈ PieceIds) :
    (pairs k).locations0.toNat ≥ (pairs k).locations1.toNat := by
  rw [legalPairs_iff] at h
  simp only [legal_iff] at h
  rw [PieceId.mem_PieceIds_iff] at hk
  cases k <;> simp_all

/-- Moving one piece to a cell that holds no piece of its size (or to `Out`)
keeps the three quads legal. -/
theorem legalPairs_pairsAfter {pairs : PieceId → LocationIdPair} (h : legalPairs pairs)
    {k : PieceId} (src dst : LocationId)
    (hd : is_valid_locationId dst = true)
    (hfree : dst = LocationId.Out ∨
      ((pairs k).occupies dst = false ∧
        (pairs (invert_playerId_of_pieceId k)).occupies dst = false)) :
    legalPairs (pairsAfter pairs k src dst) := by
  have hf : ∀ j, dst = LocationId.Out ∨
      ((pairs j).occupies dst = false ∧
        (pairs (invert_playerId_of_pieceId j)).occupies dst = false) →
      dst = LocationId.Out ∨ (dst ≠ (pairs j).locations0 ∧ dst ≠ (pairs j).locations1 ∧
        dst ≠ (pairs (invert_playerId_of_pieceId j)).locations0 ∧
        dst ≠ (pairs (invert_playerId_of_pieceId j)).locations1) := by
    intro j hj
    rcases hj with hj | ⟨h1, h2⟩
    · exact Or.inl hj
    · right
      simp only [LocationIdPair.occupies, Bool.or_eq_false_iff, beq_eq_false_iff_ne, ne_eq] at h1 h2
      exact ⟨fun e => h1.1 e.symm, fun e => h1.2 e.symm, fun e => h2.1 e.symm,
        fun e => h2.2 e.symm⟩
  have hfk := hf k hfree
  rw [legalPairs_iff] at h ⊢
  obtain ⟨hS, hM, hL⟩ := h
  cases k <;> simp only [pairsAfter, reduceCtorEq, if_false, if_true] <;>
    simp only [invert_playerId_of_pieceId] at hfk
  · exact ⟨hS, hM, hL⟩
  · exact ⟨hS, hM, hL⟩
  · exact ⟨legal_replace_fst src dst hS hd hfk, hM, hL⟩
  · exact ⟨legal_replace_snd src dst hS hd (by tauto), hM, hL⟩
  · exact ⟨hS, legal_replace_fst src dst hM hd hfk, hL⟩
  · exact ⟨hS, legal_replace_snd src dst hM hd (by tauto), hL⟩
  · exact ⟨hS, hM, legal_replace_fst src dst hL hd hfk⟩
  · exact ⟨hS, hM, legal_replace_snd src dst hL hd (by tauto)⟩

end gobb_analyzer

namespace gobb_analyzer

/-! ## Position ids -/

theorem PieceSetCombinationNums_eq : PieceSetCombinationNums = 2881473967 := by decide

theorem PositionIdNums_eq : PositionIdNums = 5762947934 := by decide

theorem QuadTables.Valid.map_lt {T : QuadTables} (hT : T.Valid) {q : LocationIdQuad}
    (hq : q.legal = true) : T.locationQuadMaps_ q.index < 1423 := by
  obtain ⟨i, hi, e⟩ := hT.quad_complete q hq
  rw [← e, hT.map_quad i hi]
  exact hi

theorem QuadTables.Valid.quad_map {T : QuadTables} (hT : T.Valid) {q : LocationIdQuad}
    (hq : q.legal = true) : T.pieceQuadIndexMaps_ (T.locationQuadMaps_ q.index) = q := by
  obtain ⟨i, hi, e⟩ := hT.quad_complete q hq
  rw [← e, hT.map_quad i hi]

namespace Position

/-- The three digits of a computed id. -/
theorem computedId_eq (T : QuadTables) (color : PlayerColor) (pairs : PieceId → LocationIdPair) :
    computedId T color pairs =
      (T.locationQuadMaps_ (LocationIdQuad.mk (pairs .ActivePlayerSmall).locations0
          (pairs .ActivePlayerSmall).locations1 (pairs .InactivePlayerSmall).locations0
          (pairs .InactivePlayerSmall).locations1).index +
        T.locationQuadMaps_ (LocationIdQuad.mk (pairs .ActivePlayerMedium).locations0
          (pairs .ActivePlayerMedium).locations1 (pairs .InactivePlayerMedium).locations0
          (pairs .InactivePlayerMedium).locations1).index * 1423 +
        T.locationQuadMaps_ (LocationIdQuad.mk (pairs .ActivePlayerLarge).locations0
          (pairs .ActivePlayerLarge).locations1 (pairs .InactivePlayerLarge).locations0
          (pairs .InactivePlayerLarge).locations1).index * 1423 * 1423 +
        (if color = PlayerColor.Orange then 0 else 2881473967)) % 2 ^ 64 := by
  unfold computedId update_id quadOf
  simp only [PieceQuadCombinationNums, PieceSetCombinationNums_eq]
  split_ifs <;> rfl

theorem computedId_lt {T : QuadTables} (hT : T.Valid) {color : PlayerColor}
    {pairs : PieceId → LocationIdPair} (h : legalPairs pairs) :
    computedId T color pairs < PositionIdNums := by
  rw [computedId_eq, PositionIdNums_eq]
  rw [legalPairs_iff] at h
  have h1 := hT.map_lt h.1
  have h2 := hT.map_lt h.2.1
  have h3 := hT.map_lt h.2.2
  rw [Nat.mod_eq_of_lt (by split_ifs <;> omega)]
  split_ifs <;> omega

theorem computedId_eq_encodeId {T : QuadTables} (hT : T.Valid) {color : PlayerColor}
    (hc : is_valid_playerColor color = true)
    {pairs : PieceId → LocationIdPair} (h : legalPairs pairs) :
    computedId T color pairs = encodeId T color pairs := by
  rw [computedId_eq]
  unfold encodeId
  rw [legalPairs_iff] at h
  have h1 := hT.map_lt h.1
  have h2 := hT.map_lt h.2.1
  have h3 := hT.map_lt h.2.2
  simp only
  rw [Nat.mod_eq_of_lt (by split_ifs <;> omega)]
  cases color
  · simp [is_valid_playerColor, PlayerColor.toNat] at hc
  · simp only [reduceCtorEq, if_true, if_false]
    omega
  · simp only [reduceCtorEq, if_true, if_false]
    omega

/-- Members of `Position(id)` for a valid id. -/
theorem ofId_id {T : QuadTables} {id : Nat} (h : id < PositionIdNums) :
    (ofId T id).id_ = id := by
  simp [ofId, assign, is_valid_positionId, h]

theorem ofId_color {T : QuadTables} {id : Nat} (h : id < PositionIdNums) :
    (ofId T id).activePlayerColor_ =
      if id < PieceSetCombinationNums then PlayerColor.Orange else PlayerColor.Blue := by
  simp [ofId, assign, is_valid_positionId, h]

theorem ofId_piecePairs {T : QuadTables} {id : Nat} (h : id < PositionIdNums) (k : PieceId) :
    (ofId T id).piecePairs_ k =
      let val := if id < PieceSetCombinationNums then id else id - PieceSetCombinationNums
      let s := T.pieceQuadIndexMaps_ (val % 1423)
      let m := T.pieceQuadIndexMaps_ (val / 1423 % 1423)
      let l := T.pieceQuadIndexMaps_ (val / 1423 / 1423)
      match k with
      | .ActivePlayerSmall => ⟨s.locations0, s.locations1⟩
      | .InactivePlayerSmall => ⟨s.locations2, s.locations3⟩
      | .ActivePlayerMedium => ⟨m.locations0, m.locations1⟩
      | .InactivePlayerMedium => ⟨m.locations2, m.locations3⟩
      | .ActivePlayerLarge => ⟨l.locations0, l.locations1⟩
      | .InactivePlayerLarge => ⟨l.locations2, l.locations3⟩
      | .None => ⟨.Out, .Out⟩
      | .Invalid => ⟨.Invalid, .Invalid⟩ := by
  cases k <;>
    simp [ofId, assign, is_valid_positionId, h, setPair_piecePairs, uninitialized,
      PieceQuadCombinationNums]

theorem ofId_invalid {T : QuadTables} {id : Nat} (h : ¬ id < PositionIdNums) :
    (ofId T id).id_ = InvalidPositionId := by
  simp [ofId, assign, is_valid_positionId, h]

theorem ofId_eq_update {T : QuadTables} {id : Nat} (h : id < PositionIdNums) :
    ∃ q : Position, ofId T id = q.update_largestPieces := by
  have hv : is_valid_positionId id = true := by simp [is_valid_positionId, h]
  unfold ofId assign
  rw [if_neg (by simp [hv])]
  exact ⟨_, rfl⟩

/-- The constructor from a valid id builds a valid position. -/
theorem ofId_wellformed {T : QuadTables} (hT : T.Valid) {id : Nat} (h : id < PositionIdNums) :
    (ofId T id).Wellformed T := by
  have hval : (if id < PieceSetCombinationNums then id else id - PieceSetCombinationNums)
      < 1423 * 1423 * 1423 := by
    rw [PositionIdNums_eq] at h
    rw [PieceSetCombinationNums_eq]
    split_ifs <;> omega
  generalize hv : (if id < PieceSetCombinationNums then id else id - PieceSetCombinationNums)
    = val at hval
  have hs' : val % 1423 < 1423 := Nat.mod_lt _ (by decide)
  have hm' : val / 1423 % 1423 < 1423 := Nat.mod_lt _ (by decide)
  have hl' : val / 1423 / 1423 < 1423 := by omega
  have hs : val % 1423 < PieceQuadCombinationNums := hs'
  have hm : val / 1423 % 1423 < PieceQuadCombinationNums := hm'
  have hl : val / 1423 / 1423 < PieceQuadCombinationNums := hl'
  have eS : (ofId T id).quadOf .ActivePlayerSmall .InactivePlayerSmall
      = T.pieceQuadIndexMaps_ (val % 1423) := by
    simp only [quadOf, ofId_piecePairs h, hv]
  have eM : (ofId T id).quadOf .ActivePlayerMedium .InactivePlayerMedium
      = T.pieceQuadIndexMaps_ (val / 1423 % 1423) := by
    simp only [quadOf, ofId_piecePairs h, hv]
  have eL : (ofId T id).quadOf .ActivePlayerLarge .InactivePlayerLarge
      = T.pieceQuadIndexMaps_ (val / 1423 / 1423) := by
    simp only [quadOf, ofId_piecePairs h, hv]
  refine ⟨?_, ?_, ?_, ?_, ?_, ?_, ?_⟩
  · rw [ofId_id h]
    simp [is_valid_positionId, h]
  · rw [ofId_color h]
    split_ifs <;> decide
  · rw [eS]
    exact hT.quad_legal _ hs
  · rw [eM]
    exact hT.quad_legal _ hm
  · rw [eL]
    exact hT.quad_legal _ hl
  · rw [ofId_id h]
    unfold update_id
    simp only [eS, eM, eL, hT.map_quad _ hs, hT.map_quad _ hm, hT.map_quad _ hl, ofId_color h,
      PieceQuadCombinationNums]
    rw [PositionIdNums_eq] at h
    rw [PieceSetCombinationNums_eq] at hv ⊢
    have hid : id < 2 ^ 64 := by omega
    clear hs hm hl
    have hsum : val % 1423 + val / 1423 % 1423 * 1423 + val / 1423 / 1423 * 1423 * 1423
        = val := by omega
    by_cases hc : id < 2881473967
    · rw [if_pos hc] at hv
      rw [if_pos (if_pos hc)]
      simp only
      rw [hsum, ← hv]
      exact Nat.mod_eq_of_lt hid
    · rw [if_neg hc] at hv
      rw [if_neg (by rw [if_neg hc]; decide)]
      simp only
      rw [hsum, ← hv]
      have : id - 2881473967 + 2881473967 = id := by omega
      rw [this]
      exact Nat.mod_eq_of_lt hid
  · intro loc hloc
    obtain ⟨q, e⟩ := @ofId_eq_update T id h
    rw [e]
    exact update_largestPieces_idem _ loc hloc

end Position

end gobb_analyzer

namespace gobb_analyzer

/-! ## Only the six piece kinds matter -/

theorem forall_PieceIds {P : PieceId → Prop} :
    (∀ k ∈ PieceIds, P k) ↔
      P .ActivePlayerSmall ∧ P .InactivePlayerSmall ∧ P .ActivePlayerMedium ∧
      P .InactivePlayerMedium ∧ P .ActivePlayerLarge ∧ P .InactivePlayerLarge := by
  simp [PieceIds]

theorem lastPlaced_congr {pairs pairs' : PieceId → LocationIdPair}
    (h : ∀ k ∈ PieceIds, pairs k = pairs' k) (loc : LocationId) :
    lastPlaced pairs loc = lastPlaced pairs' loc := by
  rw [forall_PieceIds] at h
  obtain ⟨h1, h2, h3, h4, h5, h6⟩ := h
  simp only [lastPlaced, h1, h2, h3, h4, h5, h6]

theorem topmostPiece_congr {pairs pairs' : PieceId → LocationIdPair}
    (h : ∀ k ∈ PieceIds, pairs k = pairs' k) (loc : LocationId) :
    topmostPiece pairs loc = topmostPiece pairs' loc := by
  rw [forall_PieceIds] at h
  obtain ⟨h1, h2, h3, h4, h5, h6⟩ := h
  simp only [topmostPiece, PieceIds, List.foldl, h1, h2, h3, h4, h5, h6]

theorem legalPairs_congr {pairs pairs' : PieceId → LocationIdPair}
    (h : ∀ k ∈ PieceIds, pairs k = pairs' k) (hl : legalPairs pairs) : legalPairs pairs' := by
  rw [forall_PieceIds] at h
  obtain ⟨h1, h2, h3, h4, h5, h6⟩ := h
  rw [legalPairs_iff] at hl ⊢
  rw [← h1, ← h2, ← h3, ← h4, ← h5, ← h6]
  exact hl

namespace Position

theorem computedId_congr (T : QuadTables) (color : PlayerColor)
    {pairs pairs' : PieceId → LocationIdPair} (h : ∀ k ∈ PieceIds, pairs k = pairs' k) :
    computedId T color pairs = computedId T color pairs' := by
  rw [forall_PieceIds] at h
  obtain ⟨h1, h2, h3, h4, h5, h6⟩ := h
  rw [computedId_eq, computedId_eq, h1, h2, h3, h4, h5, h6]

theorem Wellformed.id_computed {T : QuadTables} {p : Position} (hp : p.Wellformed T) :
    p.id_ = computedId T p.activePlayerColor_ p.piecePairs_ := by
  rw [← hp.id_eq, update_id_id]

theorem Wellformed.lt {T : QuadTables} {p : Position} (hp : p.Wellformed T) :
    p.id_ < PositionIdNums := by
  have := hp.valid
  simpa [is_valid_positionId] using this

theorem Wellformed.largest_lastPlaced {T : QuadTables} {p : Position} (hp : p.Wellformed T)
    {loc : LocationId} (h : is_on_board_locationId loc = true) :
    p.largestPieces_ loc = lastPlaced p.piecePairs_ loc := by
  rw [← hp.largest_eq loc h, update_largestPieces_largest _ _ h]

/-- A position whose derived members are up to date is valid. -/
theorem wellformed_of {T : QuadTables} (hT : T.Valid) {p : Position}
    (hc : is_valid_playerColor p.activePlayerColor_ = true)
    (hl : legalPairs p.piecePairs_)
    (hid : p.id_ = computedId T p.activePlayerColor_ p.piecePairs_)
    (hlg : ∀ loc, is_on_board_locationId loc = true →
      p.largestPieces_ loc = lastPlaced p.piecePairs_ loc) :
    p.Wellformed T := by
  have hl' := (legalPairs_iff _).mp hl
  refine ⟨?_, hc, hl'.1, hl'.2.1, hl'.2.2, ?_, ?_⟩
  · rw [hid]
    simpa [is_valid_positionId] using computedId_lt hT hl
  · rw [update_id_id, hid]
  · intro loc hloc
    rw [update_largestPieces_largest _ _ hloc, hlg loc hloc]

/-- A valid position is the one its id decodes to. -/
theorem Wellformed.decode_piecePairs {T : QuadTables} (hT : T.Valid) {p : Position}
    (hp : p.Wellformed T) : ∀ k ∈ PieceIds, (ofId T p.id_).piecePairs_ k = p.piecePairs_ k := by
  have hlt := hp.lt
  have hid := hp.id_computed
  rw [computedId_eq] at hid
  have hl := (legalPairs_iff _).mp hp.legal
  have h1 := hT.map_lt hl.1
  have h2 := hT.map_lt hl.2.1
  have h3 := hT.map_lt hl.2.2
  have q1 := hT.quad_map hl.1
  have q2 := hT.quad_map hl.2.1
  have q3 := hT.quad_map hl.2.2
  generalize T.locationQuadMaps_ (LocationIdQuad.mk (p.piecePairs_ .ActivePlayerSmall).locations0
          (p.piecePairs_ .ActivePlayerSmall).locations1
          (p.piecePairs_ .InactivePlayerSmall).locations0
          (p.piecePairs_ .InactivePlayerSmall).locations1).index = s at *
  generalize T.locationQuadMaps_ (LocationIdQuad.mk (p.piecePairs_ .ActivePlayerMedium).locations0
          (p.piecePairs_ .ActivePlayerMedium).locations1
          (p.piecePairs_ .InactivePlayerMedium).locations0
          (p.piecePairs_ .InactivePlayerMedium).locations1).index = m at *
  generalize T.locationQuadMaps_ (LocationIdQuad.mk (p.piecePairs_ .ActivePlayerLarge).locations0
          (p.piecePairs_ .ActivePlayerLarge).locations1
          (p.piecePairs_ .InactivePlayerLarge).locations0
          (p.piecePairs_ .InactivePlayerLarge).locations1).index = l at *
  rw [Nat.mod_eq_of_lt (by split_ifs <;> omega)] at hid
  have hval : (if p.id_ < PieceSetCombinationNums then p.id_
      else p.id_ - PieceSetCombinationNums) = s + m * 1423 + l * 1423 * 1423 := by
    rw [PieceSetCombinationNums_eq]
    split_ifs at hid ⊢ <;> omega
  have e1 : (s + m * 1423 + l * 1423 * 1423) % 1423 = s := by omega
  have e2 : (s + m * 1423 + l * 1423 * 1423) / 1423 % 1423 = m := by omega
  have e3 : (s + m * 1423 + l * 1423 * 1423) / 1423 / 1423 = l := by omega
  rw [forall_PieceIds]
  simp only [Position.ofId_piecePairs hlt, hval, e1, e2, e3, q1, q2, q3]
  refine ⟨?_, ?_, ?_, ?_, ?_, ?_⟩ <;> trivial

theorem Wellformed.decode_color {T : QuadTables} {p : Position}
    (hp : p.Wellformed T) (hT : T.Valid) :
    (ofId T p.id_).activePlayerColor_ = p.activePlayerColor_ := by
  have hlt := hp.lt
  have hid := hp.id_computed
  rw [computedId_eq] at hid
  have hl := (legalPairs_iff _).mp hp.legal
  have h1 := hT.map_lt hl.1
  have h2 := hT.map_lt hl.2.1
  have h3 := hT.map_lt hl.2.2
  rw [Nat.mod_eq_of_lt (by split_ifs <;> omega)] at hid
  rw [Position.ofId_color hlt, PieceSetCombinationNums_eq]
  have hc := hp.color
  generalize p.activePlayerColor_ = c at *
  cases c
  · simp [is_valid_playerColor, PlayerColor.toNat] at hc
  · simp only [if_true] at hid
    rw [if_pos (by omega)]
  · simp only [reduceCtorEq, if_false] at hid
    rw [if_neg (by omega)]

end Position

end gobb_analyzer

namespace gobb_analyzer

/-! ## Transformers -/

theorem transform_LocationId_valid {t : TransformerId} {a : LocationId}
    (ht : is_valid_TransformerId t = true) (ha : is_valid_locationId a = true) :
    is_valid_locationId (transform_LocationId t a) = true := by
  revert t a
  decide

theorem transform_LocationId_inj {t : TransformerId} {a b : LocationId}
    (ht : is_valid_TransformerId t = true) (ha : is_valid_locationId a = true)
    (hb : is_valid_locationId b = true)
    (h : transform_LocationId t a = transform_LocationId t b) : a = b := by
  revert t a b
  decide

theorem transform_LocationId_out {t : TransformerId} {a : LocationId}
    (ht : is_valid_TransformerId t = true) (ha : is_valid_locationId a = true) :
    transform_LocationId t a = LocationId.Out ↔ a = LocationId.Out := by
  revert t a
  decide

theorem transform_LocationId_unchange {a : LocationId} (ha : is_valid_locationId a = true) :
    transform_LocationId TransformerId.Unchange a = a := by
  revert a
  decide

theorem transform_LocationId_invert {t : TransformerId} {a : LocationId}
    (ht : is_valid_TransformerId t = true) (ha : is_valid_locationId a = true) :
    transform_LocationId (invert_Transformer t) (transform_LocationId t a) = a := by
  revert t a
  decide

theorem invert_Transformer_valid {t : TransformerId} (ht : is_valid_TransformerId t = true) :
    is_valid_TransformerId (invert_Transformer t) = true := by
  revert t
  decide

theorem transform_LocationId_comp {t1 t2 : TransformerId}
    (h1 : is_valid_TransformerId t1 = true) (h2 : is_valid_TransformerId t2 = true) :
    ∃ t3, is_valid_TransformerId t3 = true ∧ ∀ a,
      transform_LocationId t2 (transform_LocationId t1 a) = transform_LocationId t3 a := by
  revert t1 t2
  decide

theorem pair_transform_eq (p : LocationIdPair) (t : TransformerId) :
    p.transform t =
      nonAscending (transform_LocationId t p.locations0) (transform_LocationId t p.locations1) := by
  unfold LocationIdPair.transform nonAscending
  rfl

theorem nonAscending_transform (a b : LocationId) (t : TransformerId) :
    (nonAscending a b).transform t =
      nonAscending (transform_LocationId t a) (transform_LocationId t b) := by
  by_cases h : a.toNat ≥ b.toNat
  · have e : nonAscending a b = { locations0 := a, locations1 := b } := by
      unfold nonAscending
      rw [if_pos h]
    rw [e, pair_transform_eq]
  · have e : nonAscending a b = { locations0 := b, locations1 := a } := by
      unfold nonAscending
      rw [if_neg h]
    rw [e, pair_transform_eq]
    exact nonAscending_comm _ _

theorem nonAscending_of_sorted (p : LocationIdPair)
    (h : p.locations0.toNat ≥ p.locations1.toNat) :
    nonAscending p.locations0 p.locations1 = p := by
  unfold nonAscending
  rw [if_pos h]

/-- Transforming a pair by `t` and then by a second transformer. -/
theorem pair_transform_transform (p : LocationIdPair) (t t' : TransformerId) :
    (p.transform t).transform t' =
      nonAscending (transform_LocationId t' (transform_LocationId t p.locations0))
        (transform_LocationId t' (transform_LocationId t p.locations1)) := by
  rw [pair_transform_eq p t, nonAscending_transform]

theorem pair_transform_invert (p : LocationIdPair) {t : TransformerId}
    (ht : is_valid_TransformerId t = true)
    (h0 : is_valid_locationId p.locations0 = true) (h1 : is_valid_locationId p.locations1 = true)
    (hs : p.locations0.toNat ≥ p.locations1.toNat) :
    (p.transform t).transform (invert_Transformer t) = p := by
  rw [pair_transform_transform, transform_LocationId_invert ht h0,
    transform_LocationId_invert ht h1, nonAscending_of_sorted p hs]

theorem pair_transform_unchange (p : LocationIdPair)
    (h0 : is_valid_locationId p.locations0 = true) (h1 : is_valid_locationId p.locations1 = true)
    (hs : p.locations0.toNat ≥ p.locations1.toNat) :
    p.transform TransformerId.Unchange = p := by
  rw [pair_transform_eq, transform_LocationId_unchange h0, transform_LocationId_unchange h1,
    nonAscending_of_sorted p hs]

/-- A transformer maps a legal quad to a legal quad. -/
theorem legal_transform {a b c d : LocationId} {t : TransformerId}
    (ht : is_valid_TransformerId t = true) (h : (LocationIdQuad.mk a b c d).legal = true) :
    (LocationIdQuad.mk ((LocationIdPair.mk a b).transform t).locations0
      ((LocationIdPair.mk a b).transform t).locations1
      ((LocationIdPair.mk c d).transform t).locations0
      ((LocationIdPair.mk c d).transform t).locations1).legal = true := by
  rw [legal_iff] at h ⊢
  dsimp only at h
  have va : is_valid_locationId a = true := LocationId.valid_iff.mpr h.1
  have vb : is_valid_locationId b = true := LocationId.valid_iff.mpr h.2.1
  have vc : is_valid_locationId c = true := LocationId.valid_iff.mpr h.2.2.1
  have vd : is_valid_locationId d = true := LocationId.valid_iff.mpr h.2.2.2.1
  have wa := LocationId.valid_iff.mp (transform_LocationId_valid ht va)
  have wb := LocationId.valid_iff.mp (transform_LocationId_valid ht vb)
  have wc := LocationId.valid_iff.mp (transform_LocationId_valid ht vc)
  have wd := LocationId.valid_iff.mp (transform_LocationId_valid ht vd)
  have key : ∀ x y, is_valid_locationId x = true → is_valid_locationId y = true →
      ((transform_LocationId t x).toNat = (transform_LocationId t y).toNat ↔
        x.toNat = y.toNat) := by
    intro x y hx hy
    rw [LocationId.toNat_eq_iff, LocationId.toNat_eq_iff]
    exact ⟨transform_LocationId_inj ht hx hy, fun e => by rw [e]⟩
  have zero : ∀ x, is_valid_locationId x = true →
      ((transform_LocationId t x).toNat = 0 ↔ x.toNat = 0) := by
    intro x hx
    rw [← LocationId.eq_out_iff, ← LocationId.eq_out_iff]
    exact transform_LocationId_out ht hx
  have kab := key a b va vb
  have kac := key a c va vc
  have kad := key a d va vd
  have kbc := key b c vb vc
  have kbd := key b d vb vd
  have kcd := key c d vc vd
  have za := zero a va
  have zb := zero b vb
  have zc := zero c vc
  have zd := zero d vd
  clear key zero
  simp only [pair_transform_eq, nonAscending]
  split_ifs <;> dsimp only <;> omega

theorem legalPairs_transform {pairs : PieceId → LocationIdPair} (h : legalPairs pairs)
    {t : TransformerId} (ht : is_valid_TransformerId t = true) :
    legalPairs (fun k => (pairs k).transform t) := by
  rw [legalPairs_iff] at h ⊢
  exact ⟨legal_transform ht h.1, legal_transform ht h.2.1, legal_transform ht h.2.2⟩

theorem legalPairs_valid {pairs : PieceId → LocationIdPair} (h : legalPairs pairs)
    {k : PieceId} (hk : k ∈ PieceIds) :
    is_valid_locationId (pairs k).locations0 = true ∧
      is_valid_locationId (pairs k).locations1 = true := by
  rw [legalPairs_iff] at h
  simp only [legal_iff] at h
  rw [PieceId.mem_PieceIds_iff] at hk
  simp only [LocationId.valid_iff]
  cases k <;> simp_all

namespace Position

theorem transform_piecePairs {T : QuadTables} {p : Position} {t : TransformerId}
    (hv : is_valid_positionId p.id_ = true) (ht : is_valid_TransformerId t = true) :
    ∀ k ∈ PieceIds, (p.transform T t).piecePairs_ k = (p.piecePairs_ k).transform t := by
  rw [forall_PieceIds]
  simp [transform, hv, ht, PieceIds, List.foldl, setPair_piecePairs]

theorem transform_color {T : QuadTables} {p : Position} {t : TransformerId}
    (hv : is_valid_positionId p.id_ = true) (ht : is_valid_TransformerId t = true) :
    (p.transform T t).activePlayerColor_ = p.activePlayerColor_ := by
  simp [transform, hv, ht, PieceIds, List.foldl]

theorem transform_id {T : QuadTables} {p : Position} {t : TransformerId}
    (hv : is_valid_positionId p.id_ = true) (ht : is_valid_TransformerId t = true) :
    (p.transform T t).id_ =
      computedId T p.activePlayerColor_ (fun k => (p.piecePairs_ k).transform t) := by
  have e : (p.transform T t).id_ = computedId T (p.transform T t).activePlayerColor_
      (p.transform T t).piecePairs_ := by
    simp only [transform, hv, ht, not_true_eq_false, if_false]
    rw [update_id_id, update_id_color, update_id_piecePairs]
  rw [e, transform_color hv ht]
  exact computedId_congr T _ (transform_piecePairs hv ht)

theorem transform_largest {T : QuadTables} {p : Position} {t : TransformerId}
    (hv : is_valid_positionId p.id_ = true) (ht : is_valid_TransformerId t = true)
    {loc : LocationId} (h : is_on_board_locationId loc = true) :
    (p.transform T t).largestPieces_ loc = lastPlaced (p.transform T t).piecePairs_ loc := by
  simp only [transform, hv, ht, not_true_eq_false, if_false, update_id_largest,
    update_id_piecePairs]
  rw [update_largestPieces_largest _ _ h, update_largestPieces_piecePairs]

/-- Transforming a valid position gives a valid position. -/
theorem transform_wellformed {T : QuadTables} (hT : T.Valid) {p : Position}
    (hp : p.Wellformed T) {t : TransformerId} (ht : is_valid_TransformerId t = true) :
    (p.transform T t).Wellformed T := by
  have hv := hp.valid
  have hl : legalPairs (p.transform T t).piecePairs_ :=
    legalPairs_congr (fun k hk => (transform_piecePairs hv ht k hk).symm)
      (legalPairs_transform hp.legal ht)
  apply wellformed_of hT
  · rw [transform_color hv ht]
    exact hp.color
  · exact hl
  · rw [transform_id hv ht, transform_color hv ht]
    exact computedId_congr T _ (fun k hk => (transform_piecePairs hv ht k hk).symm)
  · intro loc hloc
    exact transform_largest hv ht hloc

end Position

end gobb_analyzer

namespace gobb_analyzer

/-! ## Moves -/

theorem LocationId.valid_of_on_board {a : LocationId} (h : is_on_board_locationId a = true) :
    is_valid_locationId a = true := by
  rw [LocationId.on_board_iff] at h
  rw [LocationId.valid_iff]
  exact h.2

theorem LocationId.valid_cases {a : LocationId} :
    is_valid_locationId a = true ↔ a = LocationId.Out ∨ is_on_board_locationId a = true := by
  cases a <;> simp [is_valid_locationId, is_on_board_locationId, LocationId.toNat]

theorem owner_cases {k : PieceId} :
    (playerId_of_pieceId k = PlayerId.Active ∨ playerId_of_pieceId k = PlayerId.Inactive) →
      k ∈ PieceIds := by
  cases k <;> simp [playerId_of_pieceId, PieceIds]

theorem owner_invert (k : PieceId) :
    playerId_of_pieceId (invert_playerId_of_pieceId k) = PlayerId.Active ↔
      playerId_of_pieceId k = PlayerId.Inactive := by
  cases k <;> simp [playerId_of_pieceId, invert_playerId_of_pieceId]

theorem owner_invert' (k : PieceId) :
    playerId_of_pieceId (invert_playerId_of_pieceId k) = PlayerId.Inactive ↔
      playerId_of_pieceId k = PlayerId.Active := by
  cases k <;> simp [playerId_of_pieceId, invert_playerId_of_pieceId]

theorem invert_playerColor_valid {c : PlayerColor} (h : is_valid_playerColor c = true) :
    is_valid_playerColor (invert_playerColor c) = true := by
  cases c <;> simp_all [is_valid_playerColor, invert_playerColor, PlayerColor.toNat]

theorem invert_playerColor_invert {c : PlayerColor} :
    invert_playerColor (invert_playerColor c) = c := by
  cases c <;> simp [invert_playerColor]

/-- With no two same-size pieces on one cell, swapping the roles of all pairs
inverts the owner of the piece written last. -/
theorem lastPlaced_invert {pairs : PieceId → LocationIdPair} (h : legalPairs pairs)
    {loc : LocationId} (hl : loc ≠ LocationId.Out) :
    lastPlaced (fun j => pairs (invert_playerId_of_pieceId j)) loc =
      invert_playerId_of_pieceId (lastPlaced pairs loc) := by
  obtain ⟨hs, hm, hL⟩ := legalPairs_no_overlap h hl
  unfold lastPlaced
  simp only [invert_playerId_of_pieceId]
  by_cases h1 : (pairs .ActivePlayerSmall).occupies loc = true <;>
  by_cases h2 : (pairs .InactivePlayerSmall).occupies loc = true <;>
  by_cases h3 : (pairs .ActivePlayerMedium).occupies loc = true <;>
  by_cases h4 : (pairs .InactivePlayerMedium).occupies loc = true <;>
  by_cases h5 : (pairs .ActivePlayerLarge).occupies loc = true <;>
  by_cases h6 : (pairs .InactivePlayerLarge).occupies loc = true <;>
  simp_all [invert_playerId_of_pieceId]

/-- A located piece is not larger than the piece written last on its cell. -/
theorem lastPlaced_size_ge {pairs : PieceId → LocationIdPair} {loc : LocationId} {j : PieceId}
    (hj : j ∈ PieceIds) (ho : (pairs j).occupies loc = true) :
    (pieceSize_of_pieceId j).toNat ≤ (pieceSize_of_pieceId (lastPlaced pairs loc)).toNat := by
  rw [PieceId.mem_PieceIds_iff] at hj
  unfold lastPlaced
  split_ifs <;> cases j <;> simp_all [pieceSize_of_pieceId, PieceSize.toNat]

/-- When the piece written last on a cell is smaller than `k`, no piece of
the size of `k` is on that cell. -/
theorem free_of_lastPlaced_lt {pairs : PieceId → LocationIdPair} {loc : LocationId}
    {k : PieceId} (hk : k ∈ PieceIds)
    (h : (pieceSize_of_pieceId (lastPlaced pairs loc)).toNat < (pieceSize_of_pieceId k).toNat) :
    (pairs k).occupies loc = false ∧
      (pairs (invert_playerId_of_pieceId k)).occupies loc = false := by
  have hk' : invert_playerId_of_pieceId k ∈ PieceIds := by
    rw [PieceId.mem_PieceIds_iff] at hk ⊢
    cases k <;> simp_all [invert_playerId_of_pieceId]
  constructor
  · by_contra hc
    have := lastPlaced_size_ge hk (Bool.eq_true_of_not_eq_false hc)
    omega
  · by_contra hc
    have := lastPlaced_size_ge hk' (Bool.eq_true_of_not_eq_false hc)
    rw [size_invert] at this
    omega

namespace Position

theorem putAndFinish_status (T : QuadTables) (pos : Position) (piece : PieceId)
    (dst : LocationId) : (putAndFinish T pos piece dst).status = MoveResultStatus.Success := rfl

theorem putAndFinish_piecePairs (T : QuadTables) (pos : Position) (piece : PieceId)
    (dst : LocationId) :
    (putAndFinish T pos piece dst).position.piecePairs_ =
      fun j => pairsAfter pos.piecePairs_ piece LocationId.Out dst
        (invert_playerId_of_pieceId j) := by
  simp only [putAndFinish, update_id_piecePairs, invert_player_piecePairs,
    update_largestPieces_piecePairs, updatePiece_piecePairs]

theorem putAndFinish_color (T : QuadTables) (pos : Position) (piece : PieceId)
    (dst : LocationId) :
    (putAndFinish T pos piece dst).position.activePlayerColor_ =
      invert_playerColor pos.activePlayerColor_ := by
  simp only [putAndFinish, update_id_color, invert_player_color,
    update_largestPieces_color, updatePiece_color]

theorem putAndFinish_id (T : QuadTables) (pos : Position) (piece : PieceId)
    (dst : LocationId) :
    (putAndFinish T pos piece dst).position.id_ =
      computedId T (putAndFinish T pos piece dst).position.activePlayerColor_
        (putAndFinish T pos piece dst).position.piecePairs_ := by
  simp only [putAndFinish, update_id_id, update_id_color, update_id_piecePairs]

theorem putAndFinish_largest (T : QuadTables) (pos : Position) (piece : PieceId)
    (dst : LocationId) {loc : LocationId} (h : is_on_board_locationId loc = true) :
    (putAndFinish T pos piece dst).position.largestPieces_ loc =
      invert_playerId_of_pieceId
        (lastPlaced (pairsAfter pos.piecePairs_ piece LocationId.Out dst) loc) := by
  simp only [putAndFinish, update_id_largest]
  rw [invert_player_largest _ _ h, update_largestPieces_largest _ _ h, updatePiece_piecePairs]

/-- Putting the piece on a cell free of its size, from a state with legal
pairs, ends in a valid position. -/
theorem putAndFinish_wellformed {T : QuadTables} (hT : T.Valid) {pos : Position}
    {piece : PieceId} {dst : LocationId}
    (hc : is_valid_playerColor pos.activePlayerColor_ = true)
    (hl : legalPairs (pairsAfter pos.piecePairs_ piece LocationId.Out dst)) :
    (putAndFinish T pos piece dst).position.Wellformed T := by
  apply wellformed_of hT
  · rw [putAndFinish_color]
    exact invert_playerColor_valid hc
  · rw [putAndFinish_piecePairs]
    exact legalPairs_invert hl
  · exact putAndFinish_id T pos piece dst
  · intro loc hloc
    rw [putAndFinish_largest T pos piece dst hloc, putAndFinish_piecePairs,
      lastPlaced_invert hl (LocationId.ne_out_of_on_board hloc)]

end Position

end gobb_analyzer

namespace gobb_analyzer

namespace Position

/-! ## The checks of `move` and `move_back` -/

theorem locations_of_piece_eq {p : Position} {piece : PieceId} (h : piece ∈ PieceIds) :
    p.locations_of_piece piece = p.piecePairs_ piece := by
  rw [PieceId.mem_PieceIds_iff] at h
  cases piece <;> simp_all [locations_of_piece, is_valid_pieceId, PieceId.toNat]

theorem largetst_piece_at_location_eq {p : Position} {loc : LocationId}
    (h : is_on_board_locationId loc = true) :
    p.largetst_piece_at_location loc = p.largestPieces_ loc := by
  simp [largetst_piece_at_location, h]

/-- The preconditions of a forward move are the checks `move` passes. -/
theorem movePreconditions_iff (p : Position) (piece : PieceId) (src dst : LocationId) :
    p.movePreconditions piece src dst ↔
      (is_valid_positionId p.id_ = true ∧
        playerId_of_pieceId piece = PlayerId.Active ∧
        ¬ ((p.piecePairs_ piece).locations0 ≠ src ∧ (p.piecePairs_ piece).locations1 ≠ src) ∧
        is_valid_locationId src = true ∧
        is_on_board_locationId dst = true ∧
        ¬ (src ≠ LocationId.Out ∧ p.largestPieces_ src ≠ piece) ∧
        ¬ ((pieceSize_of_pieceId (p.largestPieces_ dst)).toNat ≥
          (pieceSize_of_pieceId piece).toNat) ∧
        ¬ src = dst) := by
  unfold movePreconditions
  by_cases h2 : playerId_of_pieceId piece = PlayerId.Active
  swap
  · simp [h2]
  have hk : piece ∈ PieceIds := owner_cases (Or.inl h2)
  by_cases h5 : is_on_board_locationId dst = true
  swap
  · simp [h5]
  rw [locations_of_piece_eq hk, largetst_piece_at_location_eq h5]
  by_cases h4 : is_valid_locationId src = true
  swap
  · have : ¬ (src = LocationId.Out ∨ is_on_board_locationId src = true) := by
      rw [← LocationId.valid_cases]; exact h4
    simp [h4, this]
  have h4' := LocationId.valid_cases.mp h4
  have e6 : (is_on_board_locationId src = true → p.largetst_piece_at_location src = piece) ↔
      ¬ (src ≠ LocationId.Out ∧ p.largestPieces_ src ≠ piece) := by
    rcases h4' with h | h
    · subst h
      simp [is_on_board_locationId, LocationId.toNat]
    · have hne := LocationId.ne_out_of_on_board h
      rw [largetst_piece_at_location_eq h]
      simp [h, hne]
  rw [e6]
  simp only [is_valid, LocationIdPair.occupies, Bool.or_eq_true, beq_iff_eq, h2, h4, h4', h5,
    true_and, ne_eq, not_and_or, not_not, not_le, ge_iff_le]

/-- The preconditions of a retrograde move are the checks `move_back` passes. -/
theorem moveBackPreconditions_iff (p : Position) (piece : PieceId) (src dst : LocationId) :
    p.moveBackPreconditions piece src dst ↔
      (is_valid_positionId p.id_ = true ∧
        playerId_of_pieceId piece = PlayerId.Inactive ∧
        ¬ ((p.piecePairs_ piece).locations0 ≠ src ∧ (p.piecePairs_ piece).locations1 ≠ src) ∧
        is_on_board_locationId src = true ∧
        is_valid_locationId dst = true ∧
        ¬ (p.largestPieces_ src ≠ piece) ∧
        ¬ (dst ≠ LocationId.Out ∧
          (pieceSize_of_pieceId (p.largestPieces_ dst)).toNat ≥
            (pieceSize_of_pieceId piece).toNat) ∧
        ¬ src = dst) := by
  unfold moveBackPreconditions
  by_cases h2 : playerId_of_pieceId piece = PlayerId.Inactive
  swap
  · simp [h2]
  have hk : piece ∈ PieceIds := owner_cases (Or.inr h2)
  by_cases h4 : is_on_board_locationId src = true
  swap
  · simp [h4]
  rw [locations_of_piece_eq hk, largetst_piece_at_location_eq h4]
  by_cases h5 : is_valid_locationId dst = true
  swap
  · have : ¬ (dst = LocationId.Out ∨ is_on_board_locationId dst = true) := by
      rw [← LocationId.valid_cases]; exact h5
    simp [h5, this]
  have h5' := LocationId.valid_cases.mp h5
  have e7 : (is_on_board_locationId dst = true →
      (pieceSize_of_pieceId (p.largetst_piece_at_location dst)).toNat <
        (pieceSize_of_pieceId piece).toNat) ↔
      ¬ (dst ≠ LocationId.Out ∧
          (pieceSize_of_pieceId (p.largestPieces_ dst)).toNat ≥
            (pieceSize_of_pieceId piece).toNat) := by
    rcases h5' with h | h
    · subst h
      simp [is_on_board_locationId, LocationId.toNat]
    · have hne := LocationId.ne_out_of_on_board h
      rw [largetst_piece_at_location_eq h]
      simp [h, hne]
  rw [e7]
  simp only [is_valid, LocationIdPair.occupies, Bool.or_eq_true, beq_iff_eq, h2, h4, h5, h5',
    true_and, ne_eq, not_and_or, not_not, not_le, ge_iff_le]

/-- What `move` does once its checks pass. -/
theorem move_of_pre {T : QuadTables} {p : Position} {piece : PieceId} {src dst : LocationId}
    (h : p.movePreconditions piece src dst) :
    p.move T piece src dst =
      if src ≠ LocationId.Out then
        if ((p.updatePiece piece src LocationId.Out).update_largestPieces).is_winner
            PlayerId.Inactive = true then
          { status := MoveResultStatus.Lost,
            position := (p.updatePiece piece src LocationId.Out).update_largestPieces }
        else
          putAndFinish T (p.updatePiece piece src LocationId.Out).update_largestPieces piece dst
      else putAndFinish T p piece dst := by
  rw [movePreconditions_iff] at h
  obtain ⟨h1, h2, h3, h4, h5, h6, h7, h8⟩ := h
  unfold move
  simp only
  rw [if_neg (by simpa using h1), if_neg (by simpa using h2), if_neg h3,
    if_neg (by simpa using h4), if_neg (by simpa using h5), if_neg h6, if_neg h7, if_neg h8]

theorem move_of_not_pre {T : QuadTables} {p : Position} {piece : PieceId} {src dst : LocationId}
    (h : ¬ p.movePreconditions piece src dst) :
    (p.move T piece src dst).status = MoveResultStatus.Invalid := by
  rw [movePreconditions_iff] at h
  unfold move
  simp only
  by_cases c1 : ¬ is_valid_positionId p.id_ = true
  · rw [if_pos c1]
  rw [if_neg c1]
  by_cases c2 : playerId_of_pieceId piece ≠ PlayerId.Active
  · rw [if_pos c2]
  rw [if_neg c2]
  by_cases c3 : (p.piecePairs_ piece).locations0 ≠ src ∧ (p.piecePairs_ piece).locations1 ≠ src
  · rw [if_pos c3]
  rw [if_neg c3]
  by_cases c4 : ¬ is_valid_locationId src = true
  · rw [if_pos c4]
  rw [if_neg c4]
  by_cases c5 : ¬ is_on_board_locationId dst = true
  · rw [if_pos c5]
  rw [if_neg c5]
  by_cases c6 : src ≠ LocationId.Out ∧ p.largestPieces_ src ≠ piece
  · rw [if_pos c6]
  rw [if_neg c6]
  by_cases c7 : (pieceSize_of_pieceId (p.largestPieces_ dst)).toNat ≥
      (pieceSize_of_pieceId piece).toNat
  · rw [if_pos c7]
  rw [if_neg c7]
  by_cases c8 : src = dst
  · rw [if_pos c8]
  exact absurd ⟨not_not.mp c1, not_not.mp c2, c3, not_not.mp c4, not_not.mp c5, c6, c7, c8⟩ h

/-- What `move_back` does once its checks pass. -/
theorem move_back_of_pre {T : QuadTables} {p : Position} {piece : PieceId}
    {src dst : LocationId} (h : p.moveBackPreconditions piece src dst) :
    p.move_back T piece src dst =
      if ((p.updatePiece piece src LocationId.Out).update_largestPieces).is_winner
          PlayerId.Active = true then
        { status := MoveResultStatus.Lost,
          position := (p.updatePiece piece src LocationId.Out).update_largestPieces }
      else
        putAndFinish T (p.updatePiece piece src LocationId.Out).update_largestPieces piece dst := by
  rw [moveBackPreconditions_iff] at h
  obtain ⟨h1, h2, h3, h4, h5, h6, h7, h8⟩ := h
  unfold move_back
  simp only
  rw [if_neg (by simpa using h1), if_neg (by simpa using h2), if_neg h3,
    if_neg (by simpa using h4), if_neg (by simpa using h5), if_neg h6, if_neg h7, if_neg h8]

theorem move_back_of_not_pre {T : QuadTables} {p : Position} {piece : PieceId}
    {src dst : LocationId} (h : ¬ p.moveBackPreconditions piece src dst) :
    (p.move_back T piece src dst).status = MoveResultStatus.Invalid := by
  rw [moveBackPreconditions_iff] at h
  unfold move_back
  simp only
  by_cases c1 : ¬ is_valid_positionId p.id_ = true
  · rw [if_pos c1]
  rw [if_neg c1]
  by_cases c2 : playerId_of_pieceId piece ≠ PlayerId.Inactive
  · rw [if_pos c2]
  rw [if_neg c2]
  by_cases c3 : (p.piecePairs_ piece).locations0 ≠ src ∧ (p.piecePairs_ piece).locations1 ≠ src
  · rw [if_pos c3]
  rw [if_neg c3]
  by_cases c4 : ¬ is_on_board_locationId src = true
  · rw [if_pos c4]
  rw [if_neg c4]
  by_cases c5 : ¬ is_valid_locationId dst = true
  · rw [if_pos c5]
  rw [if_neg c5]
  by_cases c6 : p.largestPieces_ src ≠ piece
  · rw [if_pos c6]
  rw [if_neg c6]
  by_cases c7 : dst ≠ LocationId.Out ∧
      (pieceSize_of_pieceId (p.largestPieces_ dst)).toNat ≥ (pieceSize_of_pieceId piece).toNat
  · rw [if_pos c7]
  rw [if_neg c7]
  by_cases c8 : src = dst
  · rw [if_pos c8]
  exact absurd ⟨not_not.mp c1, not_not.mp c2, c3, not_not.mp c4, not_not.mp c5, c6, c7, c8⟩ h

end Position

end gobb_analyzer

namespace gobb_analyzer

/-! ## Picking a piece up and putting it down -/

theorem invert_ne {k : PieceId} (hk : k ∈ PieceIds) : invert_playerId_of_pieceId k ≠ k := by
  rw [PieceId.mem_PieceIds_iff] at hk
  cases k <;> simp_all [invert_playerId_of_pieceId]

theorem invert_mem {k : PieceId} (hk : k ∈ PieceIds) : invert_playerId_of_pieceId k ∈ PieceIds := by
  rw [PieceId.mem_PieceIds_iff] at hk ⊢
  cases k <;> simp_all [invert_playerId_of_pieceId]

theorem replaceOne_occupies_sub (p : LocationIdPair) (src x loc : LocationId)
    (h : (p.replaceOne src x).occupies loc = true) : loc = x ∨ p.occupies loc = true := by
  obtain ⟨a, b⟩ := p
  revert h
  unfold LocationIdPair.replaceOne nonAscending LocationIdPair.occupies
  simp only [Bool.or_eq_true, beq_iff_eq]
  split_ifs <;> dsimp only <;> intro h <;> rcases h with h | h <;> simp_all

theorem pairsAfter_self (pairs : PieceId → LocationIdPair) (k : PieceId) (src dst : LocationId) :
    pairsAfter pairs k src dst k = (pairs k).replaceOne src dst := by
  simp [pairsAfter]

theorem pairsAfter_other (pairs : PieceId → LocationIdPair) {k j : PieceId} (src dst : LocationId)
    (h : j ≠ k) : pairsAfter pairs k src dst j = pairs j := by
  simp [pairsAfter, h]

/-- Taking the piece off the board keeps the quads legal. -/
theorem legalPairs_picked {pairs : PieceId → LocationIdPair} (h : legalPairs pairs)
    (k : PieceId) (src : LocationId) : legalPairs (pairsAfter pairs k src LocationId.Out) :=
  legalPairs_pairsAfter h src LocationId.Out (by decide) (Or.inl rfl)

theorem pairsAfter_via_out {pairs : PieceId → LocationIdPair} (h : legalPairs pairs)
    {k : PieceId} (hk : k ∈ PieceIds) {src : LocationId} (dst : LocationId)
    (hsrc : src ≠ LocationId.Out) (ho : (pairs k).occupies src = true) :
    pairsAfter (pairsAfter pairs k src LocationId.Out) k LocationId.Out dst =
      pairsAfter pairs k src dst := by
  funext j
  by_cases hj : j = k
  · subst hj
    rw [pairsAfter_self, pairsAfter_self, pairsAfter_self]
    exact replaceOne_via_out _ _ _ (legalPairs_sorted h hk) hsrc ho
  · rw [pairsAfter_other _ _ _ hj, pairsAfter_other _ _ _ hj, pairsAfter_other _ _ _ hj]

theorem replaceOne_same (p : LocationIdPair) (a : LocationId)
    (hs : p.locations0.toNat ≥ p.locations1.toNat) : p.replaceOne a a = p := by
  obtain ⟨x, y⟩ := p
  dsimp only at hs
  unfold LocationIdPair.replaceOne nonAscending
  by_cases h0 : x = a
  · subst h0
    simp [hs]
  · by_cases h1 : y = a
    · subst h1
      simp [h0, hs]
    · simp [h0, h1]

theorem pairsAfter_same {pairs : PieceId → LocationIdPair} (h : legalPairs pairs)
    {k : PieceId} (hk : k ∈ PieceIds) (a : LocationId) :
    pairsAfter pairs k a a = pairs := by
  funext j
  by_cases hj : j = k
  · subst hj
    rw [pairsAfter_self]
    exact replaceOne_same _ _ (legalPairs_sorted h hk)
  · rw [pairsAfter_other _ _ _ hj]

/-- The cell `dst` holds no piece of the size of `k` once the piece is
picked up, when the piece written last at `dst` was smaller than `k`. -/
theorem free_after_pick {pairs : PieceId → LocationIdPair} {k : PieceId} (hk : k ∈ PieceIds)
    {src dst : LocationId} (hd : dst ≠ LocationId.Out)
    (h : (pieceSize_of_pieceId (lastPlaced pairs dst)).toNat < (pieceSize_of_pieceId k).toNat) :
    (pairsAfter pairs k src LocationId.Out k).occupies dst = false ∧
      (pairsAfter pairs k src LocationId.Out (invert_playerId_of_pieceId k)).occupies dst
        = false := by
  obtain ⟨h1, h2⟩ := free_of_lastPlaced_lt hk h
  constructor
  · rw [pairsAfter_self]
    by_contra hc
    rcases replaceOne_occupies_sub _ _ _ _ (Bool.eq_true_of_not_eq_false hc) with e | e
    · exact hd e
    · rw [h1] at e
      exact Bool.false_ne_true e
  · rw [pairsAfter_other _ _ _ (invert_ne hk)]
    exact h2

namespace Position

theorem picked_piecePairs (p : Position) (k : PieceId) (src : LocationId) :
    ((p.updatePiece k src LocationId.Out).update_largestPieces).piecePairs_ =
      pairsAfter p.piecePairs_ k src LocationId.Out := by
  rw [update_largestPieces_piecePairs, updatePiece_piecePairs]

theorem picked_id (p : Position) (k : PieceId) (src : LocationId) :
    ((p.updatePiece k src LocationId.Out).update_largestPieces).id_ = p.id_ := by
  rw [update_largestPieces_id, updatePiece_id]

theorem picked_color (p : Position) (k : PieceId) (src : LocationId) :
    ((p.updatePiece k src LocationId.Out).update_largestPieces).activePlayerColor_ =
      p.activePlayerColor_ := by
  rw [update_largestPieces_color, updatePiece_color]

theorem picked_largest (p : Position) (k : PieceId) (src : LocationId) {loc : LocationId}
    (h : is_on_board_locationId loc = true) :
    ((p.updatePiece k src LocationId.Out).update_largestPieces).largestPieces_ loc =
      lastPlaced (pairsAfter p.piecePairs_ k src LocationId.Out) loc := by
  rw [update_largestPieces_largest _ _ h, updatePiece_piecePairs]

theorem lines_on_board : ∀ line ∈ lines,
    is_on_board_locationId line.1 = true ∧ is_on_board_locationId line.2.1 = true ∧
      is_on_board_locationId line.2.2 = true := by
  intro line hm
  simp only [lines, List.mem_cons, List.mem_singleton, List.not_mem_nil, or_false] at hm
  rcases hm with rfl | rfl | rfl | rfl | rfl | rfl | rfl | rfl <;> decide

theorem is_winner_iff (q : Position) (player : PlayerId) :
    q.is_winner player = true ↔
      is_valid_positionId q.id_ = true ∧ ∃ line ∈ lines,
        playerId_of_pieceId (q.largestPieces_ line.1) = player ∧
        playerId_of_pieceId (q.largestPieces_ line.2.1) = player ∧
        playerId_of_pieceId (q.largestPieces_ line.2.2) = player := by
  unfold is_winner
  by_cases hv : is_valid_positionId q.id_ = true
  · rw [if_neg (by simpa using hv)]
    simp only [hv, true_and, List.any_eq_true, Bool.and_eq_true, decide_eq_true_eq, and_assoc]
  · rw [if_pos hv]
    simp [hv]

/-- With legal pairs and an up-to-date `largestPieces_`, `is_winner` looks at
the topmost pieces. -/
theorem is_winner_iff_hasLine {q : Position} (hv : is_valid_positionId q.id_ = true)
    (hl : legalPairs q.piecePairs_)
    (hlg : ∀ loc, is_on_board_locationId loc = true →
      q.largestPieces_ loc = lastPlaced q.piecePairs_ loc) (player : PlayerId) :
    q.is_winner player = true ↔ hasLine q.piecePairs_ player := by
  rw [is_winner_iff]
  simp only [hv, true_and, hasLine]
  constructor
  · rintro ⟨line, hm, h⟩
    obtain ⟨b1, b2, b3⟩ := lines_on_board line hm
    refine ⟨line, hm, ?_⟩
    rw [← lastPlaced_eq_topmostPiece hl (LocationId.ne_out_of_on_board b1),
      ← lastPlaced_eq_topmostPiece hl (LocationId.ne_out_of_on_board b2),
      ← lastPlaced_eq_topmostPiece hl (LocationId.ne_out_of_on_board b3),
      ← hlg _ b1, ← hlg _ b2, ← hlg _ b3]
    exact h
  · rintro ⟨line, hm, h⟩
    obtain ⟨b1, b2, b3⟩ := lines_on_board line hm
    refine ⟨line, hm, ?_⟩
    rw [← lastPlaced_eq_topmostPiece hl (LocationId.ne_out_of_on_board b1),
      ← lastPlaced_eq_topmostPiece hl (LocationId.ne_out_of_on_board b2),
      ← lastPlaced_eq_topmostPiece hl (LocationId.ne_out_of_on_board b3),
      ← hlg _ b1, ← hlg _ b2, ← hlg _ b3] at h
    exact h

theorem Wellformed.winner_iff {T : QuadTables} {p : Position} (hp : p.Wellformed T)
    (player : PlayerId) : p.is_winner player = true ↔ hasLine p.piecePairs_ player :=
  is_winner_iff_hasLine hp.valid hp.legal (fun _ h => hp.largest_lastPlaced h) player

/-- After the pick-up of a valid position, `is_winner` looks at the topmost pieces. -/
theorem picked_is_winner_iff {T : QuadTables} {p : Position} (hp : p.Wellformed T)
    (k : PieceId) (src : LocationId) (player : PlayerId) :
    ((p.updatePiece k src LocationId.Out).update_largestPieces).is_winner player = true ↔
      hasLine (pairsAfter p.piecePairs_ k src LocationId.Out) player := by
  rw [← picked_piecePairs]
  apply is_winner_iff_hasLine
  · rw [picked_id]
    exact hp.valid
  · rw [picked_piecePairs]
    exact legalPairs_picked hp.legal k src
  · intro loc hloc
    rw [picked_largest p k src hloc, picked_piecePairs]

end Position

end gobb_analyzer

namespace gobb_analyzer

namespace Position

/-! ## Successful moves -/

/-- Picking the piece up from a board cell and putting it on `dst`. -/
theorem tail_picked_spec {T : QuadTables} (hT : T.Valid) {p : Position} (hp : p.Wellformed T)
    {piece : PieceId} (hk : piece ∈ PieceIds) {src dst : LocationId}
    (hocc : (p.piecePairs_ piece).occupies src = true) (hsrc : src ≠ LocationId.Out)
    (hdv : is_valid_locationId dst = true)
    (hfree : dst = LocationId.Out ∨
      (pieceSize_of_pieceId (lastPlaced p.piecePairs_ dst)).toNat <
        (pieceSize_of_pieceId piece).toNat) :
    (putAndFinish T (p.updatePiece piece src LocationId.Out).update_largestPieces
        piece dst).position.Wellformed T ∧
    (putAndFinish T (p.updatePiece piece src LocationId.Out).update_largestPieces
        piece dst).position.activePlayerColor_ = invert_playerColor p.activePlayerColor_ ∧
    (putAndFinish T (p.updatePiece piece src LocationId.Out).update_largestPieces
        piece dst).position.piecePairs_ =
      fun j => pairsAfter p.piecePairs_ piece src dst (invert_playerId_of_pieceId j) := by
  have hlp := legalPairs_picked hp.legal piece src
  have hl : legalPairs (pairsAfter (pairsAfter p.piecePairs_ piece src LocationId.Out) piece
      LocationId.Out dst) := by
    apply legalPairs_pairsAfter hlp LocationId.Out dst hdv
    rcases hfree with h | h
    · exact Or.inl h
    · by_cases hd : dst = LocationId.Out
      · exact Or.inl hd
      · exact Or.inr (free_after_pick hk hd h)
  refine ⟨?_, ?_, ?_⟩
  · apply putAndFinish_wellformed hT
    · rw [picked_color]
      exact hp.color
    · rw [picked_piecePairs]
      exact hl
  · rw [putAndFinish_color, picked_color]
  · rw [putAndFinish_piecePairs, picked_piecePairs,
      pairsAfter_via_out hp.legal hk dst hsrc hocc]

/-- Putting a piece from the reserve on `dst`. -/
theorem tail_out_spec {T : QuadTables} (hT : T.Valid) {p : Position} (hp : p.Wellformed T)
    {piece : PieceId} (hk : piece ∈ PieceIds) {dst : LocationId}
    (hdv : is_valid_locationId dst = true)
    (hfree : (pieceSize_of_pieceId (lastPlaced p.piecePairs_ dst)).toNat <
        (pieceSize_of_pieceId piece).toNat) :
    (putAndFinish T p piece dst).position.Wellformed T ∧
    (putAndFinish T p piece dst).position.activePlayerColor_ =
      invert_playerColor p.activePlayerColor_ ∧
    (putAndFinish T p piece dst).position.piecePairs_ =
      fun j => pairsAfter p.piecePairs_ piece LocationId.Out dst
        (invert_playerId_of_pieceId j) := by
  have hl : legalPairs (pairsAfter p.piecePairs_ piece LocationId.Out dst) :=
    legalPairs_pairsAfter hp.legal LocationId.Out dst hdv
      (Or.inr (free_of_lastPlaced_lt hk hfree))
  exact ⟨putAndFinish_wellformed hT hp.color hl, putAndFinish_color T p piece dst,
    putAndFinish_piecePairs T p piece dst⟩

/-- The facts `move` has checked, for a valid position. -/
theorem Wellformed.move_checked {T : QuadTables} {p : Position} (hp : p.Wellformed T)
    {piece : PieceId} {src dst : LocationId} (h : p.movePreconditions piece src dst) :
    piece ∈ PieceIds ∧ playerId_of_pieceId piece = PlayerId.Active ∧
    (p.piecePairs_ piece).occupies src = true ∧
    is_on_board_locationId dst = true ∧
    (src ≠ LocationId.Out → is_on_board_locationId src = true ∧
      lastPlaced p.piecePairs_ src = piece) ∧
    (pieceSize_of_pieceId (lastPlaced p.piecePairs_ dst)).toNat <
      (pieceSize_of_pieceId piece).toNat ∧
    src ≠ dst := by
  rw [movePreconditions_iff] at h
  obtain ⟨_, h2, h3, h4, h5, h6, h7, h8⟩ := h
  refine ⟨owner_cases (Or.inl h2), h2, ?_, h5, ?_, ?_, h8⟩
  · simp only [LocationIdPair.occupies, Bool.or_eq_true, beq_iff_eq]
    tauto
  · intro hs
    have hb : is_on_board_locationId src = true := by
      rcases LocationId.valid_cases.mp h4 with e | e
      · exact absurd e hs
      · exact e
    refine ⟨hb, ?_⟩
    rw [← hp.largest_lastPlaced hb]
    by_contra hc
    exact h6 ⟨hs, hc⟩
  · rw [← hp.largest_lastPlaced h5]
    omega

/-- The facts `move_back` has checked, for a valid position. -/
theorem Wellformed.move_back_checked {T : QuadTables} {p : Position} (hp : p.Wellformed T)
    {piece : PieceId} {src dst : LocationId} (h : p.moveBackPreconditions piece src dst) :
    piece ∈ PieceIds ∧ playerId_of_pieceId piece = PlayerId.Inactive ∧
    (p.piecePairs_ piece).occupies src = true ∧
    is_on_board_locationId src = true ∧
    is_valid_locationId dst = true ∧
    lastPlaced p.piecePairs_ src = piece ∧
    (dst = LocationId.Out ∨
      (pieceSize_of_pieceId (lastPlaced p.piecePairs_ dst)).toNat <
        (pieceSize_of_pieceId piece).toNat) ∧
    src ≠ dst := by
  rw [moveBackPreconditions_iff] at h
  obtain ⟨_, h2, h3, h4, h5, h6, h7, h8⟩ := h
  refine ⟨owner_cases (Or.inr h2), h2, ?_, h4, h5, ?_, ?_, h8⟩
  · simp only [LocationIdPair.occupies, Bool.or_eq_true, beq_iff_eq]
    tauto
  · rw [← hp.largest_lastPlaced h4]
    exact not_not.mp h6
  · rcases LocationId.valid_cases.mp h5 with e | e
    · exact Or.inl e
    · right
      rw [← hp.largest_lastPlaced e]
      have hne := LocationId.ne_out_of_on_board e
      by_contra hc
      exact h7 ⟨hne, by omega⟩

/-- A successful forward move, described on the piece pairs. -/
theorem move_success_spec {T : QuadTables} (hT : T.Valid) {p : Position} (hp : p.Wellformed T)
    {piece : PieceId} {src dst : LocationId}
    (hs : (p.move T piece src dst).status = MoveResultStatus.Success) :
    p.movePreconditions piece src dst ∧
    (p.move T piece src dst).position.Wellformed T ∧
    (p.move T piece src dst).position.activePlayerColor_ =
      invert_playerColor p.activePlayerColor_ ∧
    (p.move T piece src dst).position.piecePairs_ =
      fun j => pairsAfter p.piecePairs_ piece src dst (invert_playerId_of_pieceId j) := by
  have hpre : p.movePreconditions piece src dst := by
    by_contra hc
    rw [move_of_not_pre hc] at hs
    exact absurd hs (by decide)
  refine ⟨hpre, ?_⟩
  obtain ⟨hk, _, hocc, hd, _, hfree, _⟩ := hp.move_checked hpre
  rw [move_of_pre hpre] at hs ⊢
  by_cases hsrc : src = LocationId.Out
  · subst hsrc
    rw [if_neg (by simp)] at hs ⊢
    exact tail_out_spec hT hp hk (LocationId.valid_of_on_board hd) hfree
  · rw [if_pos hsrc] at hs ⊢
    by_cases hw : ((p.updatePiece piece src LocationId.Out).update_largestPieces).is_winner
        PlayerId.Inactive = true
    · rw [if_pos hw] at hs
      exact absurd hs (by simp)
    · rw [if_neg hw]
      exact tail_picked_spec hT hp hk hocc hsrc (LocationId.valid_of_on_board hd)
        (Or.inr hfree)

/-- A successful retrograde move, described on the piece pairs. -/
theorem move_back_success_spec {T : QuadTables} (hT : T.Valid) {p : Position}
    (hp : p.Wellformed T) {piece : PieceId} {src dst : LocationId}
    (hs : (p.move_back T piece src dst).status = MoveResultStatus.Success) :
    p.moveBackPreconditions piece src dst ∧
    (p.move_back T piece src dst).position.Wellformed T ∧
    (p.move_back T piece src dst).position.activePlayerColor_ =
      invert_playerColor p.activePlayerColor_ ∧
    (p.move_back T piece src dst).position.piecePairs_ =
      fun j => pairsAfter p.piecePairs_ piece src dst (invert_playerId_of_pieceId j) := by
  have hpre : p.moveBackPreconditions piece src dst := by
    by_contra hc
    rw [move_back_of_not_pre hc] at hs
    exact absurd hs (by decide)
  refine ⟨hpre, ?_⟩
  obtain ⟨hk, _, hocc, hsb, hdv, _, hfree, _⟩ := hp.move_back_checked hpre
  rw [move_back_of_pre hpre] at hs ⊢
  by_cases hw : ((p.updatePiece piece src LocationId.Out).update_largestPieces).is_winner
      PlayerId.Active = true
  · rw [if_pos hw] at hs
    exact absurd hs (by simp)
  · rw [if_neg hw]
    exact tail_picked_spec hT hp hk hocc (LocationId.ne_out_of_on_board hsb) hdv hfree

end Position

end gobb_analyzer

namespace gobb_analyzer

/-! ## Canonical ids -/

theorem foldl_min_le {α : Type} (f : α → Nat) (l : List α) (init : Nat) :
    l.foldl (fun m t => if f t < m then f t else m) init ≤ init ∧
      ∀ t ∈ l, l.foldl (fun m t => if f t < m then f t else m) init ≤ f t := by
  induction l generalizing init with
  | nil => simp
  | cons a l ih =>
    simp only [List.foldl_cons, List.mem_cons, forall_eq_or_imp]
    by_cases hc : f a < init
    · rw [if_pos hc]
      obtain ⟨h1, h2⟩ := ih (f a)
      exact ⟨by omega, h1, h2⟩
    · rw [if_neg hc]
      obtain ⟨h1, h2⟩ := ih init
      exact ⟨h1, by omega, h2⟩

theorem foldl_min_mem {α : Type} (f : α → Nat) (l : List α) (init : Nat) :
    l.foldl (fun m t => if f t < m then f t else m) init = init ∨
      ∃ t ∈ l, l.foldl (fun m t => if f t < m then f t else m) init = f t := by
  induction l generalizing init with
  | nil => simp
  | cons a l ih =>
    simp only [List.foldl_cons, List.mem_cons, exists_eq_or_imp]
    by_cases hc : f a < init
    · rw [if_pos hc]
      rcases ih (f a) with h | ⟨t, ht, h⟩
      · exact Or.inr (Or.inl h)
      · exact Or.inr (Or.inr ⟨t, ht, h⟩)
    · rw [if_neg hc]
      rcases ih init with h | ⟨t, ht, h⟩
      · exact Or.inl h
      · exact Or.inr (Or.inr ⟨t, ht, h⟩)

theorem valid_transformer_cases {t : TransformerId} (ht : is_valid_TransformerId t = true) :
    t = TransformerId.Unchange ∨ t ∈ EffectiveTransformerIds := by
  revert t
  decide

theorem effective_valid {t : TransformerId} (ht : t ∈ EffectiveTransformerIds) :
    is_valid_TransformerId t = true := by
  revert t
  decide

theorem pairs_transform_unchange {pairs : PieceId → LocationIdPair} (h : legalPairs pairs) :
    ∀ k ∈ PieceIds, (pairs k).transform TransformerId.Unchange = pairs k := by
  intro k hk
  obtain ⟨h0, h1⟩ := legalPairs_valid h hk
  exact pair_transform_unchange _ h0 h1 (legalPairs_sorted h hk)

namespace Position

/-- The id without the color offset. -/
theorem computedId_color {T : QuadTables} (hT : T.Valid) (color : PlayerColor)
    {pairs : PieceId → LocationIdPair} (h : legalPairs pairs) :
    computedId T PlayerColor.Orange pairs < PieceSetCombinationNums ∧
    computedId T color pairs = computedId T PlayerColor.Orange pairs +
      (if color = PlayerColor.Orange then 0 else PieceSetCombinationNums) := by
  rw [computedId_eq, computedId_eq, PieceSetCombinationNums_eq]
  rw [legalPairs_iff] at h
  have h1 := hT.map_lt h.1
  have h2 := hT.map_lt h.2.1
  have h3 := hT.map_lt h.2.2
  have hx : ∀ c : PlayerColor, (if c = PlayerColor.Orange then 0 else 2881473967) ≤ 2881473967 := by
    intro c
    split_ifs <;> omega
  have hcol := hx color
  rw [if_pos rfl, Nat.mod_eq_of_lt (by omega), Nat.mod_eq_of_lt (by omega)]
  constructor
  · omega
  · split_ifs <;> omega

/-- Decoding the id computed from a color and legal pairs gives them back. -/
theorem ofId_computedId {T : QuadTables} (hT : T.Valid) {color : PlayerColor}
    (hc : is_valid_playerColor color = true) {pairs : PieceId → LocationIdPair}
    (h : legalPairs pairs) :
    (ofId T (computedId T color pairs)).activePlayerColor_ = color ∧
    ∀ k ∈ PieceIds, (ofId T (computedId T color pairs)).piecePairs_ k = pairs k := by
  have hw : Position.Wellformed T
      { id_ := computedId T color pairs, activePlayerColor_ := color, piecePairs_ := pairs,
        largestPieces_ := lastPlaced pairs } :=
    wellformed_of hT hc h rfl (fun _ _ => rfl)
  exact ⟨hw.decode_color hT, hw.decode_piecePairs hT⟩

/-- The canonical id is the least color-free id among the eight transformed
positions, and it is the color-free id of one of them. -/
theorem Wellformed.minimize_id_spec {T : QuadTables} (hT : T.Valid) {p : Position}
    (hp : p.Wellformed T) :
    (∃ t, is_valid_TransformerId t = true ∧
      p.minimize_id T = computedId T PlayerColor.Orange
        (fun k => (p.piecePairs_ k).transform t)) ∧
    ∀ t, is_valid_TransformerId t = true →
      p.minimize_id T ≤ computedId T PlayerColor.Orange
        (fun k => (p.piecePairs_ k).transform t) := by
  have hv := hp.valid
  have hf : ∀ t, is_valid_TransformerId t = true → (p.transform T t).id_ =
      computedId T PlayerColor.Orange (fun k => (p.piecePairs_ k).transform t) +
        (if p.activePlayerColor_ = PlayerColor.Orange then 0 else PieceSetCombinationNums) := by
    intro t ht
    rw [transform_id hv ht]
    exact (computedId_color hT p.activePlayerColor_ (legalPairs_transform hp.legal ht)).2
  have hlt : ∀ t, is_valid_TransformerId t = true →
      computedId T PlayerColor.Orange (fun k => (p.piecePairs_ k).transform t)
        < PieceSetCombinationNums := by
    intro t ht
    exact (computedId_color hT p.activePlayerColor_ (legalPairs_transform hp.legal ht)).1
  have h0 : p.id_ = computedId T PlayerColor.Orange
      (fun k => (p.piecePairs_ k).transform TransformerId.Unchange) +
        (if p.activePlayerColor_ = PlayerColor.Orange then 0 else PieceSetCombinationNums) := by
    rw [← hf _ (by decide), transform_id hv (by decide), hp.id_computed]
    exact computedId_congr T _ (fun k hk => (pairs_transform_unchange hp.legal k hk).symm)
  obtain ⟨hle0, hle⟩ := foldl_min_le (fun t => (p.transform T t).id_)
    EffectiveTransformerIds p.id_
  have hmem := foldl_min_mem (fun t => (p.transform T t).id_) EffectiveTransformerIds p.id_
  unfold minimize_id
  simp only
  generalize EffectiveTransformerIds.foldl
    (fun minId trans => if (p.transform T trans).id_ < minId then (p.transform T trans).id_
      else minId) p.id_ = m at hle0 hle hmem
  generalize hoff : (if p.activePlayerColor_ = PlayerColor.Orange then 0
    else PieceSetCombinationNums) = off at hf h0
  have hoff' : off = 0 ∨ off = PieceSetCombinationNums := by
    rw [← hoff]
    split_ifs
    · exact Or.inl rfl
    · exact Or.inr rfl
  have hge : off ≤ m := by
    rcases hmem with e | ⟨t, ht, e⟩
    · have := h0
      omega
    · have := hf t (effective_valid ht)
      omega
  constructor
  · rcases hmem with e | ⟨t, ht, e⟩
    · refine ⟨TransformerId.Unchange, by decide, ?_⟩
      have := hlt TransformerId.Unchange (by decide)
      rw [e, h0]
      rcases hoff' with o | o <;> rw [o] <;> split_ifs <;> omega
    · have htv := effective_valid ht
      refine ⟨t, htv, ?_⟩
      have := hlt t htv
      rw [e, hf t htv]
      rcases hoff' with o | o <;> rw [o] <;> split_ifs <;> omega
  · intro t ht
    have hb : m ≤ computedId T PlayerColor.Orange (fun k => (p.piecePairs_ k).transform t)
        + off := by
      rcases valid_transformer_cases ht with e | e
      · rw [e, ← h0]
        exact hle0
      · have := hle t e
        rw [hf t ht] at this
        exact this
    have := hlt t ht
    rcases hoff' with o | o <;> rw [o] at hb <;> split_ifs <;> omega

theorem Wellformed.minimize_id_lt {T : QuadTables} (hT : T.Valid) {p : Position}
    (hp : p.Wellformed T) : p.minimize_id T < PieceSetCombinationNums := by
  obtain ⟨⟨t, ht, e⟩, _⟩ := hp.minimize_id_spec hT
  rw [e]
  exact (computedId_color hT p.activePlayerColor_ (legalPairs_transform hp.legal ht)).1

end Position

end gobb_analyzer

namespace gobb_analyzer

/-! ## Undoing a move -/

theorem lastPlaced_occupies (pairs : PieceId → LocationIdPair) (loc : LocationId) :
    lastPlaced pairs loc = PieceId.None ∨
      (lastPlaced pairs loc ∈ PieceIds ∧ (pairs (lastPlaced pairs loc)).occupies loc = true) := by
  unfold lastPlaced
  split_ifs <;> simp [*, PieceIds]

theorem size_pos_of_mem {k : PieceId} (hk : k ∈ PieceIds) :
    0 < (pieceSize_of_pieceId k).toNat := by
  rw [PieceId.mem_PieceIds_iff] at hk
  cases k <;> simp_all [pieceSize_of_pieceId, PieceSize.toNat]

/-- A located piece that is larger than every other piece on its cell is
the one written last there. -/
theorem lastPlaced_eq_of {pairs : PieceId → LocationIdPair} {loc : LocationId} {k : PieceId}
    (hk : k ∈ PieceIds) (ho : (pairs k).occupies loc = true)
    (h : ∀ j ∈ PieceIds, (pairs j).occupies loc = true →
      j = k ∨ (pieceSize_of_pieceId j).toNat < (pieceSize_of_pieceId k).toNat) :
    lastPlaced pairs loc = k := by
  have hge := lastPlaced_size_ge hk ho
  have hpos := size_pos_of_mem hk
  rcases lastPlaced_occupies pairs loc with e | ⟨hm, hocc⟩
  · rw [e] at hge
    have h0 : (pieceSize_of_pieceId PieceId.None).toNat = 0 := rfl
    omega
  · rcases h _ hm hocc with e | e
    · exact e
    · omega

theorem lastPlaced_size_lt_of {pairs : PieceId → LocationIdPair} {loc : LocationId} {n : Nat}
    (hn : 0 < n)
    (h : ∀ j ∈ PieceIds, (pairs j).occupies loc = true → (pieceSize_of_pieceId j).toNat < n) :
    (pieceSize_of_pieceId (lastPlaced pairs loc)).toNat < n := by
  rcases lastPlaced_occupies pairs loc with e | ⟨hm, hocc⟩
  · rw [e]
    simpa [pieceSize_of_pieceId, PieceSize.toNat] using hn
  · exact h _ hm hocc

/-- Two kinds of one size are equal or inverse to each other. -/
theorem same_size_cases {j k : PieceId} (hj : j ∈ PieceIds) (hk : k ∈ PieceIds)
    (h : (pieceSize_of_pieceId j).toNat = (pieceSize_of_pieceId k).toNat) :
    j = k ∨ j = invert_playerId_of_pieceId k := by
  rw [PieceId.mem_PieceIds_iff] at hj hk
  cases j <;> cases k <;>
    simp_all [pieceSize_of_pieceId, PieceSize.toNat, invert_playerId_of_pieceId]

theorem replaceOne_chain (p : LocationIdPair) (s d x : LocationId)
    (ho : p.occupies s = true) :
    (p.replaceOne s d).replaceOne d x = p.replaceOne s x := by
  obtain ⟨a, b⟩ := p
  simp only [LocationIdPair.occupies, Bool.or_eq_true, beq_iff_eq] at ho
  by_cases h0 : a = s
  · subst h0
    simp only [LocationIdPair.replaceOne, if_true, nonAscending]
    by_cases hc : d.toNat ≥ b.toNat
    · simp only [hc, if_true]
    · have hne : ¬ b = d := fun e => hc (by rw [e])
      simp only [hc, if_false, hne, if_true]
      have := nonAscending_comm b x
      simp only [nonAscending] at this
      exact this
  · have h1 : b = s := by
      rcases ho with h | h
      · exact absurd h h0
      · exact h
    subst h1
    simp only [LocationIdPair.replaceOne, h0, if_false, if_true, nonAscending]
    by_cases hc : a.toNat ≥ d.toNat
    · simp only [hc, if_true]
      by_cases had : a = d
      · subst had
        simp only [if_true]
        have := nonAscending_comm x a
        simp only [nonAscending] at this
        exact this
      · simp only [had, if_false, if_true]
    · simp only [hc, if_false, if_true]
      have := nonAscending_comm x a
      simp only [nonAscending] at this
      exact this

/-- Once the only piece on `s` is replaced, the pair no longer occupies `s`. -/
theorem replaceOne_not_occupies (p : LocationIdPair) {s d : LocationId}
    (hne : p.locations0 = LocationId.Out ∨ p.locations0 ≠ p.locations1)
    (hs : s ≠ LocationId.Out) (hsd : s ≠ d) :
    (p.replaceOne s d).occupies s = false := by
  obtain ⟨a, b⟩ := p
  dsimp only at hne
  unfold LocationIdPair.replaceOne nonAscending LocationIdPair.occupies
  by_cases h0 : a = s
  · subst h0
    have hb : ¬ b = a := by
      rcases hne with h | h
      · exact absurd h hs
      · exact fun e => h e.symm
    have hd : ¬ d = a := fun e => hsd e.symm
    simp only [if_true]
    split_ifs <;> simp [hb, hd]
  · by_cases h1 : b = s
    · subst h1
      have hd : ¬ d = b := fun e => hsd e.symm
      simp only [h0, if_false, if_true]
      split_ifs <;> simp [h0, hd]
    · simp [h0, h1]

theorem legalPairs_distinct {pairs : PieceId → LocationIdPair} (h : legalPairs pairs)
    {k : PieceId} (hk : k ∈ PieceIds) :
    (pairs k).locations0 = LocationId.Out ∨ (pairs k).locations0 ≠ (pairs k).locations1 := by
  have key : (pairs k).locations0.toNat = 0 ∨
      (pairs k).locations0.toNat ≠ (pairs k).locations1.toNat := by
    rw [legalPairs_iff] at h
    simp only [legal_iff] at h
    rw [PieceId.mem_PieceIds_iff] at hk
    obtain ⟨hS, hM, hL⟩ := h
    have aS := hS.2.2.2.2.2.2.1
    have iS := hS.2.2.2.2.2.2.2.2
    have aM := hM.2.2.2.2.2.2.1
    have iM := hM.2.2.2.2.2.2.2.2
    have aL := hL.2.2.2.2.2.2.1
    have iL := hL.2.2.2.2.2.2.2.2
    clear hS hM hL
    cases k
    · exact absurd rfl hk.1
    · exact absurd rfl hk.2
    · exact aS.imp id (fun x => x.1)
    · exact iS
    · exact aM.imp id (fun x => x.1)
    · exact iM
    · exact aL.imp id (fun x => x.1)
    · exact iL
  rcases key with e | e
  · exact Or.inl (LocationId.eq_out_iff.mpr e)
  · exact Or.inr (fun c => e (by rw [c]))

theorem legalPairs_of_invert {pairs : PieceId → LocationIdPair}
    (h : legalPairs (fun j => pairs (invert_playerId_of_pieceId j))) : legalPairs pairs := by
  have := legalPairs_invert h
  simp only [invert_invert] at this
  exact this

/-- Swapping the roles of all pairs swaps the players that own a line. -/
theorem hasLine_invert {pairs : PieceId → LocationIdPair} (h : legalPairs pairs) :
    hasLine (fun j => pairs (invert_playerId_of_pieceId j)) PlayerId.Active ↔
      hasLine pairs PlayerId.Inactive := by
  have key : ∀ loc, is_on_board_locationId loc = true →
      (playerId_of_pieceId (topmostPiece (fun j => pairs (invert_playerId_of_pieceId j)) loc)
        = PlayerId.Active ↔ playerId_of_pieceId (topmostPiece pairs loc) = PlayerId.Inactive) := by
    intro loc hloc
    have hne := Position.LocationId.ne_out_of_on_board hloc
    rw [← lastPlaced_eq_topmostPiece (legalPairs_invert h) hne,
      ← lastPlaced_eq_topmostPiece h hne, lastPlaced_invert h hne]
    exact owner_invert _
  unfold hasLine
  constructor
  · rintro ⟨line, hm, h1, h2, h3⟩
    obtain ⟨b1, b2, b3⟩ := Position.lines_on_board line hm
    exact ⟨line, hm, (key _ b1).mp h1, (key _ b2).mp h2, (key _ b3).mp h3⟩
  · rintro ⟨line, hm, h1, h2, h3⟩
    obtain ⟨b1, b2, b3⟩ := Position.lines_on_board line hm
    exact ⟨line, hm, (key _ b1).mpr h1, (key _ b2).mpr h2, (key _ b3).mpr h3⟩

end gobb_analyzer

namespace gobb_analyzer

namespace Position

/-- Taking back the piece just moved: the retrograde move from the
destination to the source succeeds and restores the id, provided the source
was on the board or the inactive player had no line before the move. -/
theorem move_undo {T : QuadTables} (hT : T.Valid) {p : Position} (hp : p.Wellformed T)
    {k : PieceId} {s d : LocationId}
    (hs : (p.move T k s d).status = MoveResultStatus.Success)
    (hno : s ≠ LocationId.Out ∨ p.is_winner PlayerId.Inactive = false) :
    ((p.move T k s d).position.move_back T (invert_playerId_of_pieceId k) d s).status =
        MoveResultStatus.Success ∧
    ((p.move T k s d).position.move_back T (invert_playerId_of_pieceId k) d s).position.id_ =
        p.id_ := by
  obtain ⟨hpre, hr, hcol, hpairs⟩ := move_success_spec hT hp hs
  obtain ⟨hk, hown, hocc, hd, hsrc, hfree, hsd⟩ := hp.move_checked hpre
  have hlp := hp.legal
  have hdne := LocationId.ne_out_of_on_board hd
  have hk' := invert_mem hk
  have hsv : is_valid_locationId s = true := by
    rw [movePreconditions_iff] at hpre
    exact hpre.2.2.2.1
  -- the pairs after the move, before the roles are swapped
  have hl2 : legalPairs (pairsAfter p.piecePairs_ k s d) := by
    apply legalPairs_of_invert
    rw [← hpairs]
    exact hr.legal
  have hrk : (p.move T k s d).position.piecePairs_ (invert_playerId_of_pieceId k) =
      (p.piecePairs_ k).replaceOne s d := by
    rw [hpairs]
    simp only [invert_invert, pairsAfter_self]
  have hro : ∀ j, j ≠ k → (p.move T k s d).position.piecePairs_ (invert_playerId_of_pieceId j) =
      p.piecePairs_ j := by
    intro j hj
    rw [hpairs]
    simp only [invert_invert, pairsAfter_other _ _ _ hj]
  have hlarge : ∀ loc, is_on_board_locationId loc = true →
      (p.move T k s d).position.largestPieces_ loc =
        invert_playerId_of_pieceId (lastPlaced (pairsAfter p.piecePairs_ k s d) loc) := by
    intro loc hloc
    rw [hr.largest_lastPlaced hloc, hpairs,
      lastPlaced_invert hl2 (LocationId.ne_out_of_on_board hloc)]
  -- the moved piece is on top of `d`
  have htop : lastPlaced (pairsAfter p.piecePairs_ k s d) d = k := by
    apply lastPlaced_eq_of hk
    · rw [pairsAfter_self]
      exact replaceOne_occupies _ _ _ hocc
    · intro j hj ho
      by_cases hjk : j = k
      · exact Or.inl hjk
      · right
        rw [pairsAfter_other _ _ _ hjk] at ho
        have := lastPlaced_size_ge hj ho
        omega
  -- what is left on `s` is smaller than the moved piece
  have hleft : s ≠ LocationId.Out →
      (pieceSize_of_pieceId (lastPlaced (pairsAfter p.piecePairs_ k s d) s)).toNat <
        (pieceSize_of_pieceId k).toNat := by
    intro hs0
    obtain ⟨hsb, hstop⟩ := hsrc hs0
    apply lastPlaced_size_lt_of (size_pos_of_mem hk)
    intro j hj ho
    by_cases hjk : j = k
    · subst hjk
      rw [pairsAfter_self, replaceOne_not_occupies _ (legalPairs_distinct hlp hj) hs0 hsd] at ho
      exact absurd ho (by decide)
    · rw [pairsAfter_other _ _ _ hjk] at ho
      have hge := lastPlaced_size_ge hj ho
      rw [hstop] at hge
      rcases Nat.lt_or_ge (pieceSize_of_pieceId j).toNat (pieceSize_of_pieceId k).toNat with c | c
      · exact c
      · exfalso
        rcases same_size_cases hj hk (by omega) with e | e
        · exact hjk e
        · subst e
          obtain ⟨n1, n2, n3⟩ := legalPairs_no_overlap hlp hs0
          rw [PieceId.mem_PieceIds_iff] at hk
          cases k <;> simp_all [invert_playerId_of_pieceId]
  -- the checks of `move_back`
  have hpre' : (p.move T k s d).position.moveBackPreconditions
      (invert_playerId_of_pieceId k) d s := by
    rw [moveBackPreconditions_iff]
    refine ⟨hr.valid, (owner_invert' k).mpr hown, ?_, hd, hsv, ?_, ?_, fun e => hsd e.symm⟩
    · rw [hrk]
      have := replaceOne_occupies _ s d hocc
      simp only [LocationIdPair.occupies, Bool.or_eq_true, beq_iff_eq] at this
      tauto
    · rw [hlarge d hd, htop]
      exact not_not.mpr rfl
    · rintro ⟨hs0, hge⟩
      obtain ⟨hsb, _⟩ := hsrc hs0
      rw [hlarge s hsb, size_invert, size_invert] at hge
      have := hleft hs0
      omega
  -- the pick-up gives the position before the piece was put down
  have hpick : pairsAfter (p.move T k s d).position.piecePairs_ (invert_playerId_of_pieceId k) d
      LocationId.Out =
      fun j => pairsAfter p.piecePairs_ k s LocationId.Out (invert_playerId_of_pieceId j) := by
    funext j
    by_cases hj : j = invert_playerId_of_pieceId k
    · subst hj
      rw [pairsAfter_self, hrk, invert_invert, pairsAfter_self]
      exact replaceOne_chain _ _ _ _ hocc
    · have hj' : invert_playerId_of_pieceId j ≠ k := by
        intro e
        apply hj
        rw [← e, invert_invert]
      rw [pairsAfter_other _ _ _ hj, pairsAfter_other _ _ _ hj']
      have := hro (invert_playerId_of_pieceId j) hj'
      rw [invert_invert] at this
      exact this
  have hnw : ¬ (((p.move T k s d).position.updatePiece (invert_playerId_of_pieceId k) d
      LocationId.Out).update_largestPieces).is_winner PlayerId.Active = true := by
    rw [picked_is_winner_iff hr, hpick, hasLine_invert (legalPairs_picked hlp k s)]
    by_cases hs0 : s = LocationId.Out
    · subst hs0
      rw [pairsAfter_same hlp hk, ← hp.winner_iff]
      rcases hno with c | c
      · exact absurd rfl c
      · rw [c]
        decide
    · rw [← picked_is_winner_iff hp]
      intro hw
      rw [move_of_pre hpre, if_pos hs0, if_pos hw] at hs
      exact absurd hs (by simp)
  have hstat : ((p.move T k s d).position.move_back T (invert_playerId_of_pieceId k) d s).status
      = MoveResultStatus.Success := by
    rw [move_back_of_pre hpre', if_neg hnw]
    rfl
  refine ⟨hstat, ?_⟩
  obtain ⟨_, hr2, hcol2, hpairs2⟩ := move_back_success_spec hT hr hstat
  rw [hr2.id_computed, hcol2, hcol, invert_playerColor_invert, hp.id_computed]
  apply computedId_congr
  intro j hj
  rw [hpairs2]
  beta_reduce
  by_cases hjk : j = k
  · subst hjk
    rw [pairsAfter_self, hrk]
    exact replaceOne_undo _ _ _ (legalPairs_sorted hlp hj) hocc
  · have hj' : invert_playerId_of_pieceId j ≠ invert_playerId_of_pieceId k := by
      intro e
      apply hjk
      rw [← invert_invert j, e, invert_invert]
    rw [pairsAfter_other _ _ _ hj']
    exact hro j hjk

theorem invalid_not_lt : ¬ InvalidPositionId < PositionIdNums := by
  rw [PositionIdNums_eq]
  unfold InvalidPositionId
  omega

/-- Transforming the position built from an id out of range. -/
theorem transform_ofId_invalid (T : QuadTables) {id : Nat} (h : ¬ id < PositionIdNums)
    (t : TransformerId) : ((Position.ofId T id).transform T t).id_ = InvalidPositionId := by
  have e := @ofId_invalid T id h
  have hv : ¬ is_valid_positionId (Position.ofId T id).id_ = true := by
    intro hc
    simp only [is_valid_positionId, decide_eq_true_eq] at hc
    exact invalid_not_lt (lt_of_eq_of_lt e.symm hc)
  unfold Position.transform
  rw [if_pos hv]
  exact e

end Position

end gobb_analyzer

namespace gobb_analyzer

open Position

/-! ## The claims -/

theorem mem_TransformerIds_iff {t : TransformerId} :
    t ∈ TransformerIds ↔ is_valid_TransformerId t = true := by
  revert t
  decide

theorem encodeId_locations (T : QuadTables) (c : PlayerColor) (p : Position) :
    encodeId T c p.locations_of_piece = encodeId T c p.piecePairs_ := by
  simp [encodeId, locations_of_piece, is_valid_pieceId, PieceId.toNat]

/-- C1, id round-trip: given valid quad tables, for every id below
`2 * 1423 ^ 3` the position built from the id and transformed by `Unchange`
has that id again; the position built from `InvalidPositionId` keeps
`InvalidPositionId`. -/
theorem id_round_trip (T : QuadTables) (id : Nat) :
    (T.Valid → id < 2 * 1423 ^ 3 →
      ((Position.ofId T id).transform T TransformerId.Unchange).id = id) ∧
    ((Position.ofId T InvalidPositionId).transform T TransformerId.Unchange).id =
      InvalidPositionId := by
  constructor
  · intro hT hid
    have hlt : id < PositionIdNums := by rw [PositionIdNums_eq]; omega
    have hp := ofId_wellformed hT hlt
    have hu : is_valid_TransformerId TransformerId.Unchange = true := by decide
    rw [Position.id, transform_id hp.valid hu,
      computedId_congr T _ (pairs_transform_unchange hp.legal), ← hp.id_computed,
      ofId_id hlt]
  · rw [Position.id]
    exact transform_ofId_invalid T invalid_not_lt _

theorem id_round_trip_witness :
    stdTables.Valid ∧ 60780614 < 2 * 1423 ^ 3 ∧
      ((Position.ofId stdTables 60780614).transform stdTables TransformerId.Unchange).id
        = 60780614 :=
  ⟨stdTables_valid, by decide,
    (id_round_trip stdTables 60780614).1 stdTables_valid (by decide)⟩

/-- C2, status of a forward move: the status is `Invalid` exactly when one of
the eight preconditions fails; in particular it is `Invalid` whenever the
topmost piece at the destination is not smaller than the moved piece. -/
theorem move_invalid_iff (T : QuadTables) (p : Position) (piece : PieceId)
    (src dst : LocationId) :
    ((p.move T piece src dst).status = MoveResultStatus.Invalid ↔
      ¬ p.movePreconditions piece src dst) ∧
    ((pieceSize_of_pieceId piece).toNat ≤
        (pieceSize_of_pieceId (p.largetst_piece_at_location dst)).toNat →
      (p.move T piece src dst).status = MoveResultStatus.Invalid) := by
  have key : (p.move T piece src dst).status = MoveResultStatus.Invalid ↔
      ¬ p.movePreconditions piece src dst := by
    constructor
    · intro h hpre
      rw [move_of_pre hpre] at h
      split_ifs at h <;> simp [putAndFinish_status] at h
    · exact move_of_not_pre
  refine ⟨key, fun h => key.mpr (fun hpre => ?_)⟩
  have := hpre.2.2.2.2.2.2.1
  omega

set_option maxRecDepth 100000 in
theorem move_invalid_iff_witness :
    ((pieceSize_of_pieceId PieceId.ActivePlayerSmall).toNat ≤
      (pieceSize_of_pieceId
        ((Position.ofId stdTables 60780614).largetst_piece_at_location LocationId.SW)).toNat) ∧
    ((Position.ofId stdTables 60780614).move stdTables PieceId.ActivePlayerSmall
      LocationId.NW LocationId.SW).status = MoveResultStatus.Invalid :=
  ⟨by decide!,
    (move_invalid_iff stdTables (Position.ofId stdTables 60780614) PieceId.ActivePlayerSmall
      LocationId.NW LocationId.SW).2 (by decide!)⟩

/-- C3, uncover-loss of a forward move: for a valid position and a move that
meets the eight preconditions, the status is `Lost` exactly when the source is
a board cell and, once the piece is removed from it, some board line has all
three topmost pieces owned by the inactive player; otherwise it is `Success`. -/
theorem move_lost_iff (T : QuadTables) (p : Position) (hp : p.Wellformed T) (piece : PieceId)
    (src dst : LocationId) (hpre : p.movePreconditions piece src dst) :
    ((p.move T piece src dst).status = MoveResultStatus.Lost ↔
      (is_on_board_locationId src = true ∧
        hasLine (pairsAfter p.piecePairs_ piece src LocationId.Out) PlayerId.Inactive)) ∧
    ((p.move T piece src dst).status ≠ MoveResultStatus.Lost →
      (p.move T piece src dst).status = MoveResultStatus.Success) := by
  obtain ⟨_, _, _, _, hsrc, _, _⟩ := hp.move_checked hpre
  rw [move_of_pre hpre]
  by_cases hs0 : src = LocationId.Out
  · subst hs0
    rw [if_neg (by simp)]
    refine ⟨?_, fun _ => rfl⟩
    constructor
    · intro h
      simp [putAndFinish_status] at h
    · rintro ⟨h, _⟩
      exact absurd h (by decide)
  · rw [if_pos hs0]
    have hb := (hsrc hs0).1
    rw [← picked_is_winner_iff hp]
    by_cases hw : ((p.updatePiece piece src LocationId.Out).update_largestPieces).is_winner
        PlayerId.Inactive = true
    · rw [if_pos hw]
      exact ⟨⟨fun _ => ⟨hb, hw⟩, fun _ => rfl⟩, fun h => absurd rfl h⟩
    · rw [if_neg hw]
      refine ⟨⟨fun h => ?_, fun h => absurd h.2 hw⟩, fun _ => rfl⟩
      simp [putAndFinish_status] at h

set_option maxRecDepth 100000 in
theorem move_lost_iff_witness :
    (Position.ofId stdTables 245134564).Wellformed stdTables ∧
    (Position.ofId stdTables 245134564).movePreconditions PieceId.ActivePlayerLarge
      LocationId.NW LocationId.Center ∧
    ((Position.ofId stdTables 245134564).move stdTables PieceId.ActivePlayerLarge
      LocationId.NW LocationId.Center).status = MoveResultStatus.Lost :=
  have hw := @ofId_wellformed stdTables stdTables_valid 245134564 (by decide)
  have hpre : (Position.ofId stdTables 245134564).movePreconditions PieceId.ActivePlayerLarge
      LocationId.NW LocationId.Center := by
    unfold Position.movePreconditions
    decide!
  ⟨hw, hpre, by
    have h := (move_lost_iff stdTables (Position.ofId stdTables 245134564) hw
      PieceId.ActivePlayerLarge LocationId.NW LocationId.Center hpre).2
    by_contra hc
    have hs := h hc
    revert hs
    decide!⟩

/-- C4, result of a successful forward move: for a valid position and a move
with status `Success`, the result has the inverted active color, the
inverted-role kind of the moved piece holds the non-ascending arrangement of
the old pair with one occurrence of `src` replaced by `dst`, every other kind
is stored unchanged under its inverted-role kind, and the result id is the
encoding of these pairs and this color. -/
theorem move_success_result (T : QuadTables) (hT : T.Valid) (p : Position)
    (hp : p.Wellformed T) (piece : PieceId) (src dst : LocationId)
    (hs : (p.move T piece src dst).status = MoveResultStatus.Success) :
    (p.move T piece src dst).position.active_player_color =
      invert_playerColor p.active_player_color ∧
    (p.move T piece src dst).position.locations_of_piece (invert_playerId_of_pieceId piece) =
      (p.locations_of_piece piece).replaceOne src dst ∧
    (∀ j ∈ PieceIds, j ≠ piece →
      (p.move T piece src dst).position.locations_of_piece (invert_playerId_of_pieceId j) =
        p.locations_of_piece j) ∧
    (p.move T piece src dst).position.id =
      encodeId T (p.move T piece src dst).position.active_player_color
        (p.move T piece src dst).position.locations_of_piece := by
  obtain ⟨hpre, hr, hcol, hpairs⟩ := move_success_spec hT hp hs
  obtain ⟨hk, _⟩ := hp.move_checked hpre
  refine ⟨hcol, ?_, ?_, ?_⟩
  · rw [locations_of_piece_eq (invert_mem hk), locations_of_piece_eq hk, hpairs]
    simp only [invert_invert, pairsAfter_self]
  · intro j hj hne
    rw [locations_of_piece_eq (invert_mem hj), locations_of_piece_eq hj, hpairs]
    simp only [invert_invert, pairsAfter_other _ _ _ hne]
  · rw [Position.id, Position.active_player_color, encodeId_locations, hr.id_computed]
    exact computedId_eq_encodeId hT hr.color hr.legal

set_option maxRecDepth 100000 in
theorem move_success_result_witness :
    stdTables.Valid ∧ (Position.ofId stdTables 0).Wellformed stdTables ∧
    ((Position.ofId stdTables 0).move stdTables PieceId.ActivePlayerSmall LocationId.Out
      LocationId.W).status = MoveResultStatus.Success ∧
    ((Position.ofId stdTables 0).move stdTables PieceId.ActivePlayerSmall LocationId.Out
      LocationId.W).position.locations_of_piece PieceId.InactivePlayerSmall =
      ((Position.ofId stdTables 0).locations_of_piece PieceId.ActivePlayerSmall).replaceOne
        LocationId.Out LocationId.W :=
  ⟨stdTables_valid, ofId_wellformed stdTables_valid (by decide), by decide!,
    (move_success_result stdTables stdTables_valid (Position.ofId stdTables 0)
      (ofId_wellformed stdTables_valid (by decide)) PieceId.ActivePlayerSmall LocationId.Out
      LocationId.W (by decide!)).2.1⟩

/-- C5, status of a retrograde move: the status is `Invalid` exactly when one
of the eight preconditions fails; for a valid position and a move that meets
them, the status is `Lost` exactly when, once the piece is picked up from
`src`, some board line has all three topmost pieces owned by the active
player, and `Success` otherwise. -/
theorem move_back_status (T : QuadTables) (p : Position) (piece : PieceId)
    (src dst : LocationId) :
    ((p.move_back T piece src dst).status = MoveResultStatus.Invalid ↔
      ¬ p.moveBackPreconditions piece src dst) ∧
    (p.Wellformed T → p.moveBackPreconditions piece src dst →
      (((p.move_back T piece src dst).status = MoveResultStatus.Lost ↔
          hasLine (pairsAfter p.piecePairs_ piece src LocationId.Out) PlayerId.Active) ∧
        ((p.move_back T piece src dst).status ≠ MoveResultStatus.Lost →
          (p.move_back T piece src dst).status = MoveResultStatus.Success))) := by
  constructor
  · constructor
    · intro h hpre
      rw [move_back_of_pre hpre] at h
      split_ifs at h
      simp [putAndFinish_status] at h
    · exact move_back_of_not_pre
  · intro hp hpre
    rw [move_back_of_pre hpre, ← picked_is_winner_iff hp]
    by_cases hw : ((p.updatePiece piece src LocationId.Out).update_largestPieces).is_winner
        PlayerId.Active = true
    · rw [if_pos hw]
      exact ⟨⟨fun _ => hw, fun _ => rfl⟩, fun h => absurd rfl h⟩
    · rw [if_neg hw]
      refine ⟨⟨fun h => ?_, fun h => absurd h hw⟩, fun _ => rfl⟩
      simp [putAndFinish_status] at h

set_option maxRecDepth 100000 in
theorem move_back_status_witness :
    (Position.ofId stdTables 97199439).Wellformed stdTables ∧
    (Position.ofId stdTables 97199439).moveBackPreconditions PieceId.InactivePlayerLarge
      LocationId.NW LocationId.Center ∧
    ((Position.ofId stdTables 97199439).move_back stdTables PieceId.InactivePlayerLarge
      LocationId.NW LocationId.Center).status = MoveResultStatus.Lost :=
  have hw := @ofId_wellformed stdTables stdTables_valid 97199439 (by decide)
  have hpre : (Position.ofId stdTables 97199439).moveBackPreconditions
      PieceId.InactivePlayerLarge LocationId.NW LocationId.Center := by
    unfold Position.moveBackPreconditions
    decide!
  ⟨hw, hpre, by
    have h := ((move_back_status stdTables (Position.ofId stdTables 97199439)
      PieceId.InactivePlayerLarge LocationId.NW LocationId.Center).2 hw hpre).2
    by_contra hc
    have hs := h hc
    revert hs
    decide!⟩

/-- C6, result of a successful retrograde move: for a valid position and a
retrograde move with status `Success`, the result has the inverted active
color, the inverted-role (Active) kind of the moved piece holds the
non-ascending arrangement of the old pair with one occurrence of `src`
replaced by `dst` (which may be `Out`), and every other kind keeps its pair
under the inverted role. -/
theorem move_back_success_result (T : QuadTables) (hT : T.Valid) (p : Position)
    (hp : p.Wellformed T) (piece : PieceId) (src dst : LocationId)
    (hs : (p.move_back T piece src dst).status = MoveResultStatus.Success) :
    (p.move_back T piece src dst).position.active_player_color =
      invert_playerColor p.active_player_color ∧
    playerId_of_pieceId (invert_playerId_of_pieceId piece) = PlayerId.Active ∧
    (p.move_back T piece src dst).position.locations_of_piece
        (invert_playerId_of_pieceId piece) =
      (p.locations_of_piece piece).replaceOne src dst ∧
    (∀ j ∈ PieceIds, j ≠ piece →
      (p.move_back T piece src dst).position.locations_of_piece
          (invert_playerId_of_pieceId j) =
        p.locations_of_piece j) := by
  obtain ⟨hpre, hr, hcol, hpairs⟩ := move_back_success_spec hT hp hs
  obtain ⟨hk, hown, _⟩ := hp.move_back_checked hpre
  refine ⟨hcol, (owner_invert piece).mpr hown, ?_, ?_⟩
  · rw [locations_of_piece_eq (invert_mem hk), locations_of_piece_eq hk, hpairs]
    simp only [invert_invert, pairsAfter_self]
  · intro j hj hne
    rw [locations_of_piece_eq (invert_mem hj), locations_of_piece_eq hj, hpairs]
    simp only [invert_invert, pairsAfter_other _ _ _ hne]

set_option maxRecDepth 100000 in
theorem move_back_success_result_witness :
    stdTables.Valid ∧ (Position.ofId stdTables 46).Wellformed stdTables ∧
    ((Position.ofId stdTables 46).move_back stdTables PieceId.InactivePlayerSmall LocationId.NW
      LocationId.Out).status = MoveResultStatus.Success ∧
    ((Position.ofId stdTables 46).move_back stdTables PieceId.InactivePlayerSmall LocationId.NW
      LocationId.Out).position.locations_of_piece PieceId.ActivePlayerSmall =
      ((Position.ofId stdTables 46).locations_of_piece PieceId.InactivePlayerSmall).replaceOne
        LocationId.NW LocationId.Out :=
  ⟨stdTables_valid, ofId_wellformed stdTables_valid (by decide), by decide!,
    (move_back_success_result stdTables stdTables_valid (Position.ofId stdTables 46)
      (ofId_wellformed stdTables_valid (by decide)) PieceId.InactivePlayerSmall LocationId.NW
      LocationId.Out (by decide!)).2.2.1⟩

/-- C7, win detection: in a valid position `is_winner(player)` is true
exactly when one of the eight lines (NW-N-NE, W-Center-E, SW-S-SE, NW-W-SW,
N-Center-S, NE-E-SE, NW-Center-SE, NE-Center-SW) has in each of its three
cells a topmost piece owned by `player`; in an invalid position it is false. -/
theorem is_winner_spec (T : QuadTables) (p : Position) (player : PlayerId) :
    (p.Wellformed T →
      (p.is_winner player = true ↔
        ∃ line ∈ [(LocationId.NW, LocationId.N, LocationId.NE),
            (LocationId.W, LocationId.Center, LocationId.E),
            (LocationId.SW, LocationId.S, LocationId.SE),
            (LocationId.NW, LocationId.W, LocationId.SW),
            (LocationId.N, LocationId.Center, LocationId.S),
            (LocationId.NE, LocationId.E, LocationId.SE),
            (LocationId.NW, LocationId.Center, LocationId.SE),
            (LocationId.NE, LocationId.Center, LocationId.SW)],
          playerId_of_pieceId (topmostPiece p.piecePairs_ line.1) = player ∧
          playerId_of_pieceId (topmostPiece p.piecePairs_ line.2.1) = player ∧
          playerId_of_pieceId (topmostPiece p.piecePairs_ line.2.2) = player)) ∧
    (p.is_valid = false → p.is_winner player = false) := by
  constructor
  · intro hp
    exact hp.winner_iff player
  · intro h
    unfold Position.is_valid at h
    unfold Position.is_winner
    rw [if_pos (by rw [h]; decide)]

theorem is_winner_spec_witness :
    (Position.ofId stdTables 6077634).Wellformed stdTables ∧
    ((Position.ofId stdTables 6077634).is_winner PlayerId.Active = true ↔
      hasLine (Position.ofId stdTables 6077634).piecePairs_ PlayerId.Active) :=
  ⟨ofId_wellformed stdTables_valid (by decide),
    (is_winner_spec stdTables (Position.ofId stdTables 6077634) PlayerId.Active).1
      (ofId_wellformed stdTables_valid (by decide))⟩

set_option maxRecDepth 100000 in
/-- C8 as stated fails: in position 10300058 (Orange to move with a small
piece on SW, a medium piece on W and a large piece on Center; Blue with small
pieces on N and NW and a medium piece on NE, so the inactive player already
owns the line NW-N-NE) the move of the second small piece from the reserve
to E succeeds, but no retrograde move of a small piece from the result
succeeds with id 10300058. -/
theorem move_reversibility_counterexample :
    10300058 < 2 * 1423 ^ 3 ∧
    (Position.ofId stdTables 10300058).active_player_color = PlayerColor.Orange ∧
    (Position.ofId stdTables 10300058).locations_of_piece PieceId.ActivePlayerSmall =
      ⟨LocationId.SW, LocationId.Out⟩ ∧
    (Position.ofId stdTables 10300058).locations_of_piece PieceId.InactivePlayerSmall =
      ⟨LocationId.N, LocationId.NW⟩ ∧
    (Position.ofId stdTables 10300058).locations_of_piece PieceId.ActivePlayerMedium =
      ⟨LocationId.W, LocationId.Out⟩ ∧
    (Position.ofId stdTables 10300058).locations_of_piece PieceId.InactivePlayerMedium =
      ⟨LocationId.NE, LocationId.Out⟩ ∧
    (Position.ofId stdTables 10300058).locations_of_piece PieceId.ActivePlayerLarge =
      ⟨LocationId.Center, LocationId.Out⟩ ∧
    (Position.ofId stdTables 10300058).locations_of_piece PieceId.InactivePlayerLarge =
      ⟨LocationId.Out, LocationId.Out⟩ ∧
    ((Position.ofId stdTables 10300058).move stdTables PieceId.ActivePlayerSmall LocationId.Out
      LocationId.E).status = MoveResultStatus.Success ∧
    ¬ ∃ src' dst' : LocationId,
      (((Position.ofId stdTables 10300058).move stdTables PieceId.ActivePlayerSmall
          LocationId.Out LocationId.E).position.move_back stdTables
          (invert_playerId_of_pieceId PieceId.ActivePlayerSmall) src' dst').status =
        MoveResultStatus.Success ∧
      (((Position.ofId stdTables 10300058).move stdTables PieceId.ActivePlayerSmall
          LocationId.Out LocationId.E).position.move_back stdTables
          (invert_playerId_of_pieceId PieceId.ActivePlayerSmall) src' dst').position.id =
        10300058 := by
  decide!

/-- C8 amended, move reversibility: given valid quad tables, for every valid
position id `p` and every move `(k, s, d)` with status `Success` from
`Position(p)`, such that `s` is a board cell or the inactive player has no
three in a row in `Position(p)`, some retrograde move of the inverted-role
piece from the result has status `Success` and leads to a position with id `p`. -/
theorem move_reversible (T : QuadTables) (hT : T.Valid) (p : Nat) (hp : p < 2 * 1423 ^ 3)
    (k : PieceId) (s d : LocationId)
    (hs : ((Position.ofId T p).move T k s d).status = MoveResultStatus.Success)
    (hno : s ≠ LocationId.Out ∨ (Position.ofId T p).is_winner PlayerId.Inactive = false) :
    ∃ src' dst' : LocationId,
      (((Position.ofId T p).move T k s d).position.move_back T
          (invert_playerId_of_pieceId k) src' dst').status = MoveResultStatus.Success ∧
      (((Position.ofId T p).move T k s d).position.move_back T
          (invert_playerId_of_pieceId k) src' dst').position.id = p := by
  have hlt : p < PositionIdNums := by rw [PositionIdNums_eq]; omega
  have hw := ofId_wellformed hT hlt
  obtain ⟨h1, h2⟩ := move_undo hT hw hs hno
  refine ⟨d, s, h1, ?_⟩
  rw [Position.id, h2]
  exact ofId_id hlt

set_option maxRecDepth 100000 in
theorem move_reversible_witness :
    stdTables.Valid ∧ 0 < 2 * 1423 ^ 3 ∧
    ((Position.ofId stdTables 0).move stdTables PieceId.ActivePlayerSmall LocationId.Out
      LocationId.W).status = MoveResultStatus.Success ∧
    (Position.ofId stdTables 0).is_winner PlayerId.Inactive = false ∧
    ∃ src' dst' : LocationId,
      (((Position.ofId stdTables 0).move stdTables PieceId.ActivePlayerSmall LocationId.Out
          LocationId.W).position.move_back stdTables
          (invert_playerId_of_pieceId PieceId.ActivePlayerSmall) src' dst').status =
        MoveResultStatus.Success ∧
      (((Position.ofId stdTables 0).move stdTables PieceId.ActivePlayerSmall LocationId.Out
          LocationId.W).position.move_back stdTables
          (invert_playerId_of_pieceId PieceId.ActivePlayerSmall) src' dst').position.id = 0 :=
  ⟨stdTables_valid, by decide, by decide!, by decide!,
    move_reversible stdTables stdTables_valid 0 (by decide) PieceId.ActivePlayerSmall
      LocationId.Out LocationId.W (by decide!) (Or.inr (by decide!))⟩

/-- C9, symmetry closure: given valid quad tables, for every valid position
id `p` and every one of the eight transformers `t`, transforming
`Position(p)` by `t` and then by `invert_Transformer(t)` gives id `p`. -/
theorem symmetry_closure (T : QuadTables) (hT : T.Valid) (p : Nat) (hp : p < 2 * 1423 ^ 3)
    (t : TransformerId) (ht : t ∈ TransformerIds) :
    (((Position.ofId T p).transform T t).transform T (invert_Transformer t)).id = p := by
  have hlt : p < PositionIdNums := by rw [PositionIdNums_eq]; omega
  have hw := ofId_wellformed hT hlt
  have htv := mem_TransformerIds_iff.mp ht
  have hq := transform_wellformed hT hw htv
  rw [Position.id, transform_id hq.valid (invert_Transformer_valid htv),
    transform_color hw.valid htv]
  have e : ∀ k ∈ PieceIds,
      (((Position.ofId T p).transform T t).piecePairs_ k).transform (invert_Transformer t) =
        (Position.ofId T p).piecePairs_ k := by
    intro k hk
    obtain ⟨h0, h1⟩ := legalPairs_valid hw.legal hk
    rw [transform_piecePairs hw.valid htv k hk]
    exact pair_transform_invert _ htv h0 h1 (legalPairs_sorted hw.legal hk)
  rw [computedId_congr T _ e, ← hw.id_computed]
  exact ofId_id hlt

theorem symmetry_closure_witness :
    stdTables.Valid ∧ 245134564 < 2 * 1423 ^ 3 ∧
    TransformerId.Rotate90 ∈ TransformerIds ∧
    (((Position.ofId stdTables 245134564).transform stdTables TransformerId.Rotate90).transform
      stdTables (invert_Transformer TransformerId.Rotate90)).id = 245134564 :=
  ⟨stdTables_valid, by decide, by decide,
    symmetry_closure stdTables stdTables_valid 245134564 (by decide) TransformerId.Rotate90
      (by decide)⟩

/-- C10, canonicalization is idempotent: given valid quad tables, for every
valid position `p`, with `c = p.minimize_id()`, `Position(c).minimize_id()`
is `c`. -/
theorem minimize_id_idempotent (T : QuadTables) (hT : T.Valid) (p : Position)
    (hp : p.Wellformed T) :
    (Position.ofId T (p.minimize_id T)).minimize_id T = p.minimize_id T := by
  obtain ⟨⟨t0, ht0, e0⟩, hmin⟩ := hp.minimize_id_spec hT
  have hl0 := legalPairs_transform hp.legal ht0
  have hclt : p.minimize_id T < PositionIdNums := by
    have := hp.minimize_id_lt hT
    rw [PieceSetCombinationNums_eq] at this
    rw [PositionIdNums_eq]
    omega
  have hq := ofId_wellformed hT hclt
  have horange : is_valid_playerColor PlayerColor.Orange = true := by decide
  have hqp : ∀ k ∈ PieceIds, (Position.ofId T (p.minimize_id T)).piecePairs_ k =
      (p.piecePairs_ k).transform t0 := by
    rw [e0]
    exact (ofId_computedId hT horange hl0).2
  obtain ⟨⟨t1, ht1, e1⟩, hmin1⟩ := hq.minimize_id_spec hT
  apply Nat.le_antisymm
  · have hu : is_valid_TransformerId TransformerId.Unchange = true := by decide
    have h := hmin1 TransformerId.Unchange hu
    rw [computedId_congr T _ (pairs_transform_unchange hq.legal),
      computedId_congr T _ hqp, ← e0] at h
    exact h
  · rw [e1]
    obtain ⟨t3, ht3, hcomp⟩ := transform_LocationId_comp ht0 ht1
    have e : ∀ k ∈ PieceIds,
        ((Position.ofId T (p.minimize_id T)).piecePairs_ k).transform t1 =
          (p.piecePairs_ k).transform t3 := by
      intro k hk
      rw [hqp k hk, pair_transform_transform, hcomp, hcomp, ← pair_transform_eq]
    rw [computedId_congr T _ e]
    exact hmin t3 ht3

theorem minimize_id_idempotent_witness :
    stdTables.Valid ∧ (Position.ofId stdTables 245134564).Wellformed stdTables ∧
    (Position.ofId stdTables ((Position.ofId stdTables 245134564).minimize_id
      stdTables)).minimize_id stdTables =
      (Position.ofId stdTables 245134564).minimize_id stdTables :=
  ⟨stdTables_valid, ofId_wellformed stdTables_valid (by decide),
    minimize_id_idempotent stdTables stdTables_valid (Position.ofId stdTables 245134564)
      (ofId_wellformed stdTables_valid (by decide))⟩

end gobb_analyzer

namespace gobb_analyzer

open Position

/-! ## Canonical ids and transformations -/

theorem transform_unchange_id {T : QuadTables} {p : Position} (hp : p.Wellformed T) :
    (p.transform T TransformerId.Unchange).id_ = p.id_ := by
  rw [transform_id hp.valid (by decide),
    computedId_congr T _ (pairs_transform_unchange hp.legal), ← hp.id_computed]

theorem transform_invalid_position (T : QuadTables) {p : Position}
    (h : is_valid_positionId p.id_ = false) (t : TransformerId) : p.transform T t = p := by
  unfold transform
  rw [if_pos (by simp [h])]

theorem transform_invalid_transformer (T : QuadTables) {p : Position}
    (hv : is_valid_positionId p.id_ = true) {t : TransformerId}
    (h : is_valid_TransformerId t = false) :
    (p.transform T t).id_ = InvalidPositionId := by
  unfold transform
  rw [if_neg (by simp [hv]), if_pos (by simp [h])]
  exact ofId_invalid invalid_not_lt

theorem invalidPositionId_not_valid : is_valid_positionId InvalidPositionId = false := by
  unfold is_valid_positionId
  exact decide_eq_false invalid_not_lt

/-- C11, canonical id: given valid quad tables, for every valid position `p`
some symmetry `t0` among the eight gives the least id of `p.transform(t)`,
`p.minimize_id()` is that least id with `1423^3` subtracted when it is at
least `1423^3`, and `p.minimize_id()` is below `1423^3`. -/
theorem minimize_id_canonical (T : QuadTables) (hT : T.Valid) (p : Position)
    (hp : p.Wellformed T) :
    (∃ t0 ∈ TransformerIds,
      (∀ t ∈ TransformerIds, (p.transform T t0).id ≤ (p.transform T t).id) ∧
      p.minimize_id T =
        if (p.transform T t0).id ≥ 1423 ^ 3 then (p.transform T t0).id - 1423 ^ 3
        else (p.transform T t0).id) ∧
    p.minimize_id T < 1423 ^ 3 := by
  have hlt := hp.minimize_id_lt hT
  rw [PieceSetCombinationNums_eq] at hlt
  refine ⟨?_, by norm_num; exact hlt⟩
  have h0 := transform_unchange_id hp
  obtain ⟨hle0, hle⟩ := foldl_min_le (fun t => (p.transform T t).id_)
    EffectiveTransformerIds p.id_
  have hmem := foldl_min_mem (fun t => (p.transform T t).id_) EffectiveTransformerIds p.id_
  have hall : ∀ t ∈ TransformerIds,
      EffectiveTransformerIds.foldl
        (fun m t => if (p.transform T t).id_ < m then (p.transform T t).id_ else m) p.id_
        ≤ (p.transform T t).id_ := by
    intro t ht
    rcases valid_transformer_cases (mem_TransformerIds_iff.mp ht) with e | e
    · rw [e, h0]
      exact hle0
    · exact hle t e
  have hmin : p.minimize_id T =
      if EffectiveTransformerIds.foldl
          (fun m t => if (p.transform T t).id_ < m then (p.transform T t).id_ else m) p.id_
          ≥ 1423 ^ 3
      then EffectiveTransformerIds.foldl
          (fun m t => if (p.transform T t).id_ < m then (p.transform T t).id_ else m) p.id_
          - 1423 ^ 3
      else EffectiveTransformerIds.foldl
          (fun m t => if (p.transform T t).id_ < m then (p.transform T t).id_ else m) p.id_ := by
    unfold minimize_id
    simp only [PieceSetCombinationNums_eq]
    norm_num
  rcases hmem with e | ⟨t, ht, e⟩
  · refine ⟨TransformerId.Unchange, by decide, ?_, ?_⟩
    · intro t ht
      rw [Position.id, Position.id, h0, ← e]
      exact hall t ht
    · rw [Position.id, h0, hmin, e]
  · refine ⟨t, mem_TransformerIds_iff.mpr (effective_valid ht), ?_, ?_⟩
    · intro t' ht'
      rw [Position.id, Position.id]
      rw [← e]
      exact hall t' ht'
    · rw [Position.id, hmin]
      rw [e]

theorem minimize_id_canonical_witness :
    stdTables.Valid ∧ (Position.ofId stdTables 245134564).Wellformed stdTables ∧
    (∃ t0 ∈ TransformerIds,
      (∀ t ∈ TransformerIds,
        ((Position.ofId stdTables 245134564).transform stdTables t0).id ≤
          ((Position.ofId stdTables 245134564).transform stdTables t).id) ∧
      (Position.ofId stdTables 245134564).minimize_id stdTables =
        if ((Position.ofId stdTables 245134564).transform stdTables t0).id ≥ 1423 ^ 3 then
          ((Position.ofId stdTables 245134564).transform stdTables t0).id - 1423 ^ 3
        else ((Position.ofId stdTables 245134564).transform stdTables t0).id) ∧
    (Position.ofId stdTables 245134564).minimize_id stdTables < 1423 ^ 3 :=
  ⟨stdTables_valid, @ofId_wellformed stdTables stdTables_valid 245134564 (by decide),
    minimize_id_canonical stdTables stdTables_valid _
      (@ofId_wellformed stdTables stdTables_valid 245134564 (by decide))⟩

/-- C12, inverse transformer: for each of the eight transformers `t`,
`transform_LocationId(invert_Transformer(t), transform_LocationId(t, loc))`
is `loc` for `Out` and the nine board cells, and `t` maps `Out` to `Out`. -/
theorem invert_Transformer_spec (t : TransformerId) (ht : t ∈ TransformerIds) :
    (∀ loc ∈ LocationIds,
      transform_LocationId (invert_Transformer t) (transform_LocationId t loc) = loc) ∧
    transform_LocationId t LocationId.Out = LocationId.Out := by
  revert t
  decide

theorem invert_Transformer_spec_witness :
    TransformerId.Rotate90 ∈ TransformerIds ∧
    (∀ loc ∈ LocationIds,
      transform_LocationId (invert_Transformer TransformerId.Rotate90)
        (transform_LocationId TransformerId.Rotate90 loc) = loc) ∧
    transform_LocationId TransformerId.Rotate90 LocationId.Out = LocationId.Out :=
  ⟨by decide, invert_Transformer_spec TransformerId.Rotate90 (by decide)⟩

/-- C13, position transform: given valid quad tables, for every valid position
`p` and each of the eight transformers `t`, `p.transform(t)` is valid, keeps
the active color and holds, for each of the six piece kinds, the images under
`t` of the two locations of that kind in non-ascending order; for any
position `p` whatever, the result is not valid when `p` is not valid or `t`
is not a valid transformer. -/
theorem transform_spec (T : QuadTables) (p : Position) (t : TransformerId) :
    (T.Valid → p.Wellformed T → t ∈ TransformerIds →
      (p.transform T t).is_valid = true ∧
      (p.transform T t).active_player_color = p.active_player_color ∧
      ∀ k ∈ PieceIds,
        (p.transform T t).locations_of_piece k =
          nonAscending (transform_LocationId t (p.locations_of_piece k).locations0)
            (transform_LocationId t (p.locations_of_piece k).locations1)) ∧
    (p.is_valid = false ∨ is_valid_TransformerId t = false →
      (p.transform T t).is_valid = false) := by
  constructor
  · intro hT hp ht
    have htv := mem_TransformerIds_iff.mp ht
    refine ⟨(transform_wellformed hT hp htv).valid, transform_color hp.valid htv, ?_⟩
    intro k hk
    have hk' : is_valid_pieceId k = true := by
      revert k
      decide
    simp only [locations_of_piece, hk', if_true]
    rw [transform_piecePairs hp.valid htv k hk, pair_transform_eq]
  · intro h
    by_cases hv : is_valid_positionId p.id_ = true
    · rcases h with h | h
      · rw [Position.is_valid, hv] at h
        exact absurd h (by simp)
      · rw [Position.is_valid, transform_invalid_transformer T hv h]
        exact invalidPositionId_not_valid
    · have hv' : is_valid_positionId p.id_ = false := by simpa using hv
      rw [transform_invalid_position T hv']
      exact hv'

theorem transform_spec_witness :
    stdTables.Valid ∧ (Position.ofId stdTables 245134564).Wellformed stdTables ∧
    TransformerId.Rotate90 ∈ TransformerIds ∧
    ((Position.ofId stdTables 245134564).transform stdTables TransformerId.Rotate90).is_valid
      = true ∧
    ((Position.ofId stdTables 245134564).transform stdTables
      TransformerId.Rotate90).active_player_color =
        (Position.ofId stdTables 245134564).active_player_color ∧
    ∀ k ∈ PieceIds,
      ((Position.ofId stdTables 245134564).transform stdTables
        TransformerId.Rotate90).locations_of_piece k =
        nonAscending
          (transform_LocationId TransformerId.Rotate90
            ((Position.ofId stdTables 245134564).locations_of_piece k).locations0)
          (transform_LocationId TransformerId.Rotate90
            ((Position.ofId stdTables 245134564).locations_of_piece k).locations1) :=
  ⟨stdTables_valid, @ofId_wellformed stdTables stdTables_valid 245134564 (by decide),
    by decide,
    (transform_spec stdTables (Position.ofId stdTables 245134564) TransformerId.Rotate90).1
      stdTables_valid (@ofId_wellformed stdTables stdTables_valid 245134564 (by decide))
      (by decide)⟩

end gobb_analyzer

namespace gobb_analyzer

open Position

/-! ## The explicit constructor, pairs and constants -/

theorem minimize_id_of_invalid (T : QuadTables) {p : Position}
    (h : is_valid_positionId p.id_ = false) :
    p.minimize_id T = p.id_ - PieceSetCombinationNums := by
  have hf : ∀ (l : List TransformerId) (m : Nat),
      l.foldl (fun minId trans =>
        if (p.transform T trans).id_ < minId then (p.transform T trans).id_ else minId) m =
        if p.id_ < m ∧ l ≠ [] then p.id_ else m := by
    intro l
    induction l with
    | nil => intro m; simp
    | cons t l ih =>
      intro m
      rw [List.foldl_cons, ih, transform_invalid_position T h]
      by_cases hlt : p.id_ < m
      · rw [if_pos hlt]
        by_cases hl : l = []
        · rw [if_neg (by simp [hl]), if_pos ⟨hlt, by simp⟩]
        · rw [if_neg (by simp), if_pos ⟨hlt, by simp⟩]
      · rw [if_neg hlt, if_neg (by simp [hlt]), if_neg (by simp [hlt])]
  have hge : PieceSetCombinationNums ≤ p.id_ := by
    unfold is_valid_positionId at h
    have h' : ¬ p.id_ < PositionIdNums := by simpa using h
    rw [PositionIdNums_eq] at h'
    rw [PieceSetCombinationNums_eq]
    omega
  have hfold := hf EffectiveTransformerIds p.id_
  rw [if_neg (fun hc => absurd hc.1 (lt_irrefl _))] at hfold
  unfold minimize_id
  simp only
  rw [hfold, if_pos hge]

theorem update_either_sorted (p : LocationIdPair) (src dst : LocationId)
    (h : p.occupies src = true) :
    (p.replaceOne src dst).locations0.toNat ≥ (p.replaceOne src dst).locations1.toNat := by
  rcases p with ⟨a, b⟩
  simp only [LocationIdPair.occupies, Bool.or_eq_true, beq_iff_eq] at h
  unfold LocationIdPair.replaceOne nonAscending
  simp only
  split_ifs <;> (try dsimp only) <;> first | omega | (exfalso; tauto)

/-- C14, evidence of the defect: the explicit constructor tests only
`initPairs[1]`, `initPairs[2]` and `initPairs[3]` for invalid locations (its
loop runs over `PieceSizes` and indexes the list by the size).  Given valid
quad tables, the constructor applied to Orange and the six pairs
`{Invalid, SW}, {Out, Out}, ...` rejects nothing: the tuple index of
`{Invalid, SW, Out, Out}` is `255 + 70 = 325`, the index of the legal quad
`{Center, N, NE, Out}`, so the object gets a valid id while holding the
location `Invalid` (the write `largestPieces_[255]`, outside the array in
C++, is a function update here). -/
theorem explicit_constructor_accepts_invalid_location (T : QuadTables) (hT : T.Valid) :
    (Position.ofInit T PlayerColor.Orange
      [⟨.Invalid, .SW⟩, ⟨.Out, .Out⟩, ⟨.Out, .Out⟩, ⟨.Out, .Out⟩, ⟨.Out, .Out⟩,
        ⟨.Out, .Out⟩]).is_valid = true ∧
    (Position.ofInit T PlayerColor.Orange
      [⟨.Invalid, .SW⟩, ⟨.Out, .Out⟩, ⟨.Out, .Out⟩, ⟨.Out, .Out⟩, ⟨.Out, .Out⟩,
        ⟨.Out, .Out⟩]).id ≠ InvalidPositionId ∧
    (Position.ofInit T PlayerColor.Orange
      [⟨.Invalid, .SW⟩, ⟨.Out, .Out⟩, ⟨.Out, .Out⟩, ⟨.Out, .Out⟩, ⟨.Out, .Out⟩,
        ⟨.Out, .Out⟩]).locations_of_piece PieceId.ActivePlayerSmall = ⟨.Invalid, .SW⟩ := by
  have h325 : T.locationQuadMaps_ 325 < 1423 :=
    @QuadTables.Valid.map_lt T hT ⟨.Center, .N, .NE, .Out⟩ (by decide)
  have h0 : T.locationQuadMaps_ 0 < 1423 :=
    @QuadTables.Valid.map_lt T hT ⟨.Out, .Out, .Out, .Out⟩ (by decide)
  have hinv : InvalidPositionId = 18446744073709551615 := by decide
  have hl : (List.range PieceIdNums).filter (fun i => i % 2 = 0) = [0, 2, 4] := by decide
  have e : Position.ofInit T PlayerColor.Orange
      [⟨.Invalid, .SW⟩, ⟨.Out, .Out⟩, ⟨.Out, .Out⟩, ⟨.Out, .Out⟩, ⟨.Out, .Out⟩,
        ⟨.Out, .Out⟩] =
      ((((List.range PieceIdNums).foldl
        (fun pos i => pos.setPair (PieceId.ofUint (i + 1))
          (initPair [⟨.Invalid, .SW⟩, ⟨.Out, .Out⟩, ⟨.Out, .Out⟩, ⟨.Out, .Out⟩, ⟨.Out, .Out⟩,
            ⟨.Out, .Out⟩] i))
        (({ uninitialized with activePlayerColor_ := PlayerColor.Orange } : Position).setPair
          .None { locations0 := .Out, locations1 := .Out })).update_largestPieces).update_id
        T) := by
    unfold Position.ofInit
    rw [if_neg (by decide), if_neg (by decide), if_neg (by decide), if_neg]
    rw [hl]
    have i0 : (initQuad [⟨.Invalid, .SW⟩, ⟨.Out, .Out⟩, ⟨.Out, .Out⟩, ⟨.Out, .Out⟩,
        ⟨.Out, .Out⟩, ⟨.Out, .Out⟩] 0).index = 325 := by decide
    have i2 : (initQuad [⟨.Invalid, .SW⟩, ⟨.Out, .Out⟩, ⟨.Out, .Out⟩, ⟨.Out, .Out⟩,
        ⟨.Out, .Out⟩, ⟨.Out, .Out⟩] 2).index = 0 := by decide
    have i4 : (initQuad [⟨.Invalid, .SW⟩, ⟨.Out, .Out⟩, ⟨.Out, .Out⟩, ⟨.Out, .Out⟩,
        ⟨.Out, .Out⟩, ⟨.Out, .Out⟩] 4).index = 0 := by decide
    simp only [List.any_cons, List.any_nil, i0, i2, i4, hinv, Bool.or_false, Bool.or_eq_true,
      decide_eq_true_eq]
    omega
  rw [e]
  have hid : ((((List.range PieceIdNums).foldl
        (fun pos i => pos.setPair (PieceId.ofUint (i + 1))
          (initPair [⟨.Invalid, .SW⟩, ⟨.Out, .Out⟩, ⟨.Out, .Out⟩, ⟨.Out, .Out⟩, ⟨.Out, .Out⟩,
            ⟨.Out, .Out⟩] i))
        (({ uninitialized with activePlayerColor_ := PlayerColor.Orange } : Position).setPair
          .None { locations0 := .Out, locations1 := .Out })).update_largestPieces).update_id
        T).id_ =
      T.locationQuadMaps_ 325 + T.locationQuadMaps_ 0 * 1423 +
        T.locationQuadMaps_ 0 * 1423 * 1423 := by
    rw [update_id_id, computedId_eq]
    simp only [update_largestPieces_piecePairs, update_largestPieces_color]
    have hs : T.locationQuadMaps_ 325 + T.locationQuadMaps_ 0 * 1423 +
        T.locationQuadMaps_ 0 * 1423 * 1423 + 0 < 2 ^ 64 := by omega
    show (T.locationQuadMaps_ 325 + T.locationQuadMaps_ 0 * 1423 +
        T.locationQuadMaps_ 0 * 1423 * 1423 + 0) % 2 ^ 64 = _
    rw [Nat.mod_eq_of_lt hs, Nat.add_zero]
  refine ⟨?_, ?_, ?_⟩
  · rw [Position.is_valid, hid]
    unfold is_valid_positionId
    rw [PositionIdNums_eq]
    exact decide_eq_true (by omega)
  · rw [Position.id, hid, hinv]
    omega
  · rfl

theorem explicit_constructor_accepts_invalid_location_witness :
    stdTables.Valid ∧
    (Position.ofInit stdTables PlayerColor.Orange
      [⟨.Invalid, .SW⟩, ⟨.Out, .Out⟩, ⟨.Out, .Out⟩, ⟨.Out, .Out⟩, ⟨.Out, .Out⟩,
        ⟨.Out, .Out⟩]).is_valid = true :=
  ⟨stdTables_valid,
    (explicit_constructor_accepts_invalid_location stdTables stdTables_valid).1⟩

/-- C15, evidence of the defect: for every position whose id is
`InvalidPositionId`, `minimize_id()` returns
`InvalidPositionId - PieceSetCombinationNums = 18446744070828077648`, which
is not `InvalidPositionId`: the last step subtracts the color offset from any
value that is at least `PieceSetCombinationNums`. -/
theorem minimize_id_invalid (T : QuadTables) (p : Position)
    (h : p.id = InvalidPositionId) :
    p.minimize_id T = 18446744070828077648 ∧ p.minimize_id T ≠ InvalidPositionId := by
  have hinv : InvalidPositionId = 18446744073709551615 := by decide
  rw [Position.id] at h
  have hv : is_valid_positionId p.id_ = false := by
    rw [h]
    exact invalidPositionId_not_valid
  rw [minimize_id_of_invalid T hv, h, hinv, PieceSetCombinationNums_eq]
  constructor <;> norm_num

theorem minimize_id_invalid_witness :
    (Position.ofId stdTables InvalidPositionId).id = InvalidPositionId ∧
    (Position.ofId stdTables InvalidPositionId).minimize_id stdTables = 18446744070828077648 ∧
    (Position.ofId stdTables InvalidPositionId).minimize_id stdTables ≠ InvalidPositionId :=
  ⟨ofId_invalid invalid_not_lt,
    minimize_id_invalid stdTables (Position.ofId stdTables InvalidPositionId)
      (ofId_invalid invalid_not_lt)⟩

/-- C16, `LocationIdPair::update_either(src, dst)`: for every pair and every
`src`, `dst`, it returns true exactly when `locations[0] == src` or
`locations[1] == src`; when it returns true the pair afterwards holds `dst`
in place of one occurrence of `src` next to the other original location, with
`locations[0] >= locations[1]`; when it returns false the pair is unchanged. -/
theorem update_either_spec (p : LocationIdPair) (src dst : LocationId) :
    ((p.update_either src dst).1 = true ↔ (p.locations0 = src ∨ p.locations1 = src)) ∧
    ((p.update_either src dst).1 = true →
      (p.update_either src dst).2.locations0.toNat ≥
        (p.update_either src dst).2.locations1.toNat ∧
      ((p.locations0 = src ∧
          ((p.update_either src dst).2 = ⟨dst, p.locations1⟩ ∨
            (p.update_either src dst).2 = ⟨p.locations1, dst⟩)) ∨
        (p.locations1 = src ∧
          ((p.update_either src dst).2 = ⟨p.locations0, dst⟩ ∨
            (p.update_either src dst).2 = ⟨dst, p.locations0⟩)))) ∧
    ((p.update_either src dst).1 = false → (p.update_either src dst).2 = p) := by
  have hocc : p.occupies src = true ↔ (p.locations0 = src ∨ p.locations1 = src) := by
    simp [LocationIdPair.occupies]
  rw [update_either_fst, update_either_snd]
  refine ⟨hocc, ?_, ?_⟩
  · intro h
    refine ⟨update_either_sorted p src dst h, ?_⟩
    rcases p with ⟨a, b⟩
    have h' := hocc.mp h
    unfold LocationIdPair.replaceOne nonAscending
    dsimp only at h' ⊢
    by_cases ha : a = src
    · left
      refine ⟨ha, ?_⟩
      rw [if_pos ha]
      split_ifs
      · exact Or.inl rfl
      · exact Or.inr rfl
    · have hb : b = src := h'.resolve_left ha
      right
      refine ⟨hb, ?_⟩
      rw [if_neg ha, if_pos hb]
      split_ifs
      · exact Or.inl rfl
      · exact Or.inr rfl
  · intro h
    have h' : ¬ (p.locations0 = src ∨ p.locations1 = src) := by
      rw [← hocc, h]
      simp
    unfold LocationIdPair.replaceOne
    rw [if_neg (fun e => h' (Or.inl e)), if_neg (fun e => h' (Or.inr e))]

theorem update_either_spec_witness :
    ((⟨.SW, .NW⟩ : LocationIdPair).update_either .NW .SE).1 = true ∧
    ((⟨.SW, .NW⟩ : LocationIdPair).update_either .NW .SE).2.locations0.toNat ≥
      ((⟨.SW, .NW⟩ : LocationIdPair).update_either .NW .SE).2.locations1.toNat ∧
    (((⟨.SW, .NW⟩ : LocationIdPair).locations0 = .NW ∧
        (((⟨.SW, .NW⟩ : LocationIdPair).update_either .NW .SE).2 =
            ⟨.SE, (⟨.SW, .NW⟩ : LocationIdPair).locations1⟩ ∨
          ((⟨.SW, .NW⟩ : LocationIdPair).update_either .NW .SE).2 =
            ⟨(⟨.SW, .NW⟩ : LocationIdPair).locations1, .SE⟩)) ∨
      ((⟨.SW, .NW⟩ : LocationIdPair).locations1 = .NW ∧
        (((⟨.SW, .NW⟩ : LocationIdPair).update_either .NW .SE).2 =
            ⟨(⟨.SW, .NW⟩ : LocationIdPair).locations0, .SE⟩ ∨
          ((⟨.SW, .NW⟩ : LocationIdPair).update_either .NW .SE).2 =
            ⟨.SE, (⟨.SW, .NW⟩ : LocationIdPair).locations0⟩))) :=
  ⟨by decide, (update_either_spec ⟨.SW, .NW⟩ .NW .SE).2.1 (by decide)⟩

/-- C17 as stated fails: the color offset `PieceSetCombinationNums` is
`1423^3`, and neither is 2,879,927,167; the Blue position with every piece
out of the board has the id 2,881,473,967. -/
theorem color_offset_counterexample :
    ¬ (PieceSetCombinationNums = 1423 ^ 3 ∧ (1423 : Nat) ^ 3 = 2879927167) ∧
    PieceSetCombinationNums ≠ 2879927167 ∧
    (Position.ofInit stdTables PlayerColor.Orange
      [⟨.Out, .Out⟩, ⟨.Out, .Out⟩, ⟨.Out, .Out⟩, ⟨.Out, .Out⟩, ⟨.Out, .Out⟩, ⟨.Out, .Out⟩]).id
      = 0 ∧
    (Position.ofInit stdTables PlayerColor.Blue
      [⟨.Out, .Out⟩, ⟨.Out, .Out⟩, ⟨.Out, .Out⟩, ⟨.Out, .Out⟩, ⟨.Out, .Out⟩, ⟨.Out, .Out⟩]).id
      ≠ 0 + 2879927167 := by
  decide

/-- C17 amended, the color offset: `PieceSetCombinationNums` equals
`1423^3 = 2,881,473,967`, and given valid quad tables, for every position
with three legal quads and the active color Blue, the id that `update_id`
computes is the id it computes for the same pieces with the active color
Orange plus `PieceSetCombinationNums`. -/
theorem color_offset (T : QuadTables) (p : Position) :
    PieceSetCombinationNums = 1423 ^ 3 ∧ (1423 : Nat) ^ 3 = 2881473967 ∧
    (T.Valid → legalPairs p.piecePairs_ → p.activePlayerColor_ = PlayerColor.Blue →
      (p.update_id T).id =
        (({ p with activePlayerColor_ := PlayerColor.Orange } : Position).update_id T).id +
          PieceSetCombinationNums) := by
  refine ⟨by decide, by decide, ?_⟩
  intro hT hl hb
  rw [Position.id, Position.id, update_id_id, update_id_id, hb]
  have h := (computedId_color hT PlayerColor.Blue hl).2
  rw [if_neg (by decide)] at h
  exact h

theorem color_offset_witness :
    stdTables.Valid ∧ legalPairs (Position.ofId stdTables 2881473968).piecePairs_ ∧
    (Position.ofId stdTables 2881473968).activePlayerColor_ = PlayerColor.Blue ∧
    ((Position.ofId stdTables 2881473968).update_id stdTables).id =
      (({ Position.ofId stdTables 2881473968 with
          activePlayerColor_ := PlayerColor.Orange } : Position).update_id stdTables).id +
        PieceSetCombinationNums :=
  ⟨stdTables_valid,
    (@ofId_wellformed stdTables stdTables_valid 2881473968 (by decide)).legal,
    by decide,
    (color_offset stdTables (Position.ofId stdTables 2881473968)).2.2 stdTables_valid
      (@ofId_wellformed stdTables stdTables_valid 2881473968 (by decide)).legal (by decide)⟩

/-! ## The size of the quad enumeration -/

set_option maxRecDepth 100000 in
theorem allQuads_length : allQuads.length = 10 ^ 4 := by decide!

theorem mem_LocationIds_iff {l : LocationId} :
    l ∈ LocationIds ↔ is_valid_locationId l = true := by
  revert l
  decide

theorem mem_allQuads {q : LocationIdQuad} :
    q ∈ allQuads ↔
      (q.locations0 ∈ LocationIds ∧ q.locations1 ∈ LocationIds ∧
        q.locations2 ∈ LocationIds ∧ q.locations3 ∈ LocationIds) := by
  unfold allQuads
  rw [List.mem_map]
  constructor
  · rintro ⟨⟨d, c, b, a⟩, hm, rfl⟩
    simp only [List.mem_product] at hm
    exact ⟨hm.2.2.2, hm.2.2.1, hm.2.1, hm.1⟩
  · rintro ⟨h0, h1, h2, h3⟩
    refine ⟨(q.locations3, q.locations2, q.locations1, q.locations0), ?_, rfl⟩
    simp only [List.mem_product]
    exact ⟨h3, h2, h1, h0⟩

theorem count_le_one_iff (a b c d cell : LocationId) :
    [a, b, c, d].count cell ≤ 1 ↔
      ¬ (a = cell ∧ b = cell) ∧ ¬ (a = cell ∧ c = cell) ∧ ¬ (a = cell ∧ d = cell) ∧
      ¬ (b = cell ∧ c = cell) ∧ ¬ (b = cell ∧ d = cell) ∧ ¬ (c = cell ∧ d = cell) := by
  by_cases ha : a = cell <;> by_cases hb : b = cell <;> by_cases hc : c = cell <;>
    by_cases hd : d = cell <;> simp [List.count_cons, ha, hb, hc, hd]

theorem no_shared_cell_iff : ∀ x y : LocationId,
    (∀ cell ∈ OnBoardLocationIds, ¬ (x = cell ∧ y = cell)) ↔
      (x.toNat ≠ y.toNat ∨ x.toNat = 0 ∨ 9 < x.toNat) := by
  decide

theorem legal_iff_count (a b c d : LocationId) : (LocationIdQuad.mk a b c d).legal = true ↔
    (is_valid_locationId a = true ∧ is_valid_locationId b = true ∧
      is_valid_locationId c = true ∧ is_valid_locationId d = true ∧
      a.toNat ≥ b.toNat ∧ c.toNat ≥ d.toNat ∧
      ∀ cell ∈ OnBoardLocationIds, [a, b, c, d].count cell ≤ 1) := by
  have hsplit : (∀ cell ∈ OnBoardLocationIds, [a, b, c, d].count cell ≤ 1) ↔
      ((∀ cell ∈ OnBoardLocationIds, ¬ (a = cell ∧ b = cell)) ∧
        (∀ cell ∈ OnBoardLocationIds, ¬ (a = cell ∧ c = cell)) ∧
        (∀ cell ∈ OnBoardLocationIds, ¬ (a = cell ∧ d = cell)) ∧
        (∀ cell ∈ OnBoardLocationIds, ¬ (b = cell ∧ c = cell)) ∧
        (∀ cell ∈ OnBoardLocationIds, ¬ (b = cell ∧ d = cell)) ∧
        (∀ cell ∈ OnBoardLocationIds, ¬ (c = cell ∧ d = cell))) := by
    constructor
    · intro h
      exact ⟨fun x hx => ((count_le_one_iff a b c d x).mp (h x hx)).1,
        fun x hx => ((count_le_one_iff a b c d x).mp (h x hx)).2.1,
        fun x hx => ((count_le_one_iff a b c d x).mp (h x hx)).2.2.1,
        fun x hx => ((count_le_one_iff a b c d x).mp (h x hx)).2.2.2.1,
        fun x hx => ((count_le_one_iff a b c d x).mp (h x hx)).2.2.2.2.1,
        fun x hx => ((count_le_one_iff a b c d x).mp (h x hx)).2.2.2.2.2⟩
    · rintro ⟨h1, h2, h3, h4, h5, h6⟩ x hx
      exact (count_le_one_iff a b c d x).mpr ⟨h1 x hx, h2 x hx, h3 x hx, h4 x hx, h5 x hx, h6 x hx⟩
  rw [hsplit, legal_iff, no_shared_cell_iff, no_shared_cell_iff, no_shared_cell_iff,
    no_shared_cell_iff, no_shared_cell_iff, no_shared_cell_iff]
  simp only [LocationId.valid_iff]
  constructor
  · rintro ⟨h0, h1, h2, h3, h4, h5, h6, h7, h8⟩
    refine ⟨h0, h1, h2, h3, h4, h5, ?_, ?_, ?_, ?_, ?_, ?_⟩ <;> omega
  · rintro ⟨h0, h1, h2, h3, h4, h5, h6, h7, h8, h9, h10, h11⟩
    refine ⟨h0, h1, h2, h3, h4, h5, ?_, ?_, ?_⟩ <;> omega

/-- C18, size of the quad enumeration: the tuples `(a0, a1, b0, b1)` of
locations in `{Out, NW, ..., SE}` are `10^4` distinct tuples; a tuple is a
legal placement exactly when it is one of them with `a0 >= a1`, `b0 >= b1`
and no board cell occurring more than once among its four entries; exactly
1423 of them are legal, which is `PieceQuadCombinationNums`; and with valid
quad tables the quad index of every legal placement is at most 1422. -/
theorem quad_enumeration_size :
    allQuads.length = 10 ^ 4 ∧ allQuads.Nodup ∧
    (∀ q : LocationIdQuad, q ∈ allQuads ↔
      (q.locations0 ∈ LocationIds ∧ q.locations1 ∈ LocationIds ∧
        q.locations2 ∈ LocationIds ∧ q.locations3 ∈ LocationIds)) ∧
    (∀ q : LocationIdQuad, q.legal = true ↔
      (q ∈ allQuads ∧ q.locations0.toNat ≥ q.locations1.toNat ∧
        q.locations2.toNat ≥ q.locations3.toNat ∧
        ∀ cell ∈ OnBoardLocationIds,
          [q.locations0, q.locations1, q.locations2, q.locations3].count cell ≤ 1)) ∧
    (allQuads.filter LocationIdQuad.legal).length = 1423 ∧
    PieceQuadCombinationNums = 1423 ∧
    (∀ T : QuadTables, T.Valid → ∀ q : LocationIdQuad, q.legal = true →
      T.locationQuadMaps_ q.index ≤ 1422) := by
  refine ⟨allQuads_length, allQuads_nodup, fun q => mem_allQuads, ?_, legalQuads_length, rfl,
    ?_⟩
  · rintro ⟨a, b, c, d⟩
    rw [legal_iff_count, mem_allQuads]
    simp only [mem_LocationIds_iff]
    tauto
  · intro T hT q hq
    have := hT.map_lt hq
    omega

theorem quad_enumeration_size_witness :
    stdTables.Valid ∧ (LocationIdQuad.mk .Center .N .NE .Out).legal = true ∧
    stdTables.locationQuadMaps_ (LocationIdQuad.mk .Center .N .NE .Out).index ≤ 1422 :=
  ⟨stdTables_valid, by decide,
    quad_enumeration_size.2.2.2.2.2.2 stdTables stdTables_valid _ (by decide)⟩

end gobb_analyzer

namespace gobb_analyzer

open Position

/-! ## Orbits of position ids -/

theorem lt_PositionIdNums_of_lt {c : Nat} (hc : c < PieceSetCombinationNums) :
    c < PositionIdNums := by
  rw [PieceSetCombinationNums_eq] at hc
  rw [PositionIdNums_eq]
  omega

theorem ofId_orange {T : QuadTables} {c : Nat} (hc : c < PieceSetCombinationNums) :
    (Position.ofId T c).activePlayerColor_ = PlayerColor.Orange := by
  rw [ofId_color (lt_PositionIdNums_of_lt hc), if_pos hc]

theorem transformedId_eq {T : QuadTables} {c : Nat} (hc : c < PieceSetCombinationNums)
    {t : TransformerId} (ht : is_valid_TransformerId t = true) :
    transformedId T t c =
      computedId T PlayerColor.Orange (fun k => ((Position.ofId T c).piecePairs_ k).transform t) := by
  have hv : is_valid_positionId (Position.ofId T c).id_ = true := by
    rw [ofId_id (lt_PositionIdNums_of_lt hc)]
    exact decide_eq_true (lt_PositionIdNums_of_lt hc)
  rw [transformedId, Position.id, transform_id hv ht, ofId_orange hc]

theorem transformedId_lt {T : QuadTables} (hT : T.Valid) {c : Nat}
    (hc : c < PieceSetCombinationNums) {t : TransformerId}
    (ht : is_valid_TransformerId t = true) :
    transformedId T t c < PieceSetCombinationNums := by
  rw [transformedId_eq hc ht]
  have hw := ofId_wellformed hT (lt_PositionIdNums_of_lt hc)
  exact (computedId_color hT PlayerColor.Orange (legalPairs_transform hw.legal ht)).1

theorem transformedId_unchange {T : QuadTables} (hT : T.Valid) {c : Nat}
    (hc : c < PieceSetCombinationNums) : transformedId T TransformerId.Unchange c = c := by
  have hw := ofId_wellformed hT (lt_PositionIdNums_of_lt hc)
  rw [transformedId, Position.id, transform_unchange_id hw, ofId_id (lt_PositionIdNums_of_lt hc)]

theorem transformedId_pairs {T : QuadTables} (hT : T.Valid) {c : Nat}
    (hc : c < PieceSetCombinationNums) {t : TransformerId}
    (ht : is_valid_TransformerId t = true) :
    ∀ k ∈ PieceIds, (Position.ofId T (transformedId T t c)).piecePairs_ k =
      ((Position.ofId T c).piecePairs_ k).transform t := by
  have hw := ofId_wellformed hT (lt_PositionIdNums_of_lt hc)
  rw [transformedId_eq hc ht]
  exact (ofId_computedId hT (by decide) (legalPairs_transform hw.legal ht)).2

theorem transformedId_comp {T : QuadTables} (hT : T.Valid) {t1 t2 : TransformerId}
    (h1 : is_valid_TransformerId t1 = true) (h2 : is_valid_TransformerId t2 = true) :
    ∃ t3, is_valid_TransformerId t3 = true ∧ ∀ c, c < PieceSetCombinationNums →
      transformedId T t2 (transformedId T t1 c) = transformedId T t3 c := by
  obtain ⟨t3, ht3, hcomp⟩ := transform_LocationId_comp h1 h2
  refine ⟨t3, ht3, ?_⟩
  intro c hc
  rw [transformedId_eq (transformedId_lt hT hc h1) h2, transformedId_eq hc ht3]
  apply computedId_congr
  intro k hk
  rw [transformedId_pairs hT hc h1 k hk, pair_transform_transform, hcomp, hcomp,
    ← pair_transform_eq]

theorem transformedId_invert {T : QuadTables} (hT : T.Valid) {c : Nat}
    (hc : c < PieceSetCombinationNums) {t : TransformerId}
    (ht : is_valid_TransformerId t = true) :
    transformedId T (invert_Transformer t) (transformedId T t c) = c := by
  have hw := ofId_wellformed hT (lt_PositionIdNums_of_lt hc)
  rw [transformedId_eq (transformedId_lt hT hc ht) (invert_Transformer_valid ht)]
  have e : ∀ k ∈ PieceIds,
      ((Position.ofId T (transformedId T t c)).piecePairs_ k).transform (invert_Transformer t) =
        (Position.ofId T c).piecePairs_ k := by
    intro k hk
    obtain ⟨h0, h1⟩ := legalPairs_valid hw.legal hk
    rw [transformedId_pairs hT hc ht k hk]
    exact pair_transform_invert _ ht h0 h1 (legalPairs_sorted hw.legal hk)
  rw [computedId_congr T _ e, ← ofId_orange hc, ← hw.id_computed,
    ofId_id (lt_PositionIdNums_of_lt hc)]

theorem effective_iff {t : TransformerId} :
    t ∈ EffectiveTransformerIds ↔
      is_valid_TransformerId t = true ∧ t ≠ TransformerId.Unchange := by
  revert t
  decide

theorem invert_effective {t : TransformerId} (ht : t ∈ EffectiveTransformerIds) :
    invert_Transformer t ∈ EffectiveTransformerIds := by
  revert t
  decide

/-- A representative has no effective transformer leading to a smaller id. -/
theorem not_rep_of_image {T : QuadTables} (hT : T.Valid) {i c : Nat}
    (hi : i < PieceSetCombinationNums) {t : TransformerId} (ht : t ∈ EffectiveTransformerIds)
    (h : transformedId T t i = c) (hic : i < c) :
    ∃ t' ∈ EffectiveTransformerIds, transformedId T t' c < c := by
  refine ⟨invert_Transformer t, invert_effective ht, ?_⟩
  rw [← h, transformedId_invert hT hi (effective_valid ht), h]
  exact hic

theorem minimize_id_ofId {T : QuadTables} (hT : T.Valid) {n : Nat}
    (hn : n < PieceSetCombinationNums) :
    (∃ t, is_valid_TransformerId t = true ∧
      (Position.ofId T n).minimize_id T = transformedId T t n) ∧
    ∀ t, is_valid_TransformerId t = true →
      (Position.ofId T n).minimize_id T ≤ transformedId T t n := by
  have hw := ofId_wellformed hT (lt_PositionIdNums_of_lt hn)
  obtain ⟨⟨t0, ht0, e0⟩, hmin⟩ := hw.minimize_id_spec hT
  refine ⟨⟨t0, ht0, ?_⟩, ?_⟩
  · rw [transformedId_eq hn ht0]
    exact e0
  · intro t ht
    rw [transformedId_eq hn ht]
    exact hmin t ht

theorem exists_rep {T : QuadTables} (hT : T.Valid) {n : Nat}
    (hn : n < PieceSetCombinationNums)
    (h : ∃ t ∈ EffectiveTransformerIds, transformedId T t n < n) :
    ∃ i, i < n ∧ (∀ t ∈ EffectiveTransformerIds, ¬ transformedId T t i < i) ∧
      ∃ t ∈ EffectiveTransformerIds, transformedId T t i = n := by
  obtain ⟨⟨t0, ht0, e0⟩, hmin⟩ := minimize_id_ofId hT hn
  obtain ⟨t, ht, hlt⟩ := h
  have hm : transformedId T t0 n < n :=
    lt_of_le_of_lt (by rw [← e0]; exact hmin t (effective_valid ht)) hlt
  refine ⟨transformedId T t0 n, hm, ?_, ?_⟩
  · intro t' ht' hc
    obtain ⟨t3, ht3, hcomp⟩ := transformedId_comp hT ht0 (effective_valid ht')
    rw [hcomp n hn] at hc
    have := hmin t3 ht3
    rw [e0] at this
    omega
  · refine ⟨invert_Transformer t0, ?_, transformedId_invert hT hn ht0⟩
    rw [effective_iff]
    refine ⟨invert_Transformer_valid ht0, ?_⟩
    intro hu
    have := transformedId_invert hT hn ht0
    rw [hu, transformedId_unchange hT (transformedId_lt hT hn ht0)] at this
    omega

end gobb_analyzer

namespace gobb_analyzer

open Position

/-! ## The first generation of the analysis -/

namespace Analyzer

theorem setCell_table (a : Analyzer) (i : Nat) (d : AnalysisData) (c : Nat) :
    (a.setCell i d).analysisDataTable_ c = if c = i then d else a.analysisDataTable_ c := rfl

theorem fill_table (d : AnalysisData) (n : Nat) (a : Analyzer) (c : Nat) :
    (forUpTo (fun a i => a.setCell i d) n a).analysisDataTable_ c =
      if c < n then d else a.analysisDataTable_ c := by
  induction n with
  | zero => simp [forUpTo]
  | succ n ih =>
    rw [forUpTo, setCell_table, ih]
    by_cases h : c = n
    · rw [if_pos h, if_pos (by omega)]
    · rw [if_neg h]
      by_cases h' : c < n
      · rw [if_pos h', if_pos (by omega)]
      · rw [if_neg h', if_neg (by omega)]

theorem markLoop_table (T : QuadTables) (i : Nat) (pos : Position) (l : List TransformerId)
    (a : Analyzer) (c : Nat) :
    ((∃ t ∈ l, (pos.transform T t).id = c ∧ i < c ∧ c < AnalysisDataTableSize) →
      (l.foldl
        (fun a trans =>
          if (pos.transform T trans).id > i ∧ (pos.transform T trans).id < AnalysisDataTableSize
          then a.setCell (pos.transform T trans).id
            (to_analysisData false 0 AnalysisStatus.Transformed)
          else a) a).analysisDataTable_ c =
        to_analysisData false 0 AnalysisStatus.Transformed) ∧
    ((¬ ∃ t ∈ l, (pos.transform T t).id = c ∧ i < c ∧ c < AnalysisDataTableSize) →
      (l.foldl
        (fun a trans =>
          if (pos.transform T trans).id > i ∧ (pos.transform T trans).id < AnalysisDataTableSize
          then a.setCell (pos.transform T trans).id
            (to_analysisData false 0 AnalysisStatus.Transformed)
          else a) a).analysisDataTable_ c =
        a.analysisDataTable_ c) := by
  induction l using List.reverseRecOn with
  | nil =>
    constructor
    · rintro ⟨t, ht, _⟩
      exact absurd ht (List.not_mem_nil t)
    · intro _
      rfl
  | append_singleton l t ih =>
    rw [List.foldl_append, List.foldl_cons, List.foldl_nil]
    by_cases hit : (pos.transform T t).id = c ∧ i < c ∧ c < AnalysisDataTableSize
    · constructor
      · intro _
        rw [if_pos (by rw [hit.1]; exact hit.2), setCell_table, if_pos hit.1.symm]
      · intro h
        exact absurd ⟨t, by simp, hit⟩ h
    · have hne : ((pos.transform T t).id > i ∧ (pos.transform T t).id < AnalysisDataTableSize) →
          c ≠ (pos.transform T t).id := by
        intro hc e
        exact hit ⟨e.symm, by rw [e]; exact hc.1, by rw [e]; exact hc.2⟩
      have hsame : (if (pos.transform T t).id > i ∧
            (pos.transform T t).id < AnalysisDataTableSize
          then (l.foldl
            (fun a trans =>
              if (pos.transform T trans).id > i ∧
                (pos.transform T trans).id < AnalysisDataTableSize
              then a.setCell (pos.transform T trans).id
                (to_analysisData false 0 AnalysisStatus.Transformed)
              else a) a).setCell (pos.transform T t).id
            (to_analysisData false 0 AnalysisStatus.Transformed)
          else (l.foldl
            (fun a trans =>
              if (pos.transform T trans).id > i ∧
                (pos.transform T trans).id < AnalysisDataTableSize
              then a.setCell (pos.transform T trans).id
                (to_analysisData false 0 AnalysisStatus.Transformed)
              else a) a)).analysisDataTable_ c =
          (l.foldl
            (fun a trans =>
              if (pos.transform T trans).id > i ∧
                (pos.transform T trans).id < AnalysisDataTableSize
              then a.setCell (pos.transform T trans).id
                (to_analysisData false 0 AnalysisStatus.Transformed)
              else a) a).analysisDataTable_ c := by
        split_ifs with hc
        · rw [setCell_table, if_neg (hne hc)]
        · rfl
      rw [hsame]
      constructor
      · rintro ⟨t', ht', h'⟩
        rcases List.mem_append.mp ht' with hm | hm
        · exact ih.1 ⟨t', hm, h'⟩
        · rw [List.mem_singleton] at hm
          rw [hm] at h'
          exact absurd h' hit
      · intro h
        exact ih.2 (fun ⟨t', ht', h'⟩ => h ⟨t', List.mem_append_left _ ht', h'⟩)

theorem markTransformed_hit (T : QuadTables) (a : Analyzer) (i : Nat) (pos : Position)
    (c : Nat)
    (h : ∃ t ∈ EffectiveTransformerIds,
      (pos.transform T t).id = c ∧ i < c ∧ c < AnalysisDataTableSize) :
    (markTransformed T a i pos).analysisDataTable_ c =
      to_analysisData false 0 AnalysisStatus.Transformed :=
  (markLoop_table T i pos EffectiveTransformerIds a c).1 h

theorem markTransformed_miss (T : QuadTables) (a : Analyzer) (i : Nat) (pos : Position)
    (c : Nat)
    (h : ¬ ∃ t ∈ EffectiveTransformerIds,
      (pos.transform T t).id = c ∧ i < c ∧ c < AnalysisDataTableSize) :
    (markTransformed T a i pos).analysisDataTable_ c = a.analysisDataTable_ c :=
  (markLoop_table T i pos EffectiveTransformerIds a c).2 h

theorem body_skip (T : QuadTables) (s : Analyzer × Bool) (i : Nat)
    (h : status_of_analysisData (s.1.analysisDataTable_ i) = AnalysisStatus.Transformed) :
    (initialize_body T s i).1.analysisDataTable_ = s.1.analysisDataTable_ := by
  unfold initialize_body
  simp only
  rw [if_pos h]

theorem body_other (T : QuadTables) (s : Analyzer × Bool) (i : Nat)
    (h : status_of_analysisData (s.1.analysisDataTable_ i) ≠ AnalysisStatus.Transformed)
    {c : Nat} (hc : c ≠ i) :
    (initialize_body T s i).1.analysisDataTable_ c =
      (markTransformed T s.1 i (Position.ofId T i)).analysisDataTable_ c := by
  unfold initialize_body
  simp only
  rw [if_neg h]
  split_ifs <;> simp only [setCell_table, if_neg hc]

theorem body_self (T : QuadTables) (s : Analyzer × Bool) (i : Nat)
    (h : status_of_analysisData (s.1.analysisDataTable_ i) ≠ AnalysisStatus.Transformed) :
    status_of_analysisData ((initialize_body T s i).1.analysisDataTable_ i) ≠
      AnalysisStatus.Transformed := by
  have hm : (markTransformed T s.1 i (Position.ofId T i)).analysisDataTable_ i =
      s.1.analysisDataTable_ i := by
    apply markTransformed_miss
    rintro ⟨t, _, _, hlt, _⟩
    exact lt_irrefl _ hlt
  unfold initialize_body
  simp only
  rw [if_neg h]
  split_ifs <;>
    first
    | (simp only [setCell_table, if_true, status_of_analysisData, to_analysisData]
       intro hc
       exact AnalysisStatus.noConfusion hc)
    | (simp only [hm]
       exact h)

theorem body_winner (T : QuadTables) (s : Analyzer × Bool) (i : Nat)
    (h : status_of_analysisData (s.1.analysisDataTable_ i) ≠ AnalysisStatus.Transformed)
    (hw : (Position.ofId T i).is_winner PlayerId.Active = true) :
    status_of_analysisData ((initialize_body T s i).1.analysisDataTable_ i) =
      AnalysisStatus.Contradictory := by
  unfold initialize_body
  simp only
  rw [if_neg h, if_pos hw]
  simp only [setCell_table, if_true, status_of_analysisData, to_analysisData]

end Analyzer

end gobb_analyzer

namespace gobb_analyzer

open Position

/-! ## Lines under the symmetries -/

theorem occupies_nonAscending (a b loc : LocationId) :
    (nonAscending a b).occupies loc = (a == loc || b == loc) := by
  unfold nonAscending LocationIdPair.occupies
  split_ifs
  · rfl
  · exact Bool.or_comm _ _

theorem occupies_transform (p : LocationIdPair) {t : TransformerId} {loc : LocationId}
    (ht : is_valid_TransformerId t = true)
    (h0 : is_valid_locationId p.locations0 = true) (h1 : is_valid_locationId p.locations1 = true)
    (hl : is_valid_locationId loc = true) :
    (p.transform t).occupies (transform_LocationId t loc) = p.occupies loc := by
  rw [pair_transform_eq, occupies_nonAscending]
  unfold LocationIdPair.occupies
  have e0 : (transform_LocationId t p.locations0 == transform_LocationId t loc) =
      (p.locations0 == loc) := by
    rw [Bool.eq_iff_iff, beq_iff_eq, beq_iff_eq]
    exact ⟨transform_LocationId_inj ht h0 hl, fun e => by rw [e]⟩
  have e1 : (transform_LocationId t p.locations1 == transform_LocationId t loc) =
      (p.locations1 == loc) := by
    rw [Bool.eq_iff_iff, beq_iff_eq, beq_iff_eq]
    exact ⟨transform_LocationId_inj ht h1 hl, fun e => by rw [e]⟩
  rw [e0, e1]

theorem lastPlaced_transform {pairs : PieceId → LocationIdPair} (h : legalPairs pairs)
    {t : TransformerId} (ht : is_valid_TransformerId t = true) {loc : LocationId}
    (hl : is_valid_locationId loc = true) :
    lastPlaced (fun k => (pairs k).transform t) (transform_LocationId t loc) =
      lastPlaced pairs loc := by
  have ho : ∀ k ∈ PieceIds,
      ((pairs k).transform t).occupies (transform_LocationId t loc) = (pairs k).occupies loc := by
    intro k hk
    obtain ⟨h0, h1⟩ := legalPairs_valid h hk
    exact occupies_transform _ ht h0 h1 hl
  unfold lastPlaced
  simp only [ho _ (by decide : PieceId.InactivePlayerLarge ∈ PieceIds),
    ho _ (by decide : PieceId.ActivePlayerLarge ∈ PieceIds),
    ho _ (by decide : PieceId.InactivePlayerMedium ∈ PieceIds),
    ho _ (by decide : PieceId.ActivePlayerMedium ∈ PieceIds),
    ho _ (by decide : PieceId.InactivePlayerSmall ∈ PieceIds),
    ho _ (by decide : PieceId.ActivePlayerSmall ∈ PieceIds)]

theorem topmostPiece_transform {pairs : PieceId → LocationIdPair} (h : legalPairs pairs)
    {t : TransformerId} (ht : is_valid_TransformerId t = true) {loc : LocationId}
    (hl : is_on_board_locationId loc = true) :
    topmostPiece (fun k => (pairs k).transform t) (transform_LocationId t loc) =
      topmostPiece pairs loc := by
  have hv := LocationId.valid_of_on_board hl
  have hne := Position.LocationId.ne_out_of_on_board hl
  have hne' : transform_LocationId t loc ≠ LocationId.Out :=
    fun e => hne ((transform_LocationId_out ht hv).mp e)
  rw [← lastPlaced_eq_topmostPiece (legalPairs_transform h ht) hne',
    ← lastPlaced_eq_topmostPiece h hne]
  exact lastPlaced_transform h ht hv

set_option maxRecDepth 100000 in
theorem lines_transform {t : TransformerId} (ht : is_valid_TransformerId t = true) :
    ∀ line ∈ Position.lines, ∃ line' ∈ Position.lines,
      (line'.1 = transform_LocationId t line.1 ∨ line'.1 = transform_LocationId t line.2.1 ∨
        line'.1 = transform_LocationId t line.2.2) ∧
      (line'.2.1 = transform_LocationId t line.1 ∨
        line'.2.1 = transform_LocationId t line.2.1 ∨
        line'.2.1 = transform_LocationId t line.2.2) ∧
      (line'.2.2 = transform_LocationId t line.1 ∨
        line'.2.2 = transform_LocationId t line.2.1 ∨
        line'.2.2 = transform_LocationId t line.2.2) := by
  revert t
  decide!

theorem hasLine_transform {pairs : PieceId → LocationIdPair} (h : legalPairs pairs)
    {t : TransformerId} (ht : is_valid_TransformerId t = true) {player : PlayerId}
    (hl : hasLine pairs player) : hasLine (fun k => (pairs k).transform t) player := by
  obtain ⟨line, hmem, h1, h2, h3⟩ := hl
  obtain ⟨b1, b2, b3⟩ := lines_on_board line hmem
  obtain ⟨line', hmem', c1, c2, c3⟩ := lines_transform ht line hmem
  have key : ∀ x, (x = transform_LocationId t line.1 ∨ x = transform_LocationId t line.2.1 ∨
      x = transform_LocationId t line.2.2) →
      playerId_of_pieceId (topmostPiece (fun k => (pairs k).transform t) x) = player := by
    intro x hx
    rcases hx with e | e | e
    · rw [e, topmostPiece_transform h ht b1]
      exact h1
    · rw [e, topmostPiece_transform h ht b2]
      exact h2
    · rw [e, topmostPiece_transform h ht b3]
      exact h3
  exact ⟨line', hmem', key _ c1, key _ c2, key _ c3⟩

theorem hasLine_congr {pairs pairs' : PieceId → LocationIdPair}
    (h : ∀ k ∈ PieceIds, pairs k = pairs' k) {player : PlayerId}
    (hl : hasLine pairs player) : hasLine pairs' player := by
  obtain ⟨line, hmem, h1, h2, h3⟩ := hl
  refine ⟨line, hmem, ?_, ?_, ?_⟩
  · rw [← topmostPiece_congr h]
    exact h1
  · rw [← topmostPiece_congr h]
    exact h2
  · rw [← topmostPiece_congr h]
    exact h3

/-- The position of the canonical id of a valid position: the canonical id is
below `1423^3`, no effective transformer leads from it to a smaller id, and a
line of the active player in the position is a line of the active player
there. -/
theorem canonical_position {T : QuadTables} (hT : T.Valid) {p : Position}
    (hp : p.Wellformed T) :
    p.minimize_id T < PieceSetCombinationNums ∧
    (∀ t ∈ EffectiveTransformerIds,
      ¬ transformedId T t (p.minimize_id T) < p.minimize_id T) ∧
    (p.is_winner PlayerId.Active = true →
      (Position.ofId T (p.minimize_id T)).is_winner PlayerId.Active = true) := by
  obtain ⟨⟨t0, ht0, e0⟩, hmin⟩ := hp.minimize_id_spec hT
  have hlt := hp.minimize_id_lt hT
  have hl0 := legalPairs_transform hp.legal ht0
  have hq := ofId_wellformed hT (lt_PositionIdNums_of_lt hlt)
  have hqp : ∀ k ∈ PieceIds, (Position.ofId T (p.minimize_id T)).piecePairs_ k =
      (p.piecePairs_ k).transform t0 := by
    rw [e0]
    exact (ofId_computedId hT (by decide) hl0).2
  refine ⟨hlt, ?_, ?_⟩
  · intro t ht hc
    have htv := effective_valid ht
    obtain ⟨t3, ht3, hcomp⟩ := transform_LocationId_comp ht0 htv
    have e : ∀ k ∈ PieceIds,
        ((Position.ofId T (p.minimize_id T)).piecePairs_ k).transform t =
          (p.piecePairs_ k).transform t3 := by
      intro k hk
      rw [hqp k hk, pair_transform_transform, hcomp, hcomp, ← pair_transform_eq]
    rw [transformedId_eq hlt htv, computedId_congr T _ e] at hc
    have := hmin t3 ht3
    omega
  · intro hw
    rw [hq.winner_iff]
    rw [hp.winner_iff] at hw
    exact hasLine_congr (fun k hk => (hqp k hk).symm) (hasLine_transform hp.legal ht0 hw)

end gobb_analyzer

namespace gobb_analyzer

open Position

/-! ## The table after `Analyzer::initialize` -/

namespace Analyzer

theorem body_frozen (T : QuadTables) (s : Analyzer × Bool) (i : Nat) {c : Nat} (hc : c < i) :
    (initialize_body T s i).1.analysisDataTable_ c = s.1.analysisDataTable_ c := by
  by_cases h : status_of_analysisData (s.1.analysisDataTable_ i) = AnalysisStatus.Transformed
  · rw [body_skip T s i h]
  · rw [body_other T s i h (by omega)]
    apply markTransformed_miss
    rintro ⟨t, _, _, hlt, _⟩
    omega

theorem loop_frozen (T : QuadTables) (s0 : Analyzer × Bool) (m n : Nat) (h : m < n) :
    (forUpTo (initialize_body T) n s0).1.analysisDataTable_ m =
      (forUpTo (initialize_body T) (m + 1) s0).1.analysisDataTable_ m := by
  induction n with
  | zero => omega
  | succ n ih =>
    by_cases e : n = m
    · rw [e]
    · have hlt : m < n := by omega
      rw [forUpTo, body_frozen T _ n hlt]
      exact ih hlt

theorem loop_invariant {T : QuadTables} (hT : T.Valid) (s0 : Analyzer × Bool)
    (h0 : ∀ c, c < AnalysisDataTableSize →
      status_of_analysisData (s0.1.analysisDataTable_ c) ≠ AnalysisStatus.Transformed)
    (n : Nat) (hn : n ≤ AnalysisDataTableSize) :
    ∀ c, c < AnalysisDataTableSize →
      (status_of_analysisData ((forUpTo (initialize_body T) n s0).1.analysisDataTable_ c) =
          AnalysisStatus.Transformed ↔
        ∃ i, i < n ∧ (∀ t ∈ EffectiveTransformerIds, ¬ transformedId T t i < i) ∧ i < c ∧
          ∃ t ∈ EffectiveTransformerIds, transformedId T t i = c) := by
  have hsz : AnalysisDataTableSize = PieceSetCombinationNums := rfl
  induction n with
  | zero =>
    intro c hc
    constructor
    · intro h
      exact absurd h (h0 c hc)
    · rintro ⟨i, hi, _⟩
      omega
  | succ n ih =>
    have hn' : n < AnalysisDataTableSize := by omega
    have ih := ih (by omega)
    intro c hc
    rw [forUpTo]
    by_cases hs : status_of_analysisData
        ((forUpTo (initialize_body T) n s0).1.analysisDataTable_ n) = AnalysisStatus.Transformed
    · rw [body_skip T _ n hs, ih c hc]
      constructor
      · rintro ⟨i, hi, h⟩
        exact ⟨i, by omega, h⟩
      · rintro ⟨i, hi, hrep, hic, hex⟩
        by_cases e : i = n
        · exfalso
          obtain ⟨j, hj, _, hjn, t, ht, htj⟩ := (ih n hn').mp hs
          obtain ⟨t', ht', hlt⟩ := not_rep_of_image hT (by omega : j < PieceSetCombinationNums)
            ht htj hjn
          rw [e] at hrep
          exact hrep t' ht' hlt
        · exact ⟨i, by omega, hrep, hic, hex⟩
    · have hrep : ∀ t ∈ EffectiveTransformerIds, ¬ transformedId T t n < n := by
        intro t ht hlt
        obtain ⟨i, hi, hri, hex⟩ := exists_rep hT hn' ⟨t, ht, hlt⟩
        exact hs ((ih n hn').mpr ⟨i, hi, hri, hi, hex⟩)
      by_cases hcn : c = n
      · rw [hcn]
        constructor
        · intro h
          exact absurd h (body_self T _ n hs)
        · rintro ⟨i, _, hri, hin, hex⟩
          exact absurd ((ih n hn').mpr ⟨i, hin, hri, hin, hex⟩) hs
      · rw [body_other T _ n hs hcn]
        by_cases hit : ∃ t ∈ EffectiveTransformerIds,
            ((Position.ofId T n).transform T t).id = c ∧ n < c ∧ c < AnalysisDataTableSize
        · rw [markTransformed_hit T _ n _ c hit]
          obtain ⟨t, ht, htc, hnc, _⟩ := hit
          constructor
          · intro _
            exact ⟨n, by omega, hrep, hnc, t, ht, htc⟩
          · intro _
            rfl
        · rw [markTransformed_miss T _ n _ c hit, ih c hc]
          constructor
          · rintro ⟨i, hi, h⟩
            exact ⟨i, by omega, h⟩
          · rintro ⟨i, hi, hri, hic, t, ht, htc⟩
            by_cases e : i = n
            · exfalso
              rw [e] at htc hic
              exact hit ⟨t, ht, htc, hic, hc⟩
            · exact ⟨i, by omega, hri, hic, t, ht, htc⟩

theorem pair_snd {α β : Type} (x : α) (y : β) : (x, y).2 = y := rfl

theorem initialize_eq (T : QuadTables) (MaxTurn : Nat) (a : Analyzer) :
    a.initialize_ T MaxTurn =
      ((forUpTo (initialize_body T) AnalysisDataTableSize
        (forUpTo (fun a i => a.setCell i (to_analysisData false MaxTurn AnalysisStatus.Unfixed))
          AnalysisDataTableSize a, false)).2,
       (forUpTo (initialize_body T) AnalysisDataTableSize
        (forUpTo (fun a i => a.setCell i (to_analysisData false MaxTurn AnalysisStatus.Unfixed))
          AnalysisDataTableSize a, false)).1) := by
  unfold initialize_
  exact Eq.refl _

theorem initialize_table (T : QuadTables) (MaxTurn : Nat) (a : Analyzer) :
    (a.initialize_ T MaxTurn).2 =
      (forUpTo (initialize_body T) AnalysisDataTableSize
        (forUpTo (fun a i => a.setCell i (to_analysisData false MaxTurn AnalysisStatus.Unfixed))
          AnalysisDataTableSize a, false)).1 :=
  (congrArg Prod.snd (initialize_eq T MaxTurn a)).trans (pair_snd _ _)

theorem filled_not_transformed (MaxTurn : Nat) (a : Analyzer) :
    ∀ c, c < AnalysisDataTableSize →
      status_of_analysisData
        ((forUpTo (fun a i => a.setCell i (to_analysisData false MaxTurn AnalysisStatus.Unfixed))
          AnalysisDataTableSize a, false).1.analysisDataTable_ c) ≠
        AnalysisStatus.Transformed := by
  intro c hc
  rw [fill_table, if_pos hc]
  intro h
  exact AnalysisStatus.noConfusion h

end Analyzer

theorem lt_tableSize_of_lt {c : Nat} (hc : c < 1423 ^ 3) : c < AnalysisDataTableSize := by
  have e : AnalysisDataTableSize = 2881473967 := PieceSetCombinationNums_eq
  rw [e]
  norm_num at hc
  exact hc

/-- C19, orbit representatives after initialization: given valid quad tables,
after `initialize()` (whatever the table held before and whatever `MaxTurn`
is), for every id `c` below `1423^3` the cell `c` has the status
`Transformed` exactly when some effective transformer `t` gives
`Position(c).transform(t).id() < c`, which is to say exactly when `c` is not
the least id among the eight `Position(c).transform(t).id()`. -/
theorem initialize_transformed (T : QuadTables) (hT : T.Valid) (MaxTurn : Nat) (a : Analyzer)
    (c : Nat) (hc : c < 1423 ^ 3) :
    (status_of_analysisData ((a.initialize_ T MaxTurn).2.analysisDataTable_ c) =
        AnalysisStatus.Transformed ↔
      ∃ t ∈ EffectiveTransformerIds, ((Position.ofId T c).transform T t).id < c) ∧
    ((∃ t ∈ EffectiveTransformerIds, ((Position.ofId T c).transform T t).id < c) ↔
      ¬ ∀ t ∈ TransformerIds, c ≤ ((Position.ofId T c).transform T t).id) := by
  have hc' := lt_tableSize_of_lt hc
  have hcs : c < PieceSetCombinationNums := hc'
  constructor
  · rw [Analyzer.initialize_table,
      Analyzer.loop_invariant hT _ (Analyzer.filled_not_transformed MaxTurn a)
        AnalysisDataTableSize (le_refl _) c hc']
    constructor
    · rintro ⟨i, hi, _, hic, t, ht, hti⟩
      exact not_rep_of_image hT hi ht hti hic
    · intro h
      obtain ⟨i, hi, hrep, hex⟩ := exists_rep hT hcs h
      exact ⟨i, lt_trans hi hc', hrep, hi, hex⟩
  · constructor
    · rintro ⟨t, ht, hlt⟩ hall
      have := hall t (mem_TransformerIds_iff.mpr (effective_valid ht))
      omega
    · intro h
      by_contra hne
      apply h
      intro t ht
      rcases valid_transformer_cases (mem_TransformerIds_iff.mp ht) with e | e
      · have := transformedId_unchange hT hcs
        rw [transformedId] at this
        rw [e, this]
      · by_contra hlt
        exact hne ⟨t, e, by omega⟩

set_option maxRecDepth 100000 in
theorem initialize_transformed_witness :
    stdTables.Valid ∧ 3 < 1423 ^ 3 ∧
    status_of_analysisData
      ((Analyzer.initialize_ stdTables 15
        ⟨fun _ => to_analysisData false 0 AnalysisStatus.Won, ⟨0, 0, 0, 0, 0, 0⟩⟩).2.analysisDataTable_
          3) = AnalysisStatus.Transformed :=
  ⟨stdTables_valid, by decide,
    (initialize_transformed stdTables stdTables_valid 15
      ⟨fun _ => to_analysisData false 0 AnalysisStatus.Won, ⟨0, 0, 0, 0, 0, 0⟩⟩ 3
      (by decide)).1.mpr ⟨TransformerId.Rotate270, by decide, by decide!⟩⟩

/-- C20, generation-0 contradictions: given valid quad tables, after
`initialize()` (whatever the table held before and whatever `MaxTurn` is),
for every valid position in which the active player has three in a row, the
cell at the canonical id `minimize_id()` of the position has the status
`Contradictory`. -/
theorem initialize_contradictory (T : QuadTables) (hT : T.Valid) (MaxTurn : Nat)
    (a : Analyzer) (p : Position) (hp : p.Wellformed T)
    (hw : p.is_winner PlayerId.Active = true) :
    status_of_analysisData
      ((a.initialize_ T MaxTurn).2.analysisDataTable_ (p.minimize_id T)) =
        AnalysisStatus.Contradictory := by
  obtain ⟨hlt, hrep, hwin⟩ := canonical_position hT hp
  have hlt' : p.minimize_id T < AnalysisDataTableSize := hlt
  rw [Analyzer.initialize_table, Analyzer.loop_frozen T _ _ _ hlt', forUpTo]
  apply Analyzer.body_winner
  · intro h
    obtain ⟨i, hi, _, _, t, ht, hti⟩ :=
      (Analyzer.loop_invariant hT _ (Analyzer.filled_not_transformed MaxTurn a)
        (p.minimize_id T) (le_of_lt hlt') _ hlt').mp h
    obtain ⟨t', ht', hc⟩ := not_rep_of_image hT (lt_trans hi hlt) ht hti hi
    exact hrep t' ht' hc
  · exact hwin hw

set_option maxRecDepth 100000 in
theorem initialize_contradictory_witness :
    stdTables.Valid ∧ (Position.ofId stdTables 6077634).Wellformed stdTables ∧
    (Position.ofId stdTables 6077634).is_winner PlayerId.Active = true ∧
    status_of_analysisData
      ((Analyzer.initialize_ stdTables 15
        ⟨fun _ => to_analysisData false 0 AnalysisStatus.Won, ⟨0, 0, 0, 0, 0, 0⟩⟩).2.analysisDataTable_
          ((Position.ofId stdTables 6077634).minimize_id stdTables)) =
        AnalysisStatus.Contradictory :=
  ⟨stdTables_valid, @ofId_wellformed stdTables stdTables_valid 6077634 (by decide),
    by decide!,
    initialize_contradictory stdTables stdTables_valid 15
      ⟨fun _ => to_analysisData false 0 AnalysisStatus.Won, ⟨0, 0, 0, 0, 0, 0⟩⟩
      (Position.ofId stdTables 6077634)
      (@ofId_wellformed stdTables stdTables_valid 6077634 (by decide)) (by decide!)⟩

end gobb_analyzer

namespace gobb_analyzer

/-! ## Parsing decimal numbers, marking the best moves -/

/-- C30, evidence of the defect: the overflow test of `string_to_uint`
(`ullValueTmp < ullValue`) misses a wrap-around that ends above the old
value.  For the 20-digit string `30000000000000000000`, which denotes a
number of at least `2^64`, the step from `3000000000000000000` gives
`30000000000000000000 mod 2^64 = 11553255926290448384`, which is not smaller,
so the function returns true and stores this value. -/
theorem string_to_uint_accepts_overflow :
    string_to_uint 64
      ['3', '0', '0', '0', '0', '0', '0', '0', '0', '0', '0', '0', '0', '0', '0', '0', '0', '0',
        '0', '0'] = some 11553255926290448384 ∧
    2 ^ 64 ≤ 30000000000000000000 := by
  decide

namespace Inspector

theorem bestOf_fold (MaxTurn : Nat) (l : List MoveInspectionResult) :
    ((∃ x ∈ l, x.analysisStatus = AnalysisStatus.Won ∨
          x.analysisStatus = AnalysisStatus.WonStalemate) ∧
        ((l.foldl bestOf (AnalysisStatus.Contradictory, MaxTurn)).1 = AnalysisStatus.Won ∨
          (l.foldl bestOf (AnalysisStatus.Contradictory, MaxTurn)).1 =
            AnalysisStatus.WonStalemate) ∧
        (∃ x ∈ l, (x.analysisStatus = AnalysisStatus.Won ∨
            x.analysisStatus = AnalysisStatus.WonStalemate) ∧
          x.turn = (l.foldl bestOf (AnalysisStatus.Contradictory, MaxTurn)).2) ∧
        ∀ x ∈ l, (x.analysisStatus = AnalysisStatus.Won ∨
            x.analysisStatus = AnalysisStatus.WonStalemate) →
          (l.foldl bestOf (AnalysisStatus.Contradictory, MaxTurn)).2 ≤ x.turn) ∨
    ((¬ ∃ x ∈ l, x.analysisStatus = AnalysisStatus.Won ∨
          x.analysisStatus = AnalysisStatus.WonStalemate) ∧
        (∃ x ∈ l, x.analysisStatus = AnalysisStatus.Unfixed) ∧
        (l.foldl bestOf (AnalysisStatus.Contradictory, MaxTurn)).1 = AnalysisStatus.Unfixed) ∨
    ((¬ ∃ x ∈ l, x.analysisStatus = AnalysisStatus.Won ∨
          x.analysisStatus = AnalysisStatus.WonStalemate) ∧
        (¬ ∃ x ∈ l, x.analysisStatus = AnalysisStatus.Unfixed) ∧
        (∃ x ∈ l, x.analysisStatus = AnalysisStatus.Lost ∨
          x.analysisStatus = AnalysisStatus.LostStalemate) ∧
        ((l.foldl bestOf (AnalysisStatus.Contradictory, MaxTurn)).1 = AnalysisStatus.Lost ∨
          (l.foldl bestOf (AnalysisStatus.Contradictory, MaxTurn)).1 =
            AnalysisStatus.LostStalemate) ∧
        (∃ x ∈ l, (x.analysisStatus = AnalysisStatus.Lost ∨
            x.analysisStatus = AnalysisStatus.LostStalemate) ∧
          x.turn = (l.foldl bestOf (AnalysisStatus.Contradictory, MaxTurn)).2) ∧
        ∀ x ∈ l, (x.analysisStatus = AnalysisStatus.Lost ∨
            x.analysisStatus = AnalysisStatus.LostStalemate) →
          x.turn ≤ (l.foldl bestOf (AnalysisStatus.Contradictory, MaxTurn)).2) ∨
    ((¬ ∃ x ∈ l, x.analysisStatus = AnalysisStatus.Won ∨
          x.analysisStatus = AnalysisStatus.WonStalemate) ∧
        (¬ ∃ x ∈ l, x.analysisStatus = AnalysisStatus.Unfixed) ∧
        (¬ ∃ x ∈ l, x.analysisStatus = AnalysisStatus.Lost ∨
          x.analysisStatus = AnalysisStatus.LostStalemate) ∧
        (l.foldl bestOf (AnalysisStatus.Contradictory, MaxTurn)).1 =
          AnalysisStatus.Contradictory) := by
  induction l using List.reverseRecOn with
  | nil =>
    right; right; right
    simp
  | append_singleton l r ih =>
    rw [List.foldl_append, List.foldl_cons, List.foldl_nil]
    generalize l.foldl bestOf (AnalysisStatus.Contradictory, MaxTurn) = b at ih ⊢
    obtain ⟨bs, bt⟩ := b
    simp only [List.mem_append, List.mem_singleton] at ih ⊢
    by_cases hrw : r.analysisStatus = AnalysisStatus.Won ∨
        r.analysisStatus = AnalysisStatus.WonStalemate
    · -- the new entry is a win
      have hb : bestOf (bs, bt) r =
          if bs = AnalysisStatus.Won ∨ bs = AnalysisStatus.WonStalemate then
            (if r.turn < bt then (bs, r.turn) else (bs, bt))
          else (r.analysisStatus, r.turn) := by
        unfold bestOf
        rcases hrw with e | e <;> simp [e]
      left
      rcases ih with ⟨_, hs, ⟨y, hy, hyw, hyt⟩, hmin⟩ | ⟨hnw, _, hs⟩ | ⟨hnw, _, _, hs, _⟩ |
          ⟨hnw, _, _, hs⟩
      · rw [hb, if_pos hs]
        by_cases hlt : r.turn < bt
        · rw [if_pos hlt]
          refine ⟨⟨r, Or.inr rfl, hrw⟩, hs, ⟨r, Or.inr rfl, hrw, rfl⟩, ?_⟩
          rintro x (hx | hx) hxw
          · have := hmin x hx hxw
            try dsimp only
            omega
          · rw [hx]
        · rw [if_neg hlt]
          refine ⟨⟨r, Or.inr rfl, hrw⟩, hs, ⟨y, Or.inl hy, hyw, hyt⟩, ?_⟩
          rintro x (hx | hx) hxw
          · exact hmin x hx hxw
          · rw [hx]
            try dsimp only
            omega
      all_goals
        have hs' : ¬ (bs = AnalysisStatus.Won ∨ bs = AnalysisStatus.WonStalemate) := by
          clear hb
          revert hs
          cases bs <;> decide
      · rw [hb, if_neg hs']
        refine ⟨⟨r, Or.inr rfl, hrw⟩, hrw, ⟨r, Or.inr rfl, hrw, rfl⟩, ?_⟩
        rintro x (hx | hx) hxw
        · exact absurd ⟨x, hx, hxw⟩ hnw
        · rw [hx]
      · rw [hb, if_neg hs']
        refine ⟨⟨r, Or.inr rfl, hrw⟩, hrw, ⟨r, Or.inr rfl, hrw, rfl⟩, ?_⟩
        rintro x (hx | hx) hxw
        · exact absurd ⟨x, hx, hxw⟩ hnw
        · rw [hx]
      · rw [hb, if_neg hs']
        refine ⟨⟨r, Or.inr rfl, hrw⟩, hrw, ⟨r, Or.inr rfl, hrw, rfl⟩, ?_⟩
        rintro x (hx | hx) hxw
        · exact absurd ⟨x, hx, hxw⟩ hnw
        · rw [hx]
    · by_cases hru : r.analysisStatus = AnalysisStatus.Unfixed
      · -- the new entry is unfixed
        have hb : bestOf (bs, bt) r =
            if bs ≠ AnalysisStatus.Won ∧ bs ≠ AnalysisStatus.WonStalemate then
              (AnalysisStatus.Unfixed, bt)
            else (bs, bt) := by
          unfold bestOf
          simp [hru]
        rcases ih with ⟨⟨y, hy, hyw⟩, hs, ⟨z, hz, hzw, hzt⟩, hmin⟩ | ⟨hnw, _, hs⟩ |
            ⟨hnw, _, _, hs, _⟩ | ⟨hnw, _, _, hs⟩
        · left
          have hs' : ¬ (bs ≠ AnalysisStatus.Won ∧ bs ≠ AnalysisStatus.WonStalemate) := by
            tauto
          rw [hb, if_neg hs']
          refine ⟨⟨y, Or.inl hy, hyw⟩, hs, ⟨z, Or.inl hz, hzw, hzt⟩, ?_⟩
          rintro x (hx | hx) hxw
          · exact hmin x hx hxw
          · rw [hx] at hxw
            exact absurd hxw hrw
        all_goals
          have hs' : bs ≠ AnalysisStatus.Won ∧ bs ≠ AnalysisStatus.WonStalemate := by
            clear hb
            revert hs
            cases bs <;> decide
          right; left
          rw [hb, if_pos hs']
          refine ⟨?_, ⟨r, Or.inr rfl, hru⟩, rfl⟩
          rintro ⟨x, hx | hx, hxw⟩
          · exact hnw ⟨x, hx, hxw⟩
          · rw [hx] at hxw
            exact hrw hxw
      · by_cases hrl : r.analysisStatus = AnalysisStatus.Lost ∨
            r.analysisStatus = AnalysisStatus.LostStalemate
        · -- the new entry is a loss
          have hb : bestOf (bs, bt) r =
              if bs = AnalysisStatus.Lost ∨ bs = AnalysisStatus.LostStalemate then
                (if r.turn > bt then (bs, r.turn) else (bs, bt))
              else if bs = AnalysisStatus.Contradictory then (r.analysisStatus, r.turn)
              else (bs, bt) := by
            unfold bestOf
            rcases hrl with e | e <;> simp [e]
          rcases ih with ⟨⟨y, hy, hyw⟩, hs, ⟨z, hz, hzw, hzt⟩, hmin⟩ | ⟨hnw, ⟨y, hy, hyu⟩, hs⟩ |
              ⟨hnw, hnu, _, hs, ⟨z, hz, hzl, hzt⟩, hmax⟩ | ⟨hnw, hnu, hnl, hs⟩
          · left
            have h1 : ¬ (bs = AnalysisStatus.Lost ∨ bs = AnalysisStatus.LostStalemate) := by
              rcases hs with e | e <;> rw [e] <;> decide
            have h2 : ¬ bs = AnalysisStatus.Contradictory := by
              rcases hs with e | e <;> rw [e] <;> decide
            rw [hb, if_neg h1, if_neg h2]
            refine ⟨⟨y, Or.inl hy, hyw⟩, hs, ⟨z, Or.inl hz, hzw, hzt⟩, ?_⟩
            rintro x (hx | hx) hxw
            · exact hmin x hx hxw
            · rw [hx] at hxw
              exact absurd hxw hrw
          · right; left
            have h1 : ¬ (bs = AnalysisStatus.Lost ∨ bs = AnalysisStatus.LostStalemate) := by
              rw [hs]
              decide
            have h2 : ¬ bs = AnalysisStatus.Contradictory := by
              rw [hs]
              decide
            rw [hb, if_neg h1, if_neg h2]
            refine ⟨?_, ⟨y, Or.inl hy, hyu⟩, hs⟩
            rintro ⟨x, hx | hx, hxw⟩
            · exact hnw ⟨x, hx, hxw⟩
            · rw [hx] at hxw
              exact hrw hxw
          · right; right; left
            rw [hb, if_pos hs]
            refine ⟨?_, ?_, ⟨r, Or.inr rfl, hrl⟩, ?_⟩
            · rintro ⟨x, hx | hx, hxw⟩
              · exact hnw ⟨x, hx, hxw⟩
              · rw [hx] at hxw
                exact hrw hxw
            · rintro ⟨x, hx | hx, hxu⟩
              · exact hnu ⟨x, hx, hxu⟩
              · rw [hx] at hxu
                exact hru hxu
            · by_cases hgt : r.turn > bt
              · rw [if_pos hgt]
                refine ⟨hs, ⟨r, Or.inr rfl, hrl, rfl⟩, ?_⟩
                rintro x (hx | hx) hxl
                · have := hmax x hx hxl
                  try dsimp only
                  omega
                · rw [hx]
              · rw [if_neg hgt]
                refine ⟨hs, ⟨z, Or.inl hz, hzl, hzt⟩, ?_⟩
                rintro x (hx | hx) hxl
                · exact hmax x hx hxl
                · rw [hx]
                  try dsimp only
                  omega
          · right; right; left
            have h1 : ¬ (bs = AnalysisStatus.Lost ∨ bs = AnalysisStatus.LostStalemate) := by
              rw [hs]
              decide
            rw [hb, if_neg h1, if_pos hs]
            refine ⟨?_, ?_, ⟨r, Or.inr rfl, hrl⟩, hrl, ⟨r, Or.inr rfl, hrl, rfl⟩, ?_⟩
            · rintro ⟨x, hx | hx, hxw⟩
              · exact hnw ⟨x, hx, hxw⟩
              · rw [hx] at hxw
                exact hrw hxw
            · rintro ⟨x, hx | hx, hxu⟩
              · exact hnu ⟨x, hx, hxu⟩
              · rw [hx] at hxu
                exact hru hxu
            · rintro x (hx | hx) hxl
              · exact absurd ⟨x, hx, hxl⟩ hnl
              · rw [hx]
        · -- the new entry has another status
          have hb : bestOf (bs, bt) r = (bs, bt) := by
            unfold bestOf
            rw [if_neg hrl, if_neg hru, if_neg hrw]
          rw [hb]
          have hw : (∃ x, (x ∈ l ∨ x = r) ∧ (x.analysisStatus = AnalysisStatus.Won ∨
              x.analysisStatus = AnalysisStatus.WonStalemate)) ↔
              ∃ x ∈ l, x.analysisStatus = AnalysisStatus.Won ∨
                x.analysisStatus = AnalysisStatus.WonStalemate := by
            constructor
            · rintro ⟨x, hx | hx, hxw⟩
              · exact ⟨x, hx, hxw⟩
              · rw [hx] at hxw
                exact absurd hxw hrw
            · rintro ⟨x, hx, hxw⟩
              exact ⟨x, Or.inl hx, hxw⟩
          have hu : (∃ x, (x ∈ l ∨ x = r) ∧ x.analysisStatus = AnalysisStatus.Unfixed) ↔
              ∃ x ∈ l, x.analysisStatus = AnalysisStatus.Unfixed := by
            constructor
            · rintro ⟨x, hx | hx, hxw⟩
              · exact ⟨x, hx, hxw⟩
              · rw [hx] at hxw
                exact absurd hxw hru
            · rintro ⟨x, hx, hxw⟩
              exact ⟨x, Or.inl hx, hxw⟩
          have hl : (∃ x, (x ∈ l ∨ x = r) ∧ (x.analysisStatus = AnalysisStatus.Lost ∨
              x.analysisStatus = AnalysisStatus.LostStalemate)) ↔
              ∃ x ∈ l, x.analysisStatus = AnalysisStatus.Lost ∨
                x.analysisStatus = AnalysisStatus.LostStalemate := by
            constructor
            · rintro ⟨x, hx | hx, hxw⟩
              · exact ⟨x, hx, hxw⟩
              · rw [hx] at hxw
                exact absurd hxw hrl
            · rintro ⟨x, hx, hxw⟩
              exact ⟨x, Or.inl hx, hxw⟩
          rw [hw, hu, hl]
          rcases ih with ⟨h1, hs, ⟨z, hz, hzw, hzt⟩, hmin⟩ | ⟨hnw, h2, hs⟩ |
              ⟨hnw, hnu, h3, hs, ⟨z, hz, hzl, hzt⟩, hmax⟩ | h4
          · left
            refine ⟨h1, hs, ⟨z, Or.inl hz, hzw, hzt⟩, ?_⟩
            rintro x (hx | hx) hxw
            · exact hmin x hx hxw
            · rw [hx] at hxw
              exact absurd hxw hrw
          · right; left
            exact ⟨hnw, h2, hs⟩
          · right; right; left
            refine ⟨hnw, hnu, h3, hs, ⟨z, Or.inl hz, hzl, hzt⟩, ?_⟩
            rintro x (hx | hx) hxl
            · exact hmax x hx hxl
            · rw [hx] at hxl
              exact absurd hxl hrl
          · right; right; right
            exact h4

theorem mark_map_eq (l : List MoveInspectionResult) (h : ∀ r ∈ l, r.isBestMove = false)
    (P : MoveInspectionResult → Prop) [DecidablePred P] :
    l.map (fun res => if P res then { res with isBestMove := true } else res) =
      l.map (fun r => { r with isBestMove := decide (P r) }) := by
  apply List.map_congr_left
  intro r hr
  have hf := h r hr
  by_cases hp : P r
  · rw [if_pos hp, decide_eq_true hp]
  · rw [if_neg hp, decide_eq_false hp, ← hf]

theorem map_unmarked (l : List MoveInspectionResult) (h : ∀ r ∈ l, r.isBestMove = false) :
    l = l.map (fun r => { r with isBestMove := false }) := by
  conv_lhs => rw [← List.map_id l]
  apply List.map_congr_left
  intro r hr
  rw [id, ← h r hr]

end Inspector

/-- C29, best-move marking: for every list of move results whose `isBestMove`
flags are all false (and whatever `MaxTurn` is), `mark_best_move` changes
nothing but the flags, and the flag of an entry is set exactly when (1) the
list has a Won or WonStalemate entry and this entry is one of them with the
smallest turn among them, or (2) it has none but has an Unfixed entry and
this entry is Unfixed, or (3) it has neither but has a Lost or LostStalemate
entry and this entry is one of them with the largest turn among them. -/
theorem mark_best_move_spec (MaxTurn : Nat) (l : List MoveInspectionResult)
    (h : ∀ r ∈ l, r.isBestMove = false) :
    ∃ marked : MoveInspectionResult → Bool,
      Inspector.mark_best_move MaxTurn l = l.map (fun r => { r with isBestMove := marked r }) ∧
      ∀ r ∈ l, (marked r = true ↔
        ((∃ x ∈ l, x.analysisStatus = AnalysisStatus.Won ∨
              x.analysisStatus = AnalysisStatus.WonStalemate) ∧
            (r.analysisStatus = AnalysisStatus.Won ∨
              r.analysisStatus = AnalysisStatus.WonStalemate) ∧
            ∀ x ∈ l, (x.analysisStatus = AnalysisStatus.Won ∨
              x.analysisStatus = AnalysisStatus.WonStalemate) → r.turn ≤ x.turn) ∨
        ((¬ ∃ x ∈ l, x.analysisStatus = AnalysisStatus.Won ∨
              x.analysisStatus = AnalysisStatus.WonStalemate) ∧
            (∃ x ∈ l, x.analysisStatus = AnalysisStatus.Unfixed) ∧
            r.analysisStatus = AnalysisStatus.Unfixed) ∨
        ((¬ ∃ x ∈ l, x.analysisStatus = AnalysisStatus.Won ∨
              x.analysisStatus = AnalysisStatus.WonStalemate) ∧
            (¬ ∃ x ∈ l, x.analysisStatus = AnalysisStatus.Unfixed) ∧
            (∃ x ∈ l, x.analysisStatus = AnalysisStatus.Lost ∨
              x.analysisStatus = AnalysisStatus.LostStalemate) ∧
            (r.analysisStatus = AnalysisStatus.Lost ∨
              r.analysisStatus = AnalysisStatus.LostStalemate) ∧
            ∀ x ∈ l, (x.analysisStatus = AnalysisStatus.Lost ∨
              x.analysisStatus = AnalysisStatus.LostStalemate) → x.turn ≤ r.turn)) := by
  unfold Inspector.mark_best_move
  simp only
  rcases Inspector.bestOf_fold MaxTurn l with ⟨hw, hs, ⟨z, hz, hzw, hzt⟩, hmin⟩ | ⟨hnw, hu, hs⟩ |
      ⟨hnw, hnu, hl, hs, ⟨z, hz, hzl, hzt⟩, hmax⟩ | ⟨hnw, hnu, hnl, hs⟩
  · -- some entry is a win
    have h1 : ¬ ((l.foldl Inspector.bestOf (AnalysisStatus.Contradictory, MaxTurn)).1 =
          AnalysisStatus.Lost ∨
        (l.foldl Inspector.bestOf (AnalysisStatus.Contradictory, MaxTurn)).1 =
          AnalysisStatus.LostStalemate) := by
      rcases hs with e | e <;> rw [e] <;> decide
    have h2 : ¬ (l.foldl Inspector.bestOf (AnalysisStatus.Contradictory, MaxTurn)).1 =
        AnalysisStatus.Unfixed := by
      rcases hs with e | e <;> rw [e] <;> decide
    rw [if_neg h1, if_neg h2, if_pos hs, Inspector.mark_map_eq l h]
    refine ⟨_, rfl, ?_⟩
    intro r hr
    rw [decide_eq_true_iff]
    constructor
    · rintro ⟨hrw, hrt⟩
      left
      refine ⟨hw, hrw, ?_⟩
      intro x hx hxw
      rw [hrt]
      exact hmin x hx hxw
    · rintro (⟨_, hrw, hle⟩ | ⟨hc, _⟩ | ⟨hc, _⟩)
      · refine ⟨hrw, ?_⟩
        have a1 := hle z hz hzw
        have a2 := hmin r hr hrw
        omega
      · exact absurd hw hc
      · exact absurd hw hc
  · -- no win, some entry is unfixed
    have h1 : ¬ ((l.foldl Inspector.bestOf (AnalysisStatus.Contradictory, MaxTurn)).1 =
          AnalysisStatus.Lost ∨
        (l.foldl Inspector.bestOf (AnalysisStatus.Contradictory, MaxTurn)).1 =
          AnalysisStatus.LostStalemate) := by
      rw [hs]
      decide
    rw [if_neg h1, if_pos hs, hs, Inspector.mark_map_eq l h]
    refine ⟨_, rfl, ?_⟩
    intro r hr
    rw [decide_eq_true_iff]
    constructor
    · intro hru
      right; left
      exact ⟨hnw, hu, hru⟩
    · rintro (⟨hc, _⟩ | ⟨_, _, hru⟩ | ⟨_, hc, _⟩)
      · exact absurd hc hnw
      · exact hru
      · exact absurd hu hc
  · -- neither, some entry is a loss
    rw [if_pos hs, Inspector.mark_map_eq l h]
    refine ⟨_, rfl, ?_⟩
    intro r hr
    rw [decide_eq_true_iff]
    constructor
    · rintro ⟨hrl, hrt⟩
      right; right
      refine ⟨hnw, hnu, hl, hrl, ?_⟩
      intro x hx hxl
      rw [hrt]
      exact hmax x hx hxl
    · rintro (⟨hc, _⟩ | ⟨_, hc, _⟩ | ⟨_, _, _, hrl, hle⟩)
      · exact absurd hc hnw
      · exact absurd hc hnu
      · refine ⟨hrl, ?_⟩
        have a1 := hle z hz hzl
        have a2 := hmax r hr hrl
        omega
  · -- nothing to mark
    have h1 : ¬ ((l.foldl Inspector.bestOf (AnalysisStatus.Contradictory, MaxTurn)).1 =
          AnalysisStatus.Lost ∨
        (l.foldl Inspector.bestOf (AnalysisStatus.Contradictory, MaxTurn)).1 =
          AnalysisStatus.LostStalemate) := by
      rw [hs]
      decide
    have h2 : ¬ (l.foldl Inspector.bestOf (AnalysisStatus.Contradictory, MaxTurn)).1 =
        AnalysisStatus.Unfixed := by
      rw [hs]
      decide
    have h3 : ¬ ((l.foldl Inspector.bestOf (AnalysisStatus.Contradictory, MaxTurn)).1 =
          AnalysisStatus.Won ∨
        (l.foldl Inspector.bestOf (AnalysisStatus.Contradictory, MaxTurn)).1 =
          AnalysisStatus.WonStalemate) := by
      rw [hs]
      decide
    rw [if_neg h1, if_neg h2, if_neg h3]
    refine ⟨fun _ => false, Inspector.map_unmarked l h, ?_⟩
    intro r hr
    constructor
    · intro hc
      exact absurd hc (by simp)
    · rintro (⟨hc, _⟩ | ⟨_, hc, _⟩ | ⟨_, _, hc, _⟩)
      · exact absurd hc hnw
      · exact absurd hc hnu
      · exact absurd hc hnl

theorem mark_best_move_spec_witness :
    (∀ r ∈ [(⟨.ActivePlayerSmall, .Out, .NW, 46, 3, .Lost, false⟩ : MoveInspectionResult),
        ⟨.ActivePlayerSmall, .Out, .N, 83, 5, .LostStalemate, false⟩,
        ⟨.ActivePlayerSmall, .Out, .Center, 194, 5, .Lost, false⟩], r.isBestMove = false) ∧
    ∃ marked : MoveInspectionResult → Bool,
      Inspector.mark_best_move 15
          [⟨.ActivePlayerSmall, .Out, .NW, 46, 3, .Lost, false⟩,
            ⟨.ActivePlayerSmall, .Out, .N, 83, 5, .LostStalemate, false⟩,
            ⟨.ActivePlayerSmall, .Out, .Center, 194, 5, .Lost, false⟩] =
        [⟨.ActivePlayerSmall, .Out, .NW, 46, 3, .Lost, marked
            ⟨.ActivePlayerSmall, .Out, .NW, 46, 3, .Lost, false⟩⟩,
          ⟨.ActivePlayerSmall, .Out, .N, 83, 5, .LostStalemate, marked
            ⟨.ActivePlayerSmall, .Out, .N, 83, 5, .LostStalemate, false⟩⟩,
          ⟨.ActivePlayerSmall, .Out, .Center, 194, 5, .Lost, marked
            ⟨.ActivePlayerSmall, .Out, .Center, 194, 5, .Lost, false⟩⟩] :=
  ⟨by decide,
    (mark_best_move_spec 15
      [⟨.ActivePlayerSmall, .Out, .NW, 46, 3, .Lost, false⟩,
        ⟨.ActivePlayerSmall, .Out, .N, 83, 5, .LostStalemate, false⟩,
        ⟨.ActivePlayerSmall, .Out, .Center, 194, 5, .Lost, false⟩] (by decide)).imp
      (fun _ hm => hm.1)⟩

end gobb_analyzer

namespace gobb_analyzer

open Position

/-! ## The moves that the passes enumerate -/

theorem mem_sourcesOf {p : LocationIdPair} {src : LocationId} :
    src ∈ sourcesOf p ↔ p.occupies src = true := by
  unfold sourcesOf LocationIdPair.occupies
  by_cases h : p.locations0 = p.locations1
  · rw [if_pos h]
    simp only [List.mem_singleton, Bool.or_eq_true, beq_iff_eq]
    constructor
    · intro e
      exact Or.inl e.symm
    · rintro (e | e)
      · exact e.symm
      · rw [h]
        exact e.symm
  · rw [if_neg h]
    simp only [List.mem_cons, List.mem_singleton, Bool.or_eq_true, beq_iff_eq, List.mem_nil_iff,
      or_false]
    constructor
    · rintro (e | e)
      · exact Or.inl e.symm
      · exact Or.inr e.symm
    · rintro (e | e)
      · exact Or.inl e.symm
      · exact Or.inr e.symm

theorem mem_InactivePlayerPieceIds {k : PieceId} :
    k ∈ InactivePlayerPieceIds ↔ playerId_of_pieceId k = PlayerId.Inactive := by
  revert k
  decide

theorem mem_ActivePlayerPieceIds {k : PieceId} :
    k ∈ ActivePlayerPieceIds ↔ playerId_of_pieceId k = PlayerId.Active := by
  revert k
  decide

theorem mem_OnBoardLocationIds {l : LocationId} :
    l ∈ OnBoardLocationIds ↔ is_on_board_locationId l = true := by
  revert l
  decide

theorem mem_moveBackCandidates {pos : Position} {piece : PieceId} {src dst : LocationId} :
    (piece, src, dst) ∈ moveBackCandidates pos ↔
      playerId_of_pieceId piece = PlayerId.Inactive ∧
      (pos.locations_of_piece piece).occupies src = true ∧ is_valid_locationId dst = true := by
  unfold moveBackCandidates
  simp only [List.mem_flatMap, List.mem_map, Prod.mk.injEq]
  constructor
  · rintro ⟨k, hk, s, hs, d, hd, rfl, rfl, rfl⟩
    exact ⟨mem_InactivePlayerPieceIds.mp hk, mem_sourcesOf.mp hs, mem_LocationIds_iff.mp hd⟩
  · rintro ⟨hk, hs, hd⟩
    exact ⟨piece, mem_InactivePlayerPieceIds.mpr hk, src, mem_sourcesOf.mpr hs, dst,
      mem_LocationIds_iff.mpr hd, rfl, rfl, rfl⟩

theorem mem_moveCandidates {pos : Position} {piece : PieceId} {src dst : LocationId} :
    (piece, src, dst) ∈ moveCandidates pos ↔
      playerId_of_pieceId piece = PlayerId.Active ∧
      (pos.locations_of_piece piece).occupies src = true ∧
      is_on_board_locationId dst = true := by
  unfold moveCandidates
  simp only [List.mem_flatMap, List.mem_map, Prod.mk.injEq]
  constructor
  · rintro ⟨k, hk, s, hs, d, hd, rfl, rfl, rfl⟩
    exact ⟨mem_ActivePlayerPieceIds.mp hk, mem_sourcesOf.mp hs, mem_OnBoardLocationIds.mp hd⟩
  · rintro ⟨hk, hs, hd⟩
    exact ⟨piece, mem_ActivePlayerPieceIds.mpr hk, src, mem_sourcesOf.mpr hs, dst,
      mem_OnBoardLocationIds.mpr hd, rfl, rfl, rfl⟩

theorem move_back_success_candidate {T : QuadTables} {pos : Position} {piece : PieceId}
    {src dst : LocationId}
    (h : (pos.move_back T piece src dst).status = MoveResultStatus.Success) :
    (piece, src, dst) ∈ moveBackCandidates pos := by
  have hpre : pos.moveBackPreconditions piece src dst := by
    by_contra hc
    rw [move_back_of_not_pre hc] at h
    exact MoveResultStatus.noConfusion h
  obtain ⟨_, hk, ho, _, hd, _⟩ := hpre
  refine mem_moveBackCandidates.mpr ⟨hk, ho, ?_⟩
  rcases hd with e | e
  · rw [e]
    decide
  · exact LocationId.valid_of_on_board e

theorem move_success_candidate {T : QuadTables} {pos : Position} {piece : PieceId}
    {src dst : LocationId}
    (h : (pos.move T piece src dst).status = MoveResultStatus.Success) :
    (piece, src, dst) ∈ moveCandidates pos := by
  have hpre : pos.movePreconditions piece src dst := by
    by_contra hc
    rw [move_of_not_pre hc] at h
    exact MoveResultStatus.noConfusion h
  obtain ⟨_, hk, ho, _, hd, _⟩ := hpre
  exact mem_moveCandidates.mpr ⟨hk, ho, hd⟩

theorem mem_moveBackTargets {T : QuadTables} {pos : Position} {c : Nat} :
    c ∈ moveBackTargets T pos ↔
      ∃ piece src dst,
        (pos.move_back T piece src dst).status = MoveResultStatus.Success ∧
        (pos.move_back T piece src dst).position.minimize_id T = c := by
  unfold moveBackTargets
  rw [List.mem_filterMap]
  constructor
  · rintro ⟨⟨piece, src, dst⟩, _, h⟩
    dsimp only at h
    by_cases hs : (pos.move_back T piece src dst).status = MoveResultStatus.Success
    · rw [if_pos hs] at h
      exact ⟨piece, src, dst, hs, Option.some.inj h⟩
    · rw [if_neg hs] at h
      exact Option.noConfusion h
  · rintro ⟨piece, src, dst, hs, hc⟩
    refine ⟨(piece, src, dst), move_back_success_candidate hs, ?_⟩
    dsimp only
    rw [if_pos hs, hc]

theorem mem_moveTargets {T : QuadTables} {pos : Position} {c : Nat} :
    c ∈ moveTargets T pos ↔
      ∃ piece src dst,
        (pos.move T piece src dst).status = MoveResultStatus.Success ∧
        (pos.move T piece src dst).position.minimize_id T = c := by
  unfold moveTargets
  rw [List.mem_filterMap]
  constructor
  · rintro ⟨⟨piece, src, dst⟩, _, h⟩
    dsimp only at h
    by_cases hs : (pos.move T piece src dst).status = MoveResultStatus.Success
    · rw [if_pos hs] at h
      exact ⟨piece, src, dst, hs, Option.some.inj h⟩
    · rw [if_neg hs] at h
      exact Option.noConfusion h
  · rintro ⟨piece, src, dst, hs, hc⟩
    refine ⟨(piece, src, dst), move_success_candidate hs, ?_⟩
    dsimp only
    rw [if_pos hs, hc]

/-- The targets of the moves of a valid position are cells of the table. -/
theorem moveBackTargets_lt {T : QuadTables} (hT : T.Valid) {pos : Position}
    (hp : pos.Wellformed T) {c : Nat} (h : c ∈ moveBackTargets T pos) :
    c < AnalysisDataTableSize := by
  obtain ⟨piece, src, dst, hs, hc⟩ := mem_moveBackTargets.mp h
  rw [← hc]
  exact (move_back_success_spec hT hp hs).2.1.minimize_id_lt hT

theorem moveTargets_lt {T : QuadTables} (hT : T.Valid) {pos : Position}
    (hp : pos.Wellformed T) {c : Nat} (h : c ∈ moveTargets T pos) :
    c < AnalysisDataTableSize := by
  obtain ⟨piece, src, dst, hs, hc⟩ := mem_moveTargets.mp h
  rw [← hc]
  exact (move_success_spec hT hp hs).2.1.minimize_id_lt hT

/-! ## The loops as folds over the targets -/

theorem foldl_skip {σ α : Type} (step : σ → Nat → σ) (ok : α → Prop) [DecidablePred ok]
    (target : α → Nat) (l : List α) (s : σ) :
    l.foldl (fun s x => if ¬ ok x then s else step s (target x)) s =
      (l.filterMap fun x => if ok x then some (target x) else none).foldl step s := by
  induction l generalizing s with
  | nil => rfl
  | cons x l ih =>
    rw [List.foldl_cons, List.filterMap_cons]
    by_cases h : ok x
    · rw [if_neg (not_not.mpr h), if_pos h]
      dsimp only
      rw [List.foldl_cons]
      exact ih _
    · rw [if_pos h, if_neg h]
      exact ih _

namespace Analyzer

theorem lost_eq_fold (T : QuadTables) (MaxTurn : Nat) (a : Analyzer)
    (stats : AnalysisStatistics) (pos : Position) :
    analyze_move_backs_from_active_player_lost T MaxTurn a stats pos =
      (moveBackTargets T pos).foldl
        (lostReach
          (if turn_of_analysisData (a.analysisDataTable_ pos.id) = MaxTurn then
            turn_of_analysisData (a.analysisDataTable_ pos.id)
          else turn_of_analysisData (a.analysisDataTable_ pos.id) + 1))
        (false, a, stats) := by
  unfold analyze_move_backs_from_active_player_lost moveBackTargets
  exact foldl_skip _
    (fun cand : PieceId × LocationId × LocationId =>
      (pos.move_back T cand.1 cand.2.1 cand.2.2).status = MoveResultStatus.Success)
    (fun cand => (pos.move_back T cand.1 cand.2.1 cand.2.2).position.minimize_id T) _ _

theorem won_eq_fold (T : QuadTables) (a : Analyzer) (pos : Position) :
    analyze_move_backs_from_active_player_won T a pos =
      (moveBackTargets T pos).foldl wonReach (false, a) := by
  unfold analyze_move_backs_from_active_player_won moveBackTargets
  exact foldl_skip _
    (fun cand : PieceId × LocationId × LocationId =>
      (pos.move_back T cand.1 cand.2.1 cand.2.2).status = MoveResultStatus.Success)
    (fun cand => (pos.move_back T cand.1 cand.2.1 cand.2.2).position.minimize_id T) _ _

end Analyzer

end gobb_analyzer

namespace gobb_analyzer

open Position

/-! ## Propagation from a lost cell and from a won cell -/

theorem lostUpdate_status (N : Nat) (d : AnalysisData) :
    status_of_analysisData (lostUpdate N d) =
      if status_of_analysisData d = AnalysisStatus.Unfixed then AnalysisStatus.Won
      else status_of_analysisData d := by
  unfold lostUpdate
  split_ifs <;> rfl

theorem lostUpdate_not_unfixed (N : Nat) (d : AnalysisData) :
    status_of_analysisData (lostUpdate N d) ≠ AnalysisStatus.Unfixed := by
  rw [lostUpdate_status]
  split_ifs with h
  · decide
  · exact h

theorem lostUpdate_idem (N : Nat) (d : AnalysisData) :
    lostUpdate N (lostUpdate N d) = lostUpdate N d := by
  unfold lostUpdate
  by_cases h1 : status_of_analysisData d = AnalysisStatus.Unfixed
  · rw [if_pos h1]
    have h3 : status_of_analysisData (to_analysisData true N AnalysisStatus.Won) ≠
        AnalysisStatus.Unfixed := by
      intro hc
      exact AnalysisStatus.noConfusion hc
    have h4 : ¬ (status_of_analysisData (to_analysisData true N AnalysisStatus.Won) =
          AnalysisStatus.Won ∧
        turn_of_analysisData (to_analysisData true N AnalysisStatus.Won) > N) := by
      intro hc
      exact lt_irrefl N hc.2
    rw [if_neg h3, if_neg h4]
  · by_cases h2 : status_of_analysisData d = AnalysisStatus.Won ∧ turn_of_analysisData d > N
    · rw [if_neg h1, if_pos h2]
      have h3 : status_of_analysisData (set_turn_of_analysisData d N) ≠
          AnalysisStatus.Unfixed := h1
      have h4 : ¬ (status_of_analysisData (set_turn_of_analysisData d N) = AnalysisStatus.Won ∧
          turn_of_analysisData (set_turn_of_analysisData d N) > N) := by
        intro hc
        exact lt_irrefl N hc.2
      rw [if_neg h3, if_neg h4]
    · rw [if_neg h1, if_neg h2, if_neg h1, if_neg h2]

theorem wonUpdate_status (d : AnalysisData) :
    status_of_analysisData (wonUpdate d) = status_of_analysisData d := by
  unfold wonUpdate
  split_ifs <;> rfl

theorem wonUpdate_turn (d : AnalysisData) :
    turn_of_analysisData (wonUpdate d) = turn_of_analysisData d := by
  unfold wonUpdate
  split_ifs <;> rfl

theorem wonUpdate_idem (d : AnalysisData) : wonUpdate (wonUpdate d) = wonUpdate d := by
  unfold wonUpdate
  by_cases h : status_of_analysisData d = AnalysisStatus.Unfixed
  · have h' : status_of_analysisData (set_updateFlag_of_analysisData d true) =
        AnalysisStatus.Unfixed := h
    rw [if_pos h, if_pos h']
    rfl
  · rw [if_neg h, if_neg h]

namespace Analyzer

theorem lostReach_table (N : Nat) (s : Bool × Analyzer × AnalysisStatistics) (i c : Nat) :
    (lostReach N s i).2.1.analysisDataTable_ c =
      if c = i then lostUpdate N (s.2.1.analysisDataTable_ i)
      else s.2.1.analysisDataTable_ c := by
  unfold lostReach lostUpdate
  dsimp only
  split_ifs <;> simp_all [setCell_table]

theorem lostReach_flag (N : Nat) (s : Bool × Analyzer × AnalysisStatistics) (i : Nat) :
    (lostReach N s i).1 = true ↔
      s.1 = true ∨ status_of_analysisData (s.2.1.analysisDataTable_ i) =
        AnalysisStatus.Unfixed := by
  unfold lostReach
  dsimp only
  split_ifs <;> simp_all

theorem lostReach_stats (N : Nat) (s : Bool × Analyzer × AnalysisStatistics) (i : Nat) :
    (lostReach N s i).2.2 =
      if status_of_analysisData (s.2.1.analysisDataTable_ i) = AnalysisStatus.Unfixed then
        { s.2.2 with wonNums := s.2.2.wonNums + 1 }
      else s.2.2 := by
  unfold lostReach
  dsimp only
  split_ifs <;> rfl

theorem lostReach_statistics (N : Nat) (s : Bool × Analyzer × AnalysisStatistics) (i : Nat) :
    (lostReach N s i).2.1.statistics_ = s.2.1.statistics_ := by
  unfold lostReach
  dsimp only
  split_ifs <;> rfl

theorem lost_fold_table (N : Nat) (ids : List Nat) (s : Bool × Analyzer × AnalysisStatistics)
    (c : Nat) :
    (ids.foldl (lostReach N) s).2.1.analysisDataTable_ c =
      if c ∈ ids then lostUpdate N (s.2.1.analysisDataTable_ c)
      else s.2.1.analysisDataTable_ c := by
  induction ids generalizing s with
  | nil => simp
  | cons i rest ih =>
    rw [List.foldl_cons, ih, lostReach_table]
    by_cases hci : c = i
    · subst hci
      by_cases hr : c ∈ rest
      · simp [hr, lostUpdate_idem]
      · simp [hr]
    · by_cases hr : c ∈ rest
      · simp [hr, hci]
      · simp [hr, hci]

theorem lost_fold_statistics (N : Nat) (ids : List Nat)
    (s : Bool × Analyzer × AnalysisStatistics) :
    (ids.foldl (lostReach N) s).2.1.statistics_ = s.2.1.statistics_ := by
  induction ids generalizing s with
  | nil => rfl
  | cons i rest ih => rw [List.foldl_cons, ih, lostReach_statistics]

theorem lost_fold_flag (N : Nat) (ids : List Nat) (s : Bool × Analyzer × AnalysisStatistics) :
    (ids.foldl (lostReach N) s).1 = true ↔
      s.1 = true ∨ ∃ c ∈ ids, status_of_analysisData (s.2.1.analysisDataTable_ c) =
        AnalysisStatus.Unfixed := by
  induction ids generalizing s with
  | nil => simp
  | cons i rest ih =>
    rw [List.foldl_cons, ih, lostReach_flag]
    constructor
    · rintro ((h | h) | ⟨c, hc, h⟩)
      · exact Or.inl h
      · exact Or.inr ⟨i, List.mem_cons_self _ _, h⟩
      · right
        rw [lostReach_table] at h
        by_cases hci : c = i
        · rw [if_pos hci] at h
          exact absurd h (lostUpdate_not_unfixed _ _)
        · rw [if_neg hci] at h
          exact ⟨c, List.mem_cons_of_mem _ hc, h⟩
    · rintro (h | ⟨c, hc, h⟩)
      · exact Or.inl (Or.inl h)
      · by_cases hci : c = i
        · rw [hci] at h
          exact Or.inl (Or.inr h)
        · right
          rcases List.mem_cons.mp hc with e | e
          · exact absurd e hci
          · refine ⟨c, e, ?_⟩
            rw [lostReach_table, if_neg hci]
            exact h

theorem lost_fold_stats (N : Nat) (ids : List Nat) (s : Bool × Analyzer × AnalysisStatistics) :
    ∃ L : List Nat, L.Nodup ∧
      (∀ c, c ∈ L ↔ c ∈ ids ∧
        status_of_analysisData (s.2.1.analysisDataTable_ c) = AnalysisStatus.Unfixed) ∧
      (ids.foldl (lostReach N) s).2.2 = { s.2.2 with wonNums := s.2.2.wonNums + L.length } := by
  induction ids generalizing s with
  | nil =>
    refine ⟨[], List.nodup_nil, ?_, rfl⟩
    intro c
    simp
  | cons i rest ih =>
    obtain ⟨L, hnd, hmem, hst⟩ := ih (lostReach N s i)
    rw [List.foldl_cons, hst, lostReach_stats]
    have hin : ∀ c, status_of_analysisData ((lostReach N s i).2.1.analysisDataTable_ c) =
        AnalysisStatus.Unfixed ↔
        (c ≠ i ∧ status_of_analysisData (s.2.1.analysisDataTable_ c) =
          AnalysisStatus.Unfixed) := by
      intro c
      rw [lostReach_table]
      by_cases hci : c = i
      · rw [if_pos hci]
        constructor
        · intro h
          exact absurd h (lostUpdate_not_unfixed _ _)
        · rintro ⟨h, _⟩
          exact absurd hci h
      · rw [if_neg hci]
        exact ⟨fun h => ⟨hci, h⟩, fun h => h.2⟩
    by_cases hu : status_of_analysisData (s.2.1.analysisDataTable_ i) = AnalysisStatus.Unfixed
    · rw [if_pos hu]
      have hni : i ∉ L := by
        intro hc
        exact ((hin i).mp ((hmem i).mp hc).2).1 rfl
      refine ⟨i :: L, List.nodup_cons.mpr ⟨hni, hnd⟩, ?_, ?_⟩
      · intro c
        rw [List.mem_cons, List.mem_cons, hmem, hin]
        constructor
        · rintro (e | ⟨h1, _, h3⟩)
          · rw [e]
            exact ⟨Or.inl rfl, hu⟩
          · exact ⟨Or.inr h1, h3⟩
        · rintro ⟨e | e, h⟩
          · exact Or.inl e
          · by_cases hci : c = i
            · exact Or.inl hci
            · exact Or.inr ⟨e, hci, h⟩
      · simp only [List.length_cons]
        congr 1
        omega
    · rw [if_neg hu]
      refine ⟨L, hnd, ?_, rfl⟩
      intro c
      rw [hmem, hin, List.mem_cons]
      constructor
      · rintro ⟨h1, _, h3⟩
        exact ⟨Or.inr h1, h3⟩
      · rintro ⟨e | e, h⟩
        · rw [e] at h
          exact absurd h hu
        · refine ⟨e, ?_, h⟩
          intro hci
          rw [hci] at h
          exact hu h

theorem wonReach_table (s : Bool × Analyzer) (i c : Nat) :
    (wonReach s i).2.analysisDataTable_ c =
      if c = i then wonUpdate (s.2.analysisDataTable_ i) else s.2.analysisDataTable_ c := by
  unfold wonReach wonUpdate
  dsimp only
  split_ifs <;> simp_all [setCell_table]

theorem wonReach_flag (s : Bool × Analyzer) (i : Nat) :
    (wonReach s i).1 = true ↔
      s.1 = true ∨ status_of_analysisData (s.2.analysisDataTable_ i) =
        AnalysisStatus.Unfixed := by
  unfold wonReach
  dsimp only
  split_ifs <;> simp_all

theorem wonReach_statistics (s : Bool × Analyzer) (i : Nat) :
    (wonReach s i).2.statistics_ = s.2.statistics_ := by
  unfold wonReach
  dsimp only
  split_ifs <;> rfl

theorem won_fold_table (ids : List Nat) (s : Bool × Analyzer) (c : Nat) :
    (ids.foldl wonReach s).2.analysisDataTable_ c =
      if c ∈ ids then wonUpdate (s.2.analysisDataTable_ c) else s.2.analysisDataTable_ c := by
  induction ids generalizing s with
  | nil => simp
  | cons i rest ih =>
    rw [List.foldl_cons, ih, wonReach_table]
    by_cases hci : c = i
    · subst hci
      by_cases hr : c ∈ rest
      · simp [hr, wonUpdate_idem]
      · simp [hr]
    · by_cases hr : c ∈ rest
      · simp [hr, hci]
      · simp [hr, hci]

theorem won_fold_statistics (ids : List Nat) (s : Bool × Analyzer) :
    (ids.foldl wonReach s).2.statistics_ = s.2.statistics_ := by
  induction ids generalizing s with
  | nil => rfl
  | cons i rest ih => rw [List.foldl_cons, ih, wonReach_statistics]

theorem won_fold_flag (ids : List Nat) (s : Bool × Analyzer) :
    (ids.foldl wonReach s).1 = true ↔
      s.1 = true ∨ ∃ c ∈ ids, status_of_analysisData (s.2.analysisDataTable_ c) =
        AnalysisStatus.Unfixed := by
  induction ids generalizing s with
  | nil => simp
  | cons i rest ih =>
    rw [List.foldl_cons, ih, wonReach_flag]
    constructor
    · rintro ((h | h) | ⟨c, hc, h⟩)
      · exact Or.inl h
      · exact Or.inr ⟨i, List.mem_cons_self _ _, h⟩
      · right
        rw [wonReach_table] at h
        by_cases hci : c = i
        · rw [if_pos hci, wonUpdate_status] at h
          exact ⟨i, List.mem_cons_self _ _, h⟩
        · rw [if_neg hci] at h
          exact ⟨c, List.mem_cons_of_mem _ hc, h⟩
    · rintro (h | ⟨c, hc, h⟩)
      · exact Or.inl (Or.inl h)
      · by_cases hci : c = i
        · rw [hci] at h
          exact Or.inl (Or.inr h)
        · right
          rcases List.mem_cons.mp hc with e | e
          · exact absurd e hci
          · refine ⟨c, e, ?_⟩
            rw [wonReach_table, if_neg hci]
            exact h

end Analyzer

/-- C22, backward propagation from a lost cell: let `p` be an id below `1423^3`
whose cell has a turn `t <= MaxTurn`, and `nextTurn = min(t + 1, MaxTurn)`.
After `analyze_move_backs_from_active_player_lost(stats, Position(p))`, every
cell that is the canonical id of the result of a retrograde move from
`Position(p)` with status Success and was Unfixed is Won with the turn
`nextTurn` and the update flag set, every such cell that was Won with a
turn above `nextTurn` has the turn `nextTurn` and is otherwise as before,
every other cell is unchanged, `wonNums` of `stats` is raised by the number
of the cells of the first kind (the other counters stay), and the function
returns true exactly when there is a cell of the first kind. -/
theorem lost_propagation_spec (T : QuadTables) (MaxTurn : Nat) (a : Analyzer)
    (stats : AnalysisStatistics) (p : Nat) (hp : p < 1423 ^ 3)
    (ht : turn_of_analysisData (a.analysisDataTable_ p) ≤ MaxTurn) :
    (∀ c,
      (∃ piece src dst,
        ((Position.ofId T p).move_back T piece src dst).status = MoveResultStatus.Success ∧
        ((Position.ofId T p).move_back T piece src dst).position.minimize_id T = c) →
      (status_of_analysisData (a.analysisDataTable_ c) = AnalysisStatus.Unfixed →
        (a.analyze_move_backs_from_active_player_lost T MaxTurn stats
            (Position.ofId T p)).2.1.analysisDataTable_ c =
          to_analysisData true (min (turn_of_analysisData (a.analysisDataTable_ p) + 1) MaxTurn)
            AnalysisStatus.Won) ∧
      (status_of_analysisData (a.analysisDataTable_ c) = AnalysisStatus.Won →
        turn_of_analysisData (a.analysisDataTable_ c) >
          min (turn_of_analysisData (a.analysisDataTable_ p) + 1) MaxTurn →
        (a.analyze_move_backs_from_active_player_lost T MaxTurn stats
            (Position.ofId T p)).2.1.analysisDataTable_ c =
          set_turn_of_analysisData (a.analysisDataTable_ c)
            (min (turn_of_analysisData (a.analysisDataTable_ p) + 1) MaxTurn)) ∧
      (status_of_analysisData (a.analysisDataTable_ c) ≠ AnalysisStatus.Unfixed →
        ¬ (status_of_analysisData (a.analysisDataTable_ c) = AnalysisStatus.Won ∧
          turn_of_analysisData (a.analysisDataTable_ c) >
            min (turn_of_analysisData (a.analysisDataTable_ p) + 1) MaxTurn) →
        (a.analyze_move_backs_from_active_player_lost T MaxTurn stats
            (Position.ofId T p)).2.1.analysisDataTable_ c = a.analysisDataTable_ c)) ∧
    (∀ c,
      (¬ ∃ piece src dst,
        ((Position.ofId T p).move_back T piece src dst).status = MoveResultStatus.Success ∧
        ((Position.ofId T p).move_back T piece src dst).position.minimize_id T = c) →
      (a.analyze_move_backs_from_active_player_lost T MaxTurn stats
          (Position.ofId T p)).2.1.analysisDataTable_ c = a.analysisDataTable_ c) ∧
    (∃ L : List Nat, L.Nodup ∧
      (∀ c, c ∈ L ↔
        (∃ piece src dst,
          ((Position.ofId T p).move_back T piece src dst).status = MoveResultStatus.Success ∧
          ((Position.ofId T p).move_back T piece src dst).position.minimize_id T = c) ∧
        status_of_analysisData (a.analysisDataTable_ c) = AnalysisStatus.Unfixed) ∧
      (a.analyze_move_backs_from_active_player_lost T MaxTurn stats (Position.ofId T p)).2.2 =
        { stats with wonNums := stats.wonNums + L.length }) ∧
    ((a.analyze_move_backs_from_active_player_lost T MaxTurn stats (Position.ofId T p)).1 = true ↔
      ∃ c,
        (∃ piece src dst,
          ((Position.ofId T p).move_back T piece src dst).status = MoveResultStatus.Success ∧
          ((Position.ofId T p).move_back T piece src dst).position.minimize_id T = c) ∧
        status_of_analysisData (a.analysisDataTable_ c) = AnalysisStatus.Unfixed) := by
  have hid : (Position.ofId T p).id = p :=
    ofId_id (lt_PositionIdNums_of_lt (lt_tableSize_of_lt hp))
  have hN : (if turn_of_analysisData (a.analysisDataTable_ p) = MaxTurn then
        turn_of_analysisData (a.analysisDataTable_ p)
      else turn_of_analysisData (a.analysisDataTable_ p) + 1) =
      min (turn_of_analysisData (a.analysisDataTable_ p) + 1) MaxTurn := by
    split_ifs with h <;> omega
  rw [Analyzer.lost_eq_fold, hid, hN]
  refine ⟨?_, ?_, ?_, ?_⟩
  · intro c hc
    have hm := mem_moveBackTargets.mpr hc
    rw [Analyzer.lost_fold_table, if_pos hm]
    refine ⟨?_, ?_, ?_⟩
    · intro hu
      unfold lostUpdate
      rw [if_pos hu]
    · intro hw hgt
      have hu : status_of_analysisData (a.analysisDataTable_ c) ≠ AnalysisStatus.Unfixed := by
        rw [hw]
        decide
      unfold lostUpdate
      rw [if_neg hu, if_pos ⟨hw, hgt⟩]
    · intro hu hw
      unfold lostUpdate
      rw [if_neg hu, if_neg hw]
  · intro c hc
    have hm : c ∉ moveBackTargets T (Position.ofId T p) := fun h => hc (mem_moveBackTargets.mp h)
    rw [Analyzer.lost_fold_table, if_neg hm]
  · obtain ⟨L, hnd, hmem, hst⟩ := Analyzer.lost_fold_stats
      (min (turn_of_analysisData (a.analysisDataTable_ p) + 1) MaxTurn)
      (moveBackTargets T (Position.ofId T p)) (false, a, stats)
    refine ⟨L, hnd, ?_, hst⟩
    intro c
    rw [hmem, mem_moveBackTargets]
  · rw [Analyzer.lost_fold_flag]
    constructor
    · rintro (h | ⟨c, hc, hu⟩)
      · exact absurd h (by simp)
      · exact ⟨c, mem_moveBackTargets.mp hc, hu⟩
    · rintro ⟨c, hc, hu⟩
      exact Or.inr ⟨c, mem_moveBackTargets.mpr hc, hu⟩

set_option maxRecDepth 100000 in
theorem lost_propagation_spec_witness :
    46 < 1423 ^ 3 ∧
    turn_of_analysisData
      ((⟨fun c => if c = 46 then to_analysisData true 0 AnalysisStatus.Lost
          else to_analysisData false 5 AnalysisStatus.Won,
        AnalysisStatistics.new⟩ : Analyzer).analysisDataTable_ 46) ≤ 15 ∧
    ((⟨fun c => if c = 46 then to_analysisData true 0 AnalysisStatus.Lost
          else to_analysisData false 5 AnalysisStatus.Won,
        AnalysisStatistics.new⟩ : Analyzer).analyze_move_backs_from_active_player_lost
        stdTables 15 AnalysisStatistics.new
        (Position.ofId stdTables 46)).2.1.analysisDataTable_ 0 =
      to_analysisData false 1 AnalysisStatus.Won :=
  ⟨by decide, by decide,
    ((lost_propagation_spec stdTables 15
      ⟨fun c => if c = 46 then to_analysisData true 0 AnalysisStatus.Lost
          else to_analysisData false 5 AnalysisStatus.Won,
        AnalysisStatistics.new⟩ AnalysisStatistics.new 46 (by decide) (by decide)).1 0
      ⟨PieceId.InactivePlayerSmall, LocationId.NW, LocationId.Out, by decide!,
        by decide!⟩).2.1 (by decide) (by decide)⟩

end gobb_analyzer

namespace gobb_analyzer

open Position

/-! ## A generation, cell by cell -/

namespace Analyzer

theorem unfixedNextTurn_saturated (T : QuadTables) (M : Nat) (a : Analyzer) (pos : Position)
    (l : List (PieceId × LocationId × LocationId))
    (h : ∀ cand ∈ l, (pos.move T cand.1 cand.2.1 cand.2.2).status = MoveResultStatus.Success →
      status_of_analysisData (a.analysisDataTable_
          ((pos.move T cand.1 cand.2.1 cand.2.2).position.minimize_id T)) = AnalysisStatus.Won ∧
        turn_of_analysisData (a.analysisDataTable_
          ((pos.move T cand.1 cand.2.1 cand.2.2).position.minimize_id T)) = M)
    (n : Nat) (hn : n = 0 ∨ n = M + 1) :
    l.foldl
      (fun acc cand =>
        match acc with
        | none => none
        | some nextTurn =>
          let moveResult := pos.move T cand.1 cand.2.1 cand.2.2
          if moveResult.status ≠ MoveResultStatus.Success then some nextTurn
          else
            let dstData := a.analysisDataTable_ (moveResult.position.minimize_id T)
            if status_of_analysisData dstData ≠ AnalysisStatus.Won then none
            else
              let turn := turn_of_analysisData dstData
              if turn + 1 = M then some M
              else if turn + 1 > nextTurn then some (turn + 1)
              else some nextTurn)
      (some n) =
    some (if ∃ cand ∈ l,
        (pos.move T cand.1 cand.2.1 cand.2.2).status = MoveResultStatus.Success then M + 1
      else n) := by
  induction l generalizing n with
  | nil => simp
  | cons x l ih =>
    have hl : ∀ cand ∈ l,
        (pos.move T cand.1 cand.2.1 cand.2.2).status = MoveResultStatus.Success →
        status_of_analysisData (a.analysisDataTable_
            ((pos.move T cand.1 cand.2.1 cand.2.2).position.minimize_id T)) =
          AnalysisStatus.Won ∧
        turn_of_analysisData (a.analysisDataTable_
            ((pos.move T cand.1 cand.2.1 cand.2.2).position.minimize_id T)) = M :=
      fun cand hc => h cand (List.mem_cons_of_mem _ hc)
    rw [List.foldl_cons]
    dsimp only
    by_cases hs : (pos.move T x.1 x.2.1 x.2.2).status = MoveResultStatus.Success
    · obtain ⟨hw, ht⟩ := h x (List.mem_cons_self _ _) hs
      rw [if_neg (not_not.mpr hs), if_neg (not_not.mpr hw), ht, if_neg (by omega)]
      have hex : ∃ cand ∈ x :: l,
          (pos.move T cand.1 cand.2.1 cand.2.2).status = MoveResultStatus.Success :=
        ⟨x, List.mem_cons_self _ _, hs⟩
      rw [if_pos hex]
      rcases hn with e | e
      · rw [e, if_pos (by omega), ih hl (M + 1) (Or.inr rfl)]
        split_ifs <;> rfl
      · rw [e, if_neg (by omega), ih hl (M + 1) (Or.inr rfl)]
        split_ifs <;> rfl
    · rw [if_pos hs, ih hl n hn]
      congr 1
      have : (∃ cand ∈ x :: l,
          (pos.move T cand.1 cand.2.1 cand.2.2).status = MoveResultStatus.Success) ↔
          ∃ cand ∈ l,
            (pos.move T cand.1 cand.2.1 cand.2.2).status = MoveResultStatus.Success := by
        constructor
        · rintro ⟨c, hc, hcs⟩
          rcases List.mem_cons.mp hc with e | e
          · rw [e] at hcs
            exact absurd hcs hs
          · exact ⟨c, e, hcs⟩
        · rintro ⟨c, hc, hcs⟩
          exact ⟨c, List.mem_cons_of_mem _ hc, hcs⟩
      simp only [this]

theorem analyze_unfixed_cases (T : QuadTables) (MaxTurn : Nat) (a : Analyzer)
    (stats : AnalysisStatistics) (pos : Position) :
    analyze_unfixed T MaxTurn a stats pos = (false, a, stats) ∨
    ∃ n, analyze_unfixed T MaxTurn a stats pos =
      (true, a.setCell pos.id (to_analysisData false n AnalysisStatus.Lost),
        { stats with lostNums := stats.lostNums + 1 }) := by
  unfold analyze_unfixed
  cases unfixedNextTurn T MaxTurn a pos with
  | none => exact Or.inl rfl
  | some n => exact Or.inr ⟨n, rfl⟩

end Analyzer

set_option maxRecDepth 100000 in
theorem initial_position_moves :
    (∀ cand ∈ moveCandidates (Position.ofId stdTables 0),
      ((Position.ofId stdTables 0).move stdTables cand.1 cand.2.1 cand.2.2).status =
          MoveResultStatus.Success →
        ((Position.ofId stdTables 0).move stdTables cand.1 cand.2.1
          cand.2.2).position.minimize_id stdTables ≠ 0) ∧
    ∃ cand ∈ moveCandidates (Position.ofId stdTables 0),
      ((Position.ofId stdTables 0).move stdTables cand.1 cand.2.1 cand.2.2).status =
        MoveResultStatus.Success := by
  decide!

/-- C23, evidence of the defect: `analyze_unfixed` saturates only when
`turn + 1 == MaxTurn`.  Whatever `MaxTurn` is, take the table in which the
cell 0 (the empty board, Orange to move) is Unfixed and flagged and every
other cell is Won with the turn `MaxTurn`: every forward move from
`Position(0)` with status Success leads to a Won cell, and `analyze_unfixed`
makes the cell 0 Lost with the turn `MaxTurn + 1`, above `MaxTurn`. -/
theorem analyze_unfixed_exceeds_MaxTurn (MaxTurn : Nat) (stats : AnalysisStatistics) :
    (Analyzer.analyze_unfixed stdTables MaxTurn
      ⟨fun c => if c = 0 then to_analysisData true MaxTurn AnalysisStatus.Unfixed
        else to_analysisData false MaxTurn AnalysisStatus.Won, AnalysisStatistics.new⟩
      stats (Position.ofId stdTables 0)).1 = true ∧
    (Analyzer.analyze_unfixed stdTables MaxTurn
      ⟨fun c => if c = 0 then to_analysisData true MaxTurn AnalysisStatus.Unfixed
        else to_analysisData false MaxTurn AnalysisStatus.Won, AnalysisStatistics.new⟩
      stats (Position.ofId stdTables 0)).2.1.analysisDataTable_ 0 =
      to_analysisData false (MaxTurn + 1) AnalysisStatus.Lost ∧
    MaxTurn < MaxTurn + 1 := by
  have hnt : Analyzer.unfixedNextTurn stdTables MaxTurn
      ⟨fun c => if c = 0 then to_analysisData true MaxTurn AnalysisStatus.Unfixed
        else to_analysisData false MaxTurn AnalysisStatus.Won, AnalysisStatistics.new⟩
      (Position.ofId stdTables 0) = some (MaxTurn + 1) := by
    have key := Analyzer.unfixedNextTurn_saturated stdTables MaxTurn
      ⟨fun c => if c = 0 then to_analysisData true MaxTurn AnalysisStatus.Unfixed
        else to_analysisData false MaxTurn AnalysisStatus.Won, AnalysisStatistics.new⟩
      (Position.ofId stdTables 0) (moveCandidates (Position.ofId stdTables 0))
      (fun cand hc hs => by
        have hne := initial_position_moves.1 cand hc hs
        dsimp only
        rw [if_neg hne]
        exact ⟨rfl, rfl⟩) 0 (Or.inl rfl)
    rw [if_pos initial_position_moves.2] at key
    unfold Analyzer.unfixedNextTurn
    exact key
  have hid : (Position.ofId stdTables 0).id = 0 := ofId_id (by decide)
  unfold Analyzer.analyze_unfixed
  rw [hnt]
  dsimp only
  refine ⟨rfl, ?_, Nat.lt_succ_self _⟩
  rw [Analyzer.setCell_table, hid, if_pos rfl]

end gobb_analyzer

namespace gobb_analyzer

open Position

/-! ## The cases of the loop body of a generation -/

theorem cellStep_refl (d : AnalysisData) : cellStep d d :=
  ⟨fun h => absurd rfl h, fun _ => le_refl _⟩

theorem cellStep_trans {d d' d'' : AnalysisData} (h1 : cellStep d d') (h2 : cellStep d' d'') :
    cellStep d d'' := by
  obtain ⟨a1, b1⟩ := h1
  obtain ⟨a2, b2⟩ := h2
  by_cases e : status_of_analysisData d' = status_of_analysisData d
  · rw [e] at a2 b2
    constructor
    · exact a2
    · intro h
      exact le_trans (b2 h) (b1 h)
  · obtain ⟨hu, hwl⟩ := a1 e
    have e2 : status_of_analysisData d'' = status_of_analysisData d' := by
      by_contra hne
      have := (a2 hne).1
      rw [this] at hwl
      rcases hwl with h | h <;> exact AnalysisStatus.noConfusion h
    constructor
    · intro _
      rw [e2]
      exact ⟨hu, hwl⟩
    · intro h
      rw [hu] at h
      rcases h with h | h <;> exact AnalysisStatus.noConfusion h

theorem cellStep_of_eq {d d' : AnalysisData}
    (hs : status_of_analysisData d' = status_of_analysisData d)
    (ht : turn_of_analysisData d' ≤ turn_of_analysisData d) : cellStep d d' :=
  ⟨fun h => absurd hs h, fun _ => ht⟩

theorem cellStep_lostUpdate (N : Nat) (d : AnalysisData) : cellStep d (lostUpdate N d) := by
  unfold lostUpdate
  split_ifs with h1 h2
  · constructor
    · intro _
      exact ⟨h1, Or.inl rfl⟩
    · intro h
      rw [h1] at h
      rcases h with h | h <;> exact AnalysisStatus.noConfusion h
  · exact cellStep_of_eq rfl (le_of_lt h2.2)
  · exact cellStep_refl d

theorem cellStep_wonUpdate (d : AnalysisData) : cellStep d (wonUpdate d) :=
  cellStep_of_eq (wonUpdate_status d) (le_of_eq (wonUpdate_turn d))

theorem cellStep_lost {d : AnalysisData} (h : status_of_analysisData d = AnalysisStatus.Unfixed)
    (f : Bool) (n : Nat) : cellStep d (to_analysisData f n AnalysisStatus.Lost) := by
  constructor
  · intro _
    exact ⟨h, Or.inr rfl⟩
  · intro h'
    rw [h] at h'
    rcases h' with h' | h' <;> exact AnalysisStatus.noConfusion h'

namespace Analyzer

theorem lost_table (T : QuadTables) (MaxTurn : Nat) (a : Analyzer)
    (stats : AnalysisStatistics) (pos : Position) :
    ∃ N, ∀ c, (analyze_move_backs_from_active_player_lost T MaxTurn a stats
        pos).2.1.analysisDataTable_ c =
      if c ∈ moveBackTargets T pos then lostUpdate N (a.analysisDataTable_ c)
      else a.analysisDataTable_ c := by
  refine ⟨if turn_of_analysisData (a.analysisDataTable_ pos.id) = MaxTurn then
      turn_of_analysisData (a.analysisDataTable_ pos.id)
    else turn_of_analysisData (a.analysisDataTable_ pos.id) + 1, fun c => ?_⟩
  rw [lost_eq_fold, lost_fold_table]

theorem lost_flag (T : QuadTables) (MaxTurn : Nat) (a : Analyzer)
    (stats : AnalysisStatistics) (pos : Position) :
    (analyze_move_backs_from_active_player_lost T MaxTurn a stats pos).1 = true ↔
      ∃ c ∈ moveBackTargets T pos,
        status_of_analysisData (a.analysisDataTable_ c) = AnalysisStatus.Unfixed := by
  rw [lost_eq_fold, lost_fold_flag]
  simp

theorem lost_statistics (T : QuadTables) (MaxTurn : Nat) (a : Analyzer)
    (stats : AnalysisStatistics) (pos : Position) :
    (analyze_move_backs_from_active_player_lost T MaxTurn a stats pos).2.1.statistics_ =
      a.statistics_ := by
  rw [lost_eq_fold, lost_fold_statistics]

theorem lost_stats (T : QuadTables) (MaxTurn : Nat) (a : Analyzer)
    (stats : AnalysisStatistics) (pos : Position) :
    ∃ L : List Nat, L.Nodup ∧
      (∀ c, c ∈ L ↔ c ∈ moveBackTargets T pos ∧
        status_of_analysisData (a.analysisDataTable_ c) = AnalysisStatus.Unfixed) ∧
      (analyze_move_backs_from_active_player_lost T MaxTurn a stats pos).2.2 =
        { stats with wonNums := stats.wonNums + L.length } := by
  rw [lost_eq_fold]
  obtain ⟨L, h1, h2, h3⟩ := lost_fold_stats
    (if turn_of_analysisData (a.analysisDataTable_ pos.id) = MaxTurn then
      turn_of_analysisData (a.analysisDataTable_ pos.id)
    else turn_of_analysisData (a.analysisDataTable_ pos.id) + 1)
    (moveBackTargets T pos) (false, a, stats)
  exact ⟨L, h1, h2, h3⟩

theorem won_table (T : QuadTables) (a : Analyzer) (pos : Position) (c : Nat) :
    (analyze_move_backs_from_active_player_won T a pos).2.analysisDataTable_ c =
      if c ∈ moveBackTargets T pos then wonUpdate (a.analysisDataTable_ c)
      else a.analysisDataTable_ c := by
  rw [won_eq_fold, won_fold_table]

theorem won_flag (T : QuadTables) (a : Analyzer) (pos : Position) :
    (analyze_move_backs_from_active_player_won T a pos).1 = true ↔
      ∃ c ∈ moveBackTargets T pos,
        status_of_analysisData (a.analysisDataTable_ c) = AnalysisStatus.Unfixed := by
  rw [won_eq_fold, won_fold_flag]
  simp

theorem won_statistics (T : QuadTables) (a : Analyzer) (pos : Position) :
    (analyze_move_backs_from_active_player_won T a pos).2.statistics_ = a.statistics_ := by
  rw [won_eq_fold, won_fold_statistics]

theorem clearFlag_table (a : Analyzer) (i c : Nat) :
    (a.clearFlag i).analysisDataTable_ c =
      if c = i then set_updateFlag_of_analysisData (a.analysisDataTable_ i) false
      else a.analysisDataTable_ c := by
  unfold clearFlag
  rw [setCell_table]

theorem clearFlag_status (a : Analyzer) (i c : Nat) :
    status_of_analysisData ((a.clearFlag i).analysisDataTable_ c) =
      status_of_analysisData (a.analysisDataTable_ c) := by
  rw [clearFlag_table]
  split_ifs with h
  · rw [h]
    rfl
  · rfl

theorem clearFlag_turn (a : Analyzer) (i c : Nat) :
    turn_of_analysisData ((a.clearFlag i).analysisDataTable_ c) =
      turn_of_analysisData (a.analysisDataTable_ c) := by
  rw [clearFlag_table]
  split_ifs with h
  · rw [h]
    rfl
  · rfl

theorem clearFlag_flag (a : Analyzer) (i c : Nat) :
    updateFlag_of_analysisData ((a.clearFlag i).analysisDataTable_ c) =
      if c = i then false else updateFlag_of_analysisData (a.analysisDataTable_ c) := by
  rw [clearFlag_table]
  split_ifs with h
  · rfl
  · rfl

theorem clearFlag_statistics (a : Analyzer) (i : Nat) :
    (a.clearFlag i).statistics_ = a.statistics_ := rfl

theorem gen_body_unflagged (T : QuadTables) (MaxTurn : Nat)
    (s : Bool × Analyzer × AnalysisStatistics) (i : Nat)
    (hf : updateFlag_of_analysisData (s.2.1.analysisDataTable_ i) = false) :
    analyze_generation_body T MaxTurn s i = s := by
  unfold analyze_generation_body
  rw [if_pos (by simp [hf])]

theorem gen_body_flagged (T : QuadTables) (MaxTurn : Nat)
    (s : Bool × Analyzer × AnalysisStatistics) (i : Nat)
    (hf : updateFlag_of_analysisData (s.2.1.analysisDataTable_ i) = true) :
    analyze_generation_body T MaxTurn s i =
      if status_of_analysisData (s.2.1.analysisDataTable_ i) = AnalysisStatus.Lost ∨
          status_of_analysisData (s.2.1.analysisDataTable_ i) = AnalysisStatus.LostStalemate then
        (if (analyze_move_backs_from_active_player_lost T MaxTurn (s.2.1.clearFlag i) s.2.2
            (Position.ofId T i)).1 then true else s.1,
          (analyze_move_backs_from_active_player_lost T MaxTurn (s.2.1.clearFlag i) s.2.2
            (Position.ofId T i)).2.1,
          (analyze_move_backs_from_active_player_lost T MaxTurn (s.2.1.clearFlag i) s.2.2
            (Position.ofId T i)).2.2)
      else if status_of_analysisData (s.2.1.analysisDataTable_ i) = AnalysisStatus.Won then
        (if (analyze_move_backs_from_active_player_won T (s.2.1.clearFlag i)
            (Position.ofId T i)).1 then true else s.1,
          (analyze_move_backs_from_active_player_won T (s.2.1.clearFlag i)
            (Position.ofId T i)).2, s.2.2)
      else if status_of_analysisData (s.2.1.analysisDataTable_ i) = AnalysisStatus.Unfixed then
        if (analyze_unfixed T MaxTurn (s.2.1.clearFlag i) s.2.2 (Position.ofId T i)).1 then
          (true,
            (analyze_move_backs_from_active_player_lost T MaxTurn
              (analyze_unfixed T MaxTurn (s.2.1.clearFlag i) s.2.2 (Position.ofId T i)).2.1
              (analyze_unfixed T MaxTurn (s.2.1.clearFlag i) s.2.2 (Position.ofId T i)).2.2
              (Position.ofId T i)).2.1,
            (analyze_move_backs_from_active_player_lost T MaxTurn
              (analyze_unfixed T MaxTurn (s.2.1.clearFlag i) s.2.2 (Position.ofId T i)).2.1
              (analyze_unfixed T MaxTurn (s.2.1.clearFlag i) s.2.2 (Position.ofId T i)).2.2
              (Position.ofId T i)).2.2)
        else (s.1, (analyze_unfixed T MaxTurn (s.2.1.clearFlag i) s.2.2 (Position.ofId T i)).2.1,
          (analyze_unfixed T MaxTurn (s.2.1.clearFlag i) s.2.2 (Position.ofId T i)).2.2)
      else (s.1, s.2.1.clearFlag i, s.2.2) := by
  have hst : status_of_analysisData
      ((s.2.1.setCell i (set_updateFlag_of_analysisData (s.2.1.analysisDataTable_ i)
        false)).analysisDataTable_ i) =
      status_of_analysisData (s.2.1.analysisDataTable_ i) := clearFlag_status _ _ _
  unfold analyze_generation_body clearFlag
  rw [if_neg (by simp [hf])]
  simp only [hst]

theorem gen_body_cases (T : QuadTables) (MaxTurn : Nat)
    (s : Bool × Analyzer × AnalysisStatistics) (i : Nat) :
    (updateFlag_of_analysisData (s.2.1.analysisDataTable_ i) = false ∧
      analyze_generation_body T MaxTurn s i = s) ∨
    (updateFlag_of_analysisData (s.2.1.analysisDataTable_ i) = true ∧
      (status_of_analysisData (s.2.1.analysisDataTable_ i) = AnalysisStatus.Lost ∨
        status_of_analysisData (s.2.1.analysisDataTable_ i) = AnalysisStatus.LostStalemate) ∧
      analyze_generation_body T MaxTurn s i =
        (if (analyze_move_backs_from_active_player_lost T MaxTurn (s.2.1.clearFlag i) s.2.2
            (Position.ofId T i)).1 then true else s.1,
          (analyze_move_backs_from_active_player_lost T MaxTurn (s.2.1.clearFlag i) s.2.2
            (Position.ofId T i)).2.1,
          (analyze_move_backs_from_active_player_lost T MaxTurn (s.2.1.clearFlag i) s.2.2
            (Position.ofId T i)).2.2)) ∨
    (updateFlag_of_analysisData (s.2.1.analysisDataTable_ i) = true ∧
      status_of_analysisData (s.2.1.analysisDataTable_ i) = AnalysisStatus.Won ∧
      analyze_generation_body T MaxTurn s i =
        (if (analyze_move_backs_from_active_player_won T (s.2.1.clearFlag i)
            (Position.ofId T i)).1 then true else s.1,
          (analyze_move_backs_from_active_player_won T (s.2.1.clearFlag i)
            (Position.ofId T i)).2, s.2.2)) ∨
    (updateFlag_of_analysisData (s.2.1.analysisDataTable_ i) = true ∧
      status_of_analysisData (s.2.1.analysisDataTable_ i) = AnalysisStatus.Unfixed ∧
      unfixedNextTurn T MaxTurn (s.2.1.clearFlag i) (Position.ofId T i) = none ∧
      analyze_generation_body T MaxTurn s i = (s.1, s.2.1.clearFlag i, s.2.2)) ∨
    (updateFlag_of_analysisData (s.2.1.analysisDataTable_ i) = true ∧
      status_of_analysisData (s.2.1.analysisDataTable_ i) = AnalysisStatus.Unfixed ∧
      ∃ n, unfixedNextTurn T MaxTurn (s.2.1.clearFlag i) (Position.ofId T i) = some n ∧
        analyze_generation_body T MaxTurn s i =
        (true,
          (analyze_move_backs_from_active_player_lost T MaxTurn
            ((s.2.1.clearFlag i).setCell (Position.ofId T i).id
              (to_analysisData false n AnalysisStatus.Lost))
            { s.2.2 with lostNums := s.2.2.lostNums + 1 } (Position.ofId T i)).2.1,
          (analyze_move_backs_from_active_player_lost T MaxTurn
            ((s.2.1.clearFlag i).setCell (Position.ofId T i).id
              (to_analysisData false n AnalysisStatus.Lost))
            { s.2.2 with lostNums := s.2.2.lostNums + 1 } (Position.ofId T i)).2.2)) ∨
    (updateFlag_of_analysisData (s.2.1.analysisDataTable_ i) = true ∧
      status_of_analysisData (s.2.1.analysisDataTable_ i) ≠ AnalysisStatus.Lost ∧
      status_of_analysisData (s.2.1.analysisDataTable_ i) ≠ AnalysisStatus.LostStalemate ∧
      status_of_analysisData (s.2.1.analysisDataTable_ i) ≠ AnalysisStatus.Won ∧
      status_of_analysisData (s.2.1.analysisDataTable_ i) ≠ AnalysisStatus.Unfixed ∧
      analyze_generation_body T MaxTurn s i = (s.1, s.2.1.clearFlag i, s.2.2)) := by
  by_cases hf : updateFlag_of_analysisData (s.2.1.analysisDataTable_ i) = true
  · right
    have hb := gen_body_flagged T MaxTurn s i hf
    by_cases h1 : status_of_analysisData (s.2.1.analysisDataTable_ i) = AnalysisStatus.Lost ∨
        status_of_analysisData (s.2.1.analysisDataTable_ i) = AnalysisStatus.LostStalemate
    · rw [if_pos h1] at hb
      exact Or.inl ⟨hf, h1, hb⟩
    · rw [if_neg h1] at hb
      right
      by_cases h2 : status_of_analysisData (s.2.1.analysisDataTable_ i) = AnalysisStatus.Won
      · rw [if_pos h2] at hb
        exact Or.inl ⟨hf, h2, hb⟩
      · rw [if_neg h2] at hb
        right
        by_cases h3 : status_of_analysisData (s.2.1.analysisDataTable_ i) =
            AnalysisStatus.Unfixed
        · rw [if_pos h3] at hb
          cases hu : unfixedNextTurn T MaxTurn (s.2.1.clearFlag i) (Position.ofId T i) with
          | none =>
            have e : analyze_unfixed T MaxTurn (s.2.1.clearFlag i) s.2.2 (Position.ofId T i) =
                (false, s.2.1.clearFlag i, s.2.2) := by
              unfold analyze_unfixed
              rw [hu]
            rw [e] at hb
            exact Or.inl ⟨hf, h3, rfl, hb⟩
          | some n =>
            have e : analyze_unfixed T MaxTurn (s.2.1.clearFlag i) s.2.2 (Position.ofId T i) =
                (true, (s.2.1.clearFlag i).setCell (Position.ofId T i).id
                  (to_analysisData false n AnalysisStatus.Lost),
                  { s.2.2 with lostNums := s.2.2.lostNums + 1 }) := by
              unfold analyze_unfixed
              rw [hu]
            rw [e] at hb
            exact Or.inr (Or.inl ⟨hf, h3, n, rfl, hb⟩)
        · rw [if_neg h3] at hb
          exact Or.inr (Or.inr ⟨hf, fun h => h1 (Or.inl h), fun h => h1 (Or.inr h), h2, h3, hb⟩)
  · have hf' : updateFlag_of_analysisData (s.2.1.analysisDataTable_ i) = false := by
      simpa using hf
    exact Or.inl ⟨hf', gen_body_unflagged T MaxTurn s i hf'⟩

theorem ite_flag (b c : Bool) : (if b = true then true else c) = true ↔ b = true ∨ c = true := by
  cases b <;> simp

end Analyzer

end gobb_analyzer

namespace gobb_analyzer

open Position

/-! ## Statuses change only out of Unfixed -/

namespace Analyzer

theorem clearFlag_cellStep (a : Analyzer) (i c : Nat) :
    cellStep (a.analysisDataTable_ c) ((a.clearFlag i).analysisDataTable_ c) :=
  cellStep_of_eq (clearFlag_status a i c) (le_of_eq (clearFlag_turn a i c))

theorem lost_cellStep (T : QuadTables) (MaxTurn : Nat) (a : Analyzer)
    (stats : AnalysisStatistics) (pos : Position) (c : Nat) :
    cellStep (a.analysisDataTable_ c)
      ((analyze_move_backs_from_active_player_lost T MaxTurn a stats
        pos).2.1.analysisDataTable_ c) := by
  obtain ⟨N, hN⟩ := lost_table T MaxTurn a stats pos
  rw [hN]
  split_ifs
  · exact cellStep_lostUpdate N _
  · exact cellStep_refl _

theorem won_cellStep (T : QuadTables) (a : Analyzer) (pos : Position) (c : Nat) :
    cellStep (a.analysisDataTable_ c)
      ((analyze_move_backs_from_active_player_won T a pos).2.analysisDataTable_ c) := by
  rw [won_table]
  split_ifs
  · exact cellStep_wonUpdate _
  · exact cellStep_refl _

theorem gen_body_cellStep (T : QuadTables) (MaxTurn : Nat)
    (s : Bool × Analyzer × AnalysisStatistics) (i : Nat) (hi : i < PositionIdNums) (c : Nat) :
    cellStep (s.2.1.analysisDataTable_ c)
      ((analyze_generation_body T MaxTurn s i).2.1.analysisDataTable_ c) := by
  have hid : (Position.ofId T i).id = i := ofId_id hi
  have hu : status_of_analysisData (s.2.1.analysisDataTable_ i) = AnalysisStatus.Unfixed →
      status_of_analysisData ((s.2.1.clearFlag i).analysisDataTable_ (Position.ofId T i).id) =
        AnalysisStatus.Unfixed := by
    intro h
    rw [hid, clearFlag_status]
    exact h
  rcases gen_body_cases T MaxTurn s i with ⟨_, e⟩ | ⟨_, _, e⟩ | ⟨_, _, e⟩ | ⟨_, _, _, e⟩ |
    ⟨_, h3, n, _, e⟩ | ⟨_, _, _, _, _, e⟩
  · rw [e]
    exact cellStep_refl _
  · rw [e]
    exact cellStep_trans (clearFlag_cellStep s.2.1 i c)
      (lost_cellStep T MaxTurn (s.2.1.clearFlag i) s.2.2 (Position.ofId T i) c)
  · rw [e]
    exact cellStep_trans (clearFlag_cellStep s.2.1 i c)
      (won_cellStep T (s.2.1.clearFlag i) (Position.ofId T i) c)
  · rw [e]
    exact clearFlag_cellStep s.2.1 i c
  · rw [e]
    refine cellStep_trans (clearFlag_cellStep s.2.1 i c) (cellStep_trans ?_
      (lost_cellStep T MaxTurn
        ((s.2.1.clearFlag i).setCell (Position.ofId T i).id
          (to_analysisData false n AnalysisStatus.Lost))
        { s.2.2 with lostNums := s.2.2.lostNums + 1 } (Position.ofId T i) c))
    rw [setCell_table]
    split_ifs with hc
    · rw [hc]
      exact cellStep_lost (hu h3) _ _
    · exact cellStep_refl _
  · rw [e]
    exact clearFlag_cellStep s.2.1 i c

theorem pass_cellStep (T : QuadTables) (MaxTurn : Nat)
    (s : Bool × Analyzer × AnalysisStatistics) (n : Nat) (hn : n ≤ AnalysisDataTableSize)
    (c : Nat) :
    cellStep (s.2.1.analysisDataTable_ c)
      ((forUpTo (analyze_generation_body T MaxTurn) n s).2.1.analysisDataTable_ c) := by
  induction n with
  | zero => exact cellStep_refl _
  | succ n ih =>
    have hsz : AnalysisDataTableSize = PieceSetCombinationNums := rfl
    have hp : PositionIdNums = PieceSetCombinationNums * 2 := rfl
    rw [forUpTo]
    exact cellStep_trans (ih (by omega)) (gen_body_cellStep T MaxTurn _ n (by omega) c)

theorem triple_snd_fst {α β γ : Type} (x : α) (y : β) (z : γ) : (x, y, z).2.1 = y := rfl

theorem analyze_generation_eq (T : QuadTables) (MaxTurn : Nat) (a : Analyzer)
    (stats : AnalysisStatistics) :
    a.analyze_generation T MaxTurn stats =
      forUpTo (analyze_generation_body T MaxTurn) AnalysisDataTableSize (false, a, stats) := by
  unfold analyze_generation
  exact Eq.refl _

end Analyzer

/-- C25, status monotonicity: whatever the table, for every cell one pass
`analyze_generation` changes the status only when it was Unfixed, and then to
Won or Lost; a cell whose status is Lost, LostStalemate, Won, WonStalemate,
Transformed or Contradictory keeps it; and the turn of a cell that is Won or
Lost before the pass is not larger after it. -/
theorem generation_status_monotone (T : QuadTables) (MaxTurn : Nat) (a : Analyzer)
    (stats : AnalysisStatistics) (c : Nat) :
    (status_of_analysisData ((a.analyze_generation T MaxTurn stats).2.1.analysisDataTable_ c) ≠
        status_of_analysisData (a.analysisDataTable_ c) →
      status_of_analysisData (a.analysisDataTable_ c) = AnalysisStatus.Unfixed ∧
      (status_of_analysisData
          ((a.analyze_generation T MaxTurn stats).2.1.analysisDataTable_ c) =
          AnalysisStatus.Won ∨
        status_of_analysisData
          ((a.analyze_generation T MaxTurn stats).2.1.analysisDataTable_ c) =
          AnalysisStatus.Lost)) ∧
    ((status_of_analysisData (a.analysisDataTable_ c) = AnalysisStatus.Lost ∨
        status_of_analysisData (a.analysisDataTable_ c) = AnalysisStatus.LostStalemate ∨
        status_of_analysisData (a.analysisDataTable_ c) = AnalysisStatus.Won ∨
        status_of_analysisData (a.analysisDataTable_ c) = AnalysisStatus.WonStalemate ∨
        status_of_analysisData (a.analysisDataTable_ c) = AnalysisStatus.Transformed ∨
        status_of_analysisData (a.analysisDataTable_ c) = AnalysisStatus.Contradictory) →
      status_of_analysisData ((a.analyze_generation T MaxTurn stats).2.1.analysisDataTable_ c) =
        status_of_analysisData (a.analysisDataTable_ c)) ∧
    ((status_of_analysisData (a.analysisDataTable_ c) = AnalysisStatus.Won ∨
        status_of_analysisData (a.analysisDataTable_ c) = AnalysisStatus.Lost) →
      turn_of_analysisData ((a.analyze_generation T MaxTurn stats).2.1.analysisDataTable_ c) ≤
        turn_of_analysisData (a.analysisDataTable_ c)) := by
  have key := Analyzer.pass_cellStep T MaxTurn (false, a, stats) AnalysisDataTableSize
    (le_refl _) c
  rw [← Analyzer.analyze_generation_eq] at key
  obtain ⟨h1, h2⟩ := key
  refine ⟨h1, ?_, h2⟩
  intro hs
  by_contra hne
  have hu := (h1 hne).1
  rw [hu] at hs
  rcases hs with h | h | h | h | h | h <;> exact AnalysisStatus.noConfusion h

end gobb_analyzer

namespace gobb_analyzer

open Position

/-! ## The flag that a generation returns -/

theorem lostUpdate_flag (N : Nat) {d : AnalysisData}
    (h : status_of_analysisData d ≠ AnalysisStatus.Unfixed) :
    updateFlag_of_analysisData (lostUpdate N d) = updateFlag_of_analysisData d := by
  unfold lostUpdate
  rw [if_neg h]
  split_ifs <;> rfl

theorem wonUpdate_of_fixed {d : AnalysisData}
    (h : status_of_analysisData d ≠ AnalysisStatus.Unfixed) : wonUpdate d = d := by
  unfold wonUpdate
  rw [if_neg h]

theorem wonUpdate_flag {d : AnalysisData}
    (h : status_of_analysisData d = AnalysisStatus.Unfixed) :
    updateFlag_of_analysisData (wonUpdate d) = true := by
  unfold wonUpdate
  rw [if_pos h]
  rfl

namespace Analyzer

theorem gen_body_false (T : QuadTables) (MaxTurn : Nat)
    (s : Bool × Analyzer × AnalysisStatistics) (i : Nat)
    (h : (analyze_generation_body T MaxTurn s i).1 = false) :
    s.1 = false ∧
    ∀ c, updateFlag_of_analysisData
        ((analyze_generation_body T MaxTurn s i).2.1.analysisDataTable_ c) =
      if c = i then false else updateFlag_of_analysisData (s.2.1.analysisDataTable_ c) := by
  rcases gen_body_cases T MaxTurn s i with ⟨hf, e⟩ | ⟨_, _, e⟩ | ⟨_, _, e⟩ | ⟨_, _, _, e⟩ |
    ⟨_, _, n, _, e⟩ | ⟨_, _, _, _, _, e⟩
  · rw [e] at h ⊢
    refine ⟨h, fun c => ?_⟩
    split_ifs with hc
    · rw [hc, hf]
    · rfl
  · rw [e] at h ⊢
    have h' : ¬ ((analyze_move_backs_from_active_player_lost T MaxTurn (s.2.1.clearFlag i) s.2.2
        (Position.ofId T i)).1 = true ∨ s.1 = true) := by
      rw [← ite_flag]
      simpa using h
    have hs : s.1 = false := by
      cases hb : s.1
      · rfl
      · exact absurd (Or.inr hb) h'
    have hno : ¬ ∃ c ∈ moveBackTargets T (Position.ofId T i),
        status_of_analysisData ((s.2.1.clearFlag i).analysisDataTable_ c) =
          AnalysisStatus.Unfixed := fun hex => h' (Or.inl ((lost_flag _ _ _ _ _).mpr hex))
    refine ⟨hs, fun c => ?_⟩
    obtain ⟨N, hN⟩ := lost_table T MaxTurn (s.2.1.clearFlag i) s.2.2 (Position.ofId T i)
    show updateFlag_of_analysisData
      ((analyze_move_backs_from_active_player_lost T MaxTurn (s.2.1.clearFlag i) s.2.2
        (Position.ofId T i)).2.1.analysisDataTable_ c) = _
    rw [hN, ← clearFlag_flag]
    split_ifs with hc
    · exact lostUpdate_flag N (fun hu => hno ⟨c, hc, hu⟩)
    · rfl
  · rw [e] at h ⊢
    have h' : ¬ ((analyze_move_backs_from_active_player_won T (s.2.1.clearFlag i)
        (Position.ofId T i)).1 = true ∨ s.1 = true) := by
      rw [← ite_flag]
      simpa using h
    have hs : s.1 = false := by
      cases hb : s.1
      · rfl
      · exact absurd (Or.inr hb) h'
    have hno : ¬ ∃ c ∈ moveBackTargets T (Position.ofId T i),
        status_of_analysisData ((s.2.1.clearFlag i).analysisDataTable_ c) =
          AnalysisStatus.Unfixed := fun hex => h' (Or.inl ((won_flag _ _ _).mpr hex))
    refine ⟨hs, fun c => ?_⟩
    show updateFlag_of_analysisData
      ((analyze_move_backs_from_active_player_won T (s.2.1.clearFlag i)
        (Position.ofId T i)).2.analysisDataTable_ c) = _
    rw [won_table, ← clearFlag_flag]
    split_ifs with hc
    · rw [wonUpdate_of_fixed (fun hu => hno ⟨c, hc, hu⟩)]
    · rfl
  · rw [e] at h ⊢
    exact ⟨h, fun c => clearFlag_flag _ _ _⟩
  · rw [e] at h
    exact absurd h (by simp)
  · rw [e] at h ⊢
    exact ⟨h, fun c => clearFlag_flag _ _ _⟩

theorem pass_false (T : QuadTables) (MaxTurn : Nat)
    (s : Bool × Analyzer × AnalysisStatistics) (n : Nat)
    (h : (forUpTo (analyze_generation_body T MaxTurn) n s).1 = false) :
    s.1 = false ∧
    ∀ c, updateFlag_of_analysisData
        ((forUpTo (analyze_generation_body T MaxTurn) n s).2.1.analysisDataTable_ c) =
      if c < n then false else updateFlag_of_analysisData (s.2.1.analysisDataTable_ c) := by
  induction n with
  | zero =>
    refine ⟨h, fun c => ?_⟩
    rw [if_neg (by omega)]
    rfl
  | succ n ih =>
    rw [forUpTo] at h ⊢
    obtain ⟨h1, h2⟩ := gen_body_false T MaxTurn _ n h
    obtain ⟨h3, h4⟩ := ih h1
    refine ⟨h3, fun c => ?_⟩
    rw [h2]
    split_ifs with hc hlt hlt
    · rfl
    · omega
    · rw [h4, if_pos (by omega)]
    · rw [h4, if_neg (by omega)]

theorem pass_tail (T : QuadTables) (MaxTurn : Nat)
    (s : Bool × Analyzer × AnalysisStatistics) (m n : Nat) (hmn : m ≤ n)
    (h : ∀ c, m ≤ c → c < n → updateFlag_of_analysisData
      ((forUpTo (analyze_generation_body T MaxTurn) m s).2.1.analysisDataTable_ c) = false) :
    forUpTo (analyze_generation_body T MaxTurn) n s =
      forUpTo (analyze_generation_body T MaxTurn) m s := by
  induction n with
  | zero =>
    have : m = 0 := by omega
    rw [this]
  | succ n ih =>
    by_cases e : m = n + 1
    · rw [e]
    · have hle : m ≤ n := by omega
      have ih := ih hle (fun c h1 h2 => h c h1 (by omega))
      rw [forUpTo, ih]
      exact gen_body_unflagged T MaxTurn _ n (h n hle (by omega))

theorem pass_unflagged (T : QuadTables) (MaxTurn : Nat)
    (s : Bool × Analyzer × AnalysisStatistics) (n : Nat)
    (h : ∀ c, c < n → updateFlag_of_analysisData (s.2.1.analysisDataTable_ c) = false) :
    forUpTo (analyze_generation_body T MaxTurn) n s = s :=
  pass_tail T MaxTurn s 0 n (Nat.zero_le _) (fun c _ hc => h c hc)

theorem pass_unflagged_triple (T : QuadTables) (MaxTurn : Nat) (u : Bool) (a : Analyzer)
    (stats : AnalysisStatistics) (n : Nat)
    (h : ∀ c, c < n → updateFlag_of_analysisData (a.analysisDataTable_ c) = false) :
    forUpTo (analyze_generation_body T MaxTurn) n (u, a, stats) = (u, a, stats) :=
  pass_unflagged T MaxTurn (u, a, stats) n h

theorem tableSize_eq : AnalysisDataTableSize = 1423 ^ 3 := by
  have e : AnalysisDataTableSize = 2881473967 := PieceSetCombinationNums_eq
  rw [e]
  norm_num

end Analyzer

/-- C27, retrograde fixed point: whatever the table, if `analyze_generation`
returns false, then afterwards no cell below `1423^3` has its update flag
set, and one more `analyze_generation` (on any statistics) returns false and
leaves the analyzer, hence every cell, as it is. -/
theorem generation_fixed_point (T : QuadTables) (MaxTurn : Nat) (a : Analyzer)
    (stats : AnalysisStatistics)
    (h : (a.analyze_generation T MaxTurn stats).1 = false) :
    (∀ c, c < 1423 ^ 3 →
      updateFlag_of_analysisData
        ((a.analyze_generation T MaxTurn stats).2.1.analysisDataTable_ c) = false) ∧
    ∀ stats2, (a.analyze_generation T MaxTurn stats).2.1.analyze_generation T MaxTurn stats2 =
      (false, (a.analyze_generation T MaxTurn stats).2.1, stats2) := by
  have hflags : ∀ c, c < AnalysisDataTableSize →
      updateFlag_of_analysisData
        ((a.analyze_generation T MaxTurn stats).2.1.analysisDataTable_ c) = false := by
    intro c hc
    rw [Analyzer.analyze_generation_eq] at h ⊢
    rw [(Analyzer.pass_false T MaxTurn _ _ h).2 c, if_pos hc]
  constructor
  · intro c hc
    exact hflags c (lt_tableSize_of_lt hc)
  · intro stats2
    rw [Analyzer.analyze_generation_eq T MaxTurn (a.analyze_generation T MaxTurn stats).2.1]
    exact Analyzer.pass_unflagged_triple T MaxTurn false
      (a.analyze_generation T MaxTurn stats).2.1 stats2 AnalysisDataTableSize hflags

end gobb_analyzer

namespace gobb_analyzer

open Position

/-! ## When a generation returns true -/

namespace Analyzer

theorem no_status_change {T : QuadTables} {before after : Analyzer} {i : Nat}
    (hs : ∀ c, status_of_analysisData (after.analysisDataTable_ c) =
      status_of_analysisData (before.analysisDataTable_ c))
    (hw : updateFlag_of_analysisData (before.analysisDataTable_ i) = true →
      status_of_analysisData (before.analysisDataTable_ i) ≠ AnalysisStatus.Won) :
    ¬ updatesAt T before after i := by
  rintro (⟨c, hc⟩ | ⟨hf, hwon, _⟩)
  · exact hc (hs c)
  · exact hw hf hwon

theorem gen_body_true_iff (T : QuadTables) (MaxTurn : Nat)
    (s : Bool × Analyzer × AnalysisStatistics) (i : Nat) (hi : i < PositionIdNums) :
    (analyze_generation_body T MaxTurn s i).1 = true ↔
      s.1 = true ∨ updatesAt T s.2.1 (analyze_generation_body T MaxTurn s i).2.1 i := by
  have hid : (Position.ofId T i).id = i := ofId_id hi
  rcases gen_body_cases T MaxTurn s i with ⟨hf, e⟩ | ⟨hf, hs, e⟩ | ⟨hf, hs, e⟩ |
    ⟨hf, hs, _, e⟩ | ⟨hf, hs, n, _, e⟩ | ⟨hf, _, _, hs, _, e⟩
  · rw [e]
    have hno : ¬ updatesAt T s.2.1 s.2.1 i :=
      no_status_change (fun _ => rfl) (fun h => by rw [hf] at h; exact absurd h (by simp))
    constructor
    · exact Or.inl
    · rintro (h | h)
      · exact h
      · exact absurd h hno
  · rw [e]
    obtain ⟨N, hN⟩ := lost_table T MaxTurn (s.2.1.clearFlag i) s.2.2 (Position.ofId T i)
    have hup : updatesAt T s.2.1
        (analyze_move_backs_from_active_player_lost T MaxTurn (s.2.1.clearFlag i) s.2.2
          (Position.ofId T i)).2.1 i ↔
        (analyze_move_backs_from_active_player_lost T MaxTurn (s.2.1.clearFlag i) s.2.2
          (Position.ofId T i)).1 = true := by
      rw [lost_flag]
      constructor
      · rintro (⟨c, hc⟩ | ⟨_, hwon, _⟩)
        · rw [hN] at hc
          by_cases hm : c ∈ moveBackTargets T (Position.ofId T i)
          · refine ⟨c, hm, ?_⟩
            rw [if_pos hm, lostUpdate_status, clearFlag_status] at hc
            by_contra hu
            rw [clearFlag_status] at hu
            rw [if_neg hu] at hc
            exact hc rfl
          · rw [if_neg hm, clearFlag_status] at hc
            exact absurd rfl hc
        · rw [hwon] at hs
          rcases hs with h | h <;> exact AnalysisStatus.noConfusion h
      · rintro ⟨c, hm, hu⟩
        refine Or.inl ⟨c, ?_⟩
        rw [hN, if_pos hm, lostUpdate_status, if_pos hu]
        rw [clearFlag_status] at hu
        rw [hu]
        decide
    show (if _ then true else s.1) = true ↔ _ ∨ updatesAt T s.2.1
      (analyze_move_backs_from_active_player_lost T MaxTurn (s.2.1.clearFlag i) s.2.2
        (Position.ofId T i)).2.1 i
    rw [ite_flag, hup]
    exact Or.comm
  · rw [e]
    have hup : updatesAt T s.2.1
        (analyze_move_backs_from_active_player_won T (s.2.1.clearFlag i)
          (Position.ofId T i)).2 i ↔
        (analyze_move_backs_from_active_player_won T (s.2.1.clearFlag i)
          (Position.ofId T i)).1 = true := by
      rw [won_flag]
      constructor
      · rintro (⟨c, hc⟩ | ⟨_, _, piece, src, dst, hok, hu, _⟩)
        · exfalso
          apply hc
          rw [won_table]
          split_ifs
          · rw [wonUpdate_status, clearFlag_status]
          · rw [clearFlag_status]
        · refine ⟨_, mem_moveBackTargets.mpr ⟨piece, src, dst, hok, rfl⟩, ?_⟩
          rw [clearFlag_status]
          exact hu
      · rintro ⟨c, hm, hu⟩
        obtain ⟨piece, src, dst, hok, hc⟩ := mem_moveBackTargets.mp hm
        refine Or.inr ⟨hf, hs, piece, src, dst, hok, ?_, ?_⟩
        · rw [hc, ← clearFlag_status s.2.1 i c]
          exact hu
        · rw [hc, won_table, if_pos hm]
          exact wonUpdate_flag hu
    show (if _ then true else s.1) = true ↔ _ ∨ updatesAt T s.2.1
      (analyze_move_backs_from_active_player_won T (s.2.1.clearFlag i) (Position.ofId T i)).2 i
    rw [ite_flag, hup]
    exact Or.comm
  · rw [e]
    have hno : ¬ updatesAt T s.2.1 (s.2.1.clearFlag i) i :=
      no_status_change (fun c => clearFlag_status _ _ _)
        (fun _ h => by rw [hs] at h; exact AnalysisStatus.noConfusion h)
    constructor
    · exact Or.inl
    · rintro (h | h)
      · exact h
      · exact absurd h hno
  · rw [e]
    refine ⟨fun _ => Or.inr (Or.inl ⟨i, ?_⟩), fun _ => rfl⟩
    obtain ⟨N, hN⟩ := lost_table T MaxTurn
      ((s.2.1.clearFlag i).setCell (Position.ofId T i).id
        (to_analysisData false n AnalysisStatus.Lost))
      { s.2.2 with lostNums := s.2.2.lostNums + 1 } (Position.ofId T i)
    have hcell : ((s.2.1.clearFlag i).setCell (Position.ofId T i).id
        (to_analysisData false n AnalysisStatus.Lost)).analysisDataTable_ i =
        to_analysisData false n AnalysisStatus.Lost := by
      rw [setCell_table, hid, if_pos rfl]
    show status_of_analysisData
      ((analyze_move_backs_from_active_player_lost T MaxTurn
        ((s.2.1.clearFlag i).setCell (Position.ofId T i).id
          (to_analysisData false n AnalysisStatus.Lost))
        { s.2.2 with lostNums := s.2.2.lostNums + 1 }
        (Position.ofId T i)).2.1.analysisDataTable_ i) ≠ _
    rw [hN, hcell, hs]
    have hl : status_of_analysisData (to_analysisData false n AnalysisStatus.Lost) =
        AnalysisStatus.Lost := rfl
    split_ifs
    · rw [lostUpdate_status, hl]
      decide
    · rw [hl]
      decide
  · rw [e]
    have hno : ¬ updatesAt T s.2.1 (s.2.1.clearFlag i) i :=
      no_status_change (fun c => clearFlag_status _ _ _) (fun _ h => hs h)
    constructor
    · exact Or.inl
    · rintro (h | h)
      · exact h
      · exact absurd h hno

theorem forUpTo_succ {σ : Type} (body : σ → Nat → σ) (n : Nat) (s : σ) :
    forUpTo body (n + 1) s = body (forUpTo body n s) n := rfl

theorem pass_true_iff (T : QuadTables) (MaxTurn : Nat)
    (s : Bool × Analyzer × AnalysisStatistics) (n : Nat) (hn : n ≤ AnalysisDataTableSize) :
    (forUpTo (analyze_generation_body T MaxTurn) n s).1 = true ↔
      s.1 = true ∨ ∃ i, i < n ∧
        updatesAt T (forUpTo (analyze_generation_body T MaxTurn) i s).2.1
          (forUpTo (analyze_generation_body T MaxTurn) (i + 1) s).2.1 i := by
  induction n with
  | zero =>
    constructor
    · exact Or.inl
    · rintro (h | ⟨i, hi, _⟩)
      · exact h
      · omega
  | succ n ih =>
    have hsz : AnalysisDataTableSize = PieceSetCombinationNums := rfl
    have hp : PositionIdNums = PieceSetCombinationNums * 2 := rfl
    have ih := ih (by omega)
    rw [forUpTo_succ, gen_body_true_iff T MaxTurn _ n (by omega), ih]
    constructor
    · rintro ((h | ⟨i, hi, h⟩) | h)
      · exact Or.inl h
      · exact Or.inr ⟨i, by omega, h⟩
      · exact Or.inr ⟨n, by omega, h⟩
    · rintro (h | ⟨i, hi, h⟩)
      · exact Or.inl (Or.inl h)
      · by_cases e : i = n
        · rw [e] at h
          exact Or.inr h
        · exact Or.inl (Or.inr ⟨i, by omega, h⟩)

end Analyzer

/-- C24, the return value of a generation as the code has it: whatever the
table, `analyze_generation` returns true exactly when its loop reports an
update at some cell `i` below `1423^3`, that is, when in the loop body for
`i` the status of some cell changed, or the cell `i` was flagged and Won and
the propagation from it reached an Unfixed cell, whose update flag it set.
A change of turns alone does not make it return true. -/
theorem generation_returns_true_iff (T : QuadTables) (MaxTurn : Nat) (a : Analyzer)
    (stats : AnalysisStatistics) :
    (a.analyze_generation T MaxTurn stats).1 = true ↔
      ∃ i, i < 1423 ^ 3 ∧
        Analyzer.updatesAt T
          (forUpTo (Analyzer.analyze_generation_body T MaxTurn) i (false, a, stats)).2.1
          (forUpTo (Analyzer.analyze_generation_body T MaxTurn) (i + 1) (false, a, stats)).2.1
          i := by
  rw [Analyzer.analyze_generation_eq,
    Analyzer.pass_true_iff T MaxTurn (false, a, stats) AnalysisDataTableSize (le_refl _),
    Analyzer.tableSize_eq]
  constructor
  · rintro (h | h)
    · exact absurd h (by simp)
    · exact h
  · exact Or.inr

end gobb_analyzer

namespace gobb_analyzer

open Position

/-! ## A pass that only tightens turns -/

set_option maxRecDepth 100000 in
theorem tighten_target :
    0 ∈ moveBackTargets stdTables (Position.ofId stdTables 46) :=
  mem_moveBackTargets.mpr
    ⟨PieceId.InactivePlayerSmall, LocationId.NW, LocationId.Out, by decide!, by decide!⟩

theorem tighten_pass (stats : AnalysisStatistics) :
    (Analyzer.analyze_generation stdTables 15
      ⟨fun c => if c = 46 then to_analysisData true 0 AnalysisStatus.Lost
        else to_analysisData false 5 AnalysisStatus.Won, AnalysisStatistics.new⟩ stats).1 =
      false ∧
    turn_of_analysisData
      ((Analyzer.analyze_generation stdTables 15
        ⟨fun c => if c = 46 then to_analysisData true 0 AnalysisStatus.Lost
          else to_analysisData false 5 AnalysisStatus.Won, AnalysisStatistics.new⟩
        stats).2.1.analysisDataTable_ 0) = 1 := by
  generalize ha : (⟨fun c => if c = 46 then to_analysisData true 0 AnalysisStatus.Lost
    else to_analysisData false 5 AnalysisStatus.Won, AnalysisStatistics.new⟩ : Analyzer) = a
  have hcell : ∀ c, a.analysisDataTable_ c =
      if c = 46 then to_analysisData true 0 AnalysisStatus.Lost
      else to_analysisData false 5 AnalysisStatus.Won := by
    intro c
    rw [← ha]
  have hflag : ∀ c, c ≠ 46 → updateFlag_of_analysisData (a.analysisDataTable_ c) = false := by
    intro c hc
    rw [hcell, if_neg hc]
    rfl
  have hfixed : ∀ c, status_of_analysisData (a.analysisDataTable_ c) ≠
      AnalysisStatus.Unfixed := by
    intro c
    rw [hcell]
    split_ifs <;> decide
  have h46 : a.analysisDataTable_ 46 = to_analysisData true 0 AnalysisStatus.Lost := by
    rw [hcell, if_pos rfl]
  have h0 : a.analysisDataTable_ 0 = to_analysisData false 5 AnalysisStatus.Won := by
    rw [hcell, if_neg (by decide)]
  have hid : (Position.ofId stdTables 46).id = 46 := ofId_id (by decide)
  -- the cells before 46 are skipped
  have hA : forUpTo (Analyzer.analyze_generation_body stdTables 15) 46 (false, a, stats) =
      (false, a, stats) :=
    Analyzer.pass_unflagged_triple stdTables 15 false a stats 46
      (fun c hc => hflag c (by omega))
  -- the cell 46 is processed
  have hB : forUpTo (Analyzer.analyze_generation_body stdTables 15) 47 (false, a, stats) =
      Analyzer.analyze_generation_body stdTables 15 (false, a, stats) 46 := by
    rw [Analyzer.forUpTo_succ, hA]
  have hstep : Analyzer.analyze_generation_body stdTables 15 (false, a, stats) 46 =
      (if (Analyzer.analyze_move_backs_from_active_player_lost stdTables 15 (a.clearFlag 46)
          stats (Position.ofId stdTables 46)).1 then true else false,
        (Analyzer.analyze_move_backs_from_active_player_lost stdTables 15 (a.clearFlag 46)
          stats (Position.ofId stdTables 46)).2.1,
        (Analyzer.analyze_move_backs_from_active_player_lost stdTables 15 (a.clearFlag 46)
          stats (Position.ofId stdTables 46)).2.2) := by
    rw [Analyzer.gen_body_flagged stdTables 15 (false, a, stats) 46 (by rw [h46]; rfl),
      if_pos (Or.inl (by rw [h46]; rfl))]
  have hr : (Analyzer.analyze_move_backs_from_active_player_lost stdTables 15 (a.clearFlag 46)
      stats (Position.ofId stdTables 46)).1 = false := by
    cases hb : (Analyzer.analyze_move_backs_from_active_player_lost stdTables 15
      (a.clearFlag 46) stats (Position.ofId stdTables 46)).1
    · rfl
    · obtain ⟨c, _, hu⟩ := (Analyzer.lost_flag _ _ _ _ _).mp hb
      rw [Analyzer.clearFlag_status] at hu
      exact absurd hu (hfixed c)
  have hfalse : (Analyzer.analyze_generation_body stdTables 15 (false, a, stats) 46).1 =
      false := by
    rw [hstep, hr]
    rfl
  -- the cells after 46 are skipped
  have hC : forUpTo (Analyzer.analyze_generation_body stdTables 15) AnalysisDataTableSize
      (false, a, stats) =
      Analyzer.analyze_generation_body stdTables 15 (false, a, stats) 46 := by
    rw [← hB]
    apply Analyzer.pass_tail stdTables 15 (false, a, stats) 47 AnalysisDataTableSize
    · rw [Analyzer.tableSize_eq]
      norm_num
    · intro c hc _
      rw [hB, (Analyzer.gen_body_false stdTables 15 (false, a, stats) 46 hfalse).2 c,
        if_neg (by omega)]
      exact hflag c (by omega)
  rw [Analyzer.analyze_generation_eq, hC]
  refine ⟨hfalse, ?_⟩
  rw [hstep, Analyzer.triple_snd_fst, Analyzer.lost_eq_fold, Analyzer.lost_fold_table, if_pos tighten_target, hid]
  have e46 : (a.clearFlag 46).analysisDataTable_ 46 =
      to_analysisData false 0 AnalysisStatus.Lost := by
    rw [Analyzer.clearFlag_table, if_pos rfl, h46]
    rfl
  have e0 : (a.clearFlag 46).analysisDataTable_ 0 =
      to_analysisData false 5 AnalysisStatus.Won := by
    rw [Analyzer.clearFlag_table, if_neg (by decide), h0]
  rw [e46, e0]
  decide

/-- C24, counterexample: on the table whose cell 46 is Lost with the turn 0
and flagged and whose other cells are Won with the turn 5 and not flagged,
`analyze_generation` lowers the turn of the cell 0 from 5 to 1 (the cell 0 is
reached by a retrograde move from `Position(46)`) and returns false. -/
theorem generation_returns_false_after_turn_change :
    (Analyzer.analyze_generation stdTables 15
      ⟨fun c => if c = 46 then to_analysisData true 0 AnalysisStatus.Lost
        else to_analysisData false 5 AnalysisStatus.Won, AnalysisStatistics.new⟩
      AnalysisStatistics.new).1 = false ∧
    turn_of_analysisData
      ((Analyzer.analyze_generation stdTables 15
        ⟨fun c => if c = 46 then to_analysisData true 0 AnalysisStatus.Lost
          else to_analysisData false 5 AnalysisStatus.Won, AnalysisStatistics.new⟩
        AnalysisStatistics.new).2.1.analysisDataTable_ 0) = 1 ∧
    turn_of_analysisData
      ((⟨fun c => if c = 46 then to_analysisData true 0 AnalysisStatus.Lost
          else to_analysisData false 5 AnalysisStatus.Won, AnalysisStatistics.new⟩ :
        Analyzer).analysisDataTable_ 0) = 5 :=
  ⟨(tighten_pass AnalysisStatistics.new).1, (tighten_pass AnalysisStatistics.new).2, by decide⟩

theorem generation_fixed_point_witness :
    (Analyzer.analyze_generation stdTables 15
      ⟨fun c => if c = 46 then to_analysisData true 0 AnalysisStatus.Lost
        else to_analysisData false 5 AnalysisStatus.Won, AnalysisStatistics.new⟩
      AnalysisStatistics.new).1 = false ∧
    ((∀ c, c < 1423 ^ 3 →
      updateFlag_of_analysisData
        ((Analyzer.analyze_generation stdTables 15
          ⟨fun c => if c = 46 then to_analysisData true 0 AnalysisStatus.Lost
            else to_analysisData false 5 AnalysisStatus.Won, AnalysisStatistics.new⟩
          AnalysisStatistics.new).2.1.analysisDataTable_ c) = false) ∧
    ∀ stats2,
      (Analyzer.analyze_generation stdTables 15
        ⟨fun c => if c = 46 then to_analysisData true 0 AnalysisStatus.Lost
          else to_analysisData false 5 AnalysisStatus.Won, AnalysisStatistics.new⟩
        AnalysisStatistics.new).2.1.analyze_generation stdTables 15 stats2 =
      (false,
        (Analyzer.analyze_generation stdTables 15
          ⟨fun c => if c = 46 then to_analysisData true 0 AnalysisStatus.Lost
            else to_analysisData false 5 AnalysisStatus.Won, AnalysisStatistics.new⟩
          AnalysisStatistics.new).2.1, stats2)) :=
  ⟨(tighten_pass AnalysisStatistics.new).1,
    generation_fixed_point stdTables 15
      ⟨fun c => if c = 46 then to_analysisData true 0 AnalysisStatus.Lost
        else to_analysisData false 5 AnalysisStatus.Won, AnalysisStatistics.new⟩
      AnalysisStatistics.new (tighten_pass AnalysisStatistics.new).1⟩

end gobb_analyzer

namespace gobb_analyzer

/-! ## The loop of `Analyzer::analyze` in the mode StoreFinalGeneration -/

namespace Analyzer

theorem pair_fst {α β : Type} (x : α) (y : β) : (x, y).1 = x := rfl

theorem generation_eq (T : QuadTables) (MaxTurn : Nat) (a : Analyzer) :
    a.generation T MaxTurn =
      ((a.analyze_generation T MaxTurn AnalysisStatistics.new).1,
        { (a.analyze_generation T MaxTurn AnalysisStatistics.new).2.1 with
          statistics_ :=
            (a.analyze_generation T MaxTurn AnalysisStatistics.new).2.1.statistics_.add
              (a.analyze_generation T MaxTurn AnalysisStatistics.new).2.2 }) := by
  unfold generation
  exact Eq.refl _

theorem generation_flag (T : QuadTables) (MaxTurn : Nat) (a : Analyzer) :
    (a.generation T MaxTurn).1 = (a.analyze_generation T MaxTurn AnalysisStatistics.new).1 :=
  (congrArg Prod.fst (generation_eq T MaxTurn a)).trans (pair_fst _ _)

theorem generation_unflagged (T : QuadTables) (MaxTurn : Nat) (a : Analyzer)
    (h : ∀ c, c < AnalysisDataTableSize →
      updateFlag_of_analysisData (a.analysisDataTable_ c) = false) :
    (a.generation T MaxTurn).1 = false := by
  rw [generation_flag, analyze_generation_eq,
    pass_unflagged_triple T MaxTurn false a AnalysisStatistics.new AnalysisDataTableSize h]

end Analyzer

namespace AnalyzerRun

theorem analyze_loop_zero (T : QuadTables) (MaxTurn MaxGeneration : Nat)
    (store : Nat → AnalysisStatistics → (Nat → AnalysisData) → Bool)
    (ioMode : AnalysisDataIOMode) (r : AnalyzerRun) :
    analyze_loop T MaxTurn MaxGeneration store ioMode 0 r = (true, r) := by
  rw [analyze_loop]

theorem analyze_loop_final_succ (T : QuadTables) (MaxTurn MaxGeneration : Nat)
    (store : Nat → AnalysisStatistics → (Nat → AnalysisData) → Bool)
    (hstore : ∀ g s t, store g s t = true) (fuel : Nat) (r : AnalyzerRun) :
    analyze_loop T MaxTurn MaxGeneration store AnalysisDataIOMode.StoreFinalGeneration
        (fuel + 1) r =
      if ¬ r.generation_ ≤ MaxGeneration then (true, r)
      else if (r.core.generation T MaxTurn).1 = true then
        analyze_loop T MaxTurn MaxGeneration store AnalysisDataIOMode.StoreFinalGeneration fuel
          { generation_ := r.generation_ + 1, storedGeneration_ := r.storedGeneration_,
            core := (r.core.generation T MaxTurn).2 }
      else
        (true,
          { generation_ := r.generation_,
            storedGeneration_ :=
              if r.storedGeneration_ = InvalidGeneration ∨
                  (r.storedGeneration_ + 1) % 2 ^ 64 < r.generation_ then r.generation_
              else r.storedGeneration_,
            core := (r.core.generation T MaxTurn).2 }) := by
  rw [analyze_loop]
  by_cases hle : r.generation_ ≤ MaxGeneration
  · rw [if_neg (not_not.mpr hle), if_neg (not_not.mpr hle)]
    by_cases hu : (r.core.generation T MaxTurn).1 = true
    · rw [if_pos hu]
      simp [hu]
    · rw [if_neg hu]
      have hu' : (r.core.generation T MaxTurn).1 = false := by simpa using hu
      by_cases hc : r.storedGeneration_ = InvalidGeneration ∨
          (r.storedGeneration_ + 1) % 2 ^ 64 < r.generation_
      · simp [hu', hc, hstore]
      · simp [hu', hc, hstore]
  · rw [if_pos hle, if_pos hle]

theorem analyze_loop_final_strict (T : QuadTables) (MaxTurn MaxGeneration : Nat)
    (store : Nat → AnalysisStatistics → (Nat → AnalysisData) → Bool)
    (hstore : ∀ g s t, store g s t = true) :
    ∀ (fuel : Nat) (r : AnalyzerRun), MaxGeneration + 1 ≤ r.generation_ + fuel →
      (r.storedGeneration_ = InvalidGeneration ∨ r.storedGeneration_ + 1 < r.generation_) →
      (analyze_loop T MaxTurn MaxGeneration store AnalysisDataIOMode.StoreFinalGeneration
        fuel r).1 = true ∧
      ((analyze_loop T MaxTurn MaxGeneration store AnalysisDataIOMode.StoreFinalGeneration
          fuel r).2.generation_ ≤ MaxGeneration →
        (analyze_loop T MaxTurn MaxGeneration store AnalysisDataIOMode.StoreFinalGeneration
          fuel r).2.storedGeneration_ =
        (analyze_loop T MaxTurn MaxGeneration store AnalysisDataIOMode.StoreFinalGeneration
          fuel r).2.generation_) := by
  intro fuel
  induction fuel with
  | zero =>
    intro r hf _
    rw [analyze_loop_zero]
    refine ⟨rfl, fun h => ?_⟩
    have h' : r.generation_ ≤ MaxGeneration := h
    omega
  | succ fuel ih =>
    intro r hf hq
    rw [analyze_loop_final_succ T MaxTurn MaxGeneration store hstore]
    by_cases hle : r.generation_ ≤ MaxGeneration
    · rw [if_neg (not_not.mpr hle)]
      by_cases hu : (r.core.generation T MaxTurn).1 = true
      · rw [if_pos hu]
        apply ih
        · show MaxGeneration + 1 ≤ r.generation_ + 1 + fuel
          omega
        · show r.storedGeneration_ = InvalidGeneration ∨
            r.storedGeneration_ + 1 < r.generation_ + 1
          rcases hq with h | h
          · exact Or.inl h
          · exact Or.inr (by omega)
      · rw [if_neg hu]
        refine ⟨rfl, fun _ => ?_⟩
        show (if r.storedGeneration_ = InvalidGeneration ∨
            (r.storedGeneration_ + 1) % 2 ^ 64 < r.generation_ then r.generation_
          else r.storedGeneration_) = r.generation_
        rw [if_pos]
        rcases hq with h | h
        · exact Or.inl h
        · exact Or.inr (lt_of_le_of_lt (Nat.mod_le _ _) h)
    · rw [if_pos hle]
      exact ⟨rfl, fun h => absurd h hle⟩

theorem start_final (T : QuadTables) (MaxTurn MaxGeneration : Nat)
    (store : Nat → AnalysisStatistics → (Nat → AnalysisData) → Bool)
    (hstore : ∀ g s t, store g s t = true) (table : Nat → AnalysisData)
    (h1 : (start T MaxTurn MaxGeneration store AnalysisDataIOMode.StoreFinalGeneration
      (AnalyzerRun.new table)).1 = true)
    (h2 : (start T MaxTurn MaxGeneration store AnalysisDataIOMode.StoreFinalGeneration
      (AnalyzerRun.new table)).2.generation_ ≤ MaxGeneration) :
    (start T MaxTurn MaxGeneration store AnalysisDataIOMode.StoreFinalGeneration
      (AnalyzerRun.new table)).2.storedGeneration_ =
    (start T MaxTurn MaxGeneration store AnalysisDataIOMode.StoreFinalGeneration
      (AnalyzerRun.new table)).2.generation_ := by
  have key : start T MaxTurn MaxGeneration store AnalysisDataIOMode.StoreFinalGeneration
      (AnalyzerRun.new table) =
      if ¬ ((AnalyzerRun.new table).core.initialize_ T MaxTurn).1 = true then
        (false,
          { generation_ := 0, storedGeneration_ := InvalidGeneration,
            core := ((AnalyzerRun.new table).core.initialize_ T MaxTurn).2 })
      else
        analyze_loop T MaxTurn MaxGeneration store AnalysisDataIOMode.StoreFinalGeneration
          (MaxGeneration + 1 - 1)
          { generation_ := 1, storedGeneration_ := InvalidGeneration,
            core := ((AnalyzerRun.new table).core.initialize_ T MaxTurn).2 } := by
    unfold start analyze
    generalize (AnalyzerRun.new table).core.initialize_ T MaxTurn = I
    obtain ⟨b, c⟩ := I
    cases b
    · simp [AnalyzerRun.new]
    · simp [AnalyzerRun.new]
  rw [key] at h1 h2 ⊢
  by_cases hi : ((AnalyzerRun.new table).core.initialize_ T MaxTurn).1 = true
  · rw [if_neg (not_not.mpr hi)] at h2 ⊢
    exact (analyze_loop_final_strict T MaxTurn MaxGeneration store hstore _ _
      (by show MaxGeneration + 1 ≤ 1 + (MaxGeneration + 1 - 1); omega) (Or.inl rfl)).2 h2
  · rw [if_pos hi] at h1
    exact absurd h1 (by simp)

theorem resume_final (T : QuadTables) (MaxTurn MaxGeneration : Nat)
    (store : Nat → AnalysisStatistics → (Nat → AnalysisData) → Bool)
    (load : Nat → Option (AnalysisStatistics × (Nat → AnalysisData)))
    (hstore : ∀ g s t, store g s t = true) (hmax : MaxGeneration < InvalidGeneration)
    (self : AnalyzerRun) (g : Nat) (hg : g ≤ MaxGeneration)
    (data : AnalysisStatistics × (Nat → AnalysisData)) (hload : load g = some data) :
    (resume T MaxTurn MaxGeneration store load AnalysisDataIOMode.StoreFinalGeneration
      self g).1 = true ∧
    ((Analyzer.generation T MaxTurn ⟨data.2, data.1⟩).1 = true →
      (resume T MaxTurn MaxGeneration store load AnalysisDataIOMode.StoreFinalGeneration
        self g).2.generation_ ≤ MaxGeneration →
      (resume T MaxTurn MaxGeneration store load AnalysisDataIOMode.StoreFinalGeneration
        self g).2.storedGeneration_ =
      (resume T MaxTurn MaxGeneration store load AnalysisDataIOMode.StoreFinalGeneration
        self g).2.generation_) ∧
    ((Analyzer.generation T MaxTurn ⟨data.2, data.1⟩).1 = false → g < MaxGeneration →
      (resume T MaxTurn MaxGeneration store load AnalysisDataIOMode.StoreFinalGeneration
        self g).2.generation_ = g + 1 ∧
      (resume T MaxTurn MaxGeneration store load AnalysisDataIOMode.StoreFinalGeneration
        self g).2.storedGeneration_ = g) := by
  have hinv : InvalidGeneration = 2 ^ 64 - 1 := by
    unfold InvalidGeneration
    norm_num
  have hgen : (g + 1) % 2 ^ 64 = g + 1 := Nat.mod_eq_of_lt (by omega)
  have key : resume T MaxTurn MaxGeneration store load AnalysisDataIOMode.StoreFinalGeneration
      self g =
      analyze_loop T MaxTurn MaxGeneration store AnalysisDataIOMode.StoreFinalGeneration
        (MaxGeneration + 1 - (g + 1))
        { generation_ := g + 1, storedGeneration_ := g, core := ⟨data.2, data.1⟩ } := by
    unfold resume analyze
    rw [hload]
    dsimp only
    rw [hgen]
  rw [key]
  by_cases hlt : g < MaxGeneration
  · obtain ⟨k, hk⟩ : ∃ k, MaxGeneration + 1 - (g + 1) = k + 1 :=
      ⟨MaxGeneration - g - 1, by omega⟩
    rw [hk, analyze_loop_final_succ T MaxTurn MaxGeneration store hstore,
      if_neg (not_not.mpr (show g + 1 ≤ MaxGeneration by omega))]
    by_cases hu : (Analyzer.generation T MaxTurn ⟨data.2, data.1⟩).1 = true
    · rw [if_pos hu]
      have S := analyze_loop_final_strict T MaxTurn MaxGeneration store hstore k
        { generation_ := g + 1 + 1, storedGeneration_ := g,
          core := (Analyzer.generation T MaxTurn ⟨data.2, data.1⟩).2 }
        (by show MaxGeneration + 1 ≤ g + 1 + 1 + k; omega)
        (Or.inr (by show g + 1 < g + 1 + 1; omega))
      refine ⟨S.1, fun _ => S.2, fun h => ?_⟩
      rw [h] at hu
      exact absurd hu (by simp)
    · rw [if_neg hu]
      refine ⟨rfl, fun h => absurd h hu, fun _ _ => ⟨rfl, ?_⟩⟩
      show (if g = InvalidGeneration ∨ (g + 1) % 2 ^ 64 < g + 1 then g + 1 else g) = g
      rw [if_neg]
      rw [hgen]
      rintro (h | h)
      · omega
      · omega
  · have hk : MaxGeneration + 1 - (g + 1) = 0 := by omega
    rw [hk, analyze_loop_zero]
    refine ⟨rfl, fun _ h => ?_, fun _ h => absurd h hlt⟩
    have h' : g + 1 ≤ MaxGeneration := h
    omega

end AnalyzerRun

/-- C28, persistence of the final generation as the code has it: let every
`store` succeed and `MaxGeneration` be below `InvalidGeneration`, in the mode
StoreFinalGeneration.  A `start` on a freshly constructed analyzer that
returns true with `generation_ <= MaxGeneration` (the loop of `analyze` ended
by its `break`, at a generation without an update) has stored that generation:
`storedGeneration_ == generation_`.  A `resume` from a loaded generation
`g <= MaxGeneration` returns true; when the first generation after `g` has an
update and the loop ends by its `break`, again
`storedGeneration_ == generation_`; but when the first generation after `g`
has no update, nothing is stored: the loop stops at `generation_ == g + 1`
with `storedGeneration_ == g`. -/
theorem final_generation_stored (T : QuadTables) (MaxTurn MaxGeneration : Nat)
    (store : Nat → AnalysisStatistics → (Nat → AnalysisData) → Bool)
    (load : Nat → Option (AnalysisStatistics × (Nat → AnalysisData)))
    (hstore : ∀ g s t, store g s t = true) (hmax : MaxGeneration < InvalidGeneration) :
    (∀ table,
      (AnalyzerRun.start T MaxTurn MaxGeneration store AnalysisDataIOMode.StoreFinalGeneration
        (AnalyzerRun.new table)).1 = true →
      (AnalyzerRun.start T MaxTurn MaxGeneration store AnalysisDataIOMode.StoreFinalGeneration
        (AnalyzerRun.new table)).2.generation_ ≤ MaxGeneration →
      (AnalyzerRun.start T MaxTurn MaxGeneration store AnalysisDataIOMode.StoreFinalGeneration
        (AnalyzerRun.new table)).2.storedGeneration_ =
      (AnalyzerRun.start T MaxTurn MaxGeneration store AnalysisDataIOMode.StoreFinalGeneration
        (AnalyzerRun.new table)).2.generation_) ∧
    (∀ self g data, g ≤ MaxGeneration → load g = some data →
      (AnalyzerRun.resume T MaxTurn MaxGeneration store load
        AnalysisDataIOMode.StoreFinalGeneration self g).1 = true ∧
      ((Analyzer.generation T MaxTurn ⟨data.2, data.1⟩).1 = true →
        (AnalyzerRun.resume T MaxTurn MaxGeneration store load
          AnalysisDataIOMode.StoreFinalGeneration self g).2.generation_ ≤ MaxGeneration →
        (AnalyzerRun.resume T MaxTurn MaxGeneration store load
          AnalysisDataIOMode.StoreFinalGeneration self g).2.storedGeneration_ =
        (AnalyzerRun.resume T MaxTurn MaxGeneration store load
          AnalysisDataIOMode.StoreFinalGeneration self g).2.generation_) ∧
      ((Analyzer.generation T MaxTurn ⟨data.2, data.1⟩).1 = false → g < MaxGeneration →
        (AnalyzerRun.resume T MaxTurn MaxGeneration store load
          AnalysisDataIOMode.StoreFinalGeneration self g).2.generation_ = g + 1 ∧
        (AnalyzerRun.resume T MaxTurn MaxGeneration store load
          AnalysisDataIOMode.StoreFinalGeneration self g).2.storedGeneration_ = g)) :=
  ⟨fun table h1 h2 => AnalyzerRun.start_final T MaxTurn MaxGeneration store hstore table h1 h2,
    fun self g data hg hload =>
      AnalyzerRun.resume_final T MaxTurn MaxGeneration store load hstore hmax self g hg data
        hload⟩

theorem final_generation_stored_witness :
    (∀ g s t, (fun (_ : Nat) (_ : AnalysisStatistics) (_ : Nat → AnalysisData) => true) g s t =
      true) ∧
    100 < InvalidGeneration ∧
    ((∀ table,
      (AnalyzerRun.start stdTables 15 100 (fun _ _ _ => true)
        AnalysisDataIOMode.StoreFinalGeneration (AnalyzerRun.new table)).1 = true →
      (AnalyzerRun.start stdTables 15 100 (fun _ _ _ => true)
        AnalysisDataIOMode.StoreFinalGeneration (AnalyzerRun.new table)).2.generation_ ≤ 100 →
      (AnalyzerRun.start stdTables 15 100 (fun _ _ _ => true)
        AnalysisDataIOMode.StoreFinalGeneration (AnalyzerRun.new table)).2.storedGeneration_ =
      (AnalyzerRun.start stdTables 15 100 (fun _ _ _ => true)
        AnalysisDataIOMode.StoreFinalGeneration (AnalyzerRun.new table)).2.generation_) ∧
    (∀ self g data, g ≤ 100 →
      (fun _ => some (AnalysisStatistics.new,
        fun _ => to_analysisData false 5 AnalysisStatus.Won)) g = some data →
      (AnalyzerRun.resume stdTables 15 100 (fun _ _ _ => true)
        (fun _ => some (AnalysisStatistics.new,
          fun _ => to_analysisData false 5 AnalysisStatus.Won))
        AnalysisDataIOMode.StoreFinalGeneration self g).1 = true ∧
      ((Analyzer.generation stdTables 15 ⟨data.2, data.1⟩).1 = true →
        (AnalyzerRun.resume stdTables 15 100 (fun _ _ _ => true)
          (fun _ => some (AnalysisStatistics.new,
            fun _ => to_analysisData false 5 AnalysisStatus.Won))
          AnalysisDataIOMode.StoreFinalGeneration self g).2.generation_ ≤ 100 →
        (AnalyzerRun.resume stdTables 15 100 (fun _ _ _ => true)
          (fun _ => some (AnalysisStatistics.new,
            fun _ => to_analysisData false 5 AnalysisStatus.Won))
          AnalysisDataIOMode.StoreFinalGeneration self g).2.storedGeneration_ =
        (AnalyzerRun.resume stdTables 15 100 (fun _ _ _ => true)
          (fun _ => some (AnalysisStatistics.new,
            fun _ => to_analysisData false 5 AnalysisStatus.Won))
          AnalysisDataIOMode.StoreFinalGeneration self g).2.generation_) ∧
      ((Analyzer.generation stdTables 15 ⟨data.2, data.1⟩).1 = false → g < 100 →
        (AnalyzerRun.resume stdTables 15 100 (fun _ _ _ => true)
          (fun _ => some (AnalysisStatistics.new,
            fun _ => to_analysisData false 5 AnalysisStatus.Won))
          AnalysisDataIOMode.StoreFinalGeneration self g).2.generation_ = g + 1 ∧
        (AnalyzerRun.resume stdTables 15 100 (fun _ _ _ => true)
          (fun _ => some (AnalysisStatistics.new,
            fun _ => to_analysisData false 5 AnalysisStatus.Won))
          AnalysisDataIOMode.StoreFinalGeneration self g).2.storedGeneration_ = g))) :=
  ⟨fun _ _ _ => rfl, by decide,
    final_generation_stored stdTables 15 100 (fun _ _ _ => true)
      (fun _ => some (AnalysisStatistics.new,
        fun _ => to_analysisData false 5 AnalysisStatus.Won))
      (fun _ _ _ => rfl) (by decide)⟩

/-- C28, counterexample: resume from the stored generation 5, whose table
has no update flag set, in the mode StoreFinalGeneration with a `store` that
always succeeds and `MaxGeneration = 100`.  The generation 6 completes with
`updated == false`, `analyze` returns true with `generation_ == 6`, and
nothing was stored: `storedGeneration_` is still 5. -/
theorem resumed_final_generation_not_stored :
    (Analyzer.generation stdTables 15
      ⟨fun _ => to_analysisData false 5 AnalysisStatus.Won, AnalysisStatistics.new⟩).1 =
      false ∧
    (AnalyzerRun.resume stdTables 15 100 (fun _ _ _ => true)
      (fun _ => some (AnalysisStatistics.new,
        fun _ => to_analysisData false 5 AnalysisStatus.Won))
      AnalysisDataIOMode.StoreFinalGeneration
      (AnalyzerRun.new (fun _ => to_analysisData false 0 AnalysisStatus.Unfixed)) 5).1 = true ∧
    (AnalyzerRun.resume stdTables 15 100 (fun _ _ _ => true)
      (fun _ => some (AnalysisStatistics.new,
        fun _ => to_analysisData false 5 AnalysisStatus.Won))
      AnalysisDataIOMode.StoreFinalGeneration
      (AnalyzerRun.new (fun _ => to_analysisData false 0 AnalysisStatus.Unfixed))
      5).2.generation_ = 6 ∧
    (AnalyzerRun.resume stdTables 15 100 (fun _ _ _ => true)
      (fun _ => some (AnalysisStatistics.new,
        fun _ => to_analysisData false 5 AnalysisStatus.Won))
      AnalysisDataIOMode.StoreFinalGeneration
      (AnalyzerRun.new (fun _ => to_analysisData false 0 AnalysisStatus.Unfixed))
      5).2.storedGeneration_ = 5 := by
  have hu : (Analyzer.generation stdTables 15
      ⟨fun _ => to_analysisData false 5 AnalysisStatus.Won, AnalysisStatistics.new⟩).1 =
      false := Analyzer.generation_unflagged stdTables 15 _ (fun _ _ => rfl)
  have key := AnalyzerRun.resume_final stdTables 15 100 (fun _ _ _ => true)
    (fun _ => some (AnalysisStatistics.new,
      fun _ => to_analysisData false 5 AnalysisStatus.Won))
    (fun _ _ _ => rfl) (by decide)
    (AnalyzerRun.new (fun _ => to_analysisData false 0 AnalysisStatus.Unfixed)) 5 (by decide)
    (AnalysisStatistics.new, fun _ => to_analysisData false 5 AnalysisStatus.Won) rfl
  exact ⟨hu, key.1, (key.2.2 hu (by decide)).1, (key.2.2 hu (by decide)).2⟩

end gobb_analyzer

namespace gobb_analyzer

open Position

/-! ## The count of forward moves -/

theorem count_fold {α : Type} (P : α → Prop) [DecidablePred P] (l : List α) (k : Nat) :
    l.foldl (fun n x => if P x then n + 1 else n) k = k + l.countP (fun x => decide (P x)) := by
  induction l generalizing k with
  | nil => simp
  | cons x l ih =>
    rw [List.foldl_cons, ih, List.countP_cons]
    by_cases h : P x
    · simp [h]
      omega
    · simp [h]

theorem sum_fold {α : Type} (w : α → Nat) (l : List α) (k : Nat) :
    l.foldl (fun n x => n + w x) k = k + (l.map w).sum := by
  induction l generalizing k with
  | nil => simp
  | cons x l ih =>
    rw [List.foldl_cons, ih, List.map_cons, List.sum_cons]
    omega

namespace Analyzer

theorem move_nums_eq (T : QuadTables) (pos : Position) :
    move_nums T pos =
      (ActivePlayerPieceIds.map fun piece =>
        ([(pos.locations_of_piece piece).locations0,
          (pos.locations_of_piece piece).locations1].map fun src =>
            OnBoardLocationIds.countP fun dst =>
              decide ((pos.move T piece src dst).status = MoveResultStatus.Success)).sum).sum := by
  unfold move_nums
  simp only [count_fold, sum_fold, Nat.zero_add]

theorem move_nums_eq_zero_iff (T : QuadTables) (pos : Position) :
    move_nums T pos = 0 ↔
      ∀ piece src dst, (pos.move T piece src dst).status ≠ MoveResultStatus.Success := by
  rw [move_nums_eq, List.sum_eq_zero_iff]
  constructor
  · intro h piece src dst hs
    obtain ⟨hk, ho, hd⟩ := mem_moveCandidates.mp (move_success_candidate hs)
    have h1 := h _ (List.mem_map.mpr ⟨piece, mem_ActivePlayerPieceIds.mpr hk, rfl⟩)
    rw [List.sum_eq_zero_iff] at h1
    have hsrc : src ∈ [(pos.locations_of_piece piece).locations0,
        (pos.locations_of_piece piece).locations1] := by
      unfold LocationIdPair.occupies at ho
      simp only [Bool.or_eq_true, beq_iff_eq] at ho
      simp only [List.mem_cons, List.mem_singleton, List.mem_nil_iff, or_false]
      rcases ho with e | e
      · exact Or.inl e.symm
      · exact Or.inr e.symm
    have h2 := h1 _ (List.mem_map.mpr ⟨src, hsrc, rfl⟩)
    rw [List.countP_eq_zero] at h2
    have h3 := h2 dst (mem_OnBoardLocationIds.mpr hd)
    simp only [decide_eq_true_eq] at h3
    exact h3 hs
  · intro h x hx
    obtain ⟨piece, _, rfl⟩ := List.mem_map.mp hx
    rw [List.sum_eq_zero_iff]
    intro y hy
    obtain ⟨src, _, rfl⟩ := List.mem_map.mp hy
    rw [List.countP_eq_zero]
    intro dst _
    simp only [decide_eq_true_eq]
    exact h piece src dst

end Analyzer

end gobb_analyzer

namespace gobb_analyzer

open Position

/-! ## The loop of `Analyzer::initialize`, cell by cell -/

namespace Analyzer

theorem setCell_statistics (a : Analyzer) (i : Nat) (d : AnalysisData) :
    (a.setCell i d).statistics_ = a.statistics_ := rfl

theorem fill_statistics (d : AnalysisData) (n : Nat) (a : Analyzer) :
    (forUpTo (fun a i => a.setCell i d) n a).statistics_ = a.statistics_ := by
  induction n with
  | zero => rfl
  | succ n ih => rw [forUpTo, setCell_statistics, ih]

theorem markTransformed_statistics (T : QuadTables) (a : Analyzer) (i : Nat) (pos : Position) :
    (markTransformed T a i pos).statistics_ = a.statistics_ := by
  unfold markTransformed
  generalize EffectiveTransformerIds = l
  induction l generalizing a with
  | nil => rfl
  | cons t l ih =>
    rw [List.foldl_cons, ih]
    dsimp only
    split_ifs
    · rfl
    · rfl

theorem markTransformed_self (T : QuadTables) (a : Analyzer) (i : Nat) (pos : Position) :
    (markTransformed T a i pos).analysisDataTable_ i = a.analysisDataTable_ i := by
  apply markTransformed_miss
  rintro ⟨t, _, _, hlt, _⟩
  exact lt_irrefl _ hlt

theorem init_body_cell (T : QuadTables) (s : Analyzer × Bool) (i : Nat)
    (h : status_of_analysisData (s.1.analysisDataTable_ i) ≠ AnalysisStatus.Transformed) :
    (initialize_body T s i).1.analysisDataTable_ i =
      if (Position.ofId T i).is_winner PlayerId.Active = true ∨
          (on_board_piece_nums (Position.ofId T i) PlayerId.Active = 0 ∧
            on_board_piece_nums (Position.ofId T i) PlayerId.Inactive ≥ 2) ∨
          (on_board_piece_nums (Position.ofId T i) PlayerId.Inactive = 0 ∧
            on_board_piece_nums (Position.ofId T i) PlayerId.Active ≥ 1) then
        to_analysisData false 0 AnalysisStatus.Contradictory
      else if (Position.ofId T i).is_winner PlayerId.Inactive = true then
        to_analysisData true 0 AnalysisStatus.Lost
      else if move_nums T (Position.ofId T i) = 0 then
        to_analysisData true 1 AnalysisStatus.LostStalemate
      else s.1.analysisDataTable_ i := by
  have hm := markTransformed_self T s.1 i (Position.ofId T i)
  unfold initialize_body
  simp only
  rw [if_neg h]
  split_ifs <;> simp_all [setCell_table] <;> (exfalso; omega)

theorem init_body_flag (T : QuadTables) (s : Analyzer × Bool) (i : Nat)
    (hn : status_of_analysisData (s.1.analysisDataTable_ i) = AnalysisStatus.Unfixed ∨
      status_of_analysisData (s.1.analysisDataTable_ i) = AnalysisStatus.Transformed) :
    ((initialize_body T s i).2 = true ↔
      s.2 = true ∨
        status_of_analysisData ((initialize_body T s i).1.analysisDataTable_ i) =
          AnalysisStatus.Lost ∨
        status_of_analysisData ((initialize_body T s i).1.analysisDataTable_ i) =
          AnalysisStatus.LostStalemate) ∧
    (initialize_body T s i).1.statistics_.total = s.1.statistics_.total + 1 ∧
    (initialize_body T s i).1.statistics_.unfixedNums =
      s.1.statistics_.unfixedNums +
        (if status_of_analysisData ((initialize_body T s i).1.analysisDataTable_ i) =
          AnalysisStatus.Unfixed then 1 else 0) := by
  have hm := markTransformed_self T s.1 i (Position.ofId T i)
  have hst := markTransformed_statistics T s.1 i (Position.ofId T i)
  by_cases h : status_of_analysisData (s.1.analysisDataTable_ i) = AnalysisStatus.Transformed
  · unfold initialize_body
    simp only
    rw [if_pos h]
    simp [h, AnalysisStatistics.total]
    omega
  · have hu : status_of_analysisData (s.1.analysisDataTable_ i) = AnalysisStatus.Unfixed := by
      rcases hn with e | e
      · exact e
      · exact absurd e h
    unfold initialize_body
    simp only
    rw [if_neg h]
    split_ifs
    all_goals
      simp_all [setCell_table, setCell_statistics, AnalysisStatistics.total,
        status_of_analysisData, to_analysisData]
    all_goals try omega

theorem countUnfixed_congr {tb tb2 : Nat → AnalysisData} (n : Nat)
    (h : ∀ c, c < n → status_of_analysisData (tb c) = status_of_analysisData (tb2 c)) :
    countUnfixed tb n = countUnfixed tb2 n := by
  induction n with
  | zero => rfl
  | succ n ih =>
    rw [countUnfixed, countUnfixed, ih (fun c hc => h c (by omega)), h n (by omega)]

theorem init_loop_invariant (T : QuadTables) (MaxTurn : Nat) (s0 : Analyzer × Bool)
    (h0 : ∀ c, c < AnalysisDataTableSize →
      s0.1.analysisDataTable_ c = to_analysisData false MaxTurn AnalysisStatus.Unfixed)
    (hf0 : s0.2 = false) (n : Nat) (hn : n ≤ AnalysisDataTableSize) :
    (∀ c, n ≤ c → c < AnalysisDataTableSize →
      (forUpTo (initialize_body T) n s0).1.analysisDataTable_ c =
          to_analysisData false MaxTurn AnalysisStatus.Unfixed ∨
        (forUpTo (initialize_body T) n s0).1.analysisDataTable_ c =
          to_analysisData false 0 AnalysisStatus.Transformed) ∧
    ((forUpTo (initialize_body T) n s0).2 = true ↔
      ∃ c, c < n ∧
        (status_of_analysisData ((forUpTo (initialize_body T) n s0).1.analysisDataTable_ c) =
            AnalysisStatus.Lost ∨
          status_of_analysisData ((forUpTo (initialize_body T) n s0).1.analysisDataTable_ c) =
            AnalysisStatus.LostStalemate)) ∧
    (forUpTo (initialize_body T) n s0).1.statistics_.total = s0.1.statistics_.total + n ∧
    (forUpTo (initialize_body T) n s0).1.statistics_.unfixedNums =
      s0.1.statistics_.unfixedNums +
        countUnfixed (forUpTo (initialize_body T) n s0).1.analysisDataTable_ n := by
  induction n with
  | zero =>
    refine ⟨fun c _ hc => Or.inl (h0 c hc), ?_, rfl, rfl⟩
    constructor
    · intro h
      rw [forUpTo, hf0] at h
      exact absurd h (by simp)
    · rintro ⟨c, hc, _⟩
      omega
  | succ n ih =>
    obtain ⟨i1, i2, i3, i4⟩ := ih (by omega)
    have hlt : n < AnalysisDataTableSize := by omega
    have hcell := i1 n (le_refl _) hlt
    have hst : status_of_analysisData
          ((forUpTo (initialize_body T) n s0).1.analysisDataTable_ n) = AnalysisStatus.Unfixed ∨
        status_of_analysisData
          ((forUpTo (initialize_body T) n s0).1.analysisDataTable_ n) =
          AnalysisStatus.Transformed := by
      rcases hcell with e | e
      · exact Or.inl (by rw [e]; rfl)
      · exact Or.inr (by rw [e]; rfl)
    obtain ⟨hfl, htot, hunf⟩ := init_body_flag T (forUpTo (initialize_body T) n s0) n hst
    have hfrozen : ∀ c, c < n →
        (initialize_body T (forUpTo (initialize_body T) n s0) n).1.analysisDataTable_ c =
          (forUpTo (initialize_body T) n s0).1.analysisDataTable_ c :=
      fun c hc => body_frozen T _ n hc
    rw [forUpTo]
    refine ⟨?_, ?_, ?_, ?_⟩
    · intro c hc hcs
      by_cases hs : status_of_analysisData
          ((forUpTo (initialize_body T) n s0).1.analysisDataTable_ n) =
          AnalysisStatus.Transformed
      · rw [body_skip T _ n hs]
        exact i1 c (by omega) hcs
      · rw [body_other T _ n hs (by omega : c ≠ n)]
        by_cases hit : ∃ t ∈ EffectiveTransformerIds,
            ((Position.ofId T n).transform T t).id = c ∧ n < c ∧ c < AnalysisDataTableSize
        · exact Or.inr (markTransformed_hit T _ n _ c hit)
        · rw [markTransformed_miss T _ n _ c hit]
          exact i1 c (by omega) hcs
    · rw [hfl, i2]
      constructor
      · rintro (⟨c, hc, h⟩ | h)
        · exact ⟨c, by omega, by rw [hfrozen c hc]; exact h⟩
        · exact ⟨n, by omega, h⟩
      · rintro ⟨c, hc, h⟩
        by_cases e : c = n
        · rw [e] at h
          exact Or.inr h
        · have hc' : c < n := by omega
          rw [hfrozen c hc'] at h
          exact Or.inl ⟨c, hc', h⟩
    · rw [htot, i3]
      omega
    · rw [hunf, i4, countUnfixed,
        countUnfixed_congr n (fun c hc => congrArg status_of_analysisData (hfrozen c hc))]
      omega

end Analyzer

end gobb_analyzer

namespace gobb_analyzer

open Position

/-! ## The seeds of the analysis -/

namespace Analyzer

theorem initialize_flag (T : QuadTables) (MaxTurn : Nat) (a : Analyzer) :
    (a.initialize_ T MaxTurn).1 =
      (forUpTo (initialize_body T) AnalysisDataTableSize
        (forUpTo (fun a i => a.setCell i (to_analysisData false MaxTurn AnalysisStatus.Unfixed))
          AnalysisDataTableSize a, false)).2 :=
  (congrArg Prod.fst (initialize_eq T MaxTurn a)).trans (pair_fst _ _)

theorem filled_cells (MaxTurn : Nat) (a : Analyzer) :
    ∀ c, c < AnalysisDataTableSize →
      (forUpTo (fun a i => a.setCell i (to_analysisData false MaxTurn AnalysisStatus.Unfixed))
        AnalysisDataTableSize a, false).1.analysisDataTable_ c =
        to_analysisData false MaxTurn AnalysisStatus.Unfixed := by
  intro c hc
  rw [fill_table, if_pos hc]

theorem initialize_cell (T : QuadTables) (hT : T.Valid) (MaxTurn : Nat) (a : Analyzer)
    (p : Nat) (hp : p < AnalysisDataTableSize)
    (hrep : ∀ t ∈ EffectiveTransformerIds, ¬ transformedId T t p < p) :
    (a.initialize_ T MaxTurn).2.analysisDataTable_ p =
      if (Position.ofId T p).is_winner PlayerId.Active = true ∨
          (on_board_piece_nums (Position.ofId T p) PlayerId.Active = 0 ∧
            on_board_piece_nums (Position.ofId T p) PlayerId.Inactive ≥ 2) ∨
          (on_board_piece_nums (Position.ofId T p) PlayerId.Inactive = 0 ∧
            on_board_piece_nums (Position.ofId T p) PlayerId.Active ≥ 1) then
        to_analysisData false 0 AnalysisStatus.Contradictory
      else if (Position.ofId T p).is_winner PlayerId.Inactive = true then
        to_analysisData true 0 AnalysisStatus.Lost
      else if move_nums T (Position.ofId T p) = 0 then
        to_analysisData true 1 AnalysisStatus.LostStalemate
      else to_analysisData false MaxTurn AnalysisStatus.Unfixed := by
  have hsz : AnalysisDataTableSize = PieceSetCombinationNums := rfl
  have hnt : status_of_analysisData
      ((forUpTo (initialize_body T) p
        (forUpTo (fun a i => a.setCell i (to_analysisData false MaxTurn AnalysisStatus.Unfixed))
          AnalysisDataTableSize a, false)).1.analysisDataTable_ p) ≠
      AnalysisStatus.Transformed := by
    intro h
    obtain ⟨i, hi, _, _, t, ht, hti⟩ :=
      (loop_invariant hT _ (filled_not_transformed MaxTurn a) p (le_of_lt hp) _ hp).mp h
    obtain ⟨t2, ht2, hc⟩ := not_rep_of_image hT (by omega : i < PieceSetCombinationNums)
      ht hti hi
    exact hrep t2 ht2 hc
  have hinit : (forUpTo (initialize_body T) p
        (forUpTo (fun a i => a.setCell i (to_analysisData false MaxTurn AnalysisStatus.Unfixed))
          AnalysisDataTableSize a, false)).1.analysisDataTable_ p =
      to_analysisData false MaxTurn AnalysisStatus.Unfixed := by
    rcases (init_loop_invariant T MaxTurn _ (filled_cells MaxTurn a) rfl p (le_of_lt hp)).1 p
      (le_refl _) hp with e | e
    · exact e
    · rw [e] at hnt
      exact absurd rfl hnt
  rw [initialize_table, loop_frozen T _ _ _ hp, forUpTo, init_body_cell T _ p hnt, hinit]

end Analyzer

/-- C21, the seeds of generation 0: given valid quad tables, after
`initialize()` (whatever the table held before and whatever `MaxTurn` is),
for every id `p` below `1423^3` that is the least of its orbit (no effective
transformer gives a smaller id) and whose position is not contradictory (the
active player has no three in a row, and neither "active has no piece on the
board and inactive has two or more" nor "inactive has none and active has
one or more" holds), the cell `p` is `(true, 0, Lost)` if the inactive player
has three in a row, else `(true, 1, LostStalemate)` if no `(piece, src, dst)`
gives a forward move with status Success, else `(false, MaxTurn, Unfixed)`;
and `initialize()` returns true exactly when some cell below `1423^3` is Lost
or LostStalemate afterwards. -/
theorem initialize_seeds (T : QuadTables) (hT : T.Valid) (MaxTurn : Nat) (a : Analyzer) :
    (∀ p, p < 1423 ^ 3 →
      (∀ t ∈ EffectiveTransformerIds, ¬ transformedId T t p < p) →
      (Position.ofId T p).is_winner PlayerId.Active = false →
      ¬ (Analyzer.on_board_piece_nums (Position.ofId T p) PlayerId.Active = 0 ∧
        Analyzer.on_board_piece_nums (Position.ofId T p) PlayerId.Inactive ≥ 2) →
      ¬ (Analyzer.on_board_piece_nums (Position.ofId T p) PlayerId.Inactive = 0 ∧
        Analyzer.on_board_piece_nums (Position.ofId T p) PlayerId.Active ≥ 1) →
      ((Position.ofId T p).is_winner PlayerId.Inactive = true →
        (a.initialize_ T MaxTurn).2.analysisDataTable_ p =
          to_analysisData true 0 AnalysisStatus.Lost) ∧
      ((Position.ofId T p).is_winner PlayerId.Inactive = false →
        (∀ piece src dst,
          ((Position.ofId T p).move T piece src dst).status ≠ MoveResultStatus.Success) →
        (a.initialize_ T MaxTurn).2.analysisDataTable_ p =
          to_analysisData true 1 AnalysisStatus.LostStalemate) ∧
      ((Position.ofId T p).is_winner PlayerId.Inactive = false →
        (∃ piece src dst,
          ((Position.ofId T p).move T piece src dst).status = MoveResultStatus.Success) →
        (a.initialize_ T MaxTurn).2.analysisDataTable_ p =
          to_analysisData false MaxTurn AnalysisStatus.Unfixed)) ∧
    ((a.initialize_ T MaxTurn).1 = true ↔
      ∃ c, c < 1423 ^ 3 ∧
        (status_of_analysisData ((a.initialize_ T MaxTurn).2.analysisDataTable_ c) =
            AnalysisStatus.Lost ∨
          status_of_analysisData ((a.initialize_ T MaxTurn).2.analysisDataTable_ c) =
            AnalysisStatus.LostStalemate)) := by
  constructor
  · intro p hp hrep hw hc1 hc2
    have hcell := Analyzer.initialize_cell T hT MaxTurn a p (lt_tableSize_of_lt hp) hrep
    have hno : ¬ ((Position.ofId T p).is_winner PlayerId.Active = true ∨
        (Analyzer.on_board_piece_nums (Position.ofId T p) PlayerId.Active = 0 ∧
          Analyzer.on_board_piece_nums (Position.ofId T p) PlayerId.Inactive ≥ 2) ∨
        (Analyzer.on_board_piece_nums (Position.ofId T p) PlayerId.Inactive = 0 ∧
          Analyzer.on_board_piece_nums (Position.ofId T p) PlayerId.Active ≥ 1)) := by
      rintro (h | h | h)
      · rw [hw] at h
        exact absurd h (by simp)
      · exact hc1 h
      · exact hc2 h
    rw [if_neg hno] at hcell
    refine ⟨fun h => ?_, fun h hm => ?_, fun h hm => ?_⟩
    · rw [hcell, if_pos h]
    · rw [hcell, if_neg (by rw [h]; simp),
        if_pos ((Analyzer.move_nums_eq_zero_iff T _).mpr hm)]
    · obtain ⟨piece, src, dst, hs⟩ := hm
      rw [hcell, if_neg (by rw [h]; simp),
        if_neg (fun h0 => (Analyzer.move_nums_eq_zero_iff T _).mp h0 piece src dst hs)]
  · rw [Analyzer.initialize_flag, Analyzer.initialize_table,
      (Analyzer.init_loop_invariant T MaxTurn _ (Analyzer.filled_cells MaxTurn a) rfl
        AnalysisDataTableSize (le_refl _)).2.1, Analyzer.tableSize_eq]

set_option maxRecDepth 100000 in
theorem initialize_seeds_witness :
    stdTables.Valid ∧
    (Analyzer.initialize_ stdTables 15
      ⟨fun _ => to_analysisData false 0 AnalysisStatus.Won,
        AnalysisStatistics.new⟩).2.analysisDataTable_ 0 =
      to_analysisData false 15 AnalysisStatus.Unfixed :=
  ⟨stdTables_valid,
    ((initialize_seeds stdTables stdTables_valid 15
      ⟨fun _ => to_analysisData false 0 AnalysisStatus.Won, AnalysisStatistics.new⟩).1 0
      (by decide) (by decide!) (by decide!) (by decide!) (by decide!)).2.2 (by decide!)
      ⟨PieceId.ActivePlayerSmall, LocationId.Out, LocationId.NW, by decide!⟩⟩

end gobb_analyzer

namespace gobb_analyzer

open Position

/-! ## The counters of the statistics -/

theorem countUnfixed_eq_card (tb : Nat → AnalysisData) (n : Nat) :
    countUnfixed tb n =
      ((Finset.range n).filter
        (fun c => status_of_analysisData (tb c) = AnalysisStatus.Unfixed)).card := by
  induction n with
  | zero => rfl
  | succ n ih =>
    rw [countUnfixed, ih, Finset.range_succ, Finset.filter_insert]
    split_ifs with h
    · rw [Finset.card_insert_of_not_mem (by simp)]
    · rfl

theorem countUnfixed_remove {tb tb2 : Nat → AnalysisData} {n : Nat} {L : List Nat}
    (hnd : L.Nodup)
    (hL : ∀ c, c ∈ L → c < n ∧ status_of_analysisData (tb c) = AnalysisStatus.Unfixed)
    (h2 : ∀ c, status_of_analysisData (tb2 c) = AnalysisStatus.Unfixed ↔
      (status_of_analysisData (tb c) = AnalysisStatus.Unfixed ∧ c ∉ L)) :
    countUnfixed tb2 n + L.length = countUnfixed tb n := by
  rw [countUnfixed_eq_card, countUnfixed_eq_card, ← List.toFinset_card_of_nodup hnd]
  have hsub : L.toFinset ⊆ (Finset.range n).filter
      (fun c => status_of_analysisData (tb c) = AnalysisStatus.Unfixed) := by
    intro c hc
    rw [List.mem_toFinset] at hc
    rw [Finset.mem_filter, Finset.mem_range]
    exact hL c hc
  have heq : (Finset.range n).filter
      (fun c => status_of_analysisData (tb2 c) = AnalysisStatus.Unfixed) =
      ((Finset.range n).filter
        (fun c => status_of_analysisData (tb c) = AnalysisStatus.Unfixed)) \ L.toFinset := by
    ext c
    rw [Finset.mem_sdiff, Finset.mem_filter, Finset.mem_filter, List.mem_toFinset, h2]
    tauto
  rw [heq, Finset.card_sdiff hsub]
  have := Finset.card_le_card hsub
  omega

namespace Analyzer

theorem lost_accounting {T : QuadTables} (hT : T.Valid) (MaxTurn : Nat) (a : Analyzer)
    (stats : AnalysisStatistics) {pos : Position} (hp : pos.Wellformed T) :
    (analyze_move_backs_from_active_player_lost T MaxTurn a stats pos).2.2.lostNums +
        (analyze_move_backs_from_active_player_lost T MaxTurn a stats
          pos).2.2.lostStalemateNums +
        (analyze_move_backs_from_active_player_lost T MaxTurn a stats pos).2.2.wonNums +
        (analyze_move_backs_from_active_player_lost T MaxTurn a stats
          pos).2.2.transformedNums +
        (analyze_move_backs_from_active_player_lost T MaxTurn a stats
          pos).2.2.contradictoryNums +
        countUnfixed
          (analyze_move_backs_from_active_player_lost T MaxTurn a stats
            pos).2.1.analysisDataTable_ AnalysisDataTableSize =
      stats.lostNums + stats.lostStalemateNums + stats.wonNums + stats.transformedNums +
        stats.contradictoryNums + countUnfixed a.analysisDataTable_ AnalysisDataTableSize ∧
    (analyze_move_backs_from_active_player_lost T MaxTurn a stats pos).2.2.unfixedNums =
      stats.unfixedNums := by
  obtain ⟨L, hnd, hmem, hst⟩ := lost_stats T MaxTurn a stats pos
  obtain ⟨N, hN⟩ := lost_table T MaxTurn a stats pos
  have hrem := @countUnfixed_remove a.analysisDataTable_
    (analyze_move_backs_from_active_player_lost T MaxTurn a stats pos).2.1.analysisDataTable_
    AnalysisDataTableSize L hnd
    (fun c hc => ⟨moveBackTargets_lt hT hp ((hmem c).mp hc).1, ((hmem c).mp hc).2⟩)
    (by
      intro c
      rw [hN, hmem]
      by_cases hm : c ∈ moveBackTargets T pos
      · rw [if_pos hm]
        constructor
        · intro h
          exact absurd h (lostUpdate_not_unfixed _ _)
        · rintro ⟨h1, h2⟩
          exact absurd ⟨hm, h1⟩ h2
      · rw [if_neg hm]
        constructor
        · intro h
          exact ⟨h, fun h2 => hm h2.1⟩
        · exact fun h => h.1)
  rw [hst]
  refine ⟨?_, rfl⟩
  show stats.lostNums + stats.lostStalemateNums + (stats.wonNums + L.length) +
    stats.transformedNums + stats.contradictoryNums + _ = _
  omega

theorem gen_body_accounting {T : QuadTables} (hT : T.Valid) (MaxTurn : Nat)
    (s : Bool × Analyzer × AnalysisStatistics) (i : Nat) (hi : i < AnalysisDataTableSize) :
    (analyze_generation_body T MaxTurn s i).2.2.lostNums +
        (analyze_generation_body T MaxTurn s i).2.2.lostStalemateNums +
        (analyze_generation_body T MaxTurn s i).2.2.wonNums +
        (analyze_generation_body T MaxTurn s i).2.2.transformedNums +
        (analyze_generation_body T MaxTurn s i).2.2.contradictoryNums +
        countUnfixed (analyze_generation_body T MaxTurn s i).2.1.analysisDataTable_
          AnalysisDataTableSize =
      s.2.2.lostNums + s.2.2.lostStalemateNums + s.2.2.wonNums + s.2.2.transformedNums +
        s.2.2.contradictoryNums +
        countUnfixed s.2.1.analysisDataTable_ AnalysisDataTableSize ∧
    (analyze_generation_body T MaxTurn s i).2.2.unfixedNums = s.2.2.unfixedNums ∧
    (analyze_generation_body T MaxTurn s i).2.1.statistics_ = s.2.1.statistics_ := by
  have hsz : AnalysisDataTableSize = PieceSetCombinationNums := rfl
  have hpn : PositionIdNums = PieceSetCombinationNums * 2 := rfl
  have hlt : i < PositionIdNums := by omega
  have hid : (Position.ofId T i).id = i := ofId_id hlt
  have hwf : (Position.ofId T i).Wellformed T := ofId_wellformed hT hlt
  have hclear : countUnfixed (s.2.1.clearFlag i).analysisDataTable_ AnalysisDataTableSize =
      countUnfixed s.2.1.analysisDataTable_ AnalysisDataTableSize :=
    countUnfixed_congr _ (fun c _ => clearFlag_status _ _ _)
  rcases gen_body_cases T MaxTurn s i with ⟨_, e⟩ | ⟨_, _, e⟩ | ⟨_, _, e⟩ | ⟨_, _, _, e⟩ |
    ⟨_, hs, n, _, e⟩ | ⟨_, _, _, _, _, e⟩
  · rw [e]
    exact ⟨rfl, rfl, rfl⟩
  · rw [e]
    dsimp only
    obtain ⟨h1, h2⟩ := lost_accounting hT MaxTurn (s.2.1.clearFlag i) s.2.2 hwf
    rw [hclear] at h1
    exact ⟨h1, h2, lost_statistics _ _ _ _ _⟩
  · rw [e]
    dsimp only
    have hw : countUnfixed
        (analyze_move_backs_from_active_player_won T (s.2.1.clearFlag i)
          (Position.ofId T i)).2.analysisDataTable_ AnalysisDataTableSize =
        countUnfixed (s.2.1.clearFlag i).analysisDataTable_ AnalysisDataTableSize := by
      apply countUnfixed_congr
      intro c _
      rw [won_table]
      split_ifs
      · rw [wonUpdate_status]
      · rfl
    rw [hw, hclear]
    exact ⟨rfl, rfl, won_statistics _ _ _⟩
  · rw [e]
    dsimp only
    rw [hclear]
    exact ⟨rfl, rfl, rfl⟩
  · rw [e]
    dsimp only
    obtain ⟨h1, h2⟩ := lost_accounting hT MaxTurn
      ((s.2.1.clearFlag i).setCell (Position.ofId T i).id
        (to_analysisData false n AnalysisStatus.Lost))
      { s.2.2 with lostNums := s.2.2.lostNums + 1 } hwf
    have hset : countUnfixed
        ((s.2.1.clearFlag i).setCell (Position.ofId T i).id
          (to_analysisData false n AnalysisStatus.Lost)).analysisDataTable_
        AnalysisDataTableSize + [i].length =
        countUnfixed (s.2.1.clearFlag i).analysisDataTable_ AnalysisDataTableSize := by
      apply countUnfixed_remove (List.nodup_singleton i)
      · intro c hc
        rw [List.mem_singleton] at hc
        rw [hc, clearFlag_status]
        exact ⟨hi, hs⟩
      · intro c
        rw [setCell_table, hid, List.mem_singleton]
        by_cases hc : c = i
        · rw [if_pos hc]
          constructor
          · intro h
            exact AnalysisStatus.noConfusion h
          · rintro ⟨_, h⟩
            exact absurd hc h
        · rw [if_neg hc]
          exact ⟨fun h => ⟨h, hc⟩, fun h => h.1⟩
    rw [List.length_singleton, hclear] at hset
    dsimp only at h1 h2
    refine ⟨?_, h2, lost_statistics _ _ _ _ _⟩
    omega
  · rw [e]
    dsimp only
    rw [hclear]
    exact ⟨rfl, rfl, rfl⟩

theorem pass_accounting {T : QuadTables} (hT : T.Valid) (MaxTurn : Nat)
    (s : Bool × Analyzer × AnalysisStatistics) (n : Nat) (hn : n ≤ AnalysisDataTableSize) :
    (forUpTo (analyze_generation_body T MaxTurn) n s).2.2.lostNums +
        (forUpTo (analyze_generation_body T MaxTurn) n s).2.2.lostStalemateNums +
        (forUpTo (analyze_generation_body T MaxTurn) n s).2.2.wonNums +
        (forUpTo (analyze_generation_body T MaxTurn) n s).2.2.transformedNums +
        (forUpTo (analyze_generation_body T MaxTurn) n s).2.2.contradictoryNums +
        countUnfixed (forUpTo (analyze_generation_body T MaxTurn) n s).2.1.analysisDataTable_
          AnalysisDataTableSize =
      s.2.2.lostNums + s.2.2.lostStalemateNums + s.2.2.wonNums + s.2.2.transformedNums +
        s.2.2.contradictoryNums +
        countUnfixed s.2.1.analysisDataTable_ AnalysisDataTableSize ∧
    (forUpTo (analyze_generation_body T MaxTurn) n s).2.2.unfixedNums = s.2.2.unfixedNums ∧
    (forUpTo (analyze_generation_body T MaxTurn) n s).2.1.statistics_ = s.2.1.statistics_ := by
  induction n with
  | zero => exact ⟨rfl, rfl, rfl⟩
  | succ n ih =>
    obtain ⟨i1, i2, i3⟩ := ih (by omega)
    obtain ⟨h1, h2, h3⟩ := gen_body_accounting hT MaxTurn
      (forUpTo (analyze_generation_body T MaxTurn) n s) n (by omega)
    rw [forUpTo]
    exact ⟨h1.trans i1, h2.trans i2, h3.trans i3⟩

end Analyzer

end gobb_analyzer

namespace gobb_analyzer

open Position

/-! ## The statistics at the generation boundaries -/

namespace Analyzer

theorem generation_snd (T : QuadTables) (MaxTurn : Nat) (a : Analyzer) :
    (a.generation T MaxTurn).2 =
      { (a.analyze_generation T MaxTurn AnalysisStatistics.new).2.1 with
        statistics_ :=
          (a.analyze_generation T MaxTurn AnalysisStatistics.new).2.1.statistics_.add
            (a.analyze_generation T MaxTurn AnalysisStatistics.new).2.2 } :=
  (congrArg Prod.snd (generation_eq T MaxTurn a)).trans (pair_snd _ _)

/-- Without wrap-around: when the sum of the five counters of `d` is at most
`x.unfixedNums` and the six counters of `x` sum to less than `2^64`, `add`
raises the five counters by those of `d` and lowers `unfixedNums` by their
sum, in exact arithmetic. -/
theorem add_exact (x d : AnalysisStatistics)
    (h : d.lostNums + d.lostStalemateNums + d.wonNums + d.transformedNums +
      d.contradictoryNums ≤ x.unfixedNums)
    (hx : x.total < 2 ^ 64) :
    (x.add d).lostNums = x.lostNums + d.lostNums ∧
    (x.add d).lostStalemateNums = x.lostStalemateNums + d.lostStalemateNums ∧
    (x.add d).wonNums = x.wonNums + d.wonNums ∧
    (x.add d).transformedNums = x.transformedNums + d.transformedNums ∧
    (x.add d).contradictoryNums = x.contradictoryNums + d.contradictoryNums ∧
    (x.add d).unfixedNums +
      (d.lostNums + d.lostStalemateNums + d.wonNums + d.transformedNums +
        d.contradictoryNums) = x.unfixedNums := by
  unfold AnalysisStatistics.total at hx
  unfold AnalysisStatistics.add
  dsimp only
  have e : (2 : Nat) ^ 64 = 18446744073709551616 := by norm_num
  rw [e] at hx ⊢
  refine ⟨?_, ?_, ?_, ?_, ?_, ?_⟩ <;> omega

/-- With wrap-around: on counters that are all 0, a delta with one lost
position gives `unfixedNums` the value `2^64 - 1`. -/
theorem add_wraps :
    (AnalysisStatistics.new.add
      { lostNums := 1, lostStalemateNums := 0, wonNums := 0, transformedNums := 0,
        contradictoryNums := 0, unfixedNums := 0 }).unfixedNums = 2 ^ 64 - 1 := by
  decide

theorem add_total (x d : AnalysisStatistics)
    (h : d.lostNums + d.lostStalemateNums + d.wonNums + d.transformedNums +
      d.contradictoryNums ≤ x.unfixedNums)
    (hx : x.total < 2 ^ 64) :
    (x.add d).total = x.total := by
  obtain ⟨e1, e2, e3, e4, e5, e6⟩ := add_exact x d h hx
  unfold AnalysisStatistics.total
  rw [e1, e2, e3, e4, e5]
  omega

theorem pass_accounting_new {T : QuadTables} (hT : T.Valid) (MaxTurn : Nat) (a : Analyzer)
    (n : Nat) (hn : n ≤ AnalysisDataTableSize) :
    (forUpTo (analyze_generation_body T MaxTurn) n
          (false, a, AnalysisStatistics.new)).2.2.lostNums +
        (forUpTo (analyze_generation_body T MaxTurn) n
          (false, a, AnalysisStatistics.new)).2.2.lostStalemateNums +
        (forUpTo (analyze_generation_body T MaxTurn) n
          (false, a, AnalysisStatistics.new)).2.2.wonNums +
        (forUpTo (analyze_generation_body T MaxTurn) n
          (false, a, AnalysisStatistics.new)).2.2.transformedNums +
        (forUpTo (analyze_generation_body T MaxTurn) n
          (false, a, AnalysisStatistics.new)).2.2.contradictoryNums +
        countUnfixed
          (forUpTo (analyze_generation_body T MaxTurn) n
            (false, a, AnalysisStatistics.new)).2.1.analysisDataTable_ AnalysisDataTableSize =
      countUnfixed a.analysisDataTable_ AnalysisDataTableSize ∧
    (forUpTo (analyze_generation_body T MaxTurn) n
      (false, a, AnalysisStatistics.new)).2.1.statistics_ = a.statistics_ := by
  obtain ⟨p1, _, p3⟩ := pass_accounting hT MaxTurn (false, a, AnalysisStatistics.new) n hn
  refine ⟨?_, p3⟩
  have p1' : _ = 0 + 0 + 0 + 0 + 0 + countUnfixed a.analysisDataTable_ AnalysisDataTableSize :=
    p1
  exact p1'.trans (by omega)

theorem tableSize_lt : AnalysisDataTableSize < 2 ^ 64 := by
  rw [tableSize_eq]
  norm_num

theorem add_accounting (x d : AnalysisStatistics) (N K K2 : Nat) (hN : N < 2 ^ 64)
    (h1 : x.total = N) (h2 : x.unfixedNums = K)
    (p1 : d.lostNums + d.lostStalemateNums + d.wonNums + d.transformedNums +
      d.contradictoryNums + K2 = K) :
    d.lostNums + d.lostStalemateNums + d.wonNums + d.transformedNums + d.contradictoryNums ≤
      x.unfixedNums ∧
    (x.add d).total = N ∧ (x.add d).unfixedNums = K2 := by
  have hle : d.lostNums + d.lostStalemateNums + d.wonNums + d.transformedNums +
      d.contradictoryNums ≤ x.unfixedNums := by omega
  have hx : x.total < 2 ^ 64 := by rw [h1]; exact hN
  refine ⟨hle, ?_, ?_⟩
  · rw [add_total x d hle hx, h1]
  · have := (add_exact x d hle hx).2.2.2.2.2
    omega

theorem mk_statistics (tb : Nat → AnalysisData) (st : AnalysisStatistics) :
    (Analyzer.mk tb st).statistics_ = st := rfl

theorem mk_table (tb : Nat → AnalysisData) (st : AnalysisStatistics) :
    (Analyzer.mk tb st).analysisDataTable_ = tb := rfl

theorem generation_statistics (T : QuadTables) (MaxTurn : Nat) (a : Analyzer) :
    (a.generation T MaxTurn).2.statistics_ =
      (a.analyze_generation T MaxTurn AnalysisStatistics.new).2.1.statistics_.add
        (a.analyze_generation T MaxTurn AnalysisStatistics.new).2.2 :=
  (congrArg Analyzer.statistics_ (generation_snd T MaxTurn a)).trans (mk_statistics _ _)

theorem generation_table (T : QuadTables) (MaxTurn : Nat) (a : Analyzer) :
    (a.generation T MaxTurn).2.analysisDataTable_ =
      (a.analyze_generation T MaxTurn AnalysisStatistics.new).2.1.analysisDataTable_ :=
  (congrArg Analyzer.analysisDataTable_ (generation_snd T MaxTurn a)).trans (mk_table _ _)

theorem analyze_generation_accounting {T : QuadTables} (hT : T.Valid) (MaxTurn : Nat)
    (a : Analyzer) :
    (a.analyze_generation T MaxTurn AnalysisStatistics.new).2.2.lostNums +
        (a.analyze_generation T MaxTurn AnalysisStatistics.new).2.2.lostStalemateNums +
        (a.analyze_generation T MaxTurn AnalysisStatistics.new).2.2.wonNums +
        (a.analyze_generation T MaxTurn AnalysisStatistics.new).2.2.transformedNums +
        (a.analyze_generation T MaxTurn AnalysisStatistics.new).2.2.contradictoryNums +
        countUnfixed
          (a.analyze_generation T MaxTurn AnalysisStatistics.new).2.1.analysisDataTable_
          AnalysisDataTableSize =
      countUnfixed a.analysisDataTable_ AnalysisDataTableSize ∧
    (a.analyze_generation T MaxTurn AnalysisStatistics.new).2.1.statistics_ =
      a.statistics_ := by
  rw [analyze_generation_eq]
  exact pass_accounting_new hT MaxTurn a AnalysisDataTableSize (le_refl _)

theorem generation_accounting_core (a g : Analyzer) (r : Bool × Analyzer × AnalysisStatistics)
    (N : Nat) (hN : N < 2 ^ 64)
    (hg1 : g.statistics_ = r.2.1.statistics_.add r.2.2)
    (hg2 : g.analysisDataTable_ = r.2.1.analysisDataTable_)
    (p1 : r.2.2.lostNums + r.2.2.lostStalemateNums + r.2.2.wonNums + r.2.2.transformedNums +
      r.2.2.contradictoryNums + countUnfixed r.2.1.analysisDataTable_ N =
      countUnfixed a.analysisDataTable_ N)
    (p3 : r.2.1.statistics_ = a.statistics_)
    (h1 : a.statistics_.total = N)
    (h2 : a.statistics_.unfixedNums = countUnfixed a.analysisDataTable_ N) :
    r.2.2.lostNums + r.2.2.lostStalemateNums + r.2.2.wonNums + r.2.2.transformedNums +
        r.2.2.contradictoryNums ≤ a.statistics_.unfixedNums ∧
    g.statistics_.total = N ∧
    g.statistics_.unfixedNums = countUnfixed g.analysisDataTable_ N := by
  rw [hg1, hg2, p3]
  exact add_accounting a.statistics_ r.2.2 N (countUnfixed a.analysisDataTable_ N)
    (countUnfixed r.2.1.analysisDataTable_ N) hN h1 h2 p1

theorem generation_accounting {T : QuadTables} (hT : T.Valid) (MaxTurn : Nat) (a : Analyzer)
    (h1 : a.statistics_.total = AnalysisDataTableSize)
    (h2 : a.statistics_.unfixedNums = countUnfixed a.analysisDataTable_ AnalysisDataTableSize) :
    (a.analyze_generation T MaxTurn AnalysisStatistics.new).2.2.lostNums +
        (a.analyze_generation T MaxTurn AnalysisStatistics.new).2.2.lostStalemateNums +
        (a.analyze_generation T MaxTurn AnalysisStatistics.new).2.2.wonNums +
        (a.analyze_generation T MaxTurn AnalysisStatistics.new).2.2.transformedNums +
        (a.analyze_generation T MaxTurn AnalysisStatistics.new).2.2.contradictoryNums ≤
      a.statistics_.unfixedNums ∧
    (a.generation T MaxTurn).2.statistics_.total = AnalysisDataTableSize ∧
    (a.generation T MaxTurn).2.statistics_.unfixedNums =
      countUnfixed (a.generation T MaxTurn).2.analysisDataTable_ AnalysisDataTableSize :=
  generation_accounting_core a (a.generation T MaxTurn).2
    (a.analyze_generation T MaxTurn AnalysisStatistics.new) AnalysisDataTableSize
    tableSize_lt (generation_statistics T MaxTurn a) (generation_table T MaxTurn a)
    (analyze_generation_accounting hT MaxTurn a).1
    (analyze_generation_accounting hT MaxTurn a).2 h1 h2

theorem afterGenerations_zero (T : QuadTables) (MaxTurn : Nat) (a : Analyzer) :
    afterGenerations T MaxTurn a 0 = (a.initialize_ T MaxTurn).2 := by
  unfold afterGenerations
  exact Function.iterate_zero_apply _ _

theorem afterGenerations_succ (T : QuadTables) (MaxTurn : Nat) (a : Analyzer) (k : Nat) :
    afterGenerations T MaxTurn a (k + 1) =
      ((afterGenerations T MaxTurn a k).generation T MaxTurn).2 := by
  unfold afterGenerations
  exact Function.iterate_succ_apply' _ _ _

theorem init_loop_stats (T : QuadTables) (MaxTurn : Nat) (a0 : Analyzer)
    (h0 : ∀ c, c < AnalysisDataTableSize →
      a0.analysisDataTable_ c = to_analysisData false MaxTurn AnalysisStatus.Unfixed)
    (hs : a0.statistics_ = AnalysisStatistics.new) (n : Nat) (hn : n ≤ AnalysisDataTableSize) :
    (forUpTo (initialize_body T) n (a0, false)).1.statistics_.total = n ∧
    (forUpTo (initialize_body T) n (a0, false)).1.statistics_.unfixedNums =
      countUnfixed (forUpTo (initialize_body T) n (a0, false)).1.analysisDataTable_ n := by
  obtain ⟨_, _, i3, i4⟩ := init_loop_invariant T MaxTurn (a0, false) h0 rfl n hn
  have i3' : _ = a0.statistics_.total + n := i3
  have i4' : _ = a0.statistics_.unfixedNums + _ := i4
  rw [hs] at i3' i4'
  constructor
  · rw [i3']
    exact Nat.zero_add _
  · rw [i4']
    exact Nat.zero_add _

theorem afterGenerations_accounting {T : QuadTables} (hT : T.Valid) (MaxTurn : Nat)
    (table : Nat → AnalysisData) (k : Nat) :
    (afterGenerations T MaxTurn ⟨table, AnalysisStatistics.new⟩ k).statistics_.total =
      AnalysisDataTableSize ∧
    (afterGenerations T MaxTurn ⟨table, AnalysisStatistics.new⟩ k).statistics_.unfixedNums =
      countUnfixed
        (afterGenerations T MaxTurn ⟨table, AnalysisStatistics.new⟩ k).analysisDataTable_
        AnalysisDataTableSize := by
  induction k with
  | zero =>
    rw [afterGenerations_zero, initialize_table]
    exact init_loop_stats T MaxTurn
      (forUpTo (fun a i => a.setCell i (to_analysisData false MaxTurn AnalysisStatus.Unfixed))
        AnalysisDataTableSize ⟨table, AnalysisStatistics.new⟩)
      (filled_cells MaxTurn ⟨table, AnalysisStatistics.new⟩)
      (fill_statistics _ _ _) AnalysisDataTableSize (le_refl _)
  | succ k ih =>
    rw [afterGenerations_succ]
    exact (generation_accounting hT MaxTurn _ ih.1 ih.2).2

theorem generation_add {T : QuadTables} (hT : T.Valid) (MaxTurn : Nat) (a : Analyzer) :
    (a.generation T MaxTurn).2.statistics_ =
      a.statistics_.add (a.analyze_generation T MaxTurn AnalysisStatistics.new).2.2 :=
  (generation_statistics T MaxTurn a).trans
    (congrArg
      (fun x => AnalysisStatistics.add x
        (a.analyze_generation T MaxTurn AnalysisStatistics.new).2.2)
      (analyze_generation_accounting hT MaxTurn a).2)

theorem afterGenerations_add {T : QuadTables} (hT : T.Valid) (MaxTurn : Nat) (a : Analyzer)
    (k : Nat) :
    (afterGenerations T MaxTurn a (k + 1)).statistics_ =
      (afterGenerations T MaxTurn a k).statistics_.add
        ((afterGenerations T MaxTurn a k).analyze_generation T MaxTurn
          AnalysisStatistics.new).2.2 :=
  (congrArg Analyzer.statistics_ (afterGenerations_succ T MaxTurn a k)).trans
    (generation_add hT MaxTurn (afterGenerations T MaxTurn a k))

end Analyzer

/-- C26, statistics accounting: given valid quad tables, on a freshly
constructed analyzer (counters 0, any table contents), after `initialize()`
and after each later generation with its `statistics_.add(generationStats)`,
the six counters of `statistics_` sum to `1423^3`; the sum that the next `add`
subtracts from `unfixedNums` is not above `unfixedNums`; that next `add`, whose
result is the statistics after the next generation, raises the five fixed
counters by the values of the delta and lowers `unfixedNums` by their sum
without any wrap-around of the unsigned arithmetic; and in general `add` does
so whenever the sum of the delta is at most `unfixedNums` and the six
counters sum to less than `2^64`. -/
theorem statistics_accounting (T : QuadTables) (hT : T.Valid) (MaxTurn : Nat)
    (table : Nat → AnalysisData) (k : Nat) :
    ((Analyzer.afterGenerations T MaxTurn ⟨table, AnalysisStatistics.new⟩
          k).statistics_.unfixedNums +
        (Analyzer.afterGenerations T MaxTurn ⟨table, AnalysisStatistics.new⟩
          k).statistics_.lostNums +
        (Analyzer.afterGenerations T MaxTurn ⟨table, AnalysisStatistics.new⟩
          k).statistics_.lostStalemateNums +
        (Analyzer.afterGenerations T MaxTurn ⟨table, AnalysisStatistics.new⟩
          k).statistics_.wonNums +
        (Analyzer.afterGenerations T MaxTurn ⟨table, AnalysisStatistics.new⟩
          k).statistics_.transformedNums +
        (Analyzer.afterGenerations T MaxTurn ⟨table, AnalysisStatistics.new⟩
          k).statistics_.contradictoryNums = 1423 ^ 3) ∧
    (((Analyzer.afterGenerations T MaxTurn ⟨table, AnalysisStatistics.new⟩
          k).analyze_generation T MaxTurn AnalysisStatistics.new).2.2.lostNums +
        ((Analyzer.afterGenerations T MaxTurn ⟨table, AnalysisStatistics.new⟩
          k).analyze_generation T MaxTurn AnalysisStatistics.new).2.2.lostStalemateNums +
        ((Analyzer.afterGenerations T MaxTurn ⟨table, AnalysisStatistics.new⟩
          k).analyze_generation T MaxTurn AnalysisStatistics.new).2.2.wonNums +
        ((Analyzer.afterGenerations T MaxTurn ⟨table, AnalysisStatistics.new⟩
          k).analyze_generation T MaxTurn AnalysisStatistics.new).2.2.transformedNums +
        ((Analyzer.afterGenerations T MaxTurn ⟨table, AnalysisStatistics.new⟩
          k).analyze_generation T MaxTurn AnalysisStatistics.new).2.2.contradictoryNums ≤
      (Analyzer.afterGenerations T MaxTurn ⟨table, AnalysisStatistics.new⟩
        k).statistics_.unfixedNums) ∧
    ((Analyzer.afterGenerations T MaxTurn ⟨table, AnalysisStatistics.new⟩
        (k + 1)).statistics_ =
      (Analyzer.afterGenerations T MaxTurn ⟨table, AnalysisStatistics.new⟩
        k).statistics_.add
        ((Analyzer.afterGenerations T MaxTurn ⟨table, AnalysisStatistics.new⟩
          k).analyze_generation T MaxTurn AnalysisStatistics.new).2.2 ∧
      (Analyzer.afterGenerations T MaxTurn ⟨table, AnalysisStatistics.new⟩
        (k + 1)).statistics_.lostNums =
        (Analyzer.afterGenerations T MaxTurn ⟨table, AnalysisStatistics.new⟩
          k).statistics_.lostNums +
        ((Analyzer.afterGenerations T MaxTurn ⟨table, AnalysisStatistics.new⟩
          k).analyze_generation T MaxTurn AnalysisStatistics.new).2.2.lostNums ∧
      (Analyzer.afterGenerations T MaxTurn ⟨table, AnalysisStatistics.new⟩
        (k + 1)).statistics_.lostStalemateNums =
        (Analyzer.afterGenerations T MaxTurn ⟨table, AnalysisStatistics.new⟩
          k).statistics_.lostStalemateNums +
        ((Analyzer.afterGenerations T MaxTurn ⟨table, AnalysisStatistics.new⟩
          k).analyze_generation T MaxTurn AnalysisStatistics.new).2.2.lostStalemateNums ∧
      (Analyzer.afterGenerations T MaxTurn ⟨table, AnalysisStatistics.new⟩
        (k + 1)).statistics_.wonNums =
        (Analyzer.afterGenerations T MaxTurn ⟨table, AnalysisStatistics.new⟩
          k).statistics_.wonNums +
        ((Analyzer.afterGenerations T MaxTurn ⟨table, AnalysisStatistics.new⟩
          k).analyze_generation T MaxTurn AnalysisStatistics.new).2.2.wonNums ∧
      (Analyzer.afterGenerations T MaxTurn ⟨table, AnalysisStatistics.new⟩
        (k + 1)).statistics_.transformedNums =
        (Analyzer.afterGenerations T MaxTurn ⟨table, AnalysisStatistics.new⟩
          k).statistics_.transformedNums +
        ((Analyzer.afterGenerations T MaxTurn ⟨table, AnalysisStatistics.new⟩
          k).analyze_generation T MaxTurn AnalysisStatistics.new).2.2.transformedNums ∧
      (Analyzer.afterGenerations T MaxTurn ⟨table, AnalysisStatistics.new⟩
        (k + 1)).statistics_.contradictoryNums =
        (Analyzer.afterGenerations T MaxTurn ⟨table, AnalysisStatistics.new⟩
          k).statistics_.contradictoryNums +
        ((Analyzer.afterGenerations T MaxTurn ⟨table, AnalysisStatistics.new⟩
          k).analyze_generation T MaxTurn AnalysisStatistics.new).2.2.contradictoryNums ∧
      (Analyzer.afterGenerations T MaxTurn ⟨table, AnalysisStatistics.new⟩
        (k + 1)).statistics_.unfixedNums +
        (((Analyzer.afterGenerations T MaxTurn ⟨table, AnalysisStatistics.new⟩
            k).analyze_generation T MaxTurn AnalysisStatistics.new).2.2.lostNums +
          ((Analyzer.afterGenerations T MaxTurn ⟨table, AnalysisStatistics.new⟩
            k).analyze_generation T MaxTurn AnalysisStatistics.new).2.2.lostStalemateNums +
          ((Analyzer.afterGenerations T MaxTurn ⟨table, AnalysisStatistics.new⟩
            k).analyze_generation T MaxTurn AnalysisStatistics.new).2.2.wonNums +
          ((Analyzer.afterGenerations T MaxTurn ⟨table, AnalysisStatistics.new⟩
            k).analyze_generation T MaxTurn AnalysisStatistics.new).2.2.transformedNums +
          ((Analyzer.afterGenerations T MaxTurn ⟨table, AnalysisStatistics.new⟩
            k).analyze_generation T MaxTurn AnalysisStatistics.new).2.2.contradictoryNums) =
        (Analyzer.afterGenerations T MaxTurn ⟨table, AnalysisStatistics.new⟩
          k).statistics_.unfixedNums) ∧
    (∀ s d : AnalysisStatistics,
      d.lostNums + d.lostStalemateNums + d.wonNums + d.transformedNums +
        d.contradictoryNums ≤ s.unfixedNums →
      s.unfixedNums + s.lostNums + s.lostStalemateNums + s.wonNums + s.transformedNums +
        s.contradictoryNums < 2 ^ 64 →
      (s.add d).lostNums = s.lostNums + d.lostNums ∧
      (s.add d).lostStalemateNums = s.lostStalemateNums + d.lostStalemateNums ∧
      (s.add d).wonNums = s.wonNums + d.wonNums ∧
      (s.add d).transformedNums = s.transformedNums + d.transformedNums ∧
      (s.add d).contradictoryNums = s.contradictoryNums + d.contradictoryNums ∧
      (s.add d).unfixedNums +
        (d.lostNums + d.lostStalemateNums + d.wonNums + d.transformedNums +
          d.contradictoryNums) = s.unfixedNums) := by
  obtain ⟨h1, h2⟩ := Analyzer.afterGenerations_accounting hT MaxTurn table k
  have hle := (Analyzer.generation_accounting hT MaxTurn _ h1 h2).1
  have hlt : (Analyzer.afterGenerations T MaxTurn ⟨table, AnalysisStatistics.new⟩
      k).statistics_.total < 2 ^ 64 := by
    rw [h1]
    exact Analyzer.tableSize_lt
  have hadd := Analyzer.afterGenerations_add hT MaxTurn ⟨table, AnalysisStatistics.new⟩ k
  refine ⟨?_, hle, ⟨hadd, ?_⟩, fun s d hsd hs => Analyzer.add_exact s d hsd hs⟩
  · rw [Analyzer.tableSize_eq] at h1
    exact h1
  · rw [hadd]
    exact Analyzer.add_exact _ _ hle hlt

theorem statistics_accounting_witness :
    stdTables.Valid ∧
    ((Analyzer.afterGenerations stdTables 15
          ⟨fun _ => to_analysisData true 0 AnalysisStatus.Lost, AnalysisStatistics.new⟩
          1).statistics_.unfixedNums +
        (Analyzer.afterGenerations stdTables 15
          ⟨fun _ => to_analysisData true 0 AnalysisStatus.Lost, AnalysisStatistics.new⟩
          1).statistics_.lostNums +
        (Analyzer.afterGenerations stdTables 15
          ⟨fun _ => to_analysisData true 0 AnalysisStatus.Lost, AnalysisStatistics.new⟩
          1).statistics_.lostStalemateNums +
        (Analyzer.afterGenerations stdTables 15
          ⟨fun _ => to_analysisData true 0 AnalysisStatus.Lost, AnalysisStatistics.new⟩
          1).statistics_.wonNums +
        (Analyzer.afterGenerations stdTables 15
          ⟨fun _ => to_analysisData true 0 AnalysisStatus.Lost, AnalysisStatistics.new⟩
          1).statistics_.transformedNums +
        (Analyzer.afterGenerations stdTables 15
          ⟨fun _ => to_analysisData true 0 AnalysisStatus.Lost, AnalysisStatistics.new⟩
          1).statistics_.contradictoryNums = 1423 ^ 3) :=
  ⟨stdTables_valid,
    (statistics_accounting stdTables stdTables_valid 15
      (fun _ => to_analysisData true 0 AnalysisStatus.Lost) 1).1⟩

end gobb_analyzer

namespace gobb_analyzer

open Position

/-! ## The eight symmetries as a group of location maps -/

theorem transform_LocationId_distinct {t1 t2 : TransformerId}
    (h1 : is_valid_TransformerId t1 = true) (h2 : is_valid_TransformerId t2 = true)
    (h : ∀ loc, transform_LocationId t1 loc = transform_LocationId t2 loc) : t1 = t2 := by
  have hNW := h LocationId.NW
  have hN := h LocationId.N
  revert t1 t2
  decide

/-- C38, the eight transformers are closed under composition: for every two
transformers `t1`, `t2` of `TransformerIds` there is a transformer `t3` of
`TransformerIds` with
`transform_LocationId(t2, transform_LocationId(t1, loc)) == transform_LocationId(t3, loc)`
for every location `loc`; and two transformers of `TransformerIds` whose
location maps agree at every location are the same transformer, so the
eight maps are pairwise distinct. -/
theorem transformers_closed (t1 t2 : TransformerId) (h1 : t1 ∈ TransformerIds)
    (h2 : t2 ∈ TransformerIds) :
    (∃ t3 ∈ TransformerIds, ∀ loc,
      transform_LocationId t2 (transform_LocationId t1 loc) = transform_LocationId t3 loc) ∧
    ((∀ loc, transform_LocationId t1 loc = transform_LocationId t2 loc) → t1 = t2) := by
  rw [mem_TransformerIds_iff] at h1 h2
  constructor
  · obtain ⟨t3, h3, hc⟩ := transform_LocationId_comp h1 h2
    exact ⟨t3, mem_TransformerIds_iff.mpr h3, hc⟩
  · exact transform_LocationId_distinct h1 h2

theorem transformers_closed_witness :
    TransformerId.Rotate90 ∈ TransformerIds ∧ TransformerId.Mirror ∈ TransformerIds ∧
    ((∃ t3 ∈ TransformerIds, ∀ loc,
      transform_LocationId TransformerId.Mirror
        (transform_LocationId TransformerId.Rotate90 loc) = transform_LocationId t3 loc) ∧
    ((∀ loc, transform_LocationId TransformerId.Rotate90 loc =
      transform_LocationId TransformerId.Mirror loc) →
      TransformerId.Rotate90 = TransformerId.Mirror)) :=
  ⟨by decide, by decide,
    transformers_closed TransformerId.Rotate90 TransformerId.Mirror (by decide) (by decide)⟩

end gobb_analyzer

namespace gobb_analyzer

open Position

/-! ## The topmost piece of a cell -/

theorem no_overlap_invert {pairs : PieceId → LocationIdPair} (h : legalPairs pairs)
    {loc : LocationId} (hl : loc ≠ LocationId.Out) {k : PieceId} (hk : k ∈ PieceIds)
    (h1 : (pairs k).occupies loc = true)
    (h2 : (pairs (invert_playerId_of_pieceId k)).occupies loc = true) : False := by
  obtain ⟨hs, hm, hg⟩ := legalPairs_no_overlap h hl
  simp only [PieceIds, List.mem_cons, List.mem_singleton, List.mem_nil_iff, or_false] at hk
  rcases hk with e | e | e | e | e | e <;> subst e
  · exact hs ⟨h1, h2⟩
  · exact hs ⟨h2, h1⟩
  · exact hm ⟨h1, h2⟩
  · exact hm ⟨h2, h1⟩
  · exact hg ⟨h1, h2⟩
  · exact hg ⟨h2, h1⟩

/-- C33, the topmost piece: for every valid position and every board cell,
`largetst_piece_at_location(cell)` is `PieceId::None` when no piece kind is
located at the cell, and otherwise a piece kind that is located there and
whose size is strictly greater than the size of every other kind located
there; for `Out` and for an invalid location it is `PieceId::Invalid`. -/
theorem largest_piece_at_location_spec (T : QuadTables) (p : Position)
    (hp : p.Wellformed T) (loc : LocationId) :
    (is_on_board_locationId loc = true →
      ((∀ k ∈ PieceIds, (p.locations_of_piece k).occupies loc = false) →
        p.largetst_piece_at_location loc = PieceId.None) ∧
      ((∃ k ∈ PieceIds, (p.locations_of_piece k).occupies loc = true) →
        p.largetst_piece_at_location loc ∈ PieceIds ∧
        (p.locations_of_piece (p.largetst_piece_at_location loc)).occupies loc = true ∧
        ∀ k ∈ PieceIds, (p.locations_of_piece k).occupies loc = true →
          k = p.largetst_piece_at_location loc ∨
          (pieceSize_of_pieceId k).toNat <
            (pieceSize_of_pieceId (p.largetst_piece_at_location loc)).toNat)) ∧
    (is_on_board_locationId loc = false →
      p.largetst_piece_at_location loc = PieceId.Invalid) := by
  constructor
  · intro hb
    have hne : loc ≠ LocationId.Out := LocationId.ne_out_of_on_board hb
    have hl := hp.legal
    rw [largetst_piece_at_location_eq hb, hp.largest_lastPlaced hb]
    rcases lastPlaced_occupies p.piecePairs_ loc with hnone | ⟨hmem, hocc⟩
    · rw [hnone]
      refine ⟨fun _ => rfl, ?_⟩
      rintro ⟨k, hk, ho⟩
      rw [locations_of_piece_eq hk] at ho
      have := lastPlaced_size_ge hk ho
      rw [hnone] at this
      have hpos := size_pos_of_mem hk
      have h0 : (pieceSize_of_pieceId PieceId.None).toNat = 0 := rfl
      omega
    · constructor
      · intro hall
        have := hall _ hmem
        rw [locations_of_piece_eq hmem, hocc] at this
        exact absurd this (by simp)
      · intro _
        refine ⟨hmem, ?_, ?_⟩
        · rw [locations_of_piece_eq hmem]
          exact hocc
        · intro k hk ho
          rw [locations_of_piece_eq hk] at ho
          have hle := lastPlaced_size_ge hk ho
          by_cases hlt : (pieceSize_of_pieceId k).toNat <
              (pieceSize_of_pieceId (lastPlaced p.piecePairs_ loc)).toNat
          · exact Or.inr hlt
          · left
            rcases same_size_cases hk hmem (by omega) with e | e
            · exact e
            · rw [e] at ho
              exact (no_overlap_invert hl hne hmem hocc ho).elim
  · intro hb
    unfold largetst_piece_at_location
    rw [hb]
    rfl

theorem largest_piece_at_location_spec_witness :
    (Position.ofId stdTables 46).Wellformed stdTables ∧
    ((is_on_board_locationId LocationId.NW = true →
      ((∀ k ∈ PieceIds,
          ((Position.ofId stdTables 46).locations_of_piece k).occupies LocationId.NW = false) →
        (Position.ofId stdTables 46).largetst_piece_at_location LocationId.NW = PieceId.None) ∧
      ((∃ k ∈ PieceIds,
          ((Position.ofId stdTables 46).locations_of_piece k).occupies LocationId.NW = true) →
        (Position.ofId stdTables 46).largetst_piece_at_location LocationId.NW ∈ PieceIds ∧
        ((Position.ofId stdTables 46).locations_of_piece
          ((Position.ofId stdTables 46).largetst_piece_at_location LocationId.NW)).occupies
            LocationId.NW = true ∧
        ∀ k ∈ PieceIds,
          ((Position.ofId stdTables 46).locations_of_piece k).occupies LocationId.NW = true →
          k = (Position.ofId stdTables 46).largetst_piece_at_location LocationId.NW ∨
          (pieceSize_of_pieceId k).toNat <
            (pieceSize_of_pieceId
              ((Position.ofId stdTables 46).largetst_piece_at_location LocationId.NW)).toNat)) ∧
    (is_on_board_locationId LocationId.NW = false →
      (Position.ofId stdTables 46).largetst_piece_at_location LocationId.NW =
        PieceId.Invalid)) :=
  ⟨@ofId_wellformed stdTables stdTables_valid 46 (by decide),
    largest_piece_at_location_spec stdTables (Position.ofId stdTables 46)
      (@ofId_wellformed stdTables stdTables_valid 46 (by decide)) LocationId.NW⟩

end gobb_analyzer

namespace gobb_analyzer

open Position

/-! ## Results of moves are positions of the id space -/

/-- What it means for a position to lie inside the legal id space: its three
quads are legal (valid locations, each pair in non-ascending order, no board
cell used twice among the four pieces of a size), each quad is found in the
tables at an index below 1423, and the id is below `2 * 1423^3` and decodes to
the same color and the same six pairs. -/
theorem Position.Wellformed.in_id_space {T : QuadTables} (hT : T.Valid) {r : Position}
    (hr : r.Wellformed T) :
    (∀ k ∈ PieceIds,
      (r.locations_of_piece k).locations0.toNat ≥ (r.locations_of_piece k).locations1.toNat ∧
      ((r.locations_of_piece k).locations0 = LocationId.Out ∨
        (r.locations_of_piece k).locations0 ≠ (r.locations_of_piece k).locations1) ∧
      ∀ loc, loc ≠ LocationId.Out →
        ¬ ((r.locations_of_piece k).occupies loc = true ∧
          (r.locations_of_piece (invert_playerId_of_pieceId k)).occupies loc = true)) ∧
    (∀ s ∈ [(PieceId.ActivePlayerSmall, PieceId.InactivePlayerSmall),
          (PieceId.ActivePlayerMedium, PieceId.InactivePlayerMedium),
          (PieceId.ActivePlayerLarge, PieceId.InactivePlayerLarge)],
      (r.quadOf s.1 s.2).legal = true ∧
      T.locationQuadMaps_ (r.quadOf s.1 s.2).index < 1423 ∧
      T.pieceQuadIndexMaps_ (T.locationQuadMaps_ (r.quadOf s.1 s.2).index) =
        r.quadOf s.1 s.2) ∧
    r.id < 2 * 1423 ^ 3 ∧
    (Position.ofId T r.id).active_player_color = r.active_player_color ∧
    ∀ k ∈ PieceIds, (Position.ofId T r.id).locations_of_piece k = r.locations_of_piece k := by
  have hl := hr.legal
  refine ⟨?_, ?_, ?_, ?_, ?_⟩
  · intro k hk
    rw [locations_of_piece_eq hk, locations_of_piece_eq (invert_mem hk)]
    refine ⟨legalPairs_sorted hl hk, legalPairs_distinct hl hk, ?_⟩
    intro loc hloc hc
    exact no_overlap_invert hl hloc hk hc.1 hc.2
  · intro s hs
    have hq : (r.quadOf s.1 s.2).legal = true := hl s hs
    exact ⟨hq, hT.map_lt hq, hT.quad_map hq⟩
  · have := hr.lt
    rw [PositionIdNums_eq] at this
    show r.id_ < 2 * 1423 ^ 3
    norm_num
    exact this
  · exact hr.decode_color hT
  · intro k hk
    rw [locations_of_piece_eq hk, locations_of_piece_eq hk]
    exact hr.decode_piecePairs hT k hk

/-- C36, successful moves stay inside the legal id space: given valid quad
tables, for every valid position `p` and every `(piece, src, dst)`, if
`p.move(piece, src, dst)` returns Success, and likewise if
`p.move_back(piece, src, dst)` returns Success, then in the resulting position
every pair is in non-ascending order, no two pieces of one size share a
board cell, each of the three quads is legal and is found in the tables at
an index below 1423, the id is below `2 * 1423^3`, and `Position(id)` has the
same color and the same six pairs. -/
theorem move_result_in_id_space (T : QuadTables) (hT : T.Valid) (p : Position)
    (hp : p.Wellformed T) (piece : PieceId) (src dst : LocationId) :
    ∀ r, ((p.move T piece src dst).status = MoveResultStatus.Success ∧
          r = (p.move T piece src dst).position) ∨
        ((p.move_back T piece src dst).status = MoveResultStatus.Success ∧
          r = (p.move_back T piece src dst).position) →
      (∀ k ∈ PieceIds,
        (r.locations_of_piece k).locations0.toNat ≥
          (r.locations_of_piece k).locations1.toNat ∧
        ((r.locations_of_piece k).locations0 = LocationId.Out ∨
          (r.locations_of_piece k).locations0 ≠ (r.locations_of_piece k).locations1) ∧
        ∀ loc, loc ≠ LocationId.Out →
          ¬ ((r.locations_of_piece k).occupies loc = true ∧
            (r.locations_of_piece (invert_playerId_of_pieceId k)).occupies loc = true)) ∧
      (∀ s ∈ [(PieceId.ActivePlayerSmall, PieceId.InactivePlayerSmall),
            (PieceId.ActivePlayerMedium, PieceId.InactivePlayerMedium),
            (PieceId.ActivePlayerLarge, PieceId.InactivePlayerLarge)],
        (r.quadOf s.1 s.2).legal = true ∧
        T.locationQuadMaps_ (r.quadOf s.1 s.2).index < 1423 ∧
        T.pieceQuadIndexMaps_ (T.locationQuadMaps_ (r.quadOf s.1 s.2).index) =
          r.quadOf s.1 s.2) ∧
      r.id < 2 * 1423 ^ 3 ∧
      (Position.ofId T r.id).active_player_color = r.active_player_color ∧
      ∀ k ∈ PieceIds, (Position.ofId T r.id).locations_of_piece k =
        r.locations_of_piece k := by
  rintro r (⟨hs, rfl⟩ | ⟨hs, rfl⟩)
  · exact (move_success_spec hT hp hs).2.1.in_id_space hT
  · exact (move_back_success_spec hT hp hs).2.1.in_id_space hT

set_option maxRecDepth 100000 in
theorem move_result_in_id_space_witness :
    stdTables.Valid ∧ (Position.ofId stdTables 0).Wellformed stdTables ∧
    ((Position.ofId stdTables 0).move stdTables PieceId.ActivePlayerSmall LocationId.Out
      LocationId.NW).status = MoveResultStatus.Success ∧
    ((Position.ofId stdTables 0).move stdTables PieceId.ActivePlayerSmall LocationId.Out
      LocationId.NW).position.id < 2 * 1423 ^ 3 :=
  ⟨stdTables_valid, @ofId_wellformed stdTables stdTables_valid 0 (by decide), by decide!,
    (move_result_in_id_space stdTables stdTables_valid (Position.ofId stdTables 0)
      (@ofId_wellformed stdTables stdTables_valid 0 (by decide)) PieceId.ActivePlayerSmall
      LocationId.Out LocationId.NW _ (Or.inl ⟨by decide!, rfl⟩)).2.2.1⟩

end gobb_analyzer

namespace gobb_analyzer

open Position

/-! ## The canonical id is an invariant of the orbit -/

theorem minimize_id_le_of {T : QuadTables} (hT : T.Valid) {p q : Position}
    (hp : p.Wellformed T) (hq : q.Wellformed T)
    (h : ∀ t, is_valid_TransformerId t = true → ∃ t2, is_valid_TransformerId t2 = true ∧
      computedId T PlayerColor.Orange (fun k => (q.piecePairs_ k).transform t) =
        computedId T PlayerColor.Orange (fun k => (p.piecePairs_ k).transform t2)) :
    p.minimize_id T ≤ q.minimize_id T := by
  obtain ⟨⟨t, ht, hqt⟩, _⟩ := hq.minimize_id_spec hT
  obtain ⟨t2, ht2, he⟩ := h t ht
  rw [hqt, he]
  exact (hp.minimize_id_spec hT).2 t2 ht2

theorem pair_transform_comp (p : LocationIdPair) {t t2 t3 : TransformerId}
    (h : ∀ a, transform_LocationId t2 (transform_LocationId t a) = transform_LocationId t3 a) :
    (p.transform t).transform t2 = p.transform t3 := by
  rw [pair_transform_transform, pair_transform_eq, h, h]

theorem minimize_id_transform {T : QuadTables} (hT : T.Valid) {p : Position}
    (hp : p.Wellformed T) {t : TransformerId} (ht : is_valid_TransformerId t = true) :
    (p.transform T t).minimize_id T = p.minimize_id T := by
  have hq := transform_wellformed hT hp ht
  have hpairs := @transform_piecePairs T p t hp.valid ht
  have hcongr : ∀ t2, computedId T PlayerColor.Orange
      (fun k => ((p.transform T t).piecePairs_ k).transform t2) =
      computedId T PlayerColor.Orange
        (fun k => ((p.piecePairs_ k).transform t).transform t2) := by
    intro t2
    apply computedId_congr
    intro k hk
    show ((p.transform T t).piecePairs_ k).transform t2 = _
    rw [hpairs k hk]
  apply le_antisymm
  · -- every image of `p` is an image of `p.transform t`
    apply minimize_id_le_of hT hq hp
    intro t2 ht2
    obtain ⟨t3, ht3, hc⟩ := transform_LocationId_comp (invert_Transformer_valid ht) ht2
    refine ⟨t3, ht3, ?_⟩
    rw [hcongr]
    apply computedId_congr
    intro k hk
    show (p.piecePairs_ k).transform t2 = ((p.piecePairs_ k).transform t).transform t3
    obtain ⟨hv0, hv1⟩ := legalPairs_valid hp.legal hk
    rw [pair_transform_transform, pair_transform_eq, ← hc, ← hc,
      transform_LocationId_invert ht hv0, transform_LocationId_invert ht hv1]
  · -- every image of `p.transform t` is an image of `p`
    apply minimize_id_le_of hT hp hq
    intro t2 ht2
    obtain ⟨t3, ht3, hc⟩ := transform_LocationId_comp ht ht2
    refine ⟨t3, ht3, ?_⟩
    rw [hcongr]
    apply computedId_congr
    intro k _
    exact pair_transform_comp _ hc

theorem minimize_id_color {T : QuadTables} (hT : T.Valid) {id : Nat}
    (h : id < PieceSetCombinationNums) :
    (Position.ofId T id).minimize_id T =
      (Position.ofId T (id + PieceSetCombinationNums)).minimize_id T := by
  have hpn : PositionIdNums = PieceSetCombinationNums * 2 := rfl
  have h1 : id < PositionIdNums := by omega
  have h2 : id + PieceSetCombinationNums < PositionIdNums := by omega
  have hp := ofId_wellformed hT h1
  have hq := ofId_wellformed hT h2
  have hpairs : ∀ k, (Position.ofId T (id + PieceSetCombinationNums)).piecePairs_ k =
      (Position.ofId T id).piecePairs_ k := by
    intro k
    rw [ofId_piecePairs h1, ofId_piecePairs h2, if_pos h, if_neg (by omega),
      Nat.add_sub_cancel]
  apply le_antisymm
  · apply minimize_id_le_of hT hp hq
    intro t ht
    refine ⟨t, ht, ?_⟩
    apply computedId_congr
    intro k _
    show ((Position.ofId T (id + PieceSetCombinationNums)).piecePairs_ k).transform t = _
    rw [hpairs]
  · apply minimize_id_le_of hT hq hp
    intro t ht
    refine ⟨t, ht, ?_⟩
    apply computedId_congr
    intro k _
    show _ = ((Position.ofId T (id + PieceSetCombinationNums)).piecePairs_ k).transform t
    rw [hpairs]

/-- C37, the canonical id is an orbit invariant: given valid quad tables, for
every valid position `p` and every transformer `t` of `TransformerIds`,
`p.transform(t).minimize_id() == p.minimize_id()`; and for every id below
`1423^3`, `Position(id).minimize_id() == Position(id + 1423^3).minimize_id()`. -/
theorem minimize_id_orbit_invariant (T : QuadTables) (hT : T.Valid) :
    (∀ p : Position, p.Wellformed T → ∀ t ∈ TransformerIds,
      (p.transform T t).minimize_id T = p.minimize_id T) ∧
    (∀ id, id < 1423 ^ 3 →
      (Position.ofId T id).minimize_id T =
        (Position.ofId T (id + 1423 ^ 3)).minimize_id T) := by
  constructor
  · intro p hp t ht
    exact minimize_id_transform hT hp (mem_TransformerIds_iff.mp ht)
  · intro id hid
    have e : PieceSetCombinationNums = 1423 ^ 3 := by
      rw [PieceSetCombinationNums_eq]
      norm_num
    rw [← e] at hid ⊢
    exact minimize_id_color hT hid

theorem minimize_id_orbit_invariant_witness :
    stdTables.Valid ∧
    ((Position.ofId stdTables 46).transform stdTables TransformerId.Rotate90).minimize_id
        stdTables = (Position.ofId stdTables 46).minimize_id stdTables :=
  ⟨stdTables_valid,
    (minimize_id_orbit_invariant stdTables stdTables_valid).1 (Position.ofId stdTables 46)
      (@ofId_wellformed stdTables stdTables_valid 46 (by decide)) TransformerId.Rotate90
      (by decide)⟩

end gobb_analyzer

namespace gobb_analyzer

open Position

/-! ## A retrograde move is undone by the forward move -/

namespace Position

theorem move_back_undo {T : QuadTables} (hT : T.Valid) {q : Position} (hq : q.Wellformed T)
    {k : PieceId} {s d : LocationId}
    (hs : (q.move_back T k s d).status = MoveResultStatus.Success) :
    ((q.move_back T k s d).position.move T (invert_playerId_of_pieceId k) d s).status =
        MoveResultStatus.Success ∧
    ((q.move_back T k s d).position.move T (invert_playerId_of_pieceId k) d s).position.id_ =
        q.id_ := by
  obtain ⟨hpre, hr, hcol, hpairs⟩ := move_back_success_spec hT hq hs
  obtain ⟨hk, hown, hocc, hsb, hdv, htops, hfree, hsd⟩ := hq.move_back_checked hpre
  have hlp := hq.legal
  have hsne := LocationId.ne_out_of_on_board hsb
  have hk' := invert_mem hk
  -- the pairs after the retrograde move, before the roles are swapped
  have hl2 : legalPairs (pairsAfter q.piecePairs_ k s d) := by
    apply legalPairs_of_invert
    rw [← hpairs]
    exact hr.legal
  have hrk : (q.move_back T k s d).position.piecePairs_ (invert_playerId_of_pieceId k) =
      (q.piecePairs_ k).replaceOne s d := by
    rw [hpairs]
    simp only [invert_invert, pairsAfter_self]
  have hro : ∀ j, j ≠ k →
      (q.move_back T k s d).position.piecePairs_ (invert_playerId_of_pieceId j) =
      q.piecePairs_ j := by
    intro j hj
    rw [hpairs]
    simp only [invert_invert, pairsAfter_other _ _ _ hj]
  have hlarge : ∀ loc, is_on_board_locationId loc = true →
      (q.move_back T k s d).position.largestPieces_ loc =
        invert_playerId_of_pieceId (lastPlaced (pairsAfter q.piecePairs_ k s d) loc) := by
    intro loc hloc
    rw [hr.largest_lastPlaced hloc, hpairs,
      lastPlaced_invert hl2 (LocationId.ne_out_of_on_board hloc)]
  -- the piece is on top of `d` when `d` is a cell
  have htop : d ≠ LocationId.Out → lastPlaced (pairsAfter q.piecePairs_ k s d) d = k := by
    intro hd0
    have hfree' : (pieceSize_of_pieceId (lastPlaced q.piecePairs_ d)).toNat <
        (pieceSize_of_pieceId k).toNat := by
      rcases hfree with c | c
      · exact absurd c hd0
      · exact c
    apply lastPlaced_eq_of hk
    · rw [pairsAfter_self]
      exact replaceOne_occupies _ _ _ hocc
    · intro j hj ho
      by_cases hjk : j = k
      · exact Or.inl hjk
      · right
        rw [pairsAfter_other _ _ _ hjk] at ho
        have := lastPlaced_size_ge hj ho
        omega
  -- what is left on `s` is smaller than the piece
  have hleft : (pieceSize_of_pieceId (lastPlaced (pairsAfter q.piecePairs_ k s d) s)).toNat <
      (pieceSize_of_pieceId k).toNat := by
    apply lastPlaced_size_lt_of (size_pos_of_mem hk)
    intro j hj ho
    by_cases hjk : j = k
    · subst hjk
      rw [pairsAfter_self, replaceOne_not_occupies _ (legalPairs_distinct hlp hj) hsne hsd] at ho
      exact absurd ho (by decide)
    · rw [pairsAfter_other _ _ _ hjk] at ho
      have hge := lastPlaced_size_ge hj ho
      rw [htops] at hge
      rcases Nat.lt_or_ge (pieceSize_of_pieceId j).toNat (pieceSize_of_pieceId k).toNat with c | c
      · exact c
      · exfalso
        rcases same_size_cases hj hk (by omega) with e | e
        · exact hjk e
        · rw [e] at ho
          exact no_overlap_invert hlp hsne hk hocc ho
  -- the checks of `move`
  have hpre' : (q.move_back T k s d).position.movePreconditions
      (invert_playerId_of_pieceId k) d s := by
    rw [movePreconditions_iff]
    refine ⟨hr.valid, (owner_invert k).mpr hown, ?_, hdv, hsb, ?_, ?_, fun e => hsd e.symm⟩
    · rw [hrk]
      have := replaceOne_occupies _ s d hocc
      simp only [LocationIdPair.occupies, Bool.or_eq_true, beq_iff_eq] at this
      tauto
    · rintro ⟨hd0, hne⟩
      have hdb : is_on_board_locationId d = true := by
        rcases LocationId.valid_cases.mp hdv with c | c
        · exact absurd c hd0
        · exact c
      rw [hlarge d hdb, htop hd0] at hne
      exact hne rfl
    · rw [hlarge s hsb, size_invert, size_invert]
      omega
  -- the pick-up gives the position before the piece was put down
  have hpick : pairsAfter (q.move_back T k s d).position.piecePairs_
      (invert_playerId_of_pieceId k) d LocationId.Out =
      fun j => pairsAfter q.piecePairs_ k s LocationId.Out (invert_playerId_of_pieceId j) := by
    funext j
    by_cases hj : j = invert_playerId_of_pieceId k
    · subst hj
      rw [pairsAfter_self, hrk, invert_invert, pairsAfter_self]
      exact replaceOne_chain _ _ _ _ hocc
    · have hj' : invert_playerId_of_pieceId j ≠ k := by
        intro e
        apply hj
        rw [← e, invert_invert]
      rw [pairsAfter_other _ _ _ hj, pairsAfter_other _ _ _ hj']
      have := hro (invert_playerId_of_pieceId j) hj'
      rw [invert_invert] at this
      exact this
  have hnw : ¬ (((q.move_back T k s d).position.updatePiece (invert_playerId_of_pieceId k) d
      LocationId.Out).update_largestPieces).is_winner PlayerId.Inactive = true := by
    rw [picked_is_winner_iff hr, hpick]
    intro hline
    have hinv := (hasLine_invert (legalPairs_invert (legalPairs_picked hlp k s))).mpr hline
    have hback : (fun j => (fun i => pairsAfter q.piecePairs_ k s LocationId.Out
        (invert_playerId_of_pieceId i)) (invert_playerId_of_pieceId j)) =
        pairsAfter q.piecePairs_ k s LocationId.Out := by
      funext j
      simp only [invert_invert]
    rw [hback, ← picked_is_winner_iff hq] at hinv
    rw [move_back_of_pre hpre, if_pos hinv] at hs
    exact absurd hs (by simp)
  have hstat : ((q.move_back T k s d).position.move T (invert_playerId_of_pieceId k) d s).status
      = MoveResultStatus.Success := by
    rw [move_of_pre hpre']
    by_cases hd0 : d = LocationId.Out
    · rw [if_neg (not_not.mpr hd0)]
      rfl
    · rw [if_pos hd0, if_neg hnw]
      rfl
  refine ⟨hstat, ?_⟩
  obtain ⟨_, hr2, hcol2, hpairs2⟩ := move_success_spec hT hr hstat
  rw [hr2.id_computed, hcol2, hcol, invert_playerColor_invert, hq.id_computed]
  apply computedId_congr
  intro j hj
  rw [hpairs2]
  beta_reduce
  by_cases hjk : j = k
  · subst hjk
    rw [pairsAfter_self, hrk]
    exact replaceOne_undo _ _ _ (legalPairs_sorted hlp hj) hocc
  · have hj' : invert_playerId_of_pieceId j ≠ invert_playerId_of_pieceId k := by
      intro e
      apply hjk
      rw [← invert_invert j, e, invert_invert]
    rw [pairsAfter_other _ _ _ hj']
    exact hro j hjk

end Position

/-- C34, every retrograde move found is a genuine predecessor: given valid
quad tables, for every valid position `q` and every `(piece, src, dst)` with
`q.move_back(piece, src, dst)` returning Success with the position `r`, the
forward move `r.move(inverted-role piece, dst, src)` returns Success with a
position whose id is `q.id()`. -/
theorem move_back_is_predecessor (T : QuadTables) (hT : T.Valid) (q : Position)
    (hq : q.Wellformed T) (piece : PieceId) (src dst : LocationId)
    (hs : (q.move_back T piece src dst).status = MoveResultStatus.Success) :
    ((q.move_back T piece src dst).position.move T (invert_playerId_of_pieceId piece)
      dst src).status = MoveResultStatus.Success ∧
    ((q.move_back T piece src dst).position.move T (invert_playerId_of_pieceId piece)
      dst src).position.id = q.id :=
  Position.move_back_undo hT hq hs

set_option maxRecDepth 100000 in
theorem move_back_is_predecessor_witness :
    stdTables.Valid ∧ (Position.ofId stdTables 46).Wellformed stdTables ∧
    ((Position.ofId stdTables 46).move_back stdTables PieceId.InactivePlayerSmall LocationId.NW
      LocationId.Out).status = MoveResultStatus.Success ∧
    (((Position.ofId stdTables 46).move_back stdTables PieceId.InactivePlayerSmall
        LocationId.NW LocationId.Out).position.move stdTables
        (invert_playerId_of_pieceId PieceId.InactivePlayerSmall) LocationId.Out
        LocationId.NW).status = MoveResultStatus.Success ∧
    (((Position.ofId stdTables 46).move_back stdTables PieceId.InactivePlayerSmall
        LocationId.NW LocationId.Out).position.move stdTables
        (invert_playerId_of_pieceId PieceId.InactivePlayerSmall) LocationId.Out
        LocationId.NW).position.id = (Position.ofId stdTables 46).id :=
  ⟨stdTables_valid, @ofId_wellformed stdTables stdTables_valid 46 (by decide), by decide!,
    move_back_is_predecessor stdTables stdTables_valid (Position.ofId stdTables 46)
      (@ofId_wellformed stdTables stdTables_valid 46 (by decide)) PieceId.InactivePlayerSmall
      LocationId.NW LocationId.Out (by decide!)⟩

end gobb_analyzer

namespace gobb_analyzer

/-! ## Decimal numerals and `string_to_uint` -/

theorem toDigitsCore_append (n : Nat) :
    ∀ fuel ds, n < fuel →
      Nat.toDigitsCore 10 fuel n ds = Nat.toDigitsCore 10 (n + 1) n [] ++ ds := by
  induction n using Nat.strong_induction_on with
  | _ n ih =>
    intro fuel ds hf
    obtain ⟨f, rfl⟩ : ∃ f, fuel = f + 1 := ⟨fuel - 1, by omega⟩
    rw [Nat.toDigitsCore, Nat.toDigitsCore]
    by_cases h0 : n / 10 = 0
    · simp [h0]
    · have hlt : n / 10 < n := by omega
      simp only [h0, if_false]
      rw [ih (n / 10) hlt f _ (by omega), ih (n / 10) hlt n _ hlt]
      simp

theorem toDigits_eq (n : Nat) :
    Nat.toDigits 10 n =
      if n < 10 then [Nat.digitChar n]
      else Nat.toDigits 10 (n / 10) ++ [Nat.digitChar (n % 10)] := by
  unfold Nat.toDigits
  rw [Nat.toDigitsCore]
  by_cases h : n < 10
  · have h0 : n / 10 = 0 := by omega
    have hm : n % 10 = n := by omega
    simp [h, h0, hm]
  · have h0 : ¬ n / 10 = 0 := by omega
    simp only [h0, if_false, h]
    exact toDigitsCore_append (n / 10) n _ (by omega)

theorem digitOf_digitChar {d : Nat} (h : d < 10) : digitOf (Nat.digitChar d) = some d := by
  interval_cases d <;> decide

theorem digitChar_of_digitOf {c : Char} {d : Nat} (h : digitOf c = some d) :
    d < 10 ∧ c = Nat.digitChar d := by
  unfold digitOf at h
  split_ifs at h with h0 h1 h2 h3 h4 h5 h6 h7 h8 h9 <;>
    (cases h; subst_vars; exact ⟨by decide, by decide⟩)

theorem digit_not_nul {c : Char} {d : Nat} (h : digitOf c = some d) : c.toNat ≠ 0 := by
  obtain ⟨hd, rfl⟩ := digitChar_of_digitOf h
  interval_cases d <;> decide

theorem digit_fold_ge (s : List Char) (acc : Nat) :
    acc ≤ s.foldl (fun a c => a * 10 + (digitOf c).getD 0) acc := by
  induction s generalizing acc with
  | nil => exact le_refl _
  | cons c s ih =>
    rw [List.foldl_cons]
    exact le_trans (by omega) (ih _)

/-- Below this bound a value cannot come from a wrap-around: `10 * v + 9 < 2^64`
for every `v` below it. -/
theorem loop_exact (s : List Char) :
    ∀ acc v, (∀ c ∈ s, c.toNat ≠ 0) → string_to_uint_loop s acc = some v →
      v < 1844674407370955161 →
      (∀ c ∈ s, ∃ d, digitOf c = some d) ∧
      v = s.foldl (fun a c => a * 10 + (digitOf c).getD 0) acc ∧ acc ≤ v := by
  induction s with
  | nil =>
    intro acc v _ h _
    rw [string_to_uint_loop] at h
    cases h
    exact ⟨fun c hc => absurd hc (List.not_mem_nil c), rfl, le_refl _⟩
  | cons c s ih =>
    intro acc v hn h hv
    rw [string_to_uint_loop, if_neg (hn c (List.mem_cons_self _ _))] at h
    cases hd : digitOf c with
    | none =>
      rw [hd] at h
      exact absurd h (by simp)
    | some d =>
      rw [hd] at h
      dsimp only at h
      have hd10 := (digitChar_of_digitOf hd).1
      by_cases hlt : (acc * 10 + d) % 2 ^ 64 < acc
      · rw [if_pos hlt] at h
        exact absurd h (by simp)
      · rw [if_neg hlt] at h
        obtain ⟨i1, i2, i3⟩ := ih _ v (fun c hc => hn c (List.mem_cons_of_mem _ hc)) h hv
        have hacc : acc < 1844674407370955161 := by omega
        have hmod : (acc * 10 + d) % 2 ^ 64 = acc * 10 + d :=
          Nat.mod_eq_of_lt (by norm_num; omega)
        rw [hmod] at i2 i3
        refine ⟨?_, ?_, by omega⟩
        · intro x hx
          rcases List.mem_cons.mp hx with e | e
          · exact ⟨d, by rw [e]; exact hd⟩
          · exact i1 x e
        · rw [List.foldl_cons, hd]
          exact i2

theorem loop_of_digits (s : List Char) :
    ∀ acc, (∀ c ∈ s, ∃ d, digitOf c = some d) →
      s.foldl (fun a c => a * 10 + (digitOf c).getD 0) acc < 2 ^ 64 →
      string_to_uint_loop s acc =
        some (s.foldl (fun a c => a * 10 + (digitOf c).getD 0) acc) := by
  induction s with
  | nil =>
    intro acc _ _
    rw [string_to_uint_loop]
    rfl
  | cons c s ih =>
    intro acc hd hv
    obtain ⟨d, hc⟩ := hd c (List.mem_cons_self _ _)
    rw [List.foldl_cons, hc] at hv ⊢
    have hge := digit_fold_ge s (acc * 10 + (some d).getD 0)
    have hg : (some d).getD 0 = d := rfl
    rw [hg] at hv hge ⊢
    have hmod : (acc * 10 + d) % 2 ^ 64 = acc * 10 + d := Nat.mod_eq_of_lt (by omega)
    rw [string_to_uint_loop, if_neg (digit_not_nul hc), hc]
    dsimp only
    rw [hmod, if_neg (by omega)]
    exact ih _ (fun x hx => hd x (List.mem_cons_of_mem _ hx)) hv

theorem toDigits_spec (n : Nat) :
    (∀ c ∈ Nat.toDigits 10 n, ∃ d, digitOf c = some d) ∧
    (Nat.toDigits 10 n).foldl (fun a c => a * 10 + (digitOf c).getD 0) 0 = n ∧
    (0 < n → ∃ c rest, Nat.toDigits 10 n = c :: rest ∧ c ≠ '0') := by
  induction n using Nat.strong_induction_on with
  | _ n ih =>
    rw [toDigits_eq]
    by_cases h : n < 10
    · rw [if_pos h]
      refine ⟨?_, ?_, ?_⟩
      · intro c hc
        rw [List.mem_singleton] at hc
        exact ⟨n, by rw [hc]; exact digitOf_digitChar h⟩
      · rw [List.foldl_cons, List.foldl_nil, digitOf_digitChar h]
        show 0 * 10 + n = n
        omega
      · intro hpos
        refine ⟨_, _, rfl, ?_⟩
        interval_cases n <;> first | omega | decide
    · rw [if_neg h]
      obtain ⟨i1, i2, i3⟩ := ih (n / 10) (by omega)
      refine ⟨?_, ?_, ?_⟩
      · intro c hc
        rcases List.mem_append.mp hc with e | e
        · exact i1 c e
        · rw [List.mem_singleton] at e
          exact ⟨n % 10, by rw [e]; exact digitOf_digitChar (by omega)⟩
      · rw [List.foldl_append, i2, List.foldl_cons, List.foldl_nil,
          digitOf_digitChar (by omega : n % 10 < 10)]
        show n / 10 * 10 + n % 10 = n
        omega
      · intro _
        obtain ⟨c, rest, e, hc⟩ := i3 (by omega)
        exact ⟨c, rest ++ [Nat.digitChar (n % 10)], by rw [e]; rfl, hc⟩

theorem canonical_eq_toDigits (s : List Char) :
    s ≠ [] → (∀ c ∈ s, ∃ d, digitOf c = some d) → s.head? ≠ some '0' →
      s = Nat.toDigits 10 (s.foldl (fun a c => a * 10 + (digitOf c).getD 0) 0) ∧
      0 < s.foldl (fun a c => a * 10 + (digitOf c).getD 0) 0 := by
  induction s using List.reverseRecOn with
  | nil =>
    intro h
    exact absurd rfl h
  | append_singleton l c ih =>
    intro _ hd hh
    obtain ⟨d, hc⟩ := hd c (List.mem_append_right _ (List.mem_singleton_self c))
    obtain ⟨hd10, hcd⟩ := digitChar_of_digitOf hc
    rw [List.foldl_append, List.foldl_cons, List.foldl_nil, hc]
    have hg : (some d).getD 0 = d := rfl
    rw [hg]
    by_cases hl : l = []
    · subst hl
      have hd0 : d ≠ 0 := by
        intro e
        apply hh
        rw [hcd, e]
        rfl
      rw [List.foldl_nil, toDigits_eq, if_pos (by omega)]
      constructor
      · show [c] = [Nat.digitChar (0 * 10 + d)]
        rw [hcd, Nat.zero_mul, Nat.zero_add]
      · omega
    · have hh2 : l.head? ≠ some '0' := by
        intro e
        apply hh
        cases l with
        | nil => exact absurd rfl hl
        | cons x xs => exact e
      obtain ⟨i1, i2⟩ := ih hl (fun x hx => hd x (List.mem_append_left _ hx)) hh2
      generalize l.foldl (fun a c => a * 10 + (digitOf c).getD 0) 0 = m at i1 i2 ⊢
      rw [toDigits_eq, if_neg (by omega)]
      have e1 : (m * 10 + d) / 10 = m := by omega
      have e2 : (m * 10 + d) % 10 = d := by omega
      rw [e1, e2, ← i1, ← hcd]
      exact ⟨rfl, by omega⟩

theorem string_to_uint_cons (bits : Nat) (c : Char) (rest : List Char) (h0 : c.toNat ≠ 0)
    (hz : c ≠ '0') :
    string_to_uint bits (c :: rest) =
      match string_to_uint_loop (c :: rest) 0 with
      | none => none
      | some ullValue => if ullValue ≠ ullValue % 2 ^ bits then none
        else some (ullValue % 2 ^ bits) := by
  unfold string_to_uint
  dsimp only
  rewrite [if_neg h0, if_neg hz]
  cases string_to_uint_loop (c :: rest) 0 <;> rfl

theorem string_to_uint_exact (s : List Char) (v : Nat) (hn : ∀ c ∈ s, c.toNat ≠ 0)
    (h : string_to_uint 64 s = some v) (hv : v < 1844674407370955161) :
    s = Nat.toDigits 10 v := by
  cases s with
  | nil =>
    rw [string_to_uint] at h
    exact absurd h (by simp)
  | cons c rest =>
    have h0 := hn c (List.mem_cons_self _ _)
    by_cases hz : c = '0'
    · unfold string_to_uint at h
      dsimp only at h
      rw [if_neg h0, if_pos hz] at h
      cases rest with
      | nil =>
        dsimp only at h
        cases h
        rw [hz]
        decide
      | cons c1 r =>
        dsimp only at h
        rw [if_neg (hn c1 (List.mem_cons_of_mem _ (List.mem_cons_self _ _)))] at h
        exact absurd h (by simp)
    · rw [string_to_uint_cons 64 c rest h0 hz] at h
      cases hl : string_to_uint_loop (c :: rest) 0 with
      | none =>
        rw [hl] at h
        exact absurd h (by simp)
      | some u =>
        rw [hl] at h
        dsimp only at h
        by_cases hu : u ≠ u % 2 ^ 64
        · rw [if_pos hu] at h
          exact absurd h (by simp)
        · rw [if_neg hu] at h
          have huv : u = v := by
            have := Option.some.inj h
            rw [← this]
            exact not_not.mp hu
          rw [huv] at hl
          obtain ⟨i1, i2, _⟩ := loop_exact _ 0 v hn hl hv
          have := (canonical_eq_toDigits (c :: rest) (List.cons_ne_nil _ _) i1
            (by
              intro e
              apply hz
              exact Option.some.inj e)).1
          rw [← i2] at this
          exact this

theorem string_to_uint_toDigits (n : Nat) (hn : n < 2 ^ 64) :
    string_to_uint 64 (Nat.toDigits 10 n) = some n := by
  by_cases h0 : n = 0
  · subst h0
    decide
  · obtain ⟨i1, i2, i3⟩ := toDigits_spec n
    obtain ⟨c, rest, e, hc⟩ := i3 (by omega)
    rw [e] at i1 i2 ⊢
    obtain ⟨d, hd⟩ := i1 c (List.mem_cons_self _ _)
    rw [string_to_uint_cons 64 c rest (digit_not_nul hd) hc,
      loop_of_digits _ 0 i1 (by rw [i2]; exact hn), i2]
    dsimp only
    rw [Nat.mod_eq_of_lt hn, if_neg (not_not.mpr rfl)]

end gobb_analyzer

namespace gobb_analyzer

/-- C40, accepted position ids are exact: for every C string `s` (a string
without the character of code 0), if `string_to_uint(s, value)` with a 64-bit
`value` returns true and the value is a valid position id
(`value < 2 * 1423^3`), then `s` is the canonical decimal numeral of `value`;
so a wrap-around of the 64-bit arithmetic never yields an id in the range. -/
theorem accepted_position_id_exact (s : List Char) (value : Nat)
    (hs : ∀ c ∈ s, c.toNat ≠ 0) (h : string_to_uint 64 s = some value)
    (hv : is_valid_positionId value = true) :
    s = Nat.toDigits 10 value := by
  have hlt : value < PositionIdNums := by
    simpa [is_valid_positionId] using hv
  rw [PositionIdNums_eq] at hlt
  exact string_to_uint_exact s value hs h (by omega)

theorem accepted_position_id_exact_witness :
    (∀ c ∈ ['4', '6'], c.toNat ≠ 0) ∧ string_to_uint 64 ['4', '6'] = some 46 ∧
    is_valid_positionId 46 = true ∧ ['4', '6'] = Nat.toDigits 10 46 :=
  ⟨by decide, by decide, by decide,
    accepted_position_id_exact ['4', '6'] 46 (by decide) (by decide) (by decide)⟩

end gobb_analyzer

namespace gobb_analyzer

/-! ## The latest stored generation -/

theorem split_name (f pre suf : List Char) (hlen : pre.length + suf.length < f.length)
    (hp : substr f 0 pre.length = pre)
    (hs : substr f (f.length - suf.length) suf.length = suf) :
    f = pre ++ substr f pre.length (f.length - pre.length - suf.length) ++ suf := by
  unfold substr at hp hs ⊢
  rw [List.drop_zero] at hp
  have h1 : f = f.take pre.length ++ f.drop pre.length := (List.take_append_drop _ _).symm
  have h2 : f.drop pre.length =
      (f.drop pre.length).take (f.length - pre.length - suf.length) ++
        (f.drop pre.length).drop (f.length - pre.length - suf.length) :=
    (List.take_append_drop _ _).symm
  have h3 : (f.drop pre.length).drop (f.length - pre.length - suf.length) =
      f.drop (f.length - suf.length) := by
    rw [List.drop_drop]
    congr 1
    omega
  have h4 : (f.drop (f.length - suf.length)).take suf.length =
      f.drop (f.length - suf.length) := by
    apply List.take_of_length_le
    rw [List.length_drop]
    omega
  rw [h4] at hs
  rw [h3, hs] at h2
  conv_lhs => rw [h1, h2, hp]
  rw [List.append_assoc]

theorem substr_of_split (pre mid suf : List Char) :
    substr (pre ++ mid ++ suf) 0 pre.length = pre ∧
    substr (pre ++ mid ++ suf) ((pre ++ mid ++ suf).length - suf.length) suf.length = suf ∧
    substr (pre ++ mid ++ suf) pre.length
      ((pre ++ mid ++ suf).length - pre.length - suf.length) = mid := by
  unfold substr
  refine ⟨?_, ?_, ?_⟩
  · rw [List.drop_zero, List.append_assoc, List.take_left']
    rfl
  · have e : (pre ++ mid ++ suf).length - suf.length = (pre ++ mid).length := by
      simp only [List.length_append]
      omega
    rw [e, List.drop_left', List.take_length]
    rfl
  · have e : (pre ++ mid ++ suf).length - pre.length - suf.length = mid.length := by
      simp only [List.length_append]
      omega
    rw [e, List.append_assoc, List.drop_left', List.take_left']
    · rfl
    · rfl

theorem toDigits_inj {a b : Nat} (h : Nat.toDigits 10 a = Nat.toDigits 10 b) : a = b := by
  have ha := (toDigits_spec a).2.1
  have hb := (toDigits_spec b).2.1
  rw [h] at ha
  omega

theorem toDigits_ne_nil (n : Nat) : Nat.toDigits 10 n ≠ [] := by
  rw [toDigits_eq]
  split_ifs
  · exact List.cons_ne_nil _ _
  · intro h
    have := congrArg List.length h
    simp at this

theorem mem_substr {s : List Char} {pos count : Nat} {c : Char}
    (h : c ∈ substr s pos count) : c ∈ s :=
  List.mem_of_mem_drop (List.mem_of_mem_take h)

theorem find_latest_body_cases (MaxGeneration : Nat)
    (hM : MaxGeneration < 1844674407370955161) (e : DirEntry)
    (hn : ∀ c ∈ e.filename, c.toNat ≠ 0) :
    ((∀ G, G ≤ MaxGeneration → ¬ (e.is_regular_file = true ∧
        e.filename = filePrefix_ ++ Nat.toDigits 10 G ++ fileSuffix_)) ∧
      ∀ latest, find_latest_body MaxGeneration latest e = latest) ∨
    (∃ G, G ≤ MaxGeneration ∧ e.is_regular_file = true ∧
      e.filename = filePrefix_ ++ Nat.toDigits 10 G ++ fileSuffix_ ∧
      ∀ latest, find_latest_body MaxGeneration latest e =
        if latest = InvalidGeneration ∨ G > latest then G else latest) := by
  by_cases hr : e.is_regular_file = true
  swap
  · left
    refine ⟨fun G _ h => hr h.1, fun latest => ?_⟩
    unfold find_latest_body
    rw [if_pos (by simpa using hr)]
  by_cases hlen : e.filename.length ≤ filePrefix_.length + fileSuffix_.length
  · left
    refine ⟨fun G _ h => ?_, fun latest => ?_⟩
    · have hl := congrArg List.length h.2
      have hd : 0 < (Nat.toDigits 10 G).length :=
        List.length_pos.mpr (toDigits_ne_nil G)
      simp only [List.length_append] at hl
      omega
    · unfold find_latest_body
      rw [if_neg (by simpa using hr)]
      dsimp only
      rw [if_pos hlen]
  by_cases hps : substr e.filename 0 filePrefix_.length ≠ filePrefix_ ∨
      substr e.filename (e.filename.length - fileSuffix_.length) fileSuffix_.length ≠
        fileSuffix_
  · left
    refine ⟨fun G _ h => ?_, fun latest => ?_⟩
    · obtain ⟨s1, s2, -⟩ := substr_of_split filePrefix_ (Nat.toDigits 10 G) fileSuffix_
      rw [← h.2] at s1 s2
      rcases hps with a | a
      · exact a s1
      · exact a s2
    · unfold find_latest_body
      rw [if_neg (by simpa using hr)]
      dsimp only
      rw [if_neg hlen, if_pos hps]
  have hsplit : e.filename = filePrefix_ ++ substr e.filename filePrefix_.length
      (e.filename.length - filePrefix_.length - fileSuffix_.length) ++ fileSuffix_ := by
    push_neg at hps
    exact split_name _ _ _ (by omega) hps.1 hps.2
  have hmid : ∀ G, e.filename = filePrefix_ ++ Nat.toDigits 10 G ++ fileSuffix_ →
      substr e.filename filePrefix_.length
        (e.filename.length - filePrefix_.length - fileSuffix_.length) =
        Nat.toDigits 10 G := by
    intro G h
    have := (substr_of_split filePrefix_ (Nat.toDigits 10 G) fileSuffix_).2.2
    rw [← h] at this
    exact this
  cases hparse : string_to_uint 64 (substr e.filename filePrefix_.length
      (e.filename.length - filePrefix_.length - fileSuffix_.length)) with
  | none =>
    left
    refine ⟨fun G hG h => ?_, fun latest => ?_⟩
    · rw [hmid G h.2, string_to_uint_toDigits G (by omega)] at hparse
      exact Option.noConfusion hparse
    · unfold find_latest_body
      rw [if_neg (by simpa using hr)]
      dsimp only
      rw [if_neg hlen, if_neg hps, hparse]
  | some g =>
    by_cases hg : g > MaxGeneration
    · left
      refine ⟨fun G hG h => ?_, fun latest => ?_⟩
      · rw [hmid G h.2, string_to_uint_toDigits G (by omega)] at hparse
        have : G = g := Option.some.inj hparse
        omega
      · unfold find_latest_body
        rw [if_neg (by simpa using hr)]
        dsimp only
        rw [if_neg hlen, if_neg hps, hparse]
        dsimp only
        rw [if_pos hg]
    · right
      refine ⟨g, by omega, hr, ?_, fun latest => ?_⟩
      · have := string_to_uint_exact _ g (fun c hc => hn c (mem_substr hc)) hparse (by omega)
        rw [← this]
        exact hsplit
      · unfold find_latest_body
        rw [if_neg (by simpa using hr)]
        dsimp only
        rw [if_neg hlen, if_neg hps, hparse]
        dsimp only
        rw [if_neg hg]

theorem find_latest_fold (MaxGeneration : Nat) (hM : MaxGeneration < 1844674407370955161)
    (entries : List DirEntry) (hn : ∀ e ∈ entries, ∀ c ∈ e.filename, c.toNat ≠ 0) :
    (entries.foldl (find_latest_body MaxGeneration) InvalidGeneration = InvalidGeneration ∧
      ∀ G, G ≤ MaxGeneration → ¬ ∃ e ∈ entries, e.is_regular_file = true ∧
        e.filename = filePrefix_ ++ Nat.toDigits 10 G ++ fileSuffix_) ∨
    (entries.foldl (find_latest_body MaxGeneration) InvalidGeneration ≤ MaxGeneration ∧
      (∃ e ∈ entries, e.is_regular_file = true ∧
        e.filename = filePrefix_ ++
          Nat.toDigits 10 (entries.foldl (find_latest_body MaxGeneration) InvalidGeneration) ++
          fileSuffix_) ∧
      ∀ G, G ≤ MaxGeneration → (∃ e ∈ entries, e.is_regular_file = true ∧
        e.filename = filePrefix_ ++ Nat.toDigits 10 G ++ fileSuffix_) →
        G ≤ entries.foldl (find_latest_body MaxGeneration) InvalidGeneration) := by
  induction entries using List.reverseRecOn with
  | nil =>
    left
    refine ⟨rfl, fun G _ h => ?_⟩
    obtain ⟨e, he, -⟩ := h
    exact List.not_mem_nil _ he
  | append_singleton l x ih =>
    have ih := ih (fun e he => hn e (List.mem_append_left _ he))
    rw [List.foldl_append, List.foldl_cons, List.foldl_nil]
    have hInv : InvalidGeneration = 18446744073709551615 := rfl
    rcases find_latest_body_cases MaxGeneration hM x
        (hn x (List.mem_append_right _ (List.mem_singleton_self x))) with ⟨hno, hb⟩ | ⟨g, hg, hr, hname, hb⟩
    · rw [hb]
      have hiff : ∀ G, G ≤ MaxGeneration → ((∃ e ∈ l ++ [x], e.is_regular_file = true ∧
          e.filename = filePrefix_ ++ Nat.toDigits 10 G ++ fileSuffix_) ↔
          ∃ e ∈ l, e.is_regular_file = true ∧
          e.filename = filePrefix_ ++ Nat.toDigits 10 G ++ fileSuffix_) := by
        intro G hG
        constructor
        · rintro ⟨e, he, h⟩
          rcases List.mem_append.mp he with a | a
          · exact ⟨e, a, h⟩
          · rw [List.mem_singleton] at a
            subst a
            exact absurd h (hno G hG)
        · rintro ⟨e, he, h⟩
          exact ⟨e, List.mem_append_left _ he, h⟩
      rcases ih with ⟨i1, i2⟩ | ⟨i1, i2, i3⟩
      · left
        exact ⟨i1, fun G hG h => i2 G hG ((hiff G hG).mp h)⟩
      · right
        exact ⟨i1, (hiff _ i1).mpr i2, fun G hG h => i3 G hG ((hiff G hG).mp h)⟩
    · rw [hb]
      right
      have hx : x ∈ l ++ [x] := List.mem_append_right _ (List.mem_singleton_self x)
      have huniq : ∀ G, x.filename = filePrefix_ ++ Nat.toDigits 10 G ++ fileSuffix_ →
          G = g := by
        intro G h
        rw [hname] at h
        have h1 := List.append_cancel_right h
        have h2 := List.append_cancel_left h1
        exact (toDigits_inj h2).symm
      rcases ih with ⟨i1, i2⟩ | ⟨i1, i2, i3⟩
      · rw [i1, if_pos (Or.inl rfl)]
        refine ⟨hg, ⟨x, hx, hr, hname⟩, fun G hG h => ?_⟩
        obtain ⟨e, he, h1, h2⟩ := h
        rcases List.mem_append.mp he with a | a
        · exact absurd ⟨e, a, h1, h2⟩ (i2 G hG)
        · rw [List.mem_singleton] at a
          subst a
          exact le_of_eq (huniq G h2)
      · by_cases hgt : g > l.foldl (find_latest_body MaxGeneration) InvalidGeneration
        · rw [if_pos (Or.inr hgt)]
          refine ⟨hg, ⟨x, hx, hr, hname⟩, fun G hG h => ?_⟩
          obtain ⟨e, he, h1, h2⟩ := h
          rcases List.mem_append.mp he with a | a
          · have := i3 G hG ⟨e, a, h1, h2⟩
            omega
          · rw [List.mem_singleton] at a
            subst a
            exact le_of_eq (huniq G h2)
        · rw [if_neg (by
            rintro (a | a)
            · rw [a, hInv] at i1
              omega
            · exact hgt a)]
          obtain ⟨e0, he0, h0⟩ := i2
          refine ⟨i1, ⟨e0, List.mem_append_left _ he0, h0⟩, fun G hG h => ?_⟩
          obtain ⟨e, he, h1, h2⟩ := h
          rcases List.mem_append.mp he with a | a
          · exact i3 G hG ⟨e, a, h1, h2⟩
          · rw [List.mem_singleton] at a
            subst a
            have := huniq G h2
            omega

/-- Claim C31: when the iterator yields `entries` (with names free of the
character of code 0, as names of files are) and `MaxGeneration` is below
1844674407370955161, `find_latest` returns the largest `G <= MaxGeneration`
for which some regular file is named `gobb_analyzer_`, the canonical decimal
numeral of `G`, `.dat`; it returns `InvalidGeneration` when there is no such
`G`. -/
theorem find_latest_spec (MaxGeneration : Nat) (hM : MaxGeneration < 1844674407370955161)
    (entries : List DirEntry) (hn : ∀ e ∈ entries, ∀ c ∈ e.filename, c.toNat ≠ 0) :
    ((∃ G, G ≤ MaxGeneration ∧ ∃ e ∈ entries, e.is_regular_file = true ∧
        e.filename = filePrefix_ ++ Nat.toDigits 10 G ++ fileSuffix_) →
      find_latest MaxGeneration entries ≤ MaxGeneration ∧
      (∃ e ∈ entries, e.is_regular_file = true ∧
        e.filename = filePrefix_ ++ Nat.toDigits 10 (find_latest MaxGeneration entries) ++
          fileSuffix_) ∧
      ∀ G, G ≤ MaxGeneration → (∃ e ∈ entries, e.is_regular_file = true ∧
        e.filename = filePrefix_ ++ Nat.toDigits 10 G ++ fileSuffix_) →
        G ≤ find_latest MaxGeneration entries) ∧
    ((¬ ∃ G, G ≤ MaxGeneration ∧ ∃ e ∈ entries, e.is_regular_file = true ∧
        e.filename = filePrefix_ ++ Nat.toDigits 10 G ++ fileSuffix_) →
      find_latest MaxGeneration entries = InvalidGeneration) := by
  have hfl : find_latest MaxGeneration entries =
      entries.foldl (find_latest_body MaxGeneration) InvalidGeneration := by
    unfold find_latest
    dsimp only
    split_ifs with h
    · exact h.symm
    · rfl
  rw [hfl]
  have hInv : InvalidGeneration = 18446744073709551615 := rfl
  rcases find_latest_fold MaxGeneration hM entries hn with ⟨i1, i2⟩ | ⟨i1, i2, i3⟩
  · refine ⟨fun ⟨G, hG, h⟩ => absurd h (i2 G hG), fun _ => i1⟩
  · refine ⟨fun _ => ⟨i1, i2, i3⟩, fun h => ?_⟩
    exact absurd ⟨_, i1, i2⟩ h

theorem find_latest_spec_witness :
    (100 < 1844674407370955161) ∧
    (∀ e ∈ [DirEntry.mk true (filePrefix_ ++ ['7'] ++ fileSuffix_),
        DirEntry.mk true (filePrefix_ ++ ['1', '2'] ++ fileSuffix_),
        DirEntry.mk false (filePrefix_ ++ ['5', '0'] ++ fileSuffix_),
        DirEntry.mk true (filePrefix_ ++ ['0', '6', '0'] ++ fileSuffix_),
        DirEntry.mk true (filePrefix_ ++ ['1', '0', '1'] ++ fileSuffix_)],
      ∀ c ∈ e.filename, c.toNat ≠ 0) ∧
    find_latest 100 [DirEntry.mk true (filePrefix_ ++ ['7'] ++ fileSuffix_),
        DirEntry.mk true (filePrefix_ ++ ['1', '2'] ++ fileSuffix_),
        DirEntry.mk false (filePrefix_ ++ ['5', '0'] ++ fileSuffix_),
        DirEntry.mk true (filePrefix_ ++ ['0', '6', '0'] ++ fileSuffix_),
        DirEntry.mk true (filePrefix_ ++ ['1', '0', '1'] ++ fileSuffix_)] = 12 ∧
    ((¬ ∃ G, G ≤ 100 ∧ ∃ e ∈ [DirEntry.mk true (filePrefix_ ++ ['7'] ++ fileSuffix_),
        DirEntry.mk true (filePrefix_ ++ ['1', '2'] ++ fileSuffix_),
        DirEntry.mk false (filePrefix_ ++ ['5', '0'] ++ fileSuffix_),
        DirEntry.mk true (filePrefix_ ++ ['0', '6', '0'] ++ fileSuffix_),
        DirEntry.mk true (filePrefix_ ++ ['1', '0', '1'] ++ fileSuffix_)],
        e.is_regular_file = true ∧
        e.filename = filePrefix_ ++ Nat.toDigits 10 G ++ fileSuffix_) →
      find_latest 100 [DirEntry.mk true (filePrefix_ ++ ['7'] ++ fileSuffix_),
        DirEntry.mk true (filePrefix_ ++ ['1', '2'] ++ fileSuffix_),
        DirEntry.mk false (filePrefix_ ++ ['5', '0'] ++ fileSuffix_),
        DirEntry.mk true (filePrefix_ ++ ['0', '6', '0'] ++ fileSuffix_),
        DirEntry.mk true (filePrefix_ ++ ['1', '0', '1'] ++ fileSuffix_)] =
        InvalidGeneration) :=
  have hn : ∀ e ∈ [DirEntry.mk true (filePrefix_ ++ ['7'] ++ fileSuffix_),
        DirEntry.mk true (filePrefix_ ++ ['1', '2'] ++ fileSuffix_),
        DirEntry.mk false (filePrefix_ ++ ['5', '0'] ++ fileSuffix_),
        DirEntry.mk true (filePrefix_ ++ ['0', '6', '0'] ++ fileSuffix_),
        DirEntry.mk true (filePrefix_ ++ ['1', '0', '1'] ++ fileSuffix_)],
      ∀ c ∈ e.filename, c.toNat ≠ 0 := by decide
  ⟨by decide, hn, by decide, (find_latest_spec 100 (by decide) _ hn).2⟩

end gobb_analyzer

namespace gobb_analyzer

/-! ## Storing and loading a generation -/

theorem bytesAt_append (t : List Nat) (w a b : Nat) :
    bytesAt t w a ++ bytesAt t (w + a) b = bytesAt t w (a + b) := by
  unfold bytesAt
  rw [List.take_add, List.drop_drop]

theorem bytesAt_zero (t : List Nat) (w : Nat) : bytesAt t w 0 = [] := by
  unfold bytesAt
  exact List.take_zero _

theorem OFStream.write_ok {io : IoOutcomes} {ofs : OFStream} {b : List Nat}
    (h : (ofs.write io b).fail = false) :
    ofs.fail = false ∧ (ofs.write io b).content = ofs.content ++ b ∧
      (ofs.write io b).is_open = ofs.is_open := by
  unfold OFStream.write at h ⊢
  by_cases h1 : ofs.fail = true
  · rw [if_pos h1] at h
    exact absurd h (by simp [h1])
  · rw [if_neg h1] at h ⊢
    by_cases h2 : io.stream ofs.ops = true
    · rw [if_pos h2]
      exact ⟨by simpa using h1, rfl, rfl⟩
    · rw [if_neg h2] at h
      exact absurd h (by simp)

theorem OFStream.close_ok {io : IoOutcomes} {ofs : OFStream}
    (h : (ofs.close io).fail = false) :
    ofs.fail = false ∧ (ofs.close io).content = ofs.content ∧
      (ofs.close io).is_open = true := by
  unfold OFStream.close at h ⊢
  by_cases h1 : ofs.is_open = true ∧ io.stream ofs.ops = true
  · rw [if_pos h1] at h ⊢
    exact ⟨h, rfl, h1.1⟩
  · rw [if_neg h1] at h
    exact absurd h (by simp)

theorem store_loop_spec (io : IoOutcomes) (table : List Nat) (tableSize : Nat)
    (hsize : tableSize + maxIoSize < 2 ^ 64) :
    ∀ (fuel w : Nat) (ofs : OFStream), w ≤ tableSize → tableSize < w + fuel * maxIoSize →
      (∃ o, store_loop io table tableSize fuel w ofs = LoopResult.returned o) ∨
      (∃ w1 o, store_loop io table tableSize fuel w ofs = LoopResult.finished w1 o ∧
        w ≤ w1 ∧ w1 ≤ tableSize ∧
        (o.fail = false → ofs.fail = false ∧ o.is_open = ofs.is_open ∧
          o.content = ofs.content ++ bytesAt table w (w1 - w))) := by
  intro fuel
  induction fuel with
  | zero =>
    intro w ofs hw hf
    omega
  | succ fuel ih =>
    intro w ofs hw hf
    have hmul : (fuel + 1) * maxIoSize = fuel * maxIoSize + maxIoSize := Nat.succ_mul _ _
    have hmod : (w + maxIoSize) % 2 ^ 64 = w + maxIoSize := Nat.mod_eq_of_lt (by omega)
    rw [store_loop, hmod]
    by_cases hc : w + maxIoSize < tableSize
    · rw [if_pos hc]
      dsimp only
      by_cases hfail : (ofs.write io (bytesAt table w maxIoSize)).fail = true
      · left
        rw [if_pos hfail]
        exact ⟨_, rfl⟩
      · rw [if_neg hfail]
        have hfail : (ofs.write io (bytesAt table w maxIoSize)).fail = false := by
          simpa using hfail
        obtain ⟨k1, k2, k3⟩ := OFStream.write_ok hfail
        rcases ih (w + maxIoSize) (ofs.write io (bytesAt table w maxIoSize)) (by omega)
            (by omega) with ⟨o, e⟩ | ⟨w1, o, e, h1, h2, h3⟩
        · left
          exact ⟨o, e⟩
        · right
          refine ⟨w1, o, e, by omega, h2, fun ho => ?_⟩
          obtain ⟨g1, g2, g3⟩ := h3 ho
          refine ⟨k1, g2.trans k3, ?_⟩
          have hh : maxIoSize + (w1 - (w + maxIoSize)) = w1 - w := by omega
          rw [g3, k2, List.append_assoc, bytesAt_append, hh]
    · right
      rw [if_neg hc]
      refine ⟨w, ofs, rfl, le_refl _, hw, fun ho => ⟨ho, rfl, ?_⟩⟩
      rw [Nat.sub_self, bytesAt_zero, List.append_nil]

theorem file_path_ne_tmp (generation : Nat) : file_path generation ≠ tmp_file_path := by
  intro h
  have := congrArg (fun l => l.take 12) h
  simp [file_path, filePrefix_, tmp_file_path, tmpFile_] at this

theorem store_eq (MaxGeneration : Nat) (io : IoOutcomes) (dir : Directory)
    (generation : Nat) (stats table : List Nat) (tableSize : Nat)
    (h1 : ¬ generation > MaxGeneration)
    (h2 : ¬ (¬ dir.is_directory = true ∧ ¬ io.create_directories = true)) :
    store MaxGeneration io dir generation stats table tableSize =
      match store_loop io table tableSize (tableSize / maxIoSize + 1) 0
          ((OFStream.open io).write io stats) with
      | LoopResult.unfinished => none
      | LoopResult.returned ofs =>
        some (false, clean io ((ofs.close io).flushTo
          { is_directory := true, files := dir.files }))
      | LoopResult.finished writtenSize ofs =>
        if writtenSize < tableSize ∧
            (if writtenSize < tableSize then
              ofs.write io (bytesAt table writtenSize (tableSize - writtenSize))
            else ofs).fail = true then
          some (false, clean io (((if writtenSize < tableSize then
              ofs.write io (bytesAt table writtenSize (tableSize - writtenSize))
            else ofs).close io).flushTo { is_directory := true, files := dir.files }))
        else if ((if writtenSize < tableSize then
              ofs.write io (bytesAt table writtenSize (tableSize - writtenSize))
            else ofs).close io).fail = true then
          some (false, clean io (((if writtenSize < tableSize then
              ofs.write io (bytesAt table writtenSize (tableSize - writtenSize))
            else ofs).close io).flushTo { is_directory := true, files := dir.files }))
        else if ¬ io.rename = true then
          some (false, clean io (((if writtenSize < tableSize then
              ofs.write io (bytesAt table writtenSize (tableSize - writtenSize))
            else ofs).close io).flushTo { is_directory := true, files := dir.files }))
        else some (true, ((((if writtenSize < tableSize then
              ofs.write io (bytesAt table writtenSize (tableSize - writtenSize))
            else ofs).close io).flushTo { is_directory := true, files := dir.files }).put
            (file_path generation) ((if writtenSize < tableSize then
              ofs.write io (bytesAt table writtenSize (tableSize - writtenSize))
            else ofs).close io).content).erase tmp_file_path) := by
  unfold store
  rewrite [if_neg h1, if_neg h2]
  rfl

theorem fuel_suffices (tableSize : Nat) :
    tableSize < 0 + (tableSize / maxIoSize + 1) * maxIoSize := by
  have h := @Nat.lt_div_mul_add tableSize maxIoSize (by decide)
  rw [Nat.add_mul, Nat.one_mul, Nat.zero_add]
  exact h

theorem store_total (MaxGeneration : Nat) (io : IoOutcomes) (dir : Directory)
    (generation : Nat) (stats table : List Nat) (tableSize : Nat)
    (hsize : tableSize + maxIoSize < 2 ^ 64) :
    ∃ r, store MaxGeneration io dir generation stats table tableSize = some r := by
  by_cases h1 : generation > MaxGeneration
  · exact ⟨(false, dir), by unfold store; rw [if_pos h1]⟩
  by_cases h2 : ¬ dir.is_directory = true ∧ ¬ io.create_directories = true
  · exact ⟨(false, dir), by unfold store; rw [if_neg h1, if_pos h2]⟩
  rw [store_eq _ _ _ _ _ _ _ h1 h2]
  rcases store_loop_spec io table tableSize hsize (tableSize / maxIoSize + 1) 0
      ((OFStream.open io).write io stats) (Nat.zero_le _) (fuel_suffices tableSize) with
    ⟨o, e⟩ | ⟨w1, o, e, -⟩
  · rw [e]
    exact ⟨_, rfl⟩
  · rw [e]
    dsimp only
    split_ifs <;> exact ⟨_, rfl⟩

theorem store_true (MaxGeneration : Nat) (io : IoOutcomes) (dir : Directory)
    (generation : Nat) (stats table : List Nat) (tableSize : Nat)
    (hsize : tableSize + maxIoSize < 2 ^ 64) (hT : table.length = tableSize)
    (d : Directory)
    (h : store MaxGeneration io dir generation stats table tableSize = some (true, d)) :
    generation ≤ MaxGeneration ∧ d.files (file_path generation) = some (stats ++ table) := by
  by_cases h1 : generation > MaxGeneration
  · unfold store at h
    rw [if_pos h1] at h
    simp at h
  by_cases h2 : ¬ dir.is_directory = true ∧ ¬ io.create_directories = true
  · unfold store at h
    rw [if_neg h1, if_pos h2] at h
    simp at h
  rw [store_eq _ _ _ _ _ _ _ h1 h2] at h
  refine ⟨by omega, ?_⟩
  rcases store_loop_spec io table tableSize hsize (tableSize / maxIoSize + 1) 0
      ((OFStream.open io).write io stats) (Nat.zero_le _) (fuel_suffices tableSize) with
    ⟨o, e⟩ | ⟨w1, o, e, hw0, hw1, hcont⟩
  · rw [e] at h
    simp at h
  rw [e] at h
  dsimp only at h
  have hopen : (OFStream.open io).content = [] := rfl
  by_cases c1 : w1 < tableSize
  · simp only [if_pos c1] at h
    by_cases c2 : w1 < tableSize ∧
        (o.write io (bytesAt table w1 (tableSize - w1))).fail = true
    · rw [if_pos c2] at h
      simp at h
    rw [if_neg c2] at h
    by_cases c3 : ((o.write io (bytesAt table w1 (tableSize - w1))).close io).fail = true
    · rw [if_pos c3] at h
      simp at h
    rw [if_neg c3] at h
    by_cases c4 : ¬ io.rename = true
    · rw [if_pos c4] at h
      simp at h
    rw [if_neg c4] at h
    have hd := (congrArg Prod.snd (Option.some.inj h)).symm
    dsimp only at hd
    have hcl : ((o.write io (bytesAt table w1 (tableSize - w1))).close io).fail = false := by
      simpa using c3
    obtain ⟨a1, a2, -⟩ := OFStream.close_ok hcl
    obtain ⟨b1, b2, -⟩ := OFStream.write_ok a1
    obtain ⟨e1, -, e3⟩ := hcont b1
    obtain ⟨f1, f2, -⟩ := OFStream.write_ok e1
    have hb := bytesAt_append table 0 w1 (tableSize - w1)
    rw [Nat.zero_add] at hb
    rw [hd, a2, b2, e3, f2, hopen]
    unfold Directory.erase Directory.put
    dsimp only
    rw [if_neg (file_path_ne_tmp generation), if_pos rfl, List.nil_append,
      List.append_assoc, Nat.sub_zero, hb]
    unfold bytesAt
    rw [List.drop_zero, List.take_of_length_le (by omega)]
  · simp only [if_neg c1] at h
    rw [if_neg (fun c => c1 c.1)] at h
    by_cases c3 : (o.close io).fail = true
    · rw [if_pos c3] at h
      simp at h
    rw [if_neg c3] at h
    by_cases c4 : ¬ io.rename = true
    · rw [if_pos c4] at h
      simp at h
    rw [if_neg c4] at h
    have hd := (congrArg Prod.snd (Option.some.inj h)).symm
    dsimp only at hd
    have hcl : (o.close io).fail = false := by simpa using c3
    obtain ⟨a1, a2, -⟩ := OFStream.close_ok hcl
    obtain ⟨e1, -, e3⟩ := hcont a1
    obtain ⟨f1, f2, -⟩ := OFStream.write_ok e1
    rw [hd, a2, e3, f2, hopen]
    unfold Directory.erase Directory.put
    dsimp only
    rw [if_neg (file_path_ne_tmp generation), if_pos rfl, List.nil_append,
      Nat.sub_zero]
    unfold bytesAt
    rw [List.drop_zero, List.take_of_length_le (by omega)]

theorem read_spec (ifs : IFStream) (T T0 : List Nat) (w n : Nat) (hfail : ifs.fail = false)
    (hrest : ifs.rest = T.drop w) (hb : w + n ≤ T.length) (hlen : T0.length = T.length) :
    ifs.read (T.take w ++ T0.drop w) w n =
      ({ fail := false, rest := T.drop (w + n) }, T.take (w + n) ++ T0.drop (w + n)) := by
  unfold IFStream.read
  have hl : (T.take w).length = w := by
    rw [List.length_take]
    omega
  rw [if_neg (by simp [hfail]), if_neg (by rw [hrest, List.length_drop]; omega)]
  have h1 : (T.take w ++ T0.drop w).take w = T.take w := by
    rw [List.take_append_of_le_length (by omega), List.take_of_length_le (by omega)]
  have h2 : (T.take w ++ T0.drop w).drop (w + n) = T0.drop (w + n) := by
    have := @List.drop_append Nat (T.take w) (T0.drop w) n
    rw [hl] at this
    rw [this, List.drop_drop]
  rw [h1, h2, hrest, List.drop_drop, List.take_add]

theorem load_loop_spec (T T0 : List Nat) (tableSize : Nat)
    (hsize : tableSize + maxIoSize < 2 ^ 64) (hT : T.length = tableSize)
    (hT0 : T0.length = tableSize) :
    ∀ (fuel w : Nat) (ifs : IFStream), ifs.fail = false → ifs.rest = T.drop w →
      w ≤ tableSize → tableSize < w + fuel * maxIoSize →
      ∃ w1 ifs1, load_loop tableSize fuel w (ifs, T.take w ++ T0.drop w) =
          LoopResult.finished w1 (ifs1, T.take w1 ++ T0.drop w1) ∧
        w1 ≤ tableSize ∧ ifs1.fail = false ∧ ifs1.rest = T.drop w1 := by
  intro fuel
  induction fuel with
  | zero =>
    intro w ifs _ _ hw hf
    omega
  | succ fuel ih =>
    intro w ifs hfail hrest hw hf
    have hmul : (fuel + 1) * maxIoSize = fuel * maxIoSize + maxIoSize := Nat.succ_mul _ _
    have hmod : (w + maxIoSize) % 2 ^ 64 = w + maxIoSize := Nat.mod_eq_of_lt (by omega)
    rw [load_loop, hmod]
    by_cases hc : w + maxIoSize < tableSize
    · rw [if_pos hc]
      dsimp only
      rw [read_spec ifs T T0 w maxIoSize hfail hrest (by omega) (by omega)]
      dsimp only
      rw [if_neg (by simp)]
      exact ih (w + maxIoSize) _ rfl rfl (by omega) (by omega)
    · rw [if_neg hc]
      exact ⟨w, ifs, rfl, hw, hfail, hrest⟩

theorem load_stored (MaxGeneration : Nat) (d : Directory) (generation : Nat)
    (S T S0 T0 : List Nat) (tableSize : Nat) (hG : generation ≤ MaxGeneration)
    (hfile : d.files (file_path generation) = some (S ++ T))
    (hsize : tableSize + maxIoSize < 2 ^ 64) (hT : T.length = tableSize)
    (hS0 : S0.length = S.length) (hT0 : T0.length = tableSize) :
    load MaxGeneration d generation S0 T0 tableSize = some (true, S, T) := by
  unfold load
  rw [if_neg (by omega)]
  dsimp only
  have hopen : IFStream.open d (file_path generation) = { fail := false, rest := S ++ T } := by
    unfold IFStream.open
    rw [hfile]
  have hstats : IFStream.read { fail := false, rest := S ++ T } S0 0 S0.length =
      ({ fail := false, rest := T }, S) := by
    unfold IFStream.read
    rw [if_neg (by simp), if_neg (by simp only [List.length_append]; omega)]
    rw [hS0, List.take_zero, List.nil_append, List.drop_left, List.take_left, Nat.zero_add,
      ← hS0, List.drop_length, List.append_nil]
  rw [hopen, hstats]
  dsimp only
  obtain ⟨w1, ifs1, e, hw1, hf1, hr1⟩ := load_loop_spec T T0 tableSize hsize hT hT0
    (tableSize / maxIoSize + 1) 0 { fail := false, rest := T } rfl rfl (Nat.zero_le _)
    (fuel_suffices tableSize)
  rw [List.take_zero, List.nil_append, List.drop_zero] at e
  rw [e]
  dsimp only
  have hfin : T.take tableSize ++ T0.drop tableSize = T := by
    rw [List.take_of_length_le (by omega), List.drop_of_length_le (by omega),
      List.append_nil]
  by_cases c1 : w1 < tableSize
  · have hread := read_spec ifs1 T T0 w1 (tableSize - w1) hf1 hr1 (by omega) (by omega)
    rw [Nat.add_sub_cancel' (by omega : w1 ≤ tableSize), hfin] at hread
    simp only [if_pos c1]
    rw [hread]
    dsimp only
    rw [if_neg (by simp), if_neg (by simp [IFStream.close])]
  · have hw : w1 = tableSize := by omega
    rw [hw, hfin]
    simp only [if_neg (Nat.lt_irrefl tableSize)]
    rw [if_neg (by simp), if_neg (by simp [IFStream.close, hf1])]

/-- Claim C32: for statistics bytes `S`, table bytes `T` of `size` bytes (with
`size + maxIoSize` below 2^64) and whatever the outcomes `io` of the
operations of `store` are, `store` returns; if it returns true for a
generation `G` then `G <= MaxGeneration` and `load` of `G` with the same size,
from the directory that `store` left, returns true and gives exactly `S` and
`T`, whatever the two objects held before; for `G > MaxGeneration` both
`store` and `load` return false and change nothing. -/
theorem store_load_round_trip (MaxGeneration : Nat) (io : IoOutcomes) (dir : Directory)
    (G : Nat) (S T : List Nat) (size : Nat) (hsize : size + maxIoSize < 2 ^ 64)
    (hT : T.length = size) (S0 T0 : List Nat) (hS0 : S0.length = S.length)
    (hT0 : T0.length = size) :
    (∃ r, store MaxGeneration io dir G S T size = some r) ∧
    (∀ d, store MaxGeneration io dir G S T size = some (true, d) →
      G ≤ MaxGeneration ∧ load MaxGeneration d G S0 T0 size = some (true, S, T)) ∧
    (G > MaxGeneration →
      (∃ d, store MaxGeneration io dir G S T size = some (false, d)) ∧
      load MaxGeneration dir G S0 T0 size = some (false, S0, T0)) := by
  refine ⟨store_total MaxGeneration io dir G S T size hsize, fun d h => ?_, fun hG => ?_⟩
  · obtain ⟨h1, h2⟩ := store_true MaxGeneration io dir G S T size hsize hT d h
    exact ⟨h1, load_stored MaxGeneration d G S T S0 T0 size h1 h2 hsize hT hS0 hT0⟩
  · refine ⟨⟨dir, ?_⟩, ?_⟩
    · unfold store
      rw [if_pos hG]
    · unfold load
      rw [if_pos hG]

theorem store_load_round_trip_witness :
    (3 + maxIoSize < 2 ^ 64) ∧ [3, 4, 5].length = 3 ∧ [0, 0].length = [1, 2].length ∧
    [0, 0, 0].length = 3 ∧
    (∃ d, store 10
        { create_directories := true, stream := fun _ => true, rename := true,
          remove := true }
        { is_directory := false, files := fun _ => none } 7 [1, 2] [3, 4, 5] 3 =
        some (true, d)) ∧
    (∀ d, store 10
        { create_directories := true, stream := fun _ => true, rename := true,
          remove := true }
        { is_directory := false, files := fun _ => none } 7 [1, 2] [3, 4, 5] 3 =
        some (true, d) →
      7 ≤ 10 ∧ load 10 d 7 [0, 0] [0, 0, 0] 3 = some (true, [1, 2], [3, 4, 5])) :=
  ⟨by decide, rfl, rfl, rfl, ⟨_, rfl⟩,
    (store_load_round_trip 10
      { create_directories := true, stream := fun _ => true, rename := true,
        remove := true }
      { is_directory := false, files := fun _ => none } 7 [1, 2] [3, 4, 5] 3 (by decide) rfl
      [0, 0] [0, 0, 0] rfl rfl).2.1⟩

end gobb_analyzer

namespace gobb_analyzer

open Position

/-! ## Moves under the symmetries -/

theorem transform_LocationId_on_board {t : TransformerId}
    (ht : is_valid_TransformerId t = true) (a : LocationId) :
    is_on_board_locationId (transform_LocationId t a) = is_on_board_locationId a := by
  revert t a
  decide

theorem transform_LocationId_valid_eq {t : TransformerId}
    (ht : is_valid_TransformerId t = true) (a : LocationId) :
    is_valid_locationId (transform_LocationId t a) = is_valid_locationId a := by
  revert t a
  decide

theorem transform_LocationId_inj_all {t : TransformerId}
    (ht : is_valid_TransformerId t = true) {a b : LocationId}
    (h : transform_LocationId t a = transform_LocationId t b) : a = b := by
  revert t a b
  decide

theorem transform_LocationId_out_eq {t : TransformerId}
    (ht : is_valid_TransformerId t = true) :
    transform_LocationId t LocationId.Out = LocationId.Out := by
  revert t
  decide

theorem replaceOne_transform (p : LocationIdPair) (src dst : LocationId) {t : TransformerId}
    (ht : is_valid_TransformerId t = true) :
    (p.transform t).replaceOne (transform_LocationId t src) (transform_LocationId t dst) =
      (p.replaceOne src dst).transform t := by
  obtain ⟨a, b⟩ := p
  rw [pair_transform_eq]
  dsimp only
  by_cases ha : a = src
  · subst ha
    have er : (LocationIdPair.mk a b).replaceOne a dst = nonAscending dst b := by
      unfold LocationIdPair.replaceOne
      rw [if_pos rfl]
    rw [er, nonAscending_transform]
    unfold nonAscending
    by_cases hge : (transform_LocationId t a).toNat ≥ (transform_LocationId t b).toNat
    · rw [if_pos hge]
      unfold LocationIdPair.replaceOne
      rw [if_pos rfl]
      rfl
    · rw [if_neg hge]
      unfold LocationIdPair.replaceOne
      dsimp only
      by_cases hb : transform_LocationId t b = transform_LocationId t a
      · rw [if_pos hb, hb]
        rfl
      · rw [if_neg hb, if_pos rfl]
        exact nonAscending_comm _ _
  · by_cases hb : b = src
    · subst hb
      have er : (LocationIdPair.mk a b).replaceOne b dst = nonAscending a dst := by
        unfold LocationIdPair.replaceOne
        rw [if_neg ha, if_pos rfl]
      have hne : transform_LocationId t a ≠ transform_LocationId t b :=
        fun e => ha (transform_LocationId_inj_all ht e)
      rw [er, nonAscending_transform]
      unfold nonAscending
      by_cases hge : (transform_LocationId t a).toNat ≥ (transform_LocationId t b).toNat
      · rw [if_pos hge]
        unfold LocationIdPair.replaceOne
        rw [if_neg hne, if_pos rfl]
        rfl
      · rw [if_neg hge]
        unfold LocationIdPair.replaceOne
        rw [if_pos rfl]
        exact nonAscending_comm _ _
    · have er : (LocationIdPair.mk a b).replaceOne src dst = LocationIdPair.mk a b := by
        unfold LocationIdPair.replaceOne
        rw [if_neg ha, if_neg hb]
      have hna : transform_LocationId t a ≠ transform_LocationId t src :=
        fun e => ha (transform_LocationId_inj_all ht e)
      have hnb : transform_LocationId t b ≠ transform_LocationId t src :=
        fun e => hb (transform_LocationId_inj_all ht e)
      rw [er, pair_transform_eq]
      dsimp only
      unfold nonAscending
      by_cases hge : (transform_LocationId t a).toNat ≥ (transform_LocationId t b).toNat
      · rw [if_pos hge]
        unfold LocationIdPair.replaceOne
        rw [if_neg hna, if_neg hnb]
      · rw [if_neg hge]
        unfold LocationIdPair.replaceOne
        rw [if_neg hnb, if_neg hna]

theorem pairsAfter_transform (pairs : PieceId → LocationIdPair) (piece : PieceId)
    (src dst : LocationId) {t : TransformerId} (ht : is_valid_TransformerId t = true)
    (k : PieceId) :
    pairsAfter (fun j => (pairs j).transform t) piece (transform_LocationId t src)
        (transform_LocationId t dst) k =
      (pairsAfter pairs piece src dst k).transform t := by
  unfold pairsAfter
  by_cases hk : k = piece
  · rw [if_pos hk, if_pos hk]
    exact replaceOne_transform _ _ _ ht
  · rw [if_neg hk, if_neg hk]

theorem pairsAfter_congr {pairs pairs' : PieceId → LocationIdPair}
    (h : ∀ k ∈ PieceIds, pairs k = pairs' k) {piece : PieceId} (hp : piece ∈ PieceIds)
    (src dst : LocationId) :
    ∀ k ∈ PieceIds, pairsAfter pairs piece src dst k = pairsAfter pairs' piece src dst k := by
  intro k hk
  unfold pairsAfter
  by_cases e : k = piece
  · rw [if_pos e, if_pos e, h piece hp]
  · rw [if_neg e, if_neg e, h k hk]

theorem hasLine_transform_iff {pairs : PieceId → LocationIdPair} (h : legalPairs pairs)
    {t : TransformerId} (ht : is_valid_TransformerId t = true) (player : PlayerId) :
    hasLine (fun k => (pairs k).transform t) player ↔ hasLine pairs player := by
  constructor
  · intro hl
    have h2 := hasLine_transform (legalPairs_transform h ht) (invert_Transformer_valid ht) hl
    refine hasLine_congr (fun k hk => ?_) h2
    obtain ⟨v0, v1⟩ := legalPairs_valid h hk
    exact pair_transform_invert (pairs k) ht v0 v1 (legalPairs_sorted h hk)
  · exact hasLine_transform h ht

namespace Position

theorem transform_lastPlaced {T : QuadTables} {p : Position} (hp : p.Wellformed T)
    {t : TransformerId} (ht : is_valid_TransformerId t = true) {loc : LocationId}
    (hl : is_on_board_locationId loc = true) :
    (p.transform T t).largestPieces_ (transform_LocationId t loc) = p.largestPieces_ loc := by
  have hb : is_on_board_locationId (transform_LocationId t loc) = true := by
    rw [transform_LocationId_on_board ht]
    exact hl
  rw [transform_largest hp.valid ht hb, hp.largest_lastPlaced hl,
    lastPlaced_congr (transform_piecePairs hp.valid ht),
    lastPlaced_transform hp.legal ht (LocationId.valid_of_on_board hl)]

theorem transform_occupied {T : QuadTables} {p : Position} (hp : p.Wellformed T)
    {t : TransformerId} (ht : is_valid_TransformerId t = true) {piece : PieceId}
    (hk : piece ∈ PieceIds) (src : LocationId) :
    (((p.transform T t).piecePairs_ piece).locations0 ≠ transform_LocationId t src ∧
      ((p.transform T t).piecePairs_ piece).locations1 ≠ transform_LocationId t src) ↔
    ((p.piecePairs_ piece).locations0 ≠ src ∧ (p.piecePairs_ piece).locations1 ≠ src) := by
  rw [transform_piecePairs hp.valid ht piece hk, pair_transform_eq]
  have i0 : transform_LocationId t (p.piecePairs_ piece).locations0 =
      transform_LocationId t src ↔ (p.piecePairs_ piece).locations0 = src :=
    ⟨transform_LocationId_inj_all ht, fun e => by rw [e]⟩
  have i1 : transform_LocationId t (p.piecePairs_ piece).locations1 =
      transform_LocationId t src ↔ (p.piecePairs_ piece).locations1 = src :=
    ⟨transform_LocationId_inj_all ht, fun e => by rw [e]⟩
  unfold nonAscending
  split_ifs
  · dsimp only
    rw [Ne, Ne, i0, i1]
  · dsimp only
    rw [Ne, Ne, i0, i1]
    exact and_comm

theorem movePreconditions_transform {T : QuadTables} (hT : T.Valid) {p : Position}
    (hp : p.Wellformed T) {t : TransformerId} (ht : is_valid_TransformerId t = true)
    (piece : PieceId) (src dst : LocationId) :
    (p.transform T t).movePreconditions piece (transform_LocationId t src)
        (transform_LocationId t dst) ↔ p.movePreconditions piece src dst := by
  have hq := transform_wellformed hT hp ht
  rw [movePreconditions_iff, movePreconditions_iff]
  by_cases h2 : playerId_of_pieceId piece = PlayerId.Active
  swap
  · simp [h2]
  have hk : piece ∈ PieceIds := owner_cases (Or.inl h2)
  by_cases h4 : is_valid_locationId src = true
  swap
  · simp [h4, transform_LocationId_valid_eq ht]
  by_cases h5 : is_on_board_locationId dst = true
  swap
  · simp [h5, transform_LocationId_on_board ht]
  have e3 := transform_occupied hp ht hk src
  have e6 : (transform_LocationId t src ≠ LocationId.Out ∧
      (p.transform T t).largestPieces_ (transform_LocationId t src) ≠ piece) ↔
      (src ≠ LocationId.Out ∧ p.largestPieces_ src ≠ piece) := by
    rcases LocationId.valid_cases.mp h4 with e | e
    · subst e
      simp [transform_LocationId_out_eq ht]
    · rw [transform_lastPlaced hp ht e, Ne, transform_LocationId_out ht h4]
  have e8 : transform_LocationId t src = transform_LocationId t dst ↔ src = dst :=
    ⟨transform_LocationId_inj_all ht, fun e => by rw [e]⟩
  rw [e3, e6, e8, transform_lastPlaced hp ht h5, transform_LocationId_valid_eq ht,
    transform_LocationId_on_board ht]
  simp only [hq.valid, hp.valid]

theorem moveBackPreconditions_transform {T : QuadTables} (hT : T.Valid) {p : Position}
    (hp : p.Wellformed T) {t : TransformerId} (ht : is_valid_TransformerId t = true)
    (piece : PieceId) (src dst : LocationId) :
    (p.transform T t).moveBackPreconditions piece (transform_LocationId t src)
        (transform_LocationId t dst) ↔ p.moveBackPreconditions piece src dst := by
  have hq := transform_wellformed hT hp ht
  rw [moveBackPreconditions_iff, moveBackPreconditions_iff]
  by_cases h2 : playerId_of_pieceId piece = PlayerId.Inactive
  swap
  · simp [h2]
  have hk : piece ∈ PieceIds := owner_cases (Or.inr h2)
  by_cases h4 : is_on_board_locationId src = true
  swap
  · simp [h4, transform_LocationId_on_board ht]
  by_cases h5 : is_valid_locationId dst = true
  swap
  · simp [h5, transform_LocationId_valid_eq ht]
  have e3 := transform_occupied hp ht hk src
  have e7 : (transform_LocationId t dst ≠ LocationId.Out ∧
      (pieceSize_of_pieceId
        ((p.transform T t).largestPieces_ (transform_LocationId t dst))).toNat ≥
        (pieceSize_of_pieceId piece).toNat) ↔
      (dst ≠ LocationId.Out ∧
        (pieceSize_of_pieceId (p.largestPieces_ dst)).toNat ≥
          (pieceSize_of_pieceId piece).toNat) := by
    rcases LocationId.valid_cases.mp h5 with e | e
    · subst e
      simp [transform_LocationId_out_eq ht]
    · rw [transform_lastPlaced hp ht e, Ne, transform_LocationId_out ht h5]
  have e8 : transform_LocationId t src = transform_LocationId t dst ↔ src = dst :=
    ⟨transform_LocationId_inj_all ht, fun e => by rw [e]⟩
  rw [e3, e7, e8, transform_lastPlaced hp ht h4, transform_LocationId_valid_eq ht,
    transform_LocationId_on_board ht]
  simp only [hq.valid, hp.valid]

/-- The pick-up test of a transformed position. -/
theorem picked_winner_transform {T : QuadTables} (hT : T.Valid) {p : Position}
    (hp : p.Wellformed T) {t : TransformerId} (ht : is_valid_TransformerId t = true)
    {piece : PieceId} (hk : piece ∈ PieceIds) (src : LocationId) (player : PlayerId) :
    ((((p.transform T t).updatePiece piece (transform_LocationId t src)
        LocationId.Out).update_largestPieces).is_winner player = true) ↔
      (((p.updatePiece piece src LocationId.Out).update_largestPieces).is_winner player =
        true) := by
  have hq := transform_wellformed hT hp ht
  rw [picked_is_winner_iff hq, picked_is_winner_iff hp,
    ← hasLine_transform_iff (legalPairs_picked hp.legal piece src) ht]
  have hc : ∀ k ∈ PieceIds,
      pairsAfter (p.transform T t).piecePairs_ piece (transform_LocationId t src)
        LocationId.Out k =
      (pairsAfter p.piecePairs_ piece src LocationId.Out k).transform t := by
    intro k hk1
    rw [pairsAfter_congr (transform_piecePairs hp.valid ht) hk _ _ k hk1]
    have := pairsAfter_transform p.piecePairs_ piece src LocationId.Out ht k
    rw [transform_LocationId_out_eq ht] at this
    exact this
  exact ⟨hasLine_congr hc, hasLine_congr (fun k hk1 => (hc k hk1).symm)⟩

theorem move_status_transform {T : QuadTables} (hT : T.Valid) {p : Position}
    (hp : p.Wellformed T) {t : TransformerId} (ht : is_valid_TransformerId t = true)
    (piece : PieceId) (src dst : LocationId) :
    ((p.transform T t).move T piece (transform_LocationId t src)
        (transform_LocationId t dst)).status = (p.move T piece src dst).status := by
  by_cases hpre : p.movePreconditions piece src dst
  · have hpre' := (movePreconditions_transform hT hp ht piece src dst).mpr hpre
    have hk := (hp.move_checked hpre).1
    rw [move_of_pre hpre, move_of_pre hpre']
    by_cases hs : src = LocationId.Out
    · subst hs
      rw [transform_LocationId_out_eq ht, if_neg (by simp), if_neg (by simp),
        putAndFinish_status, putAndFinish_status]
    · have hs' : transform_LocationId t src ≠ LocationId.Out :=
        fun e => hs (transform_LocationId_inj_all ht
          (e.trans (transform_LocationId_out_eq ht).symm))
      rw [if_pos hs, if_pos hs']
      have hw := picked_winner_transform hT hp ht hk src PlayerId.Inactive
      by_cases hwin : ((p.updatePiece piece src LocationId.Out).update_largestPieces).is_winner
          PlayerId.Inactive = true
      · rw [if_pos hwin, if_pos (hw.mpr hwin)]
      · rw [if_neg hwin, if_neg (fun c => hwin (hw.mp c)), putAndFinish_status,
          putAndFinish_status]
  · have hpre' := fun c => hpre ((movePreconditions_transform hT hp ht piece src dst).mp c)
    rw [move_of_not_pre hpre, move_of_not_pre hpre']

theorem move_back_status_transform {T : QuadTables} (hT : T.Valid) {p : Position}
    (hp : p.Wellformed T) {t : TransformerId} (ht : is_valid_TransformerId t = true)
    (piece : PieceId) (src dst : LocationId) :
    ((p.transform T t).move_back T piece (transform_LocationId t src)
        (transform_LocationId t dst)).status = (p.move_back T piece src dst).status := by
  by_cases hpre : p.moveBackPreconditions piece src dst
  · have hpre' := (moveBackPreconditions_transform hT hp ht piece src dst).mpr hpre
    have hk := (hp.move_back_checked hpre).1
    rw [move_back_of_pre hpre, move_back_of_pre hpre']
    have hw := picked_winner_transform hT hp ht hk src PlayerId.Active
    by_cases hwin : ((p.updatePiece piece src LocationId.Out).update_largestPieces).is_winner
        PlayerId.Active = true
    · rw [if_pos hwin, if_pos (hw.mpr hwin)]
    · rw [if_neg hwin, if_neg (fun c => hwin (hw.mp c)), putAndFinish_status,
        putAndFinish_status]
  · have hpre' := fun c => hpre ((moveBackPreconditions_transform hT hp ht piece src dst).mp c)
    rw [move_back_of_not_pre hpre, move_back_of_not_pre hpre']

/-- The id of the result of a move in the transformed position, from the
description of the two results on the piece pairs. -/
theorem result_id_transform {T : QuadTables} {p r r' : Position}
    (hp : p.Wellformed T) {t : TransformerId} (ht : is_valid_TransformerId t = true)
    {piece : PieceId} (hk : piece ∈ PieceIds) (src dst : LocationId)
    (hr : r.Wellformed T) (hr' : r'.Wellformed T)
    (hc : r.activePlayerColor_ = invert_playerColor p.activePlayerColor_)
    (hc' : r'.activePlayerColor_ = invert_playerColor (p.transform T t).activePlayerColor_)
    (hpairs : r.piecePairs_ =
      fun j => pairsAfter p.piecePairs_ piece src dst (invert_playerId_of_pieceId j))
    (hpairs' : r'.piecePairs_ =
      fun j => pairsAfter (p.transform T t).piecePairs_ piece (transform_LocationId t src)
        (transform_LocationId t dst) (invert_playerId_of_pieceId j)) :
    r'.id_ = (r.transform T t).id_ := by
  rw [hr'.id_computed, transform_id hr.valid ht, hc, hc', transform_color hp.valid ht,
    hpairs, hpairs']
  apply computedId_congr
  intro k hk1
  show pairsAfter (p.transform T t).piecePairs_ piece (transform_LocationId t src)
      (transform_LocationId t dst) (invert_playerId_of_pieceId k) =
    (pairsAfter p.piecePairs_ piece src dst (invert_playerId_of_pieceId k)).transform t
  rw [pairsAfter_congr (transform_piecePairs hp.valid ht) hk _ _ _ (invert_mem hk1)]
  exact pairsAfter_transform p.piecePairs_ piece src dst ht _

end Position

/-- Claim C35: for a valid position `p`, a transformer `t` of `TransformerIds`
and any piece, source and destination, the move of the transformed position
between the transformed locations has the status of the move of `p`, and when
that status is Success the id of its position is the id of the transformed
result of the move of `p`; the same holds for `move_back`. -/
theorem move_commutes_with_transform (T : QuadTables) (hT : T.Valid) (p : Position)
    (hp : p.Wellformed T) (t : TransformerId) (ht : t ∈ TransformerIds) (piece : PieceId)
    (src dst : LocationId) :
    (((p.transform T t).move T piece (transform_LocationId t src)
        (transform_LocationId t dst)).status = (p.move T piece src dst).status ∧
      ((p.move T piece src dst).status = MoveResultStatus.Success →
        ((p.transform T t).move T piece (transform_LocationId t src)
          (transform_LocationId t dst)).position.id =
          ((p.move T piece src dst).position.transform T t).id)) ∧
    (((p.transform T t).move_back T piece (transform_LocationId t src)
        (transform_LocationId t dst)).status = (p.move_back T piece src dst).status ∧
      ((p.move_back T piece src dst).status = MoveResultStatus.Success →
        ((p.transform T t).move_back T piece (transform_LocationId t src)
          (transform_LocationId t dst)).position.id =
          ((p.move_back T piece src dst).position.transform T t).id)) := by
  have htv : is_valid_TransformerId t = true := by
    rw [mem_TransformerIds_iff] at ht
    exact ht
  have hq := Position.transform_wellformed hT hp htv
  refine ⟨⟨Position.move_status_transform hT hp htv piece src dst, fun hs => ?_⟩,
    ⟨Position.move_back_status_transform hT hp htv piece src dst, fun hs => ?_⟩⟩
  · have hs' := (Position.move_status_transform hT hp htv piece src dst).trans hs
    obtain ⟨hpre, hr, hc, hpairs⟩ := Position.move_success_spec hT hp hs
    obtain ⟨-, hr', hc', hpairs'⟩ := Position.move_success_spec hT hq hs'
    exact Position.result_id_transform hp htv (hp.move_checked hpre).1 src dst hr hr' hc hc'
      hpairs hpairs'
  · have hs' := (Position.move_back_status_transform hT hp htv piece src dst).trans hs
    obtain ⟨hpre, hr, hc, hpairs⟩ := Position.move_back_success_spec hT hp hs
    obtain ⟨-, hr', hc', hpairs'⟩ := Position.move_back_success_spec hT hq hs'
    exact Position.result_id_transform hp htv (hp.move_back_checked hpre).1 src dst hr hr'
      hc hc' hpairs hpairs'

theorem move_commutes_with_transform_witness :
    stdTables.Valid ∧ (Position.ofId stdTables 0).Wellformed stdTables ∧
    TransformerId.Rotate90 ∈ TransformerIds ∧
    ((((Position.ofId stdTables 0).transform stdTables TransformerId.Rotate90).move stdTables
        PieceId.ActivePlayerSmall (transform_LocationId TransformerId.Rotate90 LocationId.Out)
        (transform_LocationId TransformerId.Rotate90 LocationId.NW)).status =
      ((Position.ofId stdTables 0).move stdTables PieceId.ActivePlayerSmall LocationId.Out
        LocationId.NW).status ∧
      (((Position.ofId stdTables 0).move stdTables PieceId.ActivePlayerSmall LocationId.Out
        LocationId.NW).status = MoveResultStatus.Success →
        (((Position.ofId stdTables 0).transform stdTables TransformerId.Rotate90).move stdTables
          PieceId.ActivePlayerSmall (transform_LocationId TransformerId.Rotate90 LocationId.Out)
          (transform_LocationId TransformerId.Rotate90 LocationId.NW)).position.id =
        (((Position.ofId stdTables 0).move stdTables PieceId.ActivePlayerSmall LocationId.Out
          LocationId.NW).position.transform stdTables TransformerId.Rotate90).id)) :=
  ⟨stdTables_valid, @Position.ofId_wellformed stdTables stdTables_valid 0 (by decide),
    by decide,
    (move_commutes_with_transform stdTables stdTables_valid (Position.ofId stdTables 0)
      (@Position.ofId_wellformed stdTables stdTables_valid 0 (by decide))
      TransformerId.Rotate90 (by decide) PieceId.ActivePlayerSmall LocationId.Out
      LocationId.NW).1⟩

end gobb_analyzer

namespace gobb_analyzer

open Position

/-! ## Soundness of the Won labels -/

theorem minimize_id_of_id {T : QuadTables} (hT : T.Valid) {m : Position}
    (hm : m.Wellformed T) : m.minimize_id T = (Position.ofId T m.id_).minimize_id T := by
  have hq := ofId_wellformed hT hm.lt
  have hd := hm.decode_piecePairs hT
  apply le_antisymm
  · apply minimize_id_le_of hT hm hq
    intro t ht
    refine ⟨t, ht, ?_⟩
    apply computedId_congr
    intro k hk
    show ((Position.ofId T m.id_).piecePairs_ k).transform t = (m.piecePairs_ k).transform t
    rw [hd k hk]
  · apply minimize_id_le_of hT hq hm
    intro t ht
    refine ⟨t, ht, ?_⟩
    apply computedId_congr
    intro k hk
    show (m.piecePairs_ k).transform t = ((Position.ofId T m.id_).piecePairs_ k).transform t
    rw [hd k hk]

theorem minimize_id_rep {T : QuadTables} (hT : T.Valid) {i : Nat}
    (hi : i < PieceSetCombinationNums)
    (hrep : ∀ t ∈ EffectiveTransformerIds, ¬ transformedId T t i < i) :
    (Position.ofId T i).minimize_id T = i := by
  obtain ⟨⟨t0, ht0, e0⟩, hmin⟩ := minimize_id_ofId hT hi
  have h1 := hmin TransformerId.Unchange (by decide)
  rw [transformedId_unchange hT hi] at h1
  rcases valid_transformer_cases ht0 with e | e
  · rw [e0, e, transformedId_unchange hT hi]
  · have := hrep t0 e
    omega

theorem status_kept {d d' : AnalysisData} (h : cellStep d d')
    (hu : status_of_analysisData d ≠ AnalysisStatus.Unfixed) :
    status_of_analysisData d' = status_of_analysisData d := by
  by_contra hne
  exact hu (h.1 hne).1

namespace Analyzer

/-- A cell that a step of the pass turns from Unfixed to Won is reached by a
retrograde move from the cell of the step, which is Lost or LostStalemate
afterwards. -/
theorem gen_body_new_won (T : QuadTables) (MaxTurn : Nat)
    (s : Bool × Analyzer × AnalysisStatistics) (i : Nat) (hi : i < PositionIdNums) (c : Nat)
    (hu : status_of_analysisData (s.2.1.analysisDataTable_ c) = AnalysisStatus.Unfixed)
    (hw : status_of_analysisData
      ((analyze_generation_body T MaxTurn s i).2.1.analysisDataTable_ c) = AnalysisStatus.Won) :
    c ∈ moveBackTargets T (Position.ofId T i) ∧
    status_of_analysisData (s.2.1.analysisDataTable_ i) ≠ AnalysisStatus.Transformed ∧
    (status_of_analysisData
        ((analyze_generation_body T MaxTurn s i).2.1.analysisDataTable_ i) =
        AnalysisStatus.Lost ∨
      status_of_analysisData
        ((analyze_generation_body T MaxTurn s i).2.1.analysisDataTable_ i) =
        AnalysisStatus.LostStalemate) := by
  have hid : (Position.ofId T i).id = i := ofId_id hi
  rcases gen_body_cases T MaxTurn s i with ⟨_, e⟩ | ⟨_, h2, e⟩ | ⟨_, _, e⟩ | ⟨_, _, _, e⟩ |
    ⟨_, h3, n, _, e⟩ | ⟨_, _, _, _, _, e⟩
  · rw [e, hu] at hw
    exact absurd hw (by decide)
  · rw [e] at hw ⊢
    dsimp only at hw ⊢
    obtain ⟨N, hN⟩ := lost_table T MaxTurn (s.2.1.clearFlag i) s.2.2 (Position.ofId T i)
    have hmem : c ∈ moveBackTargets T (Position.ofId T i) := by
      by_contra hc
      rw [hN, if_neg hc, clearFlag_status, hu] at hw
      exact absurd hw (by decide)
    refine ⟨hmem, ?_, ?_⟩
    · rcases h2 with h | h <;> rw [h] <;> decide
    · have hk : status_of_analysisData
          ((analyze_move_backs_from_active_player_lost T MaxTurn (s.2.1.clearFlag i) s.2.2
            (Position.ofId T i)).2.1.analysisDataTable_ i) =
          status_of_analysisData (s.2.1.analysisDataTable_ i) := by
        rw [status_kept (lost_cellStep T MaxTurn (s.2.1.clearFlag i) s.2.2
          (Position.ofId T i) i) (by
            rw [clearFlag_status]
            rcases h2 with h | h <;> rw [h] <;> decide), clearFlag_status]
      rw [hk]
      exact h2
  · rw [e] at hw
    dsimp only at hw
    rw [won_table] at hw
    split_ifs at hw
    · rw [wonUpdate_status, clearFlag_status, hu] at hw
      exact absurd hw (by decide)
    · rw [clearFlag_status, hu] at hw
      exact absurd hw (by decide)
  · rw [e] at hw
    dsimp only at hw
    rw [clearFlag_status, hu] at hw
    exact absurd hw (by decide)
  · rw [e] at hw ⊢
    dsimp only at hw ⊢
    obtain ⟨N, hN⟩ := lost_table T MaxTurn
      ((s.2.1.clearFlag i).setCell (Position.ofId T i).id
        (to_analysisData false n AnalysisStatus.Lost))
      { s.2.2 with lostNums := s.2.2.lostNums + 1 } (Position.ofId T i)
    have hself : status_of_analysisData
        (((s.2.1.clearFlag i).setCell (Position.ofId T i).id
          (to_analysisData false n AnalysisStatus.Lost)).analysisDataTable_ i) =
        AnalysisStatus.Lost := by
      rw [setCell_table, hid, if_pos rfl]
      rfl
    have hafter : status_of_analysisData
        ((analyze_move_backs_from_active_player_lost T MaxTurn
          ((s.2.1.clearFlag i).setCell (Position.ofId T i).id
            (to_analysisData false n AnalysisStatus.Lost))
          { s.2.2 with lostNums := s.2.2.lostNums + 1 }
          (Position.ofId T i)).2.1.analysisDataTable_ i) = AnalysisStatus.Lost := by
      rw [status_kept (lost_cellStep T MaxTurn _ _ (Position.ofId T i) i) (by
        rw [hself]
        decide), hself]
    have hci : c ≠ i := by
      intro hc
      rw [hc, hafter] at hw
      exact absurd hw (by decide)
    have hmem : c ∈ moveBackTargets T (Position.ofId T i) := by
      by_contra hc
      rw [hN, if_neg hc, setCell_table, hid, if_neg hci, clearFlag_status, hu] at hw
      exact absurd hw (by decide)
    refine ⟨hmem, ?_, Or.inl hafter⟩
    rw [h3]
    decide
  · rw [e] at hw
    dsimp only at hw
    rw [clearFlag_status, hu] at hw
    exact absurd hw (by decide)

/-- A step of the pass keeps the invariant of the Won labels. -/
theorem gen_body_wonSound {T : QuadTables} (hT : T.Valid) (MaxTurn : Nat)
    (s : Bool × Analyzer × AnalysisStatistics) (i : Nat) (hi : i < AnalysisDataTableSize)
    (h : wonSound T s.2.1.analysisDataTable_) :
    wonSound T (analyze_generation_body T MaxTurn s i).2.1.analysisDataTable_ := by
  have hsz : AnalysisDataTableSize = PieceSetCombinationNums := rfl
  have hip : i < PositionIdNums := lt_PositionIdNums_of_lt (by omega)
  have hstep := gen_body_cellStep T MaxTurn s i hip
  obtain ⟨h1, h2⟩ := h
  refine ⟨fun c hc hnt => ?_, fun c hc hw => ?_⟩
  · apply h1 c hc
    intro hbefore
    have := status_kept (hstep c) (by rw [hbefore]; decide)
    rw [hbefore] at this
    exact hnt this
  · by_cases hb : status_of_analysisData (s.2.1.analysisDataTable_ c) = AnalysisStatus.Won
    · obtain ⟨r, hr, hrc, piece, src, dst, hs, hl⟩ := h2 c hc hb
      refine ⟨r, hr, hrc, piece, src, dst, hs, ?_⟩
      have hk := status_kept (hstep ((r.move T piece src dst).position.minimize_id T)) (by
        rcases hl with e | e <;> rw [e] <;> decide)
      rw [hk]
      exact hl
    · have hu : status_of_analysisData (s.2.1.analysisDataTable_ c) = AnalysisStatus.Unfixed :=
        ((hstep c).1 (by rw [hw]; exact fun e => hb e.symm)).1
      obtain ⟨hmem, hnt, hlost⟩ := gen_body_new_won T MaxTurn s i hip c hu hw
      obtain ⟨piece, src, dst, hs, hmin⟩ := mem_moveBackTargets.mp hmem
      have hq := ofId_wellformed hT hip
      obtain ⟨-, hr, -, -⟩ := move_back_success_spec hT hq hs
      obtain ⟨hfs, hfid⟩ := move_back_undo hT hq hs
      obtain ⟨-, hm, -, -⟩ := move_success_spec hT hr hfs
      refine ⟨_, hr, hmin, invert_playerId_of_pieceId piece, dst, src, hfs, ?_⟩
      have hcanon : (((Position.ofId T i).move_back T piece src dst).position.move T
          (invert_playerId_of_pieceId piece) dst src).position.minimize_id T = i := by
        rw [minimize_id_of_id hT hm, hfid, ofId_id hip]
        exact minimize_id_rep hT (by omega) (h1 i hi hnt)
      rw [hcanon]
      exact hlost

theorem pass_wonSound {T : QuadTables} (hT : T.Valid) (MaxTurn : Nat)
    (s : Bool × Analyzer × AnalysisStatistics) (h : wonSound T s.2.1.analysisDataTable_)
    (n : Nat) (hn : n ≤ AnalysisDataTableSize) :
    wonSound T (forUpTo (analyze_generation_body T MaxTurn) n s).2.1.analysisDataTable_ := by
  induction n with
  | zero => exact h
  | succ n ih =>
    rw [forUpTo]
    exact gen_body_wonSound hT MaxTurn _ n (by omega) (ih (by omega))

theorem generation_wonSound {T : QuadTables} (hT : T.Valid) (MaxTurn : Nat) (a : Analyzer)
    (h : wonSound T a.analysisDataTable_) :
    wonSound T (a.generation T MaxTurn).2.analysisDataTable_ := by
  rw [generation_table, analyze_generation_eq]
  exact pass_wonSound hT MaxTurn (false, a, AnalysisStatistics.new) h AnalysisDataTableSize
    (le_refl _)

theorem initialize_wonSound {T : QuadTables} (hT : T.Valid) (MaxTurn : Nat) (a : Analyzer) :
    wonSound T (a.initialize_ T MaxTurn).2.analysisDataTable_ := by
  have hsz : AnalysisDataTableSize = PieceSetCombinationNums := rfl
  have htr : ∀ c, c < AnalysisDataTableSize →
      (∃ t ∈ EffectiveTransformerIds, transformedId T t c < c) →
      status_of_analysisData ((a.initialize_ T MaxTurn).2.analysisDataTable_ c) =
        AnalysisStatus.Transformed := by
    intro c hc hex
    rw [initialize_table,
      loop_invariant hT _ (filled_not_transformed MaxTurn a) AnalysisDataTableSize (le_refl _)
        c hc]
    obtain ⟨i, hi, hrep, himg⟩ := exists_rep hT (by omega) hex
    exact ⟨i, by omega, hrep, hi, himg⟩
  refine ⟨fun c hc hnt t ht hlt => hnt (htr c hc ⟨t, ht, hlt⟩), fun c hc hw => ?_⟩
  exfalso
  by_cases hrep : ∀ t ∈ EffectiveTransformerIds, ¬ transformedId T t c < c
  · rw [initialize_cell T hT MaxTurn a c hc hrep] at hw
    split_ifs at hw <;> exact AnalysisStatus.noConfusion hw
  · push_neg at hrep
    obtain ⟨t, ht, hlt⟩ := hrep
    rw [htr c hc ⟨t, ht, hlt⟩] at hw
    exact AnalysisStatus.noConfusion hw

theorem afterGenerations_wonSound {T : QuadTables} (hT : T.Valid) (MaxTurn : Nat)
    (a : Analyzer) (k : Nat) :
    wonSound T (afterGenerations T MaxTurn a k).analysisDataTable_ := by
  induction k with
  | zero =>
    rw [afterGenerations_zero]
    exact initialize_wonSound hT MaxTurn a
  | succ k ih =>
    rw [afterGenerations_succ]
    exact generation_wonSound hT MaxTurn _ ih

end Analyzer

/-- Claim C39: given valid quad tables, after `initialize()` on any analyzer
and any number `k` of generations, every cell `c` below `1423^3` with status
Won is the canonical id of a valid position `r` from which some forward move
with status Success leads to a position whose canonical cell has the status
Lost or LostStalemate. -/
theorem won_label_sound (T : QuadTables) (hT : T.Valid) (MaxTurn : Nat) (a : Analyzer)
    (k : Nat) (c : Nat) (hc : c < 1423 ^ 3)
    (hw : status_of_analysisData
      ((Analyzer.afterGenerations T MaxTurn a k).analysisDataTable_ c) = AnalysisStatus.Won) :
    ∃ r : Position, r.Wellformed T ∧ r.minimize_id T = c ∧
      ∃ piece src dst, (r.move T piece src dst).status = MoveResultStatus.Success ∧
        (status_of_analysisData
            ((Analyzer.afterGenerations T MaxTurn a k).analysisDataTable_
              ((r.move T piece src dst).position.minimize_id T)) = AnalysisStatus.Lost ∨
          status_of_analysisData
            ((Analyzer.afterGenerations T MaxTurn a k).analysisDataTable_
              ((r.move T piece src dst).position.minimize_id T)) =
            AnalysisStatus.LostStalemate) :=
  (Analyzer.afterGenerations_wonSound hT MaxTurn a k).2 c (lt_tableSize_of_lt hc) hw

end gobb_analyzer

namespace gobb_analyzer

open Position

/-! ## A cell that the first generation makes Won -/

theorem lostUpdate_of_lost (N : Nat) {d : AnalysisData}
    (h : status_of_analysisData d = AnalysisStatus.Lost) : lostUpdate N d = d := by
  unfold lostUpdate
  rw [if_neg (by rw [h]; decide), if_neg (by rw [h]; exact fun c => absurd c.1 (by decide))]

theorem wonUpdate_of_lost {d : AnalysisData}
    (h : status_of_analysisData d = AnalysisStatus.Lost) : wonUpdate d = d := by
  unfold wonUpdate
  rw [if_neg (by rw [h]; decide)]

namespace Analyzer

/-- A step of the pass for the cell `j` leaves a Lost cell other than `j` as
it is. -/
theorem gen_body_lost_frozen (T : QuadTables) (MaxTurn : Nat)
    (s : Bool × Analyzer × AnalysisStatistics) (j : Nat) (hj : j < PositionIdNums) (i : Nat)
    (hij : i ≠ j)
    (hl : status_of_analysisData (s.2.1.analysisDataTable_ i) = AnalysisStatus.Lost) :
    (analyze_generation_body T MaxTurn s j).2.1.analysisDataTable_ i =
      s.2.1.analysisDataTable_ i := by
  have hid : (Position.ofId T j).id = j := ofId_id hj
  have hcl : (s.2.1.clearFlag j).analysisDataTable_ i = s.2.1.analysisDataTable_ i := by
    rw [clearFlag_table, if_neg hij]
  rcases gen_body_cases T MaxTurn s j with ⟨_, e⟩ | ⟨_, _, e⟩ | ⟨_, _, e⟩ | ⟨_, _, _, e⟩ |
    ⟨_, _, n, _, e⟩ | ⟨_, _, _, _, _, e⟩
  · rw [e]
  · rw [e]
    dsimp only
    obtain ⟨N, hN⟩ := lost_table T MaxTurn (s.2.1.clearFlag j) s.2.2 (Position.ofId T j)
    rw [hN, hcl]
    split_ifs
    · exact lostUpdate_of_lost N hl
    · rfl
  · rw [e]
    dsimp only
    rw [won_table, hcl]
    split_ifs
    · exact wonUpdate_of_lost hl
    · rfl
  · rw [e]
    exact hcl
  · rw [e]
    dsimp only
    obtain ⟨N, hN⟩ := lost_table T MaxTurn
      ((s.2.1.clearFlag j).setCell (Position.ofId T j).id
        (to_analysisData false n AnalysisStatus.Lost))
      { s.2.2 with lostNums := s.2.2.lostNums + 1 } (Position.ofId T j)
    rw [hN, setCell_table, hid, if_neg hij, hcl]
    split_ifs
    · exact lostUpdate_of_lost N hl
    · rfl
  · rw [e]
    exact hcl

/-- A step of the pass for the cell `j` leaves the status of a cell other than
`j` as it is, or turns it from Unfixed to Won. -/
theorem gen_body_other_status (T : QuadTables) (MaxTurn : Nat)
    (s : Bool × Analyzer × AnalysisStatistics) (j : Nat) (hj : j < PositionIdNums) (c : Nat)
    (hcj : c ≠ j) :
    status_of_analysisData ((analyze_generation_body T MaxTurn s j).2.1.analysisDataTable_ c) =
      status_of_analysisData (s.2.1.analysisDataTable_ c) ∨
    status_of_analysisData ((analyze_generation_body T MaxTurn s j).2.1.analysisDataTable_ c) =
      AnalysisStatus.Won := by
  have hid : (Position.ofId T j).id = j := ofId_id hj
  rcases gen_body_cases T MaxTurn s j with ⟨_, e⟩ | ⟨_, _, e⟩ | ⟨_, _, e⟩ | ⟨_, _, _, e⟩ |
    ⟨_, _, n, _, e⟩ | ⟨_, _, _, _, _, e⟩
  · rw [e]
    exact Or.inl rfl
  · rw [e]
    dsimp only
    obtain ⟨N, hN⟩ := lost_table T MaxTurn (s.2.1.clearFlag j) s.2.2 (Position.ofId T j)
    rw [hN]
    split_ifs
    · rw [lostUpdate_status, clearFlag_status]
      split_ifs
      · exact Or.inr rfl
      · exact Or.inl rfl
    · rw [clearFlag_status]
      exact Or.inl rfl
  · rw [e]
    dsimp only
    rw [won_table]
    split_ifs
    · rw [wonUpdate_status, clearFlag_status]
      exact Or.inl rfl
    · rw [clearFlag_status]
      exact Or.inl rfl
  · rw [e]
    dsimp only
    rw [clearFlag_status]
    exact Or.inl rfl
  · rw [e]
    dsimp only
    obtain ⟨N, hN⟩ := lost_table T MaxTurn
      ((s.2.1.clearFlag j).setCell (Position.ofId T j).id
        (to_analysisData false n AnalysisStatus.Lost))
      { s.2.2 with lostNums := s.2.2.lostNums + 1 } (Position.ofId T j)
    rw [hN, setCell_table, hid, if_neg hcj]
    split_ifs
    · rw [lostUpdate_status, clearFlag_status]
      split_ifs
      · exact Or.inr rfl
      · exact Or.inl rfl
    · rw [clearFlag_status]
      exact Or.inl rfl
  · rw [e]
    dsimp only
    rw [clearFlag_status]
    exact Or.inl rfl

/-- The step of the pass for a flagged Lost cell `i` makes the cells that the
retrograde moves from `Position(i)` reach Won, when they are Unfixed or Won. -/
theorem gen_body_reaches (T : QuadTables) (MaxTurn : Nat)
    (s : Bool × Analyzer × AnalysisStatistics) (i : Nat) (c : Nat)
    (hf : updateFlag_of_analysisData (s.2.1.analysisDataTable_ i) = true)
    (hl : status_of_analysisData (s.2.1.analysisDataTable_ i) = AnalysisStatus.Lost)
    (hmem : c ∈ moveBackTargets T (Position.ofId T i))
    (hc : status_of_analysisData (s.2.1.analysisDataTable_ c) = AnalysisStatus.Unfixed ∨
      status_of_analysisData (s.2.1.analysisDataTable_ c) = AnalysisStatus.Won) :
    status_of_analysisData ((analyze_generation_body T MaxTurn s i).2.1.analysisDataTable_ c) =
      AnalysisStatus.Won := by
  rcases gen_body_cases T MaxTurn s i with ⟨h, _⟩ | ⟨_, _, e⟩ | ⟨_, h, _⟩ | ⟨_, h, _⟩ |
    ⟨_, h, _⟩ | ⟨_, h, _⟩
  · rw [hf] at h
    exact absurd h (by decide)
  · rw [e]
    dsimp only
    obtain ⟨N, hN⟩ := lost_table T MaxTurn (s.2.1.clearFlag i) s.2.2 (Position.ofId T i)
    rw [hN, if_pos hmem, lostUpdate_status, clearFlag_status]
    rcases hc with h | h
    · rw [if_pos h]
    · rw [if_neg (by rw [h]; decide), h]
  · rw [hl] at h
    exact absurd h (by decide)
  · rw [hl] at h
    exact absurd h (by decide)
  · rw [hl] at h
    exact absurd h (by decide)
  · exact absurd hl h

/-- Before the pass comes to a flagged Lost cell `i`, that cell is as it was,
and a cell `c` above `i` that was Unfixed is Unfixed or Won. -/
theorem pass_before (T : QuadTables) (MaxTurn : Nat)
    (s : Bool × Analyzer × AnalysisStatistics) (i c : Nat) (hic : i < c)
    (hc : c < AnalysisDataTableSize)
    (hl : status_of_analysisData (s.2.1.analysisDataTable_ i) = AnalysisStatus.Lost)
    (hu : status_of_analysisData (s.2.1.analysisDataTable_ c) = AnalysisStatus.Unfixed)
    (n : Nat) (hn : n ≤ i) :
    (forUpTo (analyze_generation_body T MaxTurn) n s).2.1.analysisDataTable_ i =
      s.2.1.analysisDataTable_ i ∧
    (status_of_analysisData
        ((forUpTo (analyze_generation_body T MaxTurn) n s).2.1.analysisDataTable_ c) =
        AnalysisStatus.Unfixed ∨
      status_of_analysisData
        ((forUpTo (analyze_generation_body T MaxTurn) n s).2.1.analysisDataTable_ c) =
        AnalysisStatus.Won) := by
  have hsz : AnalysisDataTableSize = PieceSetCombinationNums := rfl
  have hp : PositionIdNums = PieceSetCombinationNums * 2 := rfl
  induction n with
  | zero => exact ⟨rfl, Or.inl hu⟩
  | succ n ih =>
    obtain ⟨i1, i2⟩ := ih (by omega)
    rw [forUpTo]
    refine ⟨?_, ?_⟩
    · rw [gen_body_lost_frozen T MaxTurn _ n (by omega) i (by omega) (by rw [i1]; exact hl)]
      exact i1
    · rcases gen_body_other_status T MaxTurn
          (forUpTo (analyze_generation_body T MaxTurn) n s) n (by omega) c (by omega) with
        e | e
      · rw [e]
        exact i2
      · exact Or.inr e

/-- After the pass has come to a flagged Lost cell `i`, an Unfixed cell `c`
above `i` that a retrograde move from `Position(i)` reaches is Won. -/
theorem pass_after (T : QuadTables) (MaxTurn : Nat)
    (s : Bool × Analyzer × AnalysisStatistics) (i c : Nat) (hic : i < c)
    (hc : c < AnalysisDataTableSize)
    (hf : updateFlag_of_analysisData (s.2.1.analysisDataTable_ i) = true)
    (hl : status_of_analysisData (s.2.1.analysisDataTable_ i) = AnalysisStatus.Lost)
    (hu : status_of_analysisData (s.2.1.analysisDataTable_ c) = AnalysisStatus.Unfixed)
    (hmem : c ∈ moveBackTargets T (Position.ofId T i))
    (n : Nat) (hin : i < n) (hn : n ≤ AnalysisDataTableSize) :
    status_of_analysisData
      ((forUpTo (analyze_generation_body T MaxTurn) n s).2.1.analysisDataTable_ c) =
      AnalysisStatus.Won := by
  have hsz : AnalysisDataTableSize = PieceSetCombinationNums := rfl
  have hp : PositionIdNums = PieceSetCombinationNums * 2 := rfl
  induction n with
  | zero => omega
  | succ n ih =>
    rw [forUpTo]
    by_cases hni : n = i
    · subst hni
      obtain ⟨b1, b2⟩ := pass_before T MaxTurn s n c hic hc hl hu n (le_refl _)
      exact gen_body_reaches T MaxTurn _ n c (by rw [b1]; exact hf) (by rw [b1]; exact hl)
        hmem b2
    · have hprev := ih (by omega) (by omega)
      rw [status_kept (gen_body_cellStep T MaxTurn _ n (by omega) c) (by rw [hprev]; decide)]
      exact hprev

/-- The first generation after `initialize()` makes Won an Unfixed cell `c`
that a retrograde move reaches from a smaller cell `i` that `initialize()`
made Lost. -/
theorem first_generation_won (T : QuadTables) (MaxTurn : Nat) (a : Analyzer)
    (i c : Nat) (hic : i < c) (hc : c < AnalysisDataTableSize)
    (hi : (a.initialize_ T MaxTurn).2.analysisDataTable_ i =
      to_analysisData true 0 AnalysisStatus.Lost)
    (hu : (a.initialize_ T MaxTurn).2.analysisDataTable_ c =
      to_analysisData false MaxTurn AnalysisStatus.Unfixed)
    (hmem : c ∈ moveBackTargets T (Position.ofId T i)) :
    status_of_analysisData ((afterGenerations T MaxTurn a 1).analysisDataTable_ c) =
      AnalysisStatus.Won := by
  rw [afterGenerations_succ, afterGenerations_zero, generation_table, analyze_generation_eq]
  exact pass_after T MaxTurn (false, (a.initialize_ T MaxTurn).2, AnalysisStatistics.new) i c
    hic hc (by rw [triple_snd_fst, hi]; rfl) (by rw [triple_snd_fst, hi]; rfl)
    (by rw [triple_snd_fst, hu]; rfl) hmem AnalysisDataTableSize (by omega) (le_refl _)

end Analyzer

end gobb_analyzer

namespace gobb_analyzer

open Position

set_option maxRecDepth 100000 in
theorem seed_cell_facts :
    (∀ t ∈ EffectiveTransformerIds, ¬ transformedId stdTables t 67927 < 67927) ∧
    (Position.ofId stdTables 67927).is_winner PlayerId.Active = false ∧
    ¬ (Analyzer.on_board_piece_nums (Position.ofId stdTables 67927) PlayerId.Active = 0 ∧
      Analyzer.on_board_piece_nums (Position.ofId stdTables 67927) PlayerId.Inactive ≥ 2) ∧
    ¬ (Analyzer.on_board_piece_nums (Position.ofId stdTables 67927) PlayerId.Inactive = 0 ∧
      Analyzer.on_board_piece_nums (Position.ofId stdTables 67927) PlayerId.Active ≥ 1) ∧
    (Position.ofId stdTables 67927).is_winner PlayerId.Inactive = true := by
  decide!

set_option maxRecDepth 100000 in
theorem seed_predecessor :
    ((Position.ofId stdTables 67927).move_back stdTables PieceId.InactivePlayerMedium
      LocationId.NW LocationId.SE).status = MoveResultStatus.Success ∧
    ((Position.ofId stdTables 67927).move_back stdTables PieceId.InactivePlayerMedium
      LocationId.NW LocationId.SE).position.minimize_id stdTables = 126689 := by
  decide!

set_option maxRecDepth 100000 in
theorem predecessor_cell_facts :
    (Position.ofId stdTables 126689).is_winner PlayerId.Active = false ∧
    ¬ (Analyzer.on_board_piece_nums (Position.ofId stdTables 126689) PlayerId.Active = 0 ∧
      Analyzer.on_board_piece_nums (Position.ofId stdTables 126689) PlayerId.Inactive ≥ 2) ∧
    ¬ (Analyzer.on_board_piece_nums (Position.ofId stdTables 126689) PlayerId.Inactive = 0 ∧
      Analyzer.on_board_piece_nums (Position.ofId stdTables 126689) PlayerId.Active ≥ 1) ∧
    (Position.ofId stdTables 126689).is_winner PlayerId.Inactive = false := by
  decide!

set_option maxRecDepth 100000 in
theorem predecessor_moves :
    ((Position.ofId stdTables 126689).move stdTables PieceId.ActivePlayerSmall LocationId.SE
      LocationId.NW).status = MoveResultStatus.Success := by
  decide!

/-- With the tables of the enumeration by ascending index: `initialize()`
makes the cell 67927 Lost, the retrograde move of a medium piece from NW to SE
leads from it to the cell 126689, which `initialize()` leaves Unfixed, and the
first generation makes that cell Won. -/
theorem first_generation_example (MaxTurn : Nat) (a : Analyzer) :
    status_of_analysisData
      ((Analyzer.afterGenerations stdTables MaxTurn a 1).analysisDataTable_ 126689) =
      AnalysisStatus.Won := by
  have hT := stdTables_valid
  have hi : 67927 < AnalysisDataTableSize := lt_tableSize_of_lt (by decide)
  have hc : 126689 < AnalysisDataTableSize := lt_tableSize_of_lt (by decide)
  obtain ⟨s1, s2, s3, s4, s5⟩ := seed_cell_facts
  obtain ⟨m1, m2⟩ := seed_predecessor
  obtain ⟨p1, p2, p3, p4⟩ := predecessor_cell_facts
  have hq := @ofId_wellformed stdTables hT 67927 (lt_PositionIdNums_of_lt hi)
  obtain ⟨-, hr, -, -⟩ := move_back_success_spec hT hq m1
  have hrep := (canonical_position hT hr).2.1
  rw [m2] at hrep
  apply Analyzer.first_generation_won stdTables MaxTurn a 67927 126689 (by decide) hc
  · rw [Analyzer.initialize_cell stdTables hT MaxTurn a 67927 hi s1,
      if_neg (by
        rintro (h | h | h)
        · rw [s2] at h
          exact absurd h (by decide)
        · exact s3 h
        · exact s4 h),
      if_pos s5]
  · rw [Analyzer.initialize_cell stdTables hT MaxTurn a 126689 hc hrep,
      if_neg (by
        rintro (h | h | h)
        · rw [p1] at h
          exact absurd h (by decide)
        · exact p2 h
        · exact p3 h),
      if_neg (by rw [p4]; decide),
      if_neg (by
        rw [Analyzer.move_nums_eq_zero_iff]
        intro h
        exact h _ _ _ predecessor_moves)]
  · exact mem_moveBackTargets.mpr ⟨_, _, _, m1, m2⟩

theorem won_label_sound_witness :
    stdTables.Valid ∧ 126689 < 1423 ^ 3 ∧
    status_of_analysisData
      ((Analyzer.afterGenerations stdTables 15
        ⟨fun _ => to_analysisData false 0 AnalysisStatus.Unfixed,
          AnalysisStatistics.new⟩ 1).analysisDataTable_ 126689) = AnalysisStatus.Won ∧
    ∃ r : Position, r.Wellformed stdTables ∧ r.minimize_id stdTables = 126689 ∧
      ∃ piece src dst,
        (r.move stdTables piece src dst).status = MoveResultStatus.Success ∧
        (status_of_analysisData
            ((Analyzer.afterGenerations stdTables 15
              ⟨fun _ => to_analysisData false 0 AnalysisStatus.Unfixed,
                AnalysisStatistics.new⟩ 1).analysisDataTable_
              ((r.move stdTables piece src dst).position.minimize_id stdTables)) =
            AnalysisStatus.Lost ∨
          status_of_analysisData
            ((Analyzer.afterGenerations stdTables 15
              ⟨fun _ => to_analysisData false 0 AnalysisStatus.Unfixed,
                AnalysisStatistics.new⟩ 1).analysisDataTable_
              ((r.move stdTables piece src dst).position.minimize_id stdTables)) =
            AnalysisStatus.LostStalemate) :=
  ⟨stdTables_valid, by decide,
    first_generation_example 15
      ⟨fun _ => to_analysisData false 0 AnalysisStatus.Unfixed, AnalysisStatistics.new⟩,
    won_label_sound stdTables stdTables_valid 15
      ⟨fun _ => to_analysisData false 0 AnalysisStatus.Unfixed, AnalysisStatistics.new⟩ 1
      126689 (by decide)
      (first_generation_example 15
        ⟨fun _ => to_analysisData false 0 AnalysisStatus.Unfixed, AnalysisStatistics.new⟩)⟩

end gobb_analyzer
